import Mathlib

/-!
# NetworkTables Storage core (ntcore, Storage.cpp)

A shallow embedding of the class nt::Storage: the entry table, the local
user API, the incoming-message state machine, the initial synchronisation
and the RPC calls, with the persistent file writer (Storage_save.cpp) and
the handles (Handle.h), followed by theorems about them.

Conventions of the embedding.

* An `Entry*` is the index of the entry in `m_localmap`, which owns every
  entry; `nullptr` slots of `m_idmap` are `none`.
* `m_entries` (a wpi::StringMap) is an association list; a loop over it
  visits the names in insertion order.
* The injected collaborators are mocks that record what they are asked:
  `queued` holds the calls of IDispatcher::QueueOutgoing, `notified` the
  calls of IEntryNotifier::NotifyEntry, `rpc_calls` the calls made to the
  IRpcServer. `m_dispatcher` only says whether the pointer is non-null.
* A call through a null pointer (an unchecked `dispatcher->QueueOutgoing`,
  the dereference of an absent value) has no result: such functions
  return `Option`.
* The mutex is not modelled: every operation runs to completion. Data
  logging (StartDataLog, StopDataLog, and the part of Notify behind the
  `m_dataloggers.empty()` test) is outside the model: no data logger is
  registered. Vector sizes are assumed to fit `unsigned int`.
* A `wpi::raw_ostream` is the list of the bytes written to it so far; a
  writer takes the stream and returns it. The text of a double
  (`fmt::format`) and the Base64 text of raw bytes come from libraries
  that are not under src/ and are parameters (`Encoders`).
-/

namespace nt

/-- Byte string (std::string, std::string_view): the list of its bytes. -/
abbrev Bytes := List Nat

/-- Value of UINT_MAX for a 32-bit `unsigned int`. -/
def UINT_MAX : Nat := 4294967295

/-- Modelled from the spec: the value type tags of ntcore_c.h (not under
src/), the eight kinds of §2 plus the unassigned tag. -/
inductive NT_Type where
  | NT_UNASSIGNED
  | NT_BOOLEAN
  | NT_DOUBLE
  | NT_STRING
  | NT_RAW
  | NT_BOOLEAN_ARRAY
  | NT_DOUBLE_ARRAY
  | NT_STRING_ARRAY
  | NT_RPC
  deriving DecidableEq, Repr

/-- Modelled from the spec: the payload of a Value (NetworkTableValue.h is
not under src/), a tagged variant holding a boolean, a double, a string,
raw bytes, one of three homogeneous arrays, or an RPC definition blob. A
double is carried as an uninterpreted 64-bit pattern. -/
inductive ValueData where
  | boolean (b : Bool)
  | double (d : Nat)
  | string (s : Bytes)
  | raw (s : Bytes)
  | boolean_array (a : List Bool)
  | double_array (a : List Nat)
  | string_array (a : List Bytes)
  | rpc (s : Bytes)
  deriving DecidableEq, Repr

/-- Modelled from the spec: the class Value (NetworkTableValue.h is not
under src/), a payload together with its 64-bit timestamp. Two distinct
Lean values stand for two distinct objects. -/
structure Value where
  data : ValueData
  time : Nat
  deriving DecidableEq, Repr

namespace Value

/-- Modelled from the spec: Value::type(), the tag of the variant. -/
def type (v : Value) : NT_Type :=
  match v.data with
  | .boolean _ => .NT_BOOLEAN
  | .double _ => .NT_DOUBLE
  | .string _ => .NT_STRING
  | .raw _ => .NT_RAW
  | .boolean_array _ => .NT_BOOLEAN_ARRAY
  | .double_array _ => .NT_DOUBLE_ARRAY
  | .string_array _ => .NT_STRING_ARRAY
  | .rpc _ => .NT_RPC

/-- Modelled from the spec: Value::IsRpc(). -/
def IsRpc (v : Value) : Bool := decide (v.type = .NT_RPC)

/-- Modelled from the spec: operator== on Value (not under src/): same tag
and same contents; the timestamp is not compared. -/
def eq (a b : Value) : Bool := decide (a.data = b.data)

/-- Modelled from the spec: operator!= on Value, the negation of operator==. -/
def ne (a b : Value) : Bool := !(eq a b)

/-- Modelled from the spec: Value::MakeRpc, an RPC definition value with
the given timestamp. -/
def MakeRpc (d : Bytes) (time : Nat) : Value := ⟨.rpc d, time⟩

end Value

/-- Modelled from the spec: the entry flag PERSISTENT = 1 of ntcore_c.h. -/
def NT_PERSISTENT : Nat := 1

/-- Modelled from the spec: notification flag NEW = 1 (§6.1). -/
def NT_NOTIFY_NEW : Nat := 1
/-- Modelled from the spec: notification flag DELETE = 2 (§6.1). -/
def NT_NOTIFY_DELETE : Nat := 2
/-- Modelled from the spec: notification flag UPDATE = 4 (§6.1). -/
def NT_NOTIFY_UPDATE : Nat := 4
/-- Modelled from the spec: notification flag FLAGS = 8 (§6.1). -/
def NT_NOTIFY_FLAGS : Nat := 8
/-- Modelled from the spec: notification flag IMMEDIATE = 0x80 (§6.1). -/
def NT_NOTIFY_IMMEDIATE : Nat := 0x80
/-- Modelled from the spec: notification flag LOCAL = 0x100 (§6.1). -/
def NT_NOTIFY_LOCAL : Nat := 0x100

/-- Modelled from the spec: the class SequenceNumber (SequenceNumber.h is
not under src/), a 16-bit counter with wraparound (§3.3). -/
structure SequenceNumber where
  m_value : Nat := 0
  deriving DecidableEq, Repr

namespace SequenceNumber

/-- Modelled from the spec: SequenceNumber::value(). -/
def value (a : SequenceNumber) : Nat := a.m_value

/-- Modelled from the spec: the pre-increment of a sequence number, 16 bits
with wraparound. -/
def inc (a : SequenceNumber) : SequenceNumber := ⟨(a.m_value + 1) % 65536⟩

/-- Modelled from the spec: the wrap-aware order of §3.3, `a < b` iff
`a ≠ b` and either `a < b` and `b − a < 32768`, or `a > b` and
`a − b > 32768`. -/
def lt (a b : SequenceNumber) : Bool :=
  decide (a.m_value ≠ b.m_value) &&
    ((decide (a.m_value < b.m_value) && decide (b.m_value - a.m_value < 32768)) ||
     (decide (a.m_value > b.m_value) && decide (a.m_value - b.m_value > 32768)))

/-- Modelled from the spec: `a <= b` is `a == b` or `a < b` (§3.3: strict
`<` means older, `==` means duplicate). -/
def le (a b : SequenceNumber) : Bool := decide (a.m_value = b.m_value) || lt a b

end SequenceNumber

/-- Data for each table entry (struct Storage::Entry, Storage.h), without
the data-log fields. -/
structure Entry where
  name : Bytes
  value : Option Value := none
  flags : Nat := 0
  id : Nat := 0xffff
  local_id : Nat := UINT_MAX
  seq_num : SequenceNumber := {}
  local_write : Bool := false
  rpc_uid : Nat := UINT_MAX
  rpc_call_uid : Nat := 0
  deriving DecidableEq, Repr

instance : Inhabited Entry := ⟨{ name := [] }⟩

/-- The method Entry::IsPersistent. -/
def Entry.IsPersistent (e : Entry) : Bool := decide (e.flags &&& NT_PERSISTENT ≠ 0)

/-- The enum Message::MsgType (Message.h). -/
inductive MsgType where
  | kUnknown
  | kKeepAlive
  | kClientHello
  | kProtoUnsup
  | kServerHelloDone
  | kServerHello
  | kClientHelloDone
  | kEntryAssign
  | kEntryUpdate
  | kFlagsUpdate
  | kEntryDelete
  | kClearEntries
  | kExecuteRpc
  | kRpcResponse
  deriving DecidableEq, Repr

/-- The class Message (Message.h): its type and its data members, with the
defaults of the header. -/
structure Message where
  type : MsgType := .kUnknown
  str : Bytes := []
  value : Option Value := none
  id : Nat := 0
  flags : Nat := 0
  seq_num_uid : Nat := 0
  deriving DecidableEq, Repr

namespace Message

/-- The factory Message::ClearEntries (Message.h). -/
def ClearEntries : Message := { type := .kClearEntries }

/-- Modelled from the spec: Message::EntryAssign (Message.cpp is not under
src/), the fields name, id, seq, value, flags of §6.2. -/
def EntryAssign (name : Bytes) (id seq_num : Nat) (value : Option Value) (flags : Nat) :
    Message :=
  { type := .kEntryAssign, str := name, value := value, id := id, flags := flags,
    seq_num_uid := seq_num }

/-- Modelled from the spec: Message::EntryUpdate, the fields id, seq, value. -/
def EntryUpdate (id seq_num : Nat) (value : Option Value) : Message :=
  { type := .kEntryUpdate, value := value, id := id, seq_num_uid := seq_num }

/-- Modelled from the spec: Message::FlagsUpdate, the fields id, flags. -/
def FlagsUpdate (id flags : Nat) : Message :=
  { type := .kFlagsUpdate, id := id, flags := flags }

/-- Modelled from the spec: Message::EntryDelete, the field id. -/
def EntryDelete (id : Nat) : Message := { type := .kEntryDelete, id := id }

/-- Modelled from the spec: Message::ExecuteRpc, the fields id, call_uid,
params. -/
def ExecuteRpc (id uid : Nat) (params : Bytes) : Message :=
  { type := .kExecuteRpc, str := params, id := id, seq_num_uid := uid }

/-- Modelled from the spec: Message::RpcResponse, the fields id, call_uid,
result. -/
def RpcResponse (id uid : Nat) (result : Bytes) : Message :=
  { type := .kRpcResponse, str := result, id := id, seq_num_uid := uid }

end Message

/-- Modelled from the spec: what Storage uses of an INetworkConnection
(§6.1): its identity and its protocol revision. -/
structure INetworkConnection where
  uid : Nat
  proto_rev : Nat
  deriving DecidableEq, Repr

/-- One recorded call IDispatcher::QueueOutgoing(msg, only, except). -/
structure Outgoing where
  msg : Message
  only : Option INetworkConnection
  except : Option INetworkConnection
  deriving DecidableEq, Repr

/-- One recorded call IEntryNotifier::NotifyEntry(local_id, name, value,
flags), the listener argument left at its default. -/
structure Notification where
  local_id : Nat
  name : Bytes
  value : Option Value
  flags : Nat
  deriving DecidableEq, Repr

/-- One recorded call to the IRpcServer. -/
inductive RpcServerCall where
  | RemoveRpc (rpc_uid : Nat)
  | ProcessRpc (local_id call_uid : Nat) (name params : Bytes)
      (conn : Option INetworkConnection) (rpc_uid : Nat)
  deriving DecidableEq, Repr

/-- The data members of the class Storage (Storage.h) and the records of
the mock collaborators. -/
structure Storage where
  m_entries : List (Bytes × Nat) := []
  m_idmap : List (Option Nat) := []
  m_localmap : List Entry := []
  m_rpc_results : List ((Nat × Nat) × Bytes) := []
  m_rpc_blocking_calls : List (Nat × Nat) := []
  m_persistent_dirty : Bool := false
  m_terminating : Bool := false
  m_dispatcher : Bool := false
  m_server : Bool := true
  queued : List Outgoing := []
  notified : List Notification := []
  rpc_calls : List RpcServerCall := []
  deriving DecidableEq, Repr

namespace Storage

/-- The entry behind an `Entry*`. -/
def deref (s : Storage) (p : Nat) : Entry := (s.m_localmap[p]?).getD default

/-- Assignment through an `Entry*`: the entry at `p` becomes `e`. -/
def store (s : Storage) (p : Nat) (e : Entry) : Storage :=
  { s with m_localmap := s.m_localmap.set p e }

/-- Assignment to `m_idmap`. -/
def set_idmap (s : Storage) (m : List (Option Nat)) : Storage := { s with m_idmap := m }

/-- Assignment to `m_persistent_dirty`. -/
def set_persistent_dirty (s : Storage) (b : Bool) : Storage :=
  { s with m_persistent_dirty := b }

/-- Assignment to `m_rpc_results`. -/
def set_rpc_results (s : Storage) (m : List ((Nat × Nat) × Bytes)) : Storage :=
  { s with m_rpc_results := m }

/-- One call to the mock IRpcServer. -/
def rpcCall (s : Storage) (c : RpcServerCall) : Storage :=
  { s with rpc_calls := s.rpc_calls ++ [c] }

/-- The lookup `m_entries.find(name)`. -/
def find (s : Storage) (name : Bytes) : Option Nat := s.m_entries.lookup name

/-- The call `dispatcher->QueueOutgoing(msg, only, except)` on the mock. -/
def QueueOutgoing (s : Storage) (msg : Message)
    (only except : Option INetworkConnection) : Storage :=
  { s with queued := s.queued ++ [⟨msg, only, except⟩] }

/-- The method Storage::SetDispatcher. -/
def SetDispatcher (s : Storage) (server : Bool) : Storage :=
  { s with m_dispatcher := true, m_server := server }

/-- The method Storage::ClearDispatcher. -/
def ClearDispatcher (s : Storage) : Storage := { s with m_dispatcher := false }

/-- The method Storage::Notify, up to the `m_dataloggers.empty()` return. -/
def Notify (s : Storage) (p : Nat) (flags : Nat) (local_ : Bool)
    (value : Option Value) : Storage :=
  let v := if value.isSome then value else (s.deref p).value
  { s with notified := s.notified ++
      [⟨(s.deref p).local_id, (s.deref p).name, v,
        flags ||| (if local_ then NT_NOTIFY_LOCAL else 0)⟩] }

/-- The method Storage::GetOrNew: the entry of `name`, created vacant at the
end of `m_localmap` when the name is new. -/
def GetOrNew (s : Storage) (name : Bytes) : Storage × Nat :=
  match s.find name with
  | some p => (s, p)
  | none =>
    ({ s with
        m_entries := s.m_entries ++ [(name, s.m_localmap.length)],
        m_localmap := s.m_localmap ++
          [{ name := name, local_id := s.m_localmap.length }] },
      s.m_localmap.length)

/-- The method Storage::GetEntry. -/
def GetEntry (s : Storage) (name : Bytes) : Storage × Nat :=
  if name.isEmpty then (s, UINT_MAX)
  else
    let r := s.GetOrNew name
    (r.1, (r.1.deref r.2).local_id)

/-- The method Storage::GetEntryValue(std::string_view). -/
def GetEntryValue (s : Storage) (name : Bytes) : Option Value :=
  match s.find name with
  | none => none
  | some p => (s.deref p).value

/-- The method Storage::GetEntryValue(unsigned int). -/
def GetEntryValueId (s : Storage) (local_id : Nat) : Option Value :=
  if local_id ≥ s.m_localmap.length then none else (s.deref local_id).value

/-- The method Storage::GetEntryFlags(std::string_view). -/
def GetEntryFlags (s : Storage) (name : Bytes) : Nat :=
  match s.find name with
  | none => 0
  | some p => (s.deref p).flags

/-- The method Storage::GetEntryFlags(unsigned int). -/
def GetEntryFlagsId (s : Storage) (local_id : Nat) : Nat :=
  if local_id ≥ s.m_localmap.length then 0 else (s.deref local_id).flags

/-- The method Storage::SetEntryValueImpl (the shared write path). -/
def SetEntryValueImpl (s : Storage) (p : Nat) (value : Option Value) (local_ : Bool) :
    Storage :=
  match value with
  | none => s
  | some v =>
    let old_value := (s.deref p).value
    let s := s.store p { s.deref p with value := some v }
    -- if we're the server, assign an id if it doesn't have one
    let s := if s.m_server && decide ((s.deref p).id = 0xffff) then
        (s.store p { s.deref p with id := s.m_idmap.length }).set_idmap
          (s.m_idmap ++ [some p])
      else s
    let changed := match old_value with
      | none => true
      | some o => Value.ne o v
    -- update persistent dirty flag if value changed and it's persistent
    let s := if (s.deref p).IsPersistent && changed then
        s.set_persistent_dirty true
      else s
    -- notify
    let s := match old_value with
      | none => s.Notify p NT_NOTIFY_NEW local_ none
      | some o => if Value.ne o v then s.Notify p NT_NOTIFY_UPDATE local_ none else s
    -- remember local changes
    let s := if local_ then s.store p { s.deref p with local_write := true } else s
    -- generate message
    if !s.m_dispatcher || (!local_ && !s.m_server) then s
    else
      let retyped := match old_value with
        | none => true
        | some o => decide (o.type ≠ v.type)
      if retyped then
        let s := if local_ then
            s.store p { s.deref p with seq_num := (s.deref p).seq_num.inc }
          else s
        s.QueueOutgoing
          (Message.EntryAssign (s.deref p).name (s.deref p).id
            (s.deref p).seq_num.value (some v) (s.deref p).flags) none none
      else if changed then
        let s := if local_ then
            s.store p { s.deref p with seq_num := (s.deref p).seq_num.inc }
          else s
        -- don't send an update if we don't have an assigned id yet
        if (s.deref p).id ≠ 0xffff then
          s.QueueOutgoing
            (Message.EntryUpdate (s.deref p).id (s.deref p).seq_num.value (some v))
            none none
        else s
      else s

/-- The method Storage::SetEntryFlagsImpl. -/
def SetEntryFlagsImpl (s : Storage) (p : Nat) (flags : Nat) (local_ : Bool) : Storage :=
  if (s.deref p).value.isNone || decide ((s.deref p).flags = flags) then s
  else
    -- update persistent dirty flag if persistent flag changed
    let s := if (s.deref p).flags &&& NT_PERSISTENT ≠ flags &&& NT_PERSISTENT then
        s.set_persistent_dirty true
      else s
    let s := s.store p { s.deref p with flags := flags }
    -- notify
    let s := s.Notify p NT_NOTIFY_FLAGS local_ none
    -- generate message
    if !local_ || !s.m_dispatcher then s
    else
      let id := (s.deref p).id
      -- don't send an update if we don't have an assigned id yet
      if id ≠ 0xffff then s.QueueOutgoing (Message.FlagsUpdate id flags) none none
      else s

/-- The method Storage::DeleteEntryImpl. -/
def DeleteEntryImpl (s : Storage) (p : Nat) (local_ : Bool) : Storage :=
  let id := (s.deref p).id
  -- Erase entry from id mapping.
  let s := if id < s.m_idmap.length then s.set_idmap (s.m_idmap.set id none) else s
  -- empty the value and reset id and local_write flag
  let old_value := (s.deref p).value
  let s := s.store p { s.deref p with value := none, id := 0xffff, local_write := false }
  -- remove RPC if there was one
  let s := if (s.deref p).rpc_uid ≠ UINT_MAX then
      (s.store p { s.deref p with rpc_uid := UINT_MAX }).rpcCall
        (.RemoveRpc (s.deref p).rpc_uid)
    else s
  -- update persistent dirty flag if it's a persistent value
  let s := if (s.deref p).IsPersistent then s.set_persistent_dirty true else s
  -- reset flags
  let s := s.store p { s.deref p with flags := 0 }
  match old_value with
  | none => s
  | some o =>
    -- notify
    let s := s.Notify p NT_NOTIFY_DELETE local_ (some o)
    -- if it had a value, generate message
    -- don't send an update if we don't have an assigned id yet
    if local_ && decide (id ≠ 0xffff) then
      if !s.m_dispatcher then s
      else s.QueueOutgoing (Message.EntryDelete id) none none
    else s

/-- The method Storage::SetDefaultEntryValue(std::string_view, value). -/
def SetDefaultEntryValue (s : Storage) (name : Bytes) (value : Option Value) :
    Storage × Bool :=
  if name.isEmpty then (s, false)
  else
    match value with
    | none => (s, false)
    | some v =>
      let r := s.GetOrNew name
      -- we return early if value already exists; if types match return true
      match (r.1.deref r.2).value with
      | some o => (r.1, decide (o.type = v.type))
      | none => (r.1.SetEntryValueImpl r.2 (some v) true, true)

/-- The method Storage::SetDefaultEntryValue(unsigned int, value). -/
def SetDefaultEntryValueId (s : Storage) (local_id : Nat) (value : Option Value) :
    Storage × Bool :=
  match value with
  | none => (s, false)
  | some v =>
    if local_id ≥ s.m_localmap.length then (s, false)
    else
      match (s.deref local_id).value with
      | some o => (s, decide (o.type = v.type))
      | none => (s.SetEntryValueImpl local_id (some v) true, true)

/-- The method Storage::SetEntryValue(std::string_view, value). -/
def SetEntryValue (s : Storage) (name : Bytes) (value : Option Value) : Storage × Bool :=
  if name.isEmpty then (s, true)
  else
    match value with
    | none => (s, true)
    | some v =>
      let r := s.GetOrNew name
      match (r.1.deref r.2).value with
      | some o =>
        if o.type ≠ v.type then (r.1, false)  -- error on type mismatch
        else (r.1.SetEntryValueImpl r.2 (some v) true, true)
      | none => (r.1.SetEntryValueImpl r.2 (some v) true, true)

/-- The method Storage::SetEntryValue(unsigned int, value). -/
def SetEntryValueId (s : Storage) (local_id : Nat) (value : Option Value) :
    Storage × Bool :=
  match value with
  | none => (s, true)
  | some v =>
    if local_id ≥ s.m_localmap.length then (s, true)
    else
      match (s.deref local_id).value with
      | some o =>
        if o.type ≠ v.type then (s, false)  -- error on type mismatch
        else (s.SetEntryValueImpl local_id (some v) true, true)
      | none => (s.SetEntryValueImpl local_id (some v) true, true)

/-- The method Storage::SetEntryTypeValue(std::string_view, value). -/
def SetEntryTypeValue (s : Storage) (name : Bytes) (value : Option Value) : Storage :=
  if name.isEmpty then s
  else
    match value with
    | none => s
    | some v =>
      let r := s.GetOrNew name
      r.1.SetEntryValueImpl r.2 (some v) true

/-- The method Storage::SetEntryTypeValue(unsigned int, value); the entries
of `m_localmap` are never null. -/
def SetEntryTypeValueId (s : Storage) (local_id : Nat) (value : Option Value) : Storage :=
  match value with
  | none => s
  | some v =>
    if local_id ≥ s.m_localmap.length then s
    else s.SetEntryValueImpl local_id (some v) true

/-- The method Storage::SetEntryFlags(std::string_view, flags). -/
def SetEntryFlags (s : Storage) (name : Bytes) (flags : Nat) : Storage :=
  if name.isEmpty then s
  else
    match s.find name with
    | none => s
    | some p => s.SetEntryFlagsImpl p flags true

/-- The method Storage::SetEntryFlags(unsigned int, flags). -/
def SetEntryFlagsId (s : Storage) (id_local : Nat) (flags : Nat) : Storage :=
  if id_local ≥ s.m_localmap.length then s
  else s.SetEntryFlagsImpl id_local flags true

/-- The method Storage::DeleteEntry(std::string_view). -/
def DeleteEntry (s : Storage) (name : Bytes) : Storage :=
  match s.find name with
  | none => s
  | some p => s.DeleteEntryImpl p true

/-- The method Storage::DeleteEntry(unsigned int). -/
def DeleteEntryId (s : Storage) (local_id : Nat) : Storage :=
  if local_id ≥ s.m_localmap.length then s
  else s.DeleteEntryImpl local_id true

/-- One turn of the loop of Storage::DeleteAllEntriesImpl, on the entry
`p`; `should_delete` also yields the messages its call appends to
`out_msgs` (none for the default predicate). -/
def DeleteAllEntriesStep (local_ : Bool) (should_delete : Entry → Bool × List Message)
    (acc : Storage × List Message) (p : Nat) : Storage × List Message :=
  let s := acc.1
  if (s.deref p).value.isSome then
    let r := should_delete (s.deref p)
    if r.1 then
      -- notify it's being deleted
      let s := s.Notify p NT_NOTIFY_DELETE local_ none
      -- remove it from idmap
      let s := if (s.deref p).id < s.m_idmap.length then
          s.set_idmap (s.m_idmap.set (s.deref p).id none)
        else s
      (s.store p { s.deref p with id := 0xffff, local_write := false, value := none },
        acc.2 ++ r.2)
    else (s, acc.2 ++ r.2)
  else acc

/-- The template Storage::DeleteAllEntriesImpl(local, should_delete): the
final state and the messages appended to `out_msgs`. -/
def DeleteAllEntriesImplF (s : Storage) (local_ : Bool)
    (should_delete : Entry → Bool × List Message) : Storage × List Message :=
  (s.m_entries.map Prod.snd).foldl (DeleteAllEntriesStep local_ should_delete) (s, [])

/-- The method Storage::DeleteAllEntriesImpl(local): only delete
non-persistent values. -/
def DeleteAllEntriesImpl (s : Storage) (local_ : Bool) : Storage :=
  (s.DeleteAllEntriesImplF local_ (fun e => (!e.IsPersistent, []))).1

/-- The method Storage::DeleteAllEntries. -/
def DeleteAllEntries (s : Storage) : Storage :=
  if s.m_entries.isEmpty then s
  else
    let s := s.DeleteAllEntriesImpl true
    -- generate message
    if !s.m_dispatcher then s
    else s.QueueOutgoing Message.ClearEntries none none

/-- The comparison `*a != *b` of two values that are both present. -/
def neOpt (a b : Option Value) : Bool :=
  match a, b with
  | some x, some y => Value.ne x y
  | _, _ => false

/-- The common client and server handling at the end of
Storage::ProcessIncomingEntryAssign, for the entry `p`. -/
def EntryAssignCommon (s : Storage) (msg : Message) (conn : INetworkConnection)
    (p : Nat) (may_need_update : Bool) : Option Storage :=
  let seq_num : SequenceNumber := ⟨msg.seq_num_uid⟩
  -- already exists; ignore if sequence number not higher than local
  if seq_num.lt (s.deref p).seq_num then
    if may_need_update then
      if !s.m_dispatcher then none
      else
        some (s.QueueOutgoing
          (Message.EntryUpdate (s.deref p).id (s.deref p).seq_num.value (s.deref p).value)
          none none)
    else some s
  -- sanity check: name should match id
  else if msg.str ≠ (s.deref p).name then some s
  else
    -- don't update flags from a <3.0 remote (not part of message)
    -- don't update flags if this is a server response to a client id request
    let upd := !may_need_update && decide (conn.proto_rev ≥ 0x0300)
    let notify_flags :=
      if upd && decide ((s.deref p).flags ≠ msg.flags) then
        NT_NOTIFY_UPDATE ||| NT_NOTIFY_FLAGS
      else NT_NOTIFY_UPDATE
    let s := if upd then
        let s := if (s.deref p).flags &&& NT_PERSISTENT ≠ msg.flags &&& NT_PERSISTENT then
            s.set_persistent_dirty true
          else s
        s.store p { s.deref p with flags := msg.flags }
      else s
    -- update persistent dirty flag if the value changed and it's persistent;
    -- the comparison `*entry->value != *msg->value()` reads through both pointers
    if (s.deref p).IsPersistent && ((s.deref p).value.isNone || msg.value.isNone) then none
    else
      let s := if (s.deref p).IsPersistent && neOpt (s.deref p).value msg.value then
          s.set_persistent_dirty true
        else s
      -- update local
      let s := s.store p { s.deref p with value := msg.value, seq_num := seq_num }
      -- notify
      let s := s.Notify p notify_flags false none
      -- broadcast to all other connections
      if s.m_server && s.m_dispatcher then
        some (s.QueueOutgoing
          (Message.EntryAssign (s.deref p).name msg.id msg.seq_num_uid msg.value
            (s.deref p).flags) none (some conn))
      else some s

/-- The lookup `id >= m_idmap.size() || !m_idmap[id]` followed by
`m_idmap[id]`: the entry of a known id. -/
def idEntry (s : Storage) (id : Nat) : Option Nat := (s.m_idmap[id]?).getD none

/-- The call `m_idmap.resize(n)` for `n` at least the current size. -/
def growIdmap (s : Storage) (n : Nat) : Storage :=
  s.set_idmap (s.m_idmap ++ List.replicate (n - s.m_idmap.length) none)

/-- The method Storage::ProcessIncomingEntryAssign. -/
def ProcessIncomingEntryAssign (s : Storage) (msg : Message) (conn : INetworkConnection) :
    Option Storage :=
  let id := msg.id
  let name := msg.str
  let seq_num : SequenceNumber := ⟨msg.seq_num_uid⟩
  if s.m_server then
    -- if we're a server, id=0xffff requests are requests for an id
    if id = 0xffff then
      let r := s.GetOrNew name
      -- see if it was already assigned; ignore if so.
      if (r.1.deref r.2).id ≠ 0xffff then some r.1
      else
        let s := r.1.store r.2 { r.1.deref r.2 with flags := msg.flags, seq_num := seq_num }
        some (s.SetEntryValueImpl r.2 msg.value false)
    else
      match s.idEntry id with
      | none => some s  -- ignore arbitrary entry assignments
      | some p => s.EntryAssignCommon msg conn p false
  else
    -- clients simply accept new assignments
    if id = 0xffff then some s
    else
      let s := if id ≥ s.m_idmap.length then s.growIdmap (id + 1) else s
      match s.idEntry id with
      | some p => s.EntryAssignCommon msg conn p false
      | none =>
        -- create local
        let r := s.GetOrNew name
        let p := r.2
        let s := r.1.store p { r.1.deref p with id := id }
        let s := s.set_idmap (s.m_idmap.set id (some p))
        match (s.deref p).value with
        | none =>
          -- didn't exist at all
          let s := s.store p
            { s.deref p with value := msg.value, flags := msg.flags, seq_num := seq_num }
          some (s.Notify p NT_NOTIFY_NEW false none)
        | some _ =>
          -- we may need to send an update message; if the received flags don't
          -- match what we sent, send flags update message.
          if msg.flags ≠ (s.deref p).flags then
            if !s.m_dispatcher then none
            else
              (s.QueueOutgoing (Message.FlagsUpdate id (s.deref p).flags) none none
                ).EntryAssignCommon msg conn p true
          else s.EntryAssignCommon msg conn p true

/-- The method Storage::ProcessIncomingEntryUpdate. -/
def ProcessIncomingEntryUpdate (s : Storage) (msg : Message) (conn : INetworkConnection) :
    Storage :=
  match s.idEntry msg.id with
  | none => s  -- ignore arbitrary entry updates
  | some p =>
    -- ignore if sequence number not higher than local
    let seq_num : SequenceNumber := ⟨msg.seq_num_uid⟩
    if seq_num.le (s.deref p).seq_num then s
    else
      -- update local
      let s := s.store p { s.deref p with value := msg.value, seq_num := seq_num }
      -- update persistent dirty flag if it's a persistent value
      let s := if (s.deref p).IsPersistent then s.set_persistent_dirty true else s
      -- notify
      let s := s.Notify p NT_NOTIFY_UPDATE false none
      -- broadcast to all other connections
      if s.m_server && s.m_dispatcher then s.QueueOutgoing msg none (some conn) else s

/-- The method Storage::ProcessIncomingFlagsUpdate. -/
def ProcessIncomingFlagsUpdate (s : Storage) (msg : Message) (conn : INetworkConnection) :
    Storage :=
  match s.idEntry msg.id with
  | none => s
  | some p =>
    -- update local
    let s := s.SetEntryFlagsImpl p msg.flags false
    -- broadcast to all other connections
    if s.m_server && s.m_dispatcher then s.QueueOutgoing msg none (some conn) else s

/-- The method Storage::ProcessIncomingEntryDelete. -/
def ProcessIncomingEntryDelete (s : Storage) (msg : Message) (conn : INetworkConnection) :
    Storage :=
  match s.idEntry msg.id with
  | none => s
  | some p =>
    -- update local
    let s := s.DeleteEntryImpl p false
    -- broadcast to all other connections
    if s.m_server && s.m_dispatcher then s.QueueOutgoing msg none (some conn) else s

/-- The method Storage::ProcessIncomingClearEntries. -/
def ProcessIncomingClearEntries (s : Storage) (msg : Message) (conn : INetworkConnection) :
    Storage :=
  -- update local
  let s := s.DeleteAllEntriesImpl false
  -- broadcast to all other connections
  if s.m_server && s.m_dispatcher then s.QueueOutgoing msg none (some conn) else s

/-- The method Storage::ProcessIncomingExecuteRpc; `conn_weak` is the
connection when the weak reference is still alive. -/
def ProcessIncomingExecuteRpc (s : Storage) (msg : Message)
    (conn_weak : Option INetworkConnection) : Storage :=
  if !s.m_server then s  -- only process on server
  else
    match s.idEntry msg.id with
    | none => s  -- ignore call to non-existent RPC
    | some p =>
      match (s.deref p).value with
      | none => s
      | some v =>
        if !v.IsRpc then s
        else
          s.rpcCall
            (.ProcessRpc (s.deref p).local_id msg.seq_num_uid (s.deref p).name msg.str
              conn_weak (s.deref p).rpc_uid)

/-- The call `m_rpc_results.insert({key, result})` of a DenseMap: a key
that is present keeps its result. -/
def insertRpcResult (s : Storage) (key : Nat × Nat) (result : Bytes) : Storage :=
  if (s.m_rpc_results.lookup key).isSome then s
  else s.set_rpc_results (s.m_rpc_results ++ [(key, result)])

/-- The method Storage::ProcessIncomingRpcResponse. -/
def ProcessIncomingRpcResponse (s : Storage) (msg : Message) : Storage :=
  if s.m_server then s  -- only process on client
  else
    match s.idEntry msg.id with
    | none => s  -- ignore response to non-existent RPC
    | some p =>
      match (s.deref p).value with
      | none => s
      | some v =>
        if !v.IsRpc then s
        else s.insertRpcResult ((s.deref p).local_id, msg.seq_num_uid) msg.str

/-- The method Storage::ProcessIncoming. -/
def ProcessIncoming (s : Storage) (msg : Message) (conn : INetworkConnection)
    (conn_weak : Option INetworkConnection) : Option Storage :=
  match msg.type with
  | .kKeepAlive => some s
  | .kClientHello => some s
  | .kProtoUnsup => some s
  | .kServerHelloDone => some s
  | .kServerHello => some s
  | .kClientHelloDone => some s
  | .kEntryAssign => s.ProcessIncomingEntryAssign msg conn
  | .kEntryUpdate => some (s.ProcessIncomingEntryUpdate msg conn)
  | .kFlagsUpdate => some (s.ProcessIncomingFlagsUpdate msg conn)
  | .kEntryDelete => some (s.ProcessIncomingEntryDelete msg conn)
  | .kClearEntries => some (s.ProcessIncomingClearEntries msg conn)
  | .kExecuteRpc => some (s.ProcessIncomingExecuteRpc msg conn_weak)
  | .kRpcResponse => some (s.ProcessIncomingRpcResponse msg)
  | .kUnknown => some s

/-- The method Storage::GetInitialAssignments: the messages appended to
`msgs` (the state of the connection is not part of the model). -/
def GetInitialAssignments (s : Storage) : List Message :=
  s.m_entries.filterMap fun i =>
    match (s.deref i.2).value with
    | none => none
    | some v =>
      some (Message.EntryAssign i.1 (s.deref i.2).id (s.deref i.2).seq_num.value (some v)
        (s.deref i.2).flags)

/-- One turn of the loop "apply assignments" of
Storage::ApplyInitialAssignments; the second component is `update_msgs`. -/
def ApplyAssignStep (conn : INetworkConnection) (acc : Storage × List Message)
    (msg : Message) : Storage × List Message :=
  if msg.type ≠ .kEntryAssign then acc
  else if msg.id = 0xffff then acc
  else
    let id := msg.id
    let seq_num : SequenceNumber := ⟨msg.seq_num_uid⟩
    let r := acc.1.GetOrNew msg.str
    let p := r.2
    let s := r.1.store p { r.1.deref p with seq_num := seq_num, id := id }
    let r2 : Storage × List Message :=
      match (s.deref p).value with
      | none =>
        -- doesn't currently exist
        let s := s.store p { s.deref p with value := msg.value, flags := msg.flags }
        (s.Notify p NT_NOTIFY_NEW false none, acc.2)
      | some _ =>
        -- if we have written the value locally and the value is not persistent,
        -- then we don't update the local value and instead send it back
        if (s.deref p).local_write && !(s.deref p).IsPersistent then
          let s := s.store p { s.deref p with seq_num := (s.deref p).seq_num.inc }
          (s, acc.2 ++
            [Message.EntryUpdate (s.deref p).id (s.deref p).seq_num.value (s.deref p).value])
        else
          let s1 := s.store p { s.deref p with value := msg.value }
          -- don't update flags from a <3.0 remote (not part of message)
          let notify_flags :=
            if decide (conn.proto_rev ≥ 0x0300) && decide ((s1.deref p).flags ≠ msg.flags) then
              NT_NOTIFY_UPDATE ||| NT_NOTIFY_FLAGS
            else NT_NOTIFY_UPDATE
          let s2 := if conn.proto_rev ≥ 0x0300 then
              s1.store p { s1.deref p with flags := msg.flags }
            else s1
          (s2.Notify p notify_flags false none, acc.2)
    -- save to idmap
    let s := if id ≥ r2.1.m_idmap.length then r2.1.growIdmap (id + 1) else r2.1
    (s.set_idmap (s.m_idmap.set id (some p)), r2.2)

/-- The predicate handed to DeleteAllEntriesImpl by
Storage::ApplyInitialAssignments, with the message it appends to
`out_msgs`. -/
def unassignedShouldDelete (e : Entry) : Bool × List Message :=
  -- was assigned by the server, don't delete
  if e.id ≠ 0xffff then (false, [])
  -- if we have written the value locally, we send an assign message
  else if e.local_write then
    (false, [Message.EntryAssign e.name e.id e.seq_num.value e.value e.flags])
  -- otherwise delete
  else (true, [])

/-- The method Storage::ApplyInitialAssignments: the final state and the
messages appended to `out_msgs`. -/
def ApplyInitialAssignments (s : Storage) (conn : INetworkConnection)
    (msgs : List Message) : Option (Storage × List Message) :=
  if s.m_server then some (s, [])  -- should not do this on server
  else
    -- clear existing id's
    let s := (s.m_entries.map Prod.snd).foldl
      (fun s p => s.store p { s.deref p with id := 0xffff }) s
    -- clear existing idmap
    let s := s.set_idmap []
    -- apply assignments
    let r := msgs.foldl (ApplyAssignStep conn) (s, [])
    -- delete or generate assign messages for unassigned local entries
    let d := r.1.DeleteAllEntriesImplF false unassignedShouldDelete
    if r.2.isEmpty then some d
    else if !d.1.m_dispatcher then none
    else some (r.2.foldl (fun s m => s.QueueOutgoing m none none) d.1, d.2)

/-- The method Storage::CreateRpc; `time` is the timestamp of the value
made by Value::MakeRpc. -/
def CreateRpc (s : Storage) (local_id : Nat) (d : Bytes) (rpc_uid : Nat) (time : Nat) :
    Storage :=
  if local_id ≥ s.m_localmap.length then s
  else
    let p := local_id
    let old_value := (s.deref p).value
    let value := Value.MakeRpc d time
    -- set up the RPC info
    let s := s.store p { s.deref p with value := some value, rpc_uid := rpc_uid }
    let same := match old_value with
      | none => false
      | some o => Value.eq o value
    if same then s
    else
      -- assign an id if it doesn't have one
      let s := if (s.deref p).id = 0xffff then
          (s.store p { s.deref p with id := s.m_idmap.length }).set_idmap
            (s.m_idmap ++ [some p])
        else s
      -- generate message
      if !s.m_dispatcher then s
      else
        let retyped := match old_value with
          | none => true
          | some o => decide (o.type ≠ value.type)
        let s := s.store p { s.deref p with seq_num := (s.deref p).seq_num.inc }
        if retyped then
          s.QueueOutgoing
            (Message.EntryAssign (s.deref p).name (s.deref p).id (s.deref p).seq_num.value
              (some value) (s.deref p).flags) none none
        else
          s.QueueOutgoing
            (Message.EntryUpdate (s.deref p).id (s.deref p).seq_num.value (some value))
            none none

/-- The method Storage::CallRpc: the final state and the returned call uid.
On the server the call handed to the RPC server is recorded; its
asynchronous response is not part of the model. -/
def CallRpc (s : Storage) (local_id : Nat) (params : Bytes) : Option (Storage × Nat) :=
  if local_id ≥ s.m_localmap.length then some (s, 0)
  else
    let p := local_id
    match (s.deref p).value with
    | none => some (s, 0)
    | some v =>
      if !v.IsRpc then some (s, 0)
      else
        let n := (s.deref p).rpc_call_uid + 1
        let s := s.store p { s.deref p with rpc_call_uid := if n > 0xffff then 0 else n }
        let call_uid := (s.deref p).rpc_call_uid
        let msg := Message.ExecuteRpc (s.deref p).id call_uid params
        if s.m_server then
          some (s.rpcCall
            (.ProcessRpc local_id msg.seq_num_uid (s.deref p).name msg.str none
              (s.deref p).rpc_uid), call_uid)
        else if !s.m_dispatcher then none
        else some (s.QueueOutgoing msg none none, call_uid)

/-- The comparison `a < b` of two std::string: lexicographic on the bytes. -/
def bytesLt : Bytes → Bytes → Bool
  | [], [] => false
  | [], _ :: _ => true
  | _ :: _, [] => false
  | a :: as, b :: bs => decide (a < b) || (decide (a = b) && bytesLt as bs)

/-- Insertion of one pair into a list sorted by name. -/
def insertByName (x : Bytes × Value) : List (Bytes × Value) → List (Bytes × Value)
  | [] => [x]
  | y :: ys => if bytesLt y.1 x.1 then y :: insertByName x ys else x :: y :: ys

/-- The call `std::sort(entries->begin(), entries->end(), a.first < b.first)`. -/
def sortByName (l : List (Bytes × Value)) : List (Bytes × Value) :=
  l.foldr insertByName []

/-- The method Storage::GetPersistentEntries: the state afterwards and,
unless it returns false, the collected entries sorted in name order. -/
def GetPersistentEntries (s : Storage) (periodic : Bool) :
    Storage × Option (List (Bytes × Value)) :=
  -- for periodic, don't re-save unless something has changed
  if periodic && !s.m_persistent_dirty then (s, none)
  else
    (s.set_persistent_dirty false,
      some (sortByName (s.m_entries.filterMap fun i =>
        -- only write persistent-flagged values
        match (s.deref i.2).value with
        | none => none
        | some v => if (s.deref i.2).IsPersistent then some (i.1, v) else none)))

/-- The answers of the file system to the file form of SavePersistent:
whether opening the temporary file failed (`ec.value() != 0`), whether the
stream reports an error after the close (`os.has_error()`), and whether
renaming the temporary file to the real file failed. -/
structure FileAnswers where
  open_failed : Bool
  has_error : Bool
  rename_failed : Bool
  deriving DecidableEq, Repr

/-- The state after the file form of Storage::SavePersistent(filename,
periodic), which `SavePersistentFile` below gives together with the text and
the error: the entries are collected, and a periodic save that ends in an
error sets `m_persistent_dirty` again. -/
def SavePersistentFileState (s : Storage) (fs : FileAnswers) (periodic : Bool) : Storage :=
  -- Get entries before creating file
  let r := s.GetPersistentEntries periodic
  match r.2 with
  | none => r.1
  | some _ =>
    let err : Option String :=
      if fs.open_failed then some "could not open file"
      else if fs.has_error then some "error saving file"
      else if fs.rename_failed then some "could not rename temp file to real file"
      else none
    -- try again if there was an error
    if err.isSome && periodic then r.1.set_persistent_dirty true else r.1

end Storage

/-- One call on a Storage from outside: the user API, the dispatcher's
calls, and the state change of a persistent save, in the stream form and in
the file form with the answers of the file system. -/
inductive Op where
  | SetDispatcher (server : Bool)
  | ClearDispatcher
  | GetEntry (name : Bytes)
  | SetEntryValue (name : Bytes) (value : Option Value)
  | SetEntryValueId (local_id : Nat) (value : Option Value)
  | SetEntryTypeValue (name : Bytes) (value : Option Value)
  | SetEntryTypeValueId (local_id : Nat) (value : Option Value)
  | SetDefaultEntryValue (name : Bytes) (value : Option Value)
  | SetDefaultEntryValueId (local_id : Nat) (value : Option Value)
  | SetEntryFlags (name : Bytes) (flags : Nat)
  | SetEntryFlagsId (local_id : Nat) (flags : Nat)
  | DeleteEntry (name : Bytes)
  | DeleteEntryId (local_id : Nat)
  | DeleteAllEntries
  | ProcessIncoming (msg : Message) (conn : INetworkConnection)
      (conn_weak : Option INetworkConnection)
  | ApplyInitialAssignments (conn : INetworkConnection) (msgs : List Message)
  | CreateRpc (local_id : Nat) (d : Bytes) (rpc_uid : Nat) (time : Nat)
  | CallRpc (local_id : Nat) (params : Bytes)
  | SavePersistent (periodic : Bool)
  | SavePersistentFile (fs : Storage.FileAnswers) (periodic : Bool)
  deriving DecidableEq, Repr

namespace Storage

/-- The state after one call, when the call returns. -/
def step (s : Storage) : Op → Option Storage
  | .SetDispatcher server => some (s.SetDispatcher server)
  | .ClearDispatcher => some s.ClearDispatcher
  | .GetEntry name => some (s.GetEntry name).1
  | .SetEntryValue name value => some (s.SetEntryValue name value).1
  | .SetEntryValueId local_id value => some (s.SetEntryValueId local_id value).1
  | .SetEntryTypeValue name value => some (s.SetEntryTypeValue name value)
  | .SetEntryTypeValueId local_id value => some (s.SetEntryTypeValueId local_id value)
  | .SetDefaultEntryValue name value => some (s.SetDefaultEntryValue name value).1
  | .SetDefaultEntryValueId local_id value => some (s.SetDefaultEntryValueId local_id value).1
  | .SetEntryFlags name flags => some (s.SetEntryFlags name flags)
  | .SetEntryFlagsId local_id flags => some (s.SetEntryFlagsId local_id flags)
  | .DeleteEntry name => some (s.DeleteEntry name)
  | .DeleteEntryId local_id => some (s.DeleteEntryId local_id)
  | .DeleteAllEntries => some s.DeleteAllEntries
  | .ProcessIncoming msg conn conn_weak => s.ProcessIncoming msg conn conn_weak
  | .ApplyInitialAssignments conn msgs =>
    (s.ApplyInitialAssignments conn msgs).map Prod.fst
  | .CreateRpc local_id d rpc_uid time => some (s.CreateRpc local_id d rpc_uid time)
  | .CallRpc local_id params => (s.CallRpc local_id params).map Prod.fst
  | .SavePersistent periodic => some (s.GetPersistentEntries periodic).1
  | .SavePersistentFile fs periodic => some (s.SavePersistentFileState fs periodic)

/-- The state after a sequence of calls, when all of them return. -/
def run (s : Storage) : List Op → Option Storage
  | [] => some s
  | op :: ops => (s.step op).bind fun t => t.run ops

end Storage

/-! ## The persistent file writer (Storage_save.cpp) -/

/-- The bytes of a string literal of the source. -/
def cstr (s : String) : Bytes := s.toList.map Char.toNat

/-- Modelled from the spec: std::isprint in the C locale (the C library is
not under src/); the printable bytes are 0x20 to 0x7e. -/
def isprint (c : Nat) : Bool := decide (0x20 ≤ c) && decide (c ≤ 0x7e)

/-- Modelled from the spec: wpi::hexdigit (StringExtras.h is not under
src/), the uppercase hexadecimal digit of a number below 16. -/
def hexdigit (x : Nat) : Nat := if x < 10 then 48 + x else 65 + x - 10

/-- The text encoders that Storage_save.cpp takes from libraries outside
src/: `fmt_g d` is `fmt::format("{:g}", d)` for the double with bit pattern
`d`, and `Base64Encode` is wpi::Base64Encode. -/
structure Encoders where
  fmt_g : Nat → Bytes
  Base64Encode : Bytes → Bytes

namespace SavePersistentImpl

/-- The body of the loop of WriteString: the stream after the byte `c`, a
number below 256. For a byte from 0x80 on, `(c >> 4) & 0xF` is the high
nibble whether `char` is signed or not. -/
def WriteChar (os : Bytes) (c : Nat) : Bytes :=
  if c = 92 then os ++ cstr "\\\\"
  else if c = 9 then os ++ cstr "\\t"
  else if c = 10 then os ++ cstr "\\n"
  else if c = 34 then os ++ cstr "\\\""
  else if isprint c && c != 61 then os ++ [c]
  else
    -- Write out the escaped representation.
    let os := os ++ cstr "\\x"
    let os := os ++ [hexdigit ((c >>> 4) &&& 0xF)]
    os ++ [hexdigit ((c >>> 0) &&& 0xF)]

/-- The method SavePersistentImpl::WriteString: escapes and writes a
string, including start and end double quotes. -/
def WriteString (os : Bytes) (str : Bytes) : Bytes :=
  let os := os ++ [34]
  let os := str.foldl WriteChar os
  os ++ [34]

/-- The method SavePersistentImpl::WriteHeader. -/
def WriteHeader (os : Bytes) : Bytes := os ++ cstr "[NetworkTables Storage 3.0]\n"

/-- The method SavePersistentImpl::WriteType: the stream and the result. -/
def WriteType (os : Bytes) : NT_Type → Bytes × Bool
  | .NT_BOOLEAN => (os ++ cstr "boolean ", true)
  | .NT_DOUBLE => (os ++ cstr "double ", true)
  | .NT_STRING => (os ++ cstr "string ", true)
  | .NT_RAW => (os ++ cstr "raw ", true)
  | .NT_BOOLEAN_ARRAY => (os ++ cstr "array boolean ", true)
  | .NT_DOUBLE_ARRAY => (os ++ cstr "array double ", true)
  | .NT_STRING_ARRAY => (os ++ cstr "array string ", true)
  | _ => (os, false)

/-- The loops of WriteValue over an array: the elements, written by
`write`, with a comma before each one but the first. -/
def WriteArray {α : Type} (write : Bytes → α → Bytes) (os : Bytes) (l : List α) : Bytes :=
  (l.foldl (fun (acc : Bytes × Bool) elem =>
    let os := if !acc.2 then acc.1 ++ [44] else acc.1
    (write os elem, false)) (os, true)).1

/-- The text of a boolean. -/
def WriteBool (os : Bytes) (b : Bool) : Bytes :=
  os ++ (if b then cstr "true" else cstr "false")

/-- The method SavePersistentImpl::WriteValue. -/
def WriteValue (c : Encoders) (os : Bytes) (value : Value) : Bytes :=
  match value.data with
  | .boolean b => WriteBool os b
  | .double d => os ++ c.fmt_g d
  | .string str => WriteString os str
  | .raw r => os ++ c.Base64Encode r
  | .boolean_array l => WriteArray WriteBool os l
  | .double_array l => WriteArray (fun os d => os ++ c.fmt_g d) os l
  | .string_array l => WriteArray WriteString os l
  | _ => os

/-- The method SavePersistentImpl::WriteEntry. -/
def WriteEntry (c : Encoders) (os : Bytes) (name : Bytes) (value : Value) : Bytes :=
  let t := WriteType os value.type
  if !t.2 then t.1  -- type
  else
    let os := WriteString t.1 name  -- name
    let os := os ++ [61]  -- '='
    let os := WriteValue c os value  -- value
    os ++ [10]  -- eol

/-- The method SavePersistentImpl::WriteEntries; an entry of the span is a
name and a pointer to a value, which may be null. -/
def WriteEntries (c : Encoders) (os : Bytes) (entries : List (Bytes × Option Value)) :
    Bytes :=
  entries.foldl (fun os i =>
    match i.2 with
    | none => os
    | some v => WriteEntry c os i.1 v) os

/-- The method SavePersistentImpl::Save. -/
def Save (c : Encoders) (os : Bytes) (entries : List (Bytes × Option Value)) : Bytes :=
  let os := WriteHeader os
  WriteEntries c os entries

end SavePersistentImpl

namespace Storage

/-- The stream form of Storage::SavePersistent: the state and the stream
afterwards. -/
def SavePersistent (s : Storage) (c : Encoders) (os : Bytes) (periodic : Bool) :
    Storage × Bytes :=
  let r := s.GetPersistentEntries periodic
  match r.2 with
  | none => (r.1, os)
  | some entries =>
    (r.1, SavePersistentImpl.Save c os (entries.map fun i => (i.1, some i.2)))

/-- The file form of Storage::SavePersistent: the state afterwards, the
text written to the temporary file when it was opened, and the returned
error (`nullptr` is `none`). -/
def SavePersistentFile (s : Storage) (c : Encoders) (fs : FileAnswers) (periodic : Bool) :
    Storage × Option Bytes × Option String :=
  -- Get entries before creating file
  let r := s.GetPersistentEntries periodic
  match r.2 with
  | none => (r.1, none, none)
  | some entries =>
    -- start by writing to temporary file
    let out := if fs.open_failed then none
      else some (SavePersistentImpl.Save c [] (entries.map fun i => (i.1, some i.2)))
    let err : Option String :=
      if fs.open_failed then some "could not open file"
      else if fs.has_error then some "error saving file"
      else if fs.rename_failed then some "could not rename temp file to real file"
      else none
    -- try again if there was an error
    let s := if err.isSome && periodic then r.1.set_persistent_dirty true else r.1
    (s, out, err)

/-- Assignment to `m_rpc_blocking_calls`. -/
def set_rpc_blocking_calls (s : Storage) (m : List (Nat × Nat)) : Storage :=
  { s with m_rpc_blocking_calls := m }

/-- What a call of GetRpcResult hands back: the returned flag and the two
output arguments `*result` and `*timed_out`. -/
structure RpcResult where
  ret : Bool
  result : Bytes
  timed_out : Bool
  deriving DecidableEq, Repr

/-- The method Storage::GetRpcResult with five arguments, up to the first
wait on the condition variable; `result` and `timed_out` are the contents
of the output arguments at the call. Only the sign of `timeout` matters on
this path. A call that has to wait has no result here. -/
def GetRpcResult (s : Storage) (local_id call_uid : Nat) (result : Bytes) (timeout : Int)
    (timed_out : Bool) : Option (Storage × RpcResult) :=
  let call_pair := (local_id, call_uid)
  -- only allow one blocking call per rpc call uid
  if call_pair ∈ s.m_rpc_blocking_calls then some (s, ⟨false, result, timed_out⟩)
  else
    let s := s.set_rpc_blocking_calls (s.m_rpc_blocking_calls ++ [call_pair])
    let timed_out := false
    match s.m_rpc_results.lookup call_pair with
    | none =>
      if timeout = 0 ∨ s.m_terminating = true then
        some (s.set_rpc_blocking_calls (s.m_rpc_blocking_calls.filter (· ≠ call_pair)),
          ⟨false, result, timed_out⟩)
      else none
    | some r =>
      -- safe to erase even if id does not exist
      let s := s.set_rpc_blocking_calls (s.m_rpc_blocking_calls.filter (· ≠ call_pair))
      some (s.set_rpc_results (s.m_rpc_results.filter (·.1 ≠ call_pair)),
        ⟨true, r, timed_out⟩)

/-- The method Storage::CancelRpcResult. -/
def CancelRpcResult (s : Storage) (local_id call_uid : Nat) : Storage :=
  -- safe to erase even if id does not exist
  s.set_rpc_blocking_calls (s.m_rpc_blocking_calls.filter (· ≠ (local_id, call_uid)))

end Storage

/-! ## Handles (Handle.h) -/

/-- The class nt::Handle: the packed word `m_handle`. NT_Handle (ntcore_c.h,
not under src/) is an unsigned 32-bit integer, held as a natural number.
Handle data layout: bits 30-24 type, bits 23-20 instance index, bits 19-0
handle index. -/
structure Handle where
  m_handle : Nat
  deriving DecidableEq, Repr

namespace Handle

/-- The constructor Handle(int inst, int index, Type type); `type` is the
integer of the enumerator. -/
def make (inst index : Int) (type : Nat) : Handle :=
  if inst < 0 ∨ index < 0 then ⟨0⟩
  else
    ⟨((type &&& 0x7f) <<< 24) ||| ((inst.toNat &&& 0xf) <<< 20) ||| (index.toNat &&& 0xfffff)⟩

/-- The method Handle::GetIndex. -/
def GetIndex (h : Handle) : Int := ((h.m_handle &&& 0xfffff : Nat) : Int)

/-- The method Handle::GetType. -/
def GetType (h : Handle) : Nat := (h.m_handle >>> 24) &&& 0x7f

/-- The method Handle::GetInst. -/
def GetInst (h : Handle) : Int := (((h.m_handle >>> 20) &&& 0xf : Nat) : Int)

/-- The method Handle::IsType. -/
def IsType (h : Handle) (type : Nat) : Bool := decide (type = h.GetType)

/-- The method Handle::GetTypedIndex. -/
def GetTypedIndex (h : Handle) (type : Nat) : Int := if h.IsType type then h.GetIndex else -1

/-- The method Handle::GetTypedInst. -/
def GetTypedInst (h : Handle) (type : Nat) : Int := if h.IsType type then h.GetInst else -1

end Handle

/-! ## Definitions used by the statements and proofs -/

/-- An EntryAssign or EntryUpdate message carries its value: the field
`value` that spec 6.2 lists for both kinds is present. -/
def Message.carriesValue (m : Message) : Prop :=
  (m.type = .kEntryAssign ∨ m.type = .kEntryUpdate) → m.value.isSome = true

/-- The incoming messages of a call carry their values. -/
def Op.carriesValues : Op → Prop
  | .ProcessIncoming msg _ _ => msg.carriesValue
  | .ApplyInitialAssignments _ msgs => ∀ m ∈ msgs, m.carriesValue
  | _ => True

/-- The messages that the loop "apply assignments" of
Storage::ApplyInitialAssignments does not skip. -/
def Message.assigns (m : Message) : Prop := m.type = .kEntryAssign ∧ m.id ≠ 0xffff

instance (m : Message) : Decidable m.assigns := by
  unfold Message.assigns
  exact inferInstance

namespace Storage

/-- The part of an entry that is fixed at its creation. -/
def key (e : Entry) : Bytes × Nat := (e.name, e.local_id)

/-- The fixed parts of all entries, in the order of `m_localmap`. -/
def keys (s : Storage) : List (Bytes × Nat) := s.m_localmap.map key

/-- Two states with the same name map and the same fixed entry parts. -/
def SameTable (s t : Storage) : Prop := t.m_entries = s.m_entries ∧ keys t = keys s

/-- The name map points at entries of `m_localmap` that carry the name and
have their own index as `local_id`. -/
def WF (s : Storage) : Prop :=
  ∀ n p, s.find n = some p → (keys s)[p]? = some (n, p)

/-- The name map and the list of entries of `t` extend those of `s`. -/
def Ext (s t : Storage) : Prop :=
  (∃ es, t.m_entries = s.m_entries ++ es) ∧ (∃ ks, keys t = keys s ++ ks)

/-- The table of `t` extends the table of `s` and is well formed when the
table of `s` is. -/
def Good (s t : Storage) : Prop := Ext s t ∧ (WF s → WF t)

/-- An entry without a value has no assigned id. -/
def vacantOk (e : Entry) : Prop := e.value = none → e.id = 0xffff

/-- Every entry without a value has no assigned id (spec 3.2, invariant 2). -/
def Vacant (s : Storage) : Prop := ∀ q, vacantOk (s.deref q)

/-- Every result of a call that returns satisfies `R`. -/
def OptAll {α : Type} (R : α → Prop) (o : Option α) : Prop := ∀ t, o = some t → R t

/-- The calls SetEntryValue(name, v) for the values `v` of a list, in
order: the final state and the booleans returned. -/
def setEntryValues (s : Storage) (name : Bytes) : List Value → Storage × List Bool
  | [] => (s, [])
  | v :: vs =>
    ((setEntryValues (s.SetEntryValue name (some v)).1 name vs).1,
      (s.SetEntryValue name (some v)).2 ::
        (setEntryValues (s.SetEntryValue name (some v)).1 name vs).2)

/-- The value passed to the last call that returned true, if there is one. -/
def lastAccepted : List Value → List Bool → Option Value
  | v :: vs, b :: bs =>
    match lastAccepted vs bs with
    | some w => some w
    | none => if b then some v else none
  | _, _ => none

/-- The last written value of matching type: starting from the current
value `cur`, a written value replaces it when there is no current value or
the types are equal. -/
def lastMatching (cur : Option Value) : List Value → Option Value
  | [] => cur
  | v :: vs =>
    lastMatching
      (match cur with
        | none => some v
        | some o => if o.type = v.type then some v else some o) vs

/-- The entry left by one deletion of the loop of DeleteAllEntriesImpl. -/
def cleared (e : Entry) : Entry := { e with id := 0xffff, local_write := false, value := none }

/-- The test of the loop of DeleteAllEntriesImpl on the entry `e`. -/
def deletes (f : Entry → Bool × List Message) (e : Entry) : Bool :=
  e.value.isSome && (f e).1

/-- The table of `t` is reached from the table of `s` by changes to the
entries that keep their names and local ids, and by the creation of new
entries through GetOrNew. -/
inductive Grows : Storage → Storage → Prop
  | table {s t : Storage} : SameTable s t → Grows s t
  | fresh (s : Storage) (n : Bytes) : Grows s (s.GetOrNew n).1
  | next {s t u : Storage} : Grows s t → Grows t u → Grows s u

/-- The three views of the entries agree (spec 3.2, invariant 1): the name
map lists the entries of `m_localmap` in order, each under its own name
and local id, the local ids are the positions, and no name occurs twice. -/
def Tidy (s : Storage) : Prop :=
  s.m_entries = keys s ∧ (keys s).map Prod.snd = List.range s.m_localmap.length ∧
    ((keys s).map Prod.fst).Nodup

/-- The entry that one turn of the loop "apply assignments" leaves for the
message `msg` when the entry was `e`. -/
def assigned (conn : INetworkConnection) (msg : Message) (e : Entry) : Entry :=
  match e.value with
  | none =>
    { e with seq_num := ⟨msg.seq_num_uid⟩, id := msg.id, value := msg.value,
             flags := msg.flags }
  | some _ =>
    if e.local_write && !e.IsPersistent then
      { e with seq_num := SequenceNumber.inc ⟨msg.seq_num_uid⟩, id := msg.id }
    else
      { e with seq_num := ⟨msg.seq_num_uid⟩, id := msg.id, value := msg.value,
               flags := if conn.proto_rev ≥ 0x0300 then msg.flags else e.flags }

/-- The update messages that one turn of the loop "apply assignments"
appends for the message `msg` when the entry was `e`. -/
def pushedBack (msg : Message) (e : Entry) : List Message :=
  match e.value with
  | none => []
  | some o =>
    if e.local_write && !e.IsPersistent then
      [Message.EntryUpdate msg.id (SequenceNumber.inc ⟨msg.seq_num_uid⟩).value (some o)]
    else []

/-- The entry of the name `n` has a value and an assigned id. -/
def Covered (s : Storage) (n : Bytes) : Prop :=
  ∃ p, s.find n = some p ∧ (s.deref p).id ≠ 0xffff ∧ (s.deref p).value.isSome = true

/-- The first two steps of Storage::ApplyInitialAssignments on a client:
"clear existing id's" and "clear existing idmap". -/
def clearIds (s : Storage) : Storage :=
  ((s.m_entries.map Prod.snd).foldl
    (fun s p => s.store p { s.deref p with id := 0xffff }) s).set_idmap []

/-- The state and the update messages after the loop "apply assignments"
of Storage::ApplyInitialAssignments on a client. -/
def applied (s : Storage) (conn : INetworkConnection) (msgs : List Message) :
    Storage × List Message :=
  msgs.foldl (ApplyAssignStep conn) (s.clearIds, [])

/-- The state and `out_msgs` after the selective delete of
Storage::ApplyInitialAssignments on a client. -/
def reconciled (s : Storage) (conn : INetworkConnection) (msgs : List Message) :
    Storage × List Message :=
  (s.applied conn msgs).1.DeleteAllEntriesImplF false unassignedShouldDelete

end Storage

/-! ## Concrete tables used as examples -/

/-- The name "foo". -/
def exFoo : Bytes := [102, 111, 111]

/-- The value Value::MakeBoolean(true). -/
def exTrue : Value := ⟨.boolean true, 0⟩

/-- A second object with the contents of `exTrue`. -/
def exTrue2 : Value := ⟨.boolean true, 1⟩

/-- The value Value::MakeBoolean(false). -/
def exFalse : Value := ⟨.boolean false, 0⟩

/-- The value Value::MakeDouble(0.0). -/
def exDouble : Value := ⟨.double 0, 0⟩

/-- A connection speaking protocol revision 3.0. -/
def exConn : INetworkConnection := ⟨1, 0x0300⟩

/-- The empty table of a server with a dispatcher (StorageEmptyTest, true). -/
def exServer : Storage := { m_dispatcher := true, m_server := true }

/-- The empty table of a client with a dispatcher (StorageEmptyTest, false). -/
def exClient : Storage := { m_dispatcher := true, m_server := false }

/-- The empty server table after the vacant entry "foo" has been created. -/
def exServerNew : Storage := (exServer.GetOrNew exFoo).1

/-- The empty client table after the vacant entry "foo" has been created. -/
def exClientNew : Storage := (exClient.GetOrNew exFoo).1

/-- The server table with foo = true (StoragePopulateOneTest, true). -/
def exServerFoo : Storage := exServer.SetEntryTypeValue exFoo (some exTrue)

/-- The client table with foo = true (StoragePopulateOneTest, false). -/
def exClientFoo : Storage := exClient.SetEntryTypeValue exFoo (some exTrue)

/-- The client table after the server has assigned foo = true with id 0: the
entry has a value that was not written locally. -/
def exRemoteFoo : Storage :=
  (exClient.ProcessIncoming (Message.EntryAssign exFoo 0 1 (some exTrue) 0) exConn
    (some exConn)).getD exClient

/-- The calls of the test DeleteCheckHandle after the first GetEntry. -/
def exOps : List Op :=
  [.SetEntryTypeValue exFoo (some exTrue), .DeleteEntry exFoo,
   .SetEntryTypeValue exFoo (some exTrue)]

/-- The table of the test DeleteCheckHandle before the second GetEntry. -/
def exDeleted : Storage := ((exServer.GetEntry exFoo).1.run exOps).getD exServer

/-- The name "bar". -/
def exBar : Bytes := [98, 97, 114]

/-- The server table with foo = true and flags 2 on foo, as set by the
test DeletedEntryFlags. -/
def exFlagged : Storage := exServerFoo.SetEntryFlags exFoo 2

/-- The server table with foo = true and the PERSISTENT bar = 0.0. -/
def exTwo : Storage :=
  (exServerFoo.SetEntryTypeValue exBar (some exDouble)).SetEntryFlags exBar NT_PERSISTENT

/-- The client table whose PERSISTENT entry foo = true came from the server. -/
def exRemotePersistent : Storage :=
  (exClient.ProcessIncoming (Message.EntryAssign exFoo 0 1 (some exTrue) NT_PERSISTENT) exConn
    (some exConn)).getD exClient

/-- The client table with the locally written foo = true and the locally
written PERSISTENT bar = 0.0, before it reconnects. -/
def exReconnect : Storage :=
  (exClientFoo.SetEntryTypeValue exBar (some exDouble)).SetEntryFlags exBar NT_PERSISTENT

/-- The initial assignments of a server that knows bar = false only. -/
def exAssignBar : List Message := [Message.EntryAssign exBar 0 5 (some exFalse) NT_PERSISTENT]

/-- The initial assignments of a server that knows foo = false only. -/
def exAssignFoo : List Message := [Message.EntryAssign exFoo 0 5 (some exFalse) 0]

/-- The table and `out_msgs` after `exReconnect` has applied `exAssignBar`. -/
def exReconciledBar : Storage × List Message :=
  (exReconnect.ApplyInitialAssignments exConn exAssignBar).getD (exReconnect, [])

/-- The table and `out_msgs` after `exReconnect` has applied `exAssignFoo`. -/
def exReconciledFoo : Storage × List Message :=
  (exReconnect.ApplyInitialAssignments exConn exAssignFoo).getD (exReconnect, [])

/-! ## Definitions for the persistent file writer and the RPC calls -/

/-- The two library encoders write no line break. -/
def Encoders.oneLine (c : Encoders) : Prop :=
  (∀ d, 10 ∉ c.fmt_g d) ∧ (∀ r, 10 ∉ c.Base64Encode r)

namespace SavePersistentImpl

/-- The text of an array: the texts of the elements, separated by commas. -/
def arrayText {α : Type} (write : α → Bytes) : List α → Bytes
  | [] => []
  | [a] => write a
  | a :: b :: l => write a ++ [44] ++ arrayText write (b :: l)

/-- The line that WriteEntries writes for one element of the span. -/
def entryLine (c : Encoders) (i : Bytes × Option Value) : Bytes :=
  match i.2 with
  | none => []
  | some v => WriteEntry c [] i.1 v

/-- The uppercase hexadecimal digit of a number below 16: the character of
"0123456789ABCDEF" at that place. -/
def upperHex (n : Nat) : Nat := (cstr "0123456789ABCDEF").getD n 0

/-- The escape of one byte in the words of the spec (4.7): backslash, tab,
newline and double quote are written as two-character escapes, every other
printable byte except '=' is written unchanged, and every remaining byte is
written as `\x` followed by its two uppercase hexadecimal digits. -/
def escapeByte (b : Nat) : Bytes :=
  if b = 92 then cstr "\\\\"
  else if b = 9 then cstr "\\t"
  else if b = 10 then cstr "\\n"
  else if b = 34 then cstr "\\\""
  else if 0x20 ≤ b ∧ b ≤ 0x7e ∧ b ≠ 61 then [b]
  else cstr "\\x" ++ [upperHex (b / 16), upperHex (b % 16)]

end SavePersistentImpl

namespace Storage

/-- The name and value that a save collects for the element `i` of the
name map: those of an entry with a value and the PERSISTENT flag. -/
def persistentEntry (s : Storage) (i : Bytes × Nat) : Option (Bytes × Value) :=
  match (s.deref i.2).value with
  | none => none
  | some v => if (s.deref i.2).IsPersistent then some (i.1, v) else none

/-- The names and values of the entries with a value and the PERSISTENT
flag, in the order of the name map. -/
def persistentEntries (s : Storage) : List (Bytes × Value) :=
  s.m_entries.filterMap (persistentEntry s)

end Storage

/-- Stand-ins for the two library encoders: the text "0" that `{:g}`
gives for the double 0.0, and the Base64 text of no bytes. The example
tables hold no other double and no raw value. -/
def exEncoders : Encoders := ⟨fun _ => [48], fun _ => []⟩

/-- The server table with the PERSISTENT foo = true and the PERSISTENT
bar = 0.0; foo was created first. -/
def exBothPersistent : Storage := exTwo.SetEntryFlags exFoo NT_PERSISTENT

/-- The server table whose only entry "foo" holds an RPC definition and has
the PERSISTENT flag. -/
def exRpcPersistent : Storage :=
  (exServerNew.CreateRpc 0 [1] 5 0).SetEntryFlags exFoo NT_PERSISTENT

/-- The table of a client with a dispatcher whose entry "foo" holds an RPC
definition under the id 0 that the server assigned. -/
def exClientRpc : Storage :=
  (exClientNew.store 0
    { exClientNew.deref 0 with value := some (Value.MakeRpc [1] 0), id := 0 }
    ).set_idmap [some 0]

/-- The client table `exClientRpc` with the stored result [9] of the call
(0, 1). -/
def exRpcAnswered : Storage := exClientRpc.insertRpcResult (0, 1) [9]

/-- The client table `exClientRpc` while a call of GetRpcResult waits for
the pair (0, 1). -/
def exRpcWaiting : Storage := exClientRpc.set_rpc_blocking_calls [(0, 1)]


/-! ## Definitions for the id map, the sequence numbers and the escapes -/

/-- The calls of a short session of a server: attach the dispatcher, write
foo = true, write the PERSISTENT bar = 0.0, delete foo. -/
def exSession : List Op :=
  [.SetDispatcher true, .SetEntryTypeValue exFoo (some exTrue),
   .SetEntryTypeValue exBar (some exDouble), .SetEntryFlags exBar NT_PERSISTENT,
   .DeleteEntry exFoo]

/-- The table after the calls of `exSession` on the empty table. -/
def exSessionEnd : Storage := (({} : Storage).run exSession).getD {}


namespace Storage

/-- The client's answer to an assignment that gives an id to the entry `p`,
which holds a locally written value: the queued messages. -/
def insisted (s : Storage) (msg : Message) (p : Nat) : List Outgoing :=
  (if msg.flags ≠ (s.deref p).flags then
      [⟨Message.FlagsUpdate msg.id (s.deref p).flags, none, none⟩]
    else []) ++
  (if SequenceNumber.lt ⟨msg.seq_num_uid⟩ (s.deref p).seq_num then
      [⟨Message.EntryUpdate msg.id (s.deref p).seq_num.value (s.deref p).value, none, none⟩]
    else [])

end Storage

namespace SavePersistentImpl

/-- The forms of what the loop body of WriteString writes for one byte: the
byte itself, which is then printable and none of newline, double quote, '='
and backslash, or one of the escapes that begin with a backslash. -/
def escapeForm (tok : Bytes) : Prop :=
  (∃ c, tok = [c] ∧ 0x20 ≤ c ∧ c ≤ 0x7e ∧ c ≠ 10 ∧ c ≠ 34 ∧ c ≠ 61 ∧ c ≠ 92) ∨
  tok = cstr "\\\\" ∨ tok = cstr "\\t" ∨ tok = cstr "\\n" ∨ tok = cstr "\\\"" ∨
  ∃ h l, tok = [92, 120, h, l] ∧ h ∈ cstr "0123456789ABCDEF" ∧ l ∈ cstr "0123456789ABCDEF"

/-- The state of the decoder of escaped text: outside an escape, after a
backslash, after `\x`, and after `\x` and the first digit. -/
inductive Esc where
  | plain
  | slash
  | hex
  | low (h : Nat)
  deriving DecidableEq, Repr

/-- The value of an uppercase hexadecimal digit. -/
def hexval (c : Nat) : Nat := if c ≤ 57 then c - 48 else c - 55

/-- One step of the decoder of escaped text: the state and the bytes decoded
so far, after the character `c`. -/
def unescapeStep (st : Esc × Bytes) (c : Nat) : Esc × Bytes :=
  match st.1 with
  | .plain => if c = 92 then (.slash, st.2) else (.plain, st.2 ++ [c])
  | .slash =>
    if c = 120 then (.hex, st.2)
    else if c = 116 then (.plain, st.2 ++ [9])
    else if c = 110 then (.plain, st.2 ++ [10])
    else (.plain, st.2 ++ [c])
  | .hex => (.low (hexval c), st.2)
  | .low h => (.plain, st.2 ++ [h * 16 + hexval c])

/-- A decoder of the text of WriteString: the bytes between the first and
the last character, with every escape replaced by its byte. -/
def unescape (text : Bytes) : Bytes :=
  ((text.drop 1).dropLast.foldl unescapeStep (.plain, [])).2

end SavePersistentImpl

/-- The initial assignments of a server that has restarted: foo = true at
sequence number 0. -/
def exAssignOld : List Message := [Message.EntryAssign exFoo 0 0 (some exTrue) 0]

/-- The table and `out_msgs` after `exRemoteFoo` has applied `exAssignOld`. -/
def exResynced : Storage × List Message :=
  (exRemoteFoo.ApplyInitialAssignments exConn exAssignOld).getD (exRemoteFoo, [])


/-- A call that gives ids to the entries of a client as the server says: an
EntryAssign message or initial assignments. -/
def Op.syncs : Op → Prop
  | .ProcessIncoming msg _ _ => msg.type = .kEntryAssign
  | .ApplyInitialAssignments _ _ => True
  | _ => False

/-- A call that leaves a server a server: any call but SetDispatcher with
the role of a client. -/
def Op.serves : Op → Prop
  | .SetDispatcher server => server = true
  | _ => True

instance (op : Op) : Decidable op.serves := by
  cases op <;> unfold Op.serves <;> exact inferInstance


namespace Storage

/-- What the id invariants see of one entry: its id and whether it has a
value. -/
def sig (e : Entry) : Nat × Bool := (e.id, e.value.isSome)

/-- What the id invariants see of a table: the role, `m_idmap`, and the id
and value mark of the entry behind each pointer. -/
structure View where
  server : Bool
  idmap : List (Option Nat)
  sig : Nat → Nat × Bool

/-- The view of a table. -/
def view (s : Storage) : View := ⟨s.m_server, s.m_idmap, fun q => sig (s.deref q)⟩


namespace View

/-- The entry that the slot `i` of the id map refers to. -/
def slot (v : View) (i : Nat) : Option Nat := (v.idmap[i]?).getD none

/-- The view after the value mark of the entry `p` is set to `b`. -/
def write (v : View) (p : Nat) (b : Bool) : View :=
  { v with sig := Function.update v.sig p ((v.sig p).1, b) }

/-- The view after the entry `p` is given the next id and a value
(`entry->id = m_idmap.size(); m_idmap.push_back(entry)`). -/
def assign (v : View) (p : Nat) : View :=
  { v with idmap := v.idmap ++ [some p],
           sig := Function.update v.sig p (v.idmap.length, true) }

/-- The view after the entry `p` loses its value and its id
(`if (id < m_idmap.size()) m_idmap[id] = nullptr; id = 0xffff`). -/
def release (v : View) (p : Nat) : View :=
  { v with idmap := if (v.sig p).1 < v.idmap.length then v.idmap.set (v.sig p).1 none
             else v.idmap,
           sig := Function.update v.sig p (0xffff, false) }

/-- The view after a client enters the entry `p` under the id `i` of the
server (`m_idmap.resize(id + 1); entry->id = id; m_idmap[id] = entry`), with
the value mark `b`. -/
def bind (v : View) (i p : Nat) (b : Bool) : View :=
  { v with idmap := (v.idmap ++ List.replicate (i + 1 - v.idmap.length) none).set i (some p),
           sig := Function.update v.sig p (i, b) }

/-- Some entries have lost their value and their id, one after the other. -/
inductive Released : View → View → Prop
  | refl (v : View) : Released v v
  | step (v : View) (p : Nat) {w : View} (h : Released (v.release p) w) : Released v w

/-- The change of the view by one call that neither sets the role nor is
a message or initial assignments that give ids to a client: nothing, the
value mark of an entry, the next id for an entry without one, or releases. -/
inductive Effect : View → View → Prop
  | same (v : View) : Effect v v
  | write (v : View) (p : Nat) (b : Bool)
      (h : (v.sig p).1 ≠ 0xffff ∨ v.server = false ∨ ∃ i, v.slot i = some p) :
      Effect v (v.write p b)
  | assign (v : View) (p : Nat) (h : (v.sig p).1 = 0xffff) : Effect v (v.assign p)
  | released (v w : View) (h : Released v w) : Effect v w

/-- The id map and the ids of the entries agree (spec 3.2, invariant 2),
and no slot has the number 0xFFFF or more. -/
def Linked (v : View) : Prop :=
  (∀ i p, v.slot i = some p → (v.sig p).1 = i) ∧
  (∀ p, (v.sig p).1 ≠ 0xffff → v.slot (v.sig p).1 = some p) ∧
  v.idmap.length ≤ 0xffff

/-- Every entry with a value has an assigned id. -/
def Assigned (v : View) : Prop := ∀ p, (v.sig p).2 = true → (v.sig p).1 ≠ 0xffff

/-- Every assigned id is below the length of the id map, and no two entries
have the same assigned id. -/
def Fresh (v : View) : Prop :=
  (∀ p, (v.sig p).1 ≠ 0xffff → (v.sig p).1 < v.idmap.length) ∧
  ∀ p q, (v.sig p).1 ≠ 0xffff → (v.sig p).1 = (v.sig q).1 → p = q


end View

end Storage

instance (m : Message) : Decidable m.carriesValue := by
  unfold Message.carriesValue
  exact inferInstance

instance (op : Op) : Decidable op.carriesValues := by
  cases op <;> unfold Op.carriesValues <;> exact inferInstance


namespace Storage

/-- A call is fair to the table `s`: the id of an incoming message is a
16-bit number; an EntryAssign on a client whose id is not in the id map
names no entry that has an id already; and the EntryAssigns of initial
assignments on a client have 16-bit ids, pairwise different names and
pairwise different ids. -/
def fairOp (s : Storage) : Op → Prop
  | .ProcessIncoming msg _ _ =>
    msg.id ≤ 0xffff ∧
    (s.m_server = false → msg.type = .kEntryAssign → s.idEntry msg.id = none →
      ∀ p ∈ s.find msg.str, (s.deref p).id = 0xffff)
  | .ApplyInitialAssignments _ msgs =>
    s.m_server = false →
      (∀ m ∈ msgs, m.id ≤ 0xffff) ∧
      (msgs.filter (fun m => decide m.assigns)).Pairwise
        (fun x y => x.str ≠ y.str ∧ x.id ≠ y.id)
  | _ => True

instance (s : Storage) (op : Op) : Decidable (fairOp s op) := by
  cases op <;> unfold fairOp <;> exact inferInstance

/-- A run is fair: every call is fair to the table it is made on, and the
id map never has more than 0xFFFF slots. -/
def fairRun (s : Storage) : List Op → Prop
  | [] => True
  | op :: ops => fairOp s op ∧ ∀ t ∈ s.step op, t.m_idmap.length ≤ 0xffff ∧ fairRun t ops

/-- Whether a run is fair can be computed. -/
def fairRun.dec : (ops : List Op) → (s : Storage) → Decidable (fairRun s ops)
  | [], _ => isTrue trivial
  | op :: ops, s =>
    have : ∀ t, Decidable (fairRun t ops) := fun t => fairRun.dec ops t
    by unfold fairRun; exact inferInstance

instance (s : Storage) (ops : List Op) : Decidable (fairRun s ops) := fairRun.dec ops s


end Storage

/-- The calls on a client whose server assigns the name foo twice, with the
ids 0 and 1. -/
def exReuse : List Op :=
  [.SetDispatcher false,
   .ProcessIncoming (Message.EntryAssign exFoo 0 1 (some exTrue) 0) exConn none,
   .ProcessIncoming (Message.EntryAssign exFoo 1 1 (some exTrue) 0) exConn none]

/-- The client table after the calls of `exReuse`. -/
def exReused : Storage := (({} : Storage).run exReuse).getD {}

/-- The calls of `exReuse`, and then the deletion of foo. -/
def exReuseDelete : List Op := exReuse ++ [.DeleteEntry exFoo]

/-- The client table after the calls of `exReuseDelete`. -/
def exReusedDeleted : Storage := (({} : Storage).run exReuseDelete).getD {}

/-- The calls on a client whose server assigns foo the id 0 and bar the
id 1. -/
def exAssignTwo : List Op :=
  [.SetDispatcher false,
   .ProcessIncoming (Message.EntryAssign exFoo 0 1 (some exTrue) 0) exConn none,
   .ProcessIncoming (Message.EntryAssign exBar 1 1 (some exDouble) 0) exConn none]

/-- The client table after the calls of `exAssignTwo`. -/
def exAssignedTwo : Storage := (({} : Storage).run exAssignTwo).getD {}


/-- The calls that write foo = true and delete foo, `n` times over. -/
def exCycles (n : Nat) : List Op :=
  (List.replicate n [Op.SetEntryTypeValue exFoo (some exTrue), Op.DeleteEntry exFoo]).flatten

/-- The calls of a server that uses up the ids: foo is written and deleted
0xFFFF times, and then written once more. -/
def exExhaust : List Op := exCycles 0xffff ++ [Op.SetEntryTypeValue exFoo (some exTrue)]

/-- The server table after foo has been written and deleted once. -/
def exCycled : Storage := (({} : Storage).run (exCycles 1)).getD {}

/-! ## Definitions for the dirty flag -/

/-- What a persistent save writes for an entry: the contents of its value,
when it has a value and the PERSISTENT flag. -/
def Entry.saved (e : Entry) : Option ValueData :=
  if e.IsPersistent then e.value.map Value.data else none


namespace Storage

/-- What persistent_dirty watches of an entry: value, flags and seq_num. -/
structure Core where
  value : Option Value
  flags : Nat
  seq_num : SequenceNumber
  deriving DecidableEq

/-- The watched part of an entry. -/
def core (e : Entry) : Core := ⟨e.value, e.flags, e.seq_num⟩


namespace Core

/-- The method Entry::IsPersistent, on the watched part. -/
def persistent (c : Core) : Bool := decide (c.flags &&& NT_PERSISTENT ≠ 0)

/-- What a persistent save writes for the watched part. -/
def saved (c : Core) : Option ValueData := if c.persistent then c.value.map Value.data else none


end Core

/-- What the dirty flag is about: the flag and the watched part of the
entry behind each pointer. -/
structure Ledger where
  dirty : Bool
  core : Nat → Core

/-- The ledger of a table. -/
def ledger (s : Storage) : Ledger := ⟨s.m_persistent_dirty, fun q => core (s.deref q)⟩


namespace Ledger

/-- The ledger after the entry `p` has got the watched part `c` and the
dirty flag has been set if `d`. -/
def mark (a : Ledger) (p : Nat) (c : Core) (d : Bool) : Ledger :=
  ⟨a.dirty || d, Function.update a.core p c⟩

/-- The dirty flag is not cleared. -/
def Kept (a b : Ledger) : Prop := a.dirty = true → b.dirty = true

/-- The dirty flag is set only with a change of an entry that is PERSISTENT
before or after. -/
def Raised (a b : Ledger) : Prop :=
  b.dirty = true → a.dirty = true ∨
    ∃ p, ((a.core p).persistent = true ∨ (b.core p).persistent = true) ∧ b.core p ≠ a.core p

/-- The dirty flag across a change: it stays set, and it is set only for a
change of a PERSISTENT entry. -/
def Sound (a b : Ledger) : Prop := Kept a b ∧ Raised a b

/-- The dirty flag is set with every change of what a save writes. -/
def Tracked (a b : Ledger) : Prop := ∀ p, (b.core p).saved ≠ (a.core p).saved → b.dirty = true


end Ledger

/-- The call changes the value, the flags or the seq_num of an entry that
is PERSISTENT before or after the call. -/
def touches (s t : Storage) : Prop :=
  ∃ p, ((s.deref p).IsPersistent = true ∨ (t.deref p).IsPersistent = true) ∧
    ((t.deref p).value ≠ (s.deref p).value ∨ (t.deref p).flags ≠ (s.deref p).flags ∨
      (t.deref p).seq_num ≠ (s.deref p).seq_num)

/-- The call changes what a persistent save writes: an entry with a value
and the PERSISTENT flag appears, disappears, or gets other contents. -/
def resaves (s t : Storage) : Prop := ∃ p, (t.deref p).saved ≠ (s.deref p).saved

/-- The call is a save that collects the persistent entries and leaves them
collected: a save that is not periodic, or a periodic save of a dirty table
which, in the file form, does not end in an error (the periodic save to a
file that fails sets the flag again, to be tried again). -/
def collects (s : Storage) : Op → Bool
  | .SavePersistent periodic => !periodic || s.m_persistent_dirty
  | .SavePersistentFile fs periodic =>
    !periodic || (s.m_persistent_dirty &&
      !(fs.open_failed || fs.has_error || fs.rename_failed))
  | _ => false

/-- No call of the run is a save that collects the persistent entries. -/
def uncollected (s : Storage) : List Op → Prop
  | [] => True
  | op :: ops => s.collects op = false ∧ ∀ t ∈ s.step op, uncollected t ops

/-- Whether a run has a collecting save can be computed. -/
def uncollected.dec : (ops : List Op) → (s : Storage) → Decidable (uncollected s ops)
  | [], _ => isTrue trivial
  | op :: ops, s =>
    have : ∀ t, Decidable (uncollected t ops) := fun t => uncollected.dec ops t
    by unfold uncollected; exact inferInstance

instance (s : Storage) (ops : List Op) : Decidable (uncollected s ops) := uncollected.dec ops s

/-- The dirty flag follows the change from `s` to `t`: it stays set, it is
set only for a change of a PERSISTENT entry, and it is set with every change
of what a save writes. -/
def Marked (s t : Storage) : Prop :=
  (ledger s).Sound (ledger t) ∧ (ledger s).Tracked (ledger t)

/-- Every slot of the id map refers to an entry of the table. -/
def Bounded (s : Storage) : Prop :=
  ∀ i p, s.idEntry i = some p → p < s.m_localmap.length

/-- The EntryAssign messages whose changes of what a save writes the code
marks: all but one that asks a server for an id for an entry that has a
value and no id, and one that gives a client a new entry (its id is not in
the id map and its name has no value). -/
def marksAssign (s : Storage) (msg : Message) : Prop :=
  (s.m_server = true → msg.id = 0xffff →
    ∀ p ∈ s.find msg.str, (s.deref p).value = none ∨ (s.deref p).id ≠ 0xffff) ∧
  (s.m_server = false → msg.id ≠ 0xffff → s.idEntry msg.id = none →
    ∃ p ∈ s.find msg.str, (s.deref p).value.isSome = true)

instance (s : Storage) (msg : Message) : Decidable (marksAssign s msg) := by
  unfold marksAssign
  exact inferInstance

/-- The calls whose changes of what a save writes the code marks: all calls
but CreateRpc, initial assignments on a client, and the EntryAssign messages
that `marksAssign` leaves out. -/
def marking (s : Storage) : Op → Prop
  | .CreateRpc _ _ _ _ => False
  | .ApplyInitialAssignments _ _ => s.m_server = true
  | .ProcessIncoming msg _ _ => msg.type = .kEntryAssign → marksAssign s msg
  | _ => True

instance (s : Storage) (op : Op) : Decidable (marking s op) := by
  cases op <;> unfold marking <;> exact inferInstance


end Storage

/-- The calls that leave a saved table: write foo = true, give it the
PERSISTENT flag, save. -/
def exKept : List Op :=
  [.SetEntryTypeValue exFoo (some exTrue), .SetEntryFlags exFoo NT_PERSISTENT,
   .SavePersistent false]

/-- The table after the calls of `exKept` on the empty table. -/
def exKeptEnd : Storage := (({} : Storage).run exKept).getD {}

/-- An EntryUpdate for the id 0 with a newer sequence number and the value
that foo has. -/
def exEcho : Op := .ProcessIncoming (Message.EntryUpdate 0 1 (some exTrue)) exConn none

/-- The saved table after the EntryUpdate `exEcho`. -/
def exEchoed : Storage := (exKeptEnd.step exEcho).getD {}

/-- The saved table after SetEntryFlags("foo", 3), which adds a flag other
than PERSISTENT. -/
def exReflagged : Storage := (exKeptEnd.step (.SetEntryFlags exFoo 3)).getD {}

/-- The table of `exSession` before bar gets the PERSISTENT flag. -/
def exBeforeFlag : Storage := (({} : Storage).run (exSession.take 3)).getD {}

/-- The table of `exSession` after bar got the PERSISTENT flag. -/
def exAfterFlag : Storage := (exBeforeFlag.step (.SetEntryFlags exBar NT_PERSISTENT)).getD {}

/-! ## Further example tables -/

/-- The calls that turn a client with the locally written foo = true into a
server: the entry has a value and no id when the role changes. -/
def exTurnOps : List Op :=
  [.SetDispatcher false, .SetEntryTypeValue exFoo (some exTrue), .SetDispatcher true]

/-- The table after the calls of `exTurnOps` on the empty table. -/
def exTurned : Storage := (({} : Storage).run exTurnOps).getD {}

/-- The table `exTurned` after the request EntryAssign("foo", 0xFFFF, 5,
false, 0). -/
def exTurnedAsked : Storage :=
  (exTurned.ProcessIncoming (Message.EntryAssign exFoo 0xffff 5 (some exFalse) 0) exConn
    (some exConn)).getD {}

/-- Two initial assignments for the one name foo, with the ids 0 and 1. -/
def exAssignTwice : List Message :=
  [Message.EntryAssign exFoo 0 5 (some exFalse) 0, Message.EntryAssign exFoo 1 7 (some exFalse) 0]

/-- The table and `out_msgs` after `exReconnect` has applied
`exAssignTwice`. -/
def exReconciledTwice : Storage × List Message :=
  (exReconnect.ApplyInitialAssignments exConn exAssignTwice).getD (exReconnect, [])

/-- The name "baz". -/
def exBaz : Bytes := [98, 97, 122]

/-- The initial assignments of a server that knows bar, foo and baz. -/
def exAssignThree : List Message :=
  [Message.EntryAssign exBar 1 3 (some exFalse) NT_PERSISTENT,
   Message.EntryAssign exFoo 0 5 (some exFalse) 0,
   Message.EntryAssign exBaz 2 0 (some exTrue) 0]

/-- The table and `out_msgs` after `exReconnect` has applied
`exAssignThree`. -/
def exReconciledThree : Storage × List Message :=
  (exReconnect.ApplyInitialAssignments exConn exAssignThree).getD (exReconnect, [])

/-- The server table after the locally written foo = true has been deleted:
the entry is left without a value and without an id, at its sequence number
1. -/
def exServerGone : Storage := exServerFoo.DeleteEntry exFoo

/-- The table `exServerGone` after the request EntryAssign("foo", 0xFFFF,
seq 0, true, 0). -/
def exServerGoneAsked : Storage :=
  (exServerGone.ProcessIncoming (Message.EntryAssign exFoo 0xffff 0 (some exTrue) 0) exConn
    none).getD {}

/-- The client table after the server has assigned foo = true with id 0 at
the sequence number 1 and has deleted it again. -/
def exClientGone : Storage :=
  (exRemoteFoo.ProcessIncoming (Message.EntryDelete 0) exConn none).getD {}

/-- The table `exClientGone` after EntryAssign("foo", 0, seq 0, true, 0). -/
def exClientGoneAssigned : Storage :=
  (exClientGone.ProcessIncoming (Message.EntryAssign exFoo 0 0 (some exTrue) 0) exConn
    none).getD {}

/-- The calls of `exSession` followed by a periodic save to a file that
cannot be opened. -/
def exFailedSave : List Op := exSession ++ [.SavePersistentFile ⟨true, false, false⟩ true]

/-- The table after the calls of `exFailedSave` on the empty table. -/
def exFailedSaveEnd : Storage := (({} : Storage).run exFailedSave).getD {}

/-- The calls of `exSession` followed by a periodic save to a file that
succeeds. -/
def exFileSave : List Op := exSession ++ [.SavePersistentFile ⟨false, false, false⟩ true]

/-- The table after the calls of `exFileSave` on the empty table. -/
def exFileSaveEnd : Storage := (({} : Storage).run exFileSave).getD {}
/-! ## Lemmas on the primitives -/

namespace Storage

@[simp] theorem store_m_entries (s : Storage) (p : Nat) (e : Entry) :
    (s.store p e).m_entries = s.m_entries := rfl
@[simp] theorem store_m_idmap (s : Storage) (p : Nat) (e : Entry) :
    (s.store p e).m_idmap = s.m_idmap := rfl
@[simp] theorem store_m_rpc_results (s : Storage) (p : Nat) (e : Entry) :
    (s.store p e).m_rpc_results = s.m_rpc_results := rfl
@[simp] theorem store_m_rpc_blocking_calls (s : Storage) (p : Nat) (e : Entry) :
    (s.store p e).m_rpc_blocking_calls = s.m_rpc_blocking_calls := rfl
@[simp] theorem store_m_persistent_dirty (s : Storage) (p : Nat) (e : Entry) :
    (s.store p e).m_persistent_dirty = s.m_persistent_dirty := rfl
@[simp] theorem store_m_terminating (s : Storage) (p : Nat) (e : Entry) :
    (s.store p e).m_terminating = s.m_terminating := rfl
@[simp] theorem store_m_dispatcher (s : Storage) (p : Nat) (e : Entry) :
    (s.store p e).m_dispatcher = s.m_dispatcher := rfl
@[simp] theorem store_m_server (s : Storage) (p : Nat) (e : Entry) :
    (s.store p e).m_server = s.m_server := rfl
@[simp] theorem store_queued (s : Storage) (p : Nat) (e : Entry) :
    (s.store p e).queued = s.queued := rfl
@[simp] theorem store_notified (s : Storage) (p : Nat) (e : Entry) :
    (s.store p e).notified = s.notified := rfl
@[simp] theorem store_rpc_calls (s : Storage) (p : Nat) (e : Entry) :
    (s.store p e).rpc_calls = s.rpc_calls := rfl
@[simp] theorem store_find (s : Storage) (p : Nat) (e : Entry) (n : Bytes) :
    (s.store p e).find n = s.find n := rfl

@[simp] theorem set_idmap_m_entries (s : Storage) (m : List (Option Nat)) :
    (s.set_idmap m).m_entries = s.m_entries := rfl
@[simp] theorem set_idmap_m_idmap (s : Storage) (m : List (Option Nat)) :
    (s.set_idmap m).m_idmap = m := rfl
@[simp] theorem set_idmap_m_localmap (s : Storage) (m : List (Option Nat)) :
    (s.set_idmap m).m_localmap = s.m_localmap := rfl
@[simp] theorem set_idmap_m_rpc_results (s : Storage) (m : List (Option Nat)) :
    (s.set_idmap m).m_rpc_results = s.m_rpc_results := rfl
@[simp] theorem set_idmap_m_rpc_blocking_calls (s : Storage) (m : List (Option Nat)) :
    (s.set_idmap m).m_rpc_blocking_calls = s.m_rpc_blocking_calls := rfl
@[simp] theorem set_idmap_m_persistent_dirty (s : Storage) (m : List (Option Nat)) :
    (s.set_idmap m).m_persistent_dirty = s.m_persistent_dirty := rfl
@[simp] theorem set_idmap_m_terminating (s : Storage) (m : List (Option Nat)) :
    (s.set_idmap m).m_terminating = s.m_terminating := rfl
@[simp] theorem set_idmap_m_dispatcher (s : Storage) (m : List (Option Nat)) :
    (s.set_idmap m).m_dispatcher = s.m_dispatcher := rfl
@[simp] theorem set_idmap_m_server (s : Storage) (m : List (Option Nat)) :
    (s.set_idmap m).m_server = s.m_server := rfl
@[simp] theorem set_idmap_queued (s : Storage) (m : List (Option Nat)) :
    (s.set_idmap m).queued = s.queued := rfl
@[simp] theorem set_idmap_notified (s : Storage) (m : List (Option Nat)) :
    (s.set_idmap m).notified = s.notified := rfl
@[simp] theorem set_idmap_rpc_calls (s : Storage) (m : List (Option Nat)) :
    (s.set_idmap m).rpc_calls = s.rpc_calls := rfl
@[simp] theorem set_idmap_deref (s : Storage) (m : List (Option Nat)) (q : Nat) :
    (s.set_idmap m).deref q = s.deref q := rfl
@[simp] theorem set_idmap_keys (s : Storage) (m : List (Option Nat)) :
    keys (s.set_idmap m) = keys s := rfl
@[simp] theorem set_idmap_find (s : Storage) (m : List (Option Nat)) (n : Bytes) :
    (s.set_idmap m).find n = s.find n := rfl

@[simp] theorem set_persistent_dirty_m_entries (s : Storage) (b : Bool) :
    (s.set_persistent_dirty b).m_entries = s.m_entries := rfl
@[simp] theorem set_persistent_dirty_m_idmap (s : Storage) (b : Bool) :
    (s.set_persistent_dirty b).m_idmap = s.m_idmap := rfl
@[simp] theorem set_persistent_dirty_m_localmap (s : Storage) (b : Bool) :
    (s.set_persistent_dirty b).m_localmap = s.m_localmap := rfl
@[simp] theorem set_persistent_dirty_m_rpc_results (s : Storage) (b : Bool) :
    (s.set_persistent_dirty b).m_rpc_results = s.m_rpc_results := rfl
@[simp] theorem set_persistent_dirty_m_rpc_blocking_calls (s : Storage) (b : Bool) :
    (s.set_persistent_dirty b).m_rpc_blocking_calls = s.m_rpc_blocking_calls := rfl
@[simp] theorem set_persistent_dirty_m_persistent_dirty (s : Storage) (b : Bool) :
    (s.set_persistent_dirty b).m_persistent_dirty = b := rfl
@[simp] theorem set_persistent_dirty_m_terminating (s : Storage) (b : Bool) :
    (s.set_persistent_dirty b).m_terminating = s.m_terminating := rfl
@[simp] theorem set_persistent_dirty_m_dispatcher (s : Storage) (b : Bool) :
    (s.set_persistent_dirty b).m_dispatcher = s.m_dispatcher := rfl
@[simp] theorem set_persistent_dirty_m_server (s : Storage) (b : Bool) :
    (s.set_persistent_dirty b).m_server = s.m_server := rfl
@[simp] theorem set_persistent_dirty_queued (s : Storage) (b : Bool) :
    (s.set_persistent_dirty b).queued = s.queued := rfl
@[simp] theorem set_persistent_dirty_notified (s : Storage) (b : Bool) :
    (s.set_persistent_dirty b).notified = s.notified := rfl
@[simp] theorem set_persistent_dirty_rpc_calls (s : Storage) (b : Bool) :
    (s.set_persistent_dirty b).rpc_calls = s.rpc_calls := rfl
@[simp] theorem set_persistent_dirty_deref (s : Storage) (b : Bool) (q : Nat) :
    (s.set_persistent_dirty b).deref q = s.deref q := rfl
@[simp] theorem set_persistent_dirty_keys (s : Storage) (b : Bool) :
    keys (s.set_persistent_dirty b) = keys s := rfl
@[simp] theorem set_persistent_dirty_find (s : Storage) (b : Bool) (n : Bytes) :
    (s.set_persistent_dirty b).find n = s.find n := rfl

@[simp] theorem set_rpc_results_m_entries (s : Storage) (m : List ((Nat × Nat) × Bytes)) :
    (s.set_rpc_results m).m_entries = s.m_entries := rfl
@[simp] theorem set_rpc_results_m_idmap (s : Storage) (m : List ((Nat × Nat) × Bytes)) :
    (s.set_rpc_results m).m_idmap = s.m_idmap := rfl
@[simp] theorem set_rpc_results_m_localmap (s : Storage) (m : List ((Nat × Nat) × Bytes)) :
    (s.set_rpc_results m).m_localmap = s.m_localmap := rfl
@[simp] theorem set_rpc_results_m_rpc_results (s : Storage) (m : List ((Nat × Nat) × Bytes)) :
    (s.set_rpc_results m).m_rpc_results = m := rfl
@[simp] theorem set_rpc_results_m_rpc_blocking_calls (s : Storage) (m : List ((Nat × Nat) × Bytes)) :
    (s.set_rpc_results m).m_rpc_blocking_calls = s.m_rpc_blocking_calls := rfl
@[simp] theorem set_rpc_results_m_persistent_dirty (s : Storage) (m : List ((Nat × Nat) × Bytes)) :
    (s.set_rpc_results m).m_persistent_dirty = s.m_persistent_dirty := rfl
@[simp] theorem set_rpc_results_m_terminating (s : Storage) (m : List ((Nat × Nat) × Bytes)) :
    (s.set_rpc_results m).m_terminating = s.m_terminating := rfl
@[simp] theorem set_rpc_results_m_dispatcher (s : Storage) (m : List ((Nat × Nat) × Bytes)) :
    (s.set_rpc_results m).m_dispatcher = s.m_dispatcher := rfl
@[simp] theorem set_rpc_results_m_server (s : Storage) (m : List ((Nat × Nat) × Bytes)) :
    (s.set_rpc_results m).m_server = s.m_server := rfl
@[simp] theorem set_rpc_results_queued (s : Storage) (m : List ((Nat × Nat) × Bytes)) :
    (s.set_rpc_results m).queued = s.queued := rfl
@[simp] theorem set_rpc_results_notified (s : Storage) (m : List ((Nat × Nat) × Bytes)) :
    (s.set_rpc_results m).notified = s.notified := rfl
@[simp] theorem set_rpc_results_rpc_calls (s : Storage) (m : List ((Nat × Nat) × Bytes)) :
    (s.set_rpc_results m).rpc_calls = s.rpc_calls := rfl
@[simp] theorem set_rpc_results_deref (s : Storage) (m : List ((Nat × Nat) × Bytes)) (q : Nat) :
    (s.set_rpc_results m).deref q = s.deref q := rfl
@[simp] theorem set_rpc_results_keys (s : Storage) (m : List ((Nat × Nat) × Bytes)) :
    keys (s.set_rpc_results m) = keys s := rfl
@[simp] theorem set_rpc_results_find (s : Storage) (m : List ((Nat × Nat) × Bytes)) (n : Bytes) :
    (s.set_rpc_results m).find n = s.find n := rfl

@[simp] theorem rpcCall_m_entries (s : Storage) (c : RpcServerCall) :
    (s.rpcCall c).m_entries = s.m_entries := rfl
@[simp] theorem rpcCall_m_idmap (s : Storage) (c : RpcServerCall) :
    (s.rpcCall c).m_idmap = s.m_idmap := rfl
@[simp] theorem rpcCall_m_localmap (s : Storage) (c : RpcServerCall) :
    (s.rpcCall c).m_localmap = s.m_localmap := rfl
@[simp] theorem rpcCall_m_rpc_results (s : Storage) (c : RpcServerCall) :
    (s.rpcCall c).m_rpc_results = s.m_rpc_results := rfl
@[simp] theorem rpcCall_m_rpc_blocking_calls (s : Storage) (c : RpcServerCall) :
    (s.rpcCall c).m_rpc_blocking_calls = s.m_rpc_blocking_calls := rfl
@[simp] theorem rpcCall_m_persistent_dirty (s : Storage) (c : RpcServerCall) :
    (s.rpcCall c).m_persistent_dirty = s.m_persistent_dirty := rfl
@[simp] theorem rpcCall_m_terminating (s : Storage) (c : RpcServerCall) :
    (s.rpcCall c).m_terminating = s.m_terminating := rfl
@[simp] theorem rpcCall_m_dispatcher (s : Storage) (c : RpcServerCall) :
    (s.rpcCall c).m_dispatcher = s.m_dispatcher := rfl
@[simp] theorem rpcCall_m_server (s : Storage) (c : RpcServerCall) :
    (s.rpcCall c).m_server = s.m_server := rfl
@[simp] theorem rpcCall_queued (s : Storage) (c : RpcServerCall) :
    (s.rpcCall c).queued = s.queued := rfl
@[simp] theorem rpcCall_notified (s : Storage) (c : RpcServerCall) :
    (s.rpcCall c).notified = s.notified := rfl
@[simp] theorem rpcCall_rpc_calls (s : Storage) (c : RpcServerCall) :
    (s.rpcCall c).rpc_calls = s.rpc_calls ++ [c] := rfl
@[simp] theorem rpcCall_deref (s : Storage) (c : RpcServerCall) (q : Nat) :
    (s.rpcCall c).deref q = s.deref q := rfl
@[simp] theorem rpcCall_keys (s : Storage) (c : RpcServerCall) :
    keys (s.rpcCall c) = keys s := rfl
@[simp] theorem rpcCall_find (s : Storage) (c : RpcServerCall) (n : Bytes) :
    (s.rpcCall c).find n = s.find n := rfl

@[simp] theorem QueueOutgoing_m_entries (s : Storage) (msg : Message) (a b : Option INetworkConnection) :
    (s.QueueOutgoing msg a b).m_entries = s.m_entries := rfl
@[simp] theorem QueueOutgoing_m_idmap (s : Storage) (msg : Message) (a b : Option INetworkConnection) :
    (s.QueueOutgoing msg a b).m_idmap = s.m_idmap := rfl
@[simp] theorem QueueOutgoing_m_localmap (s : Storage) (msg : Message) (a b : Option INetworkConnection) :
    (s.QueueOutgoing msg a b).m_localmap = s.m_localmap := rfl
@[simp] theorem QueueOutgoing_m_rpc_results (s : Storage) (msg : Message) (a b : Option INetworkConnection) :
    (s.QueueOutgoing msg a b).m_rpc_results = s.m_rpc_results := rfl
@[simp] theorem QueueOutgoing_m_rpc_blocking_calls (s : Storage) (msg : Message) (a b : Option INetworkConnection) :
    (s.QueueOutgoing msg a b).m_rpc_blocking_calls = s.m_rpc_blocking_calls := rfl
@[simp] theorem QueueOutgoing_m_persistent_dirty (s : Storage) (msg : Message) (a b : Option INetworkConnection) :
    (s.QueueOutgoing msg a b).m_persistent_dirty = s.m_persistent_dirty := rfl
@[simp] theorem QueueOutgoing_m_terminating (s : Storage) (msg : Message) (a b : Option INetworkConnection) :
    (s.QueueOutgoing msg a b).m_terminating = s.m_terminating := rfl
@[simp] theorem QueueOutgoing_m_dispatcher (s : Storage) (msg : Message) (a b : Option INetworkConnection) :
    (s.QueueOutgoing msg a b).m_dispatcher = s.m_dispatcher := rfl
@[simp] theorem QueueOutgoing_m_server (s : Storage) (msg : Message) (a b : Option INetworkConnection) :
    (s.QueueOutgoing msg a b).m_server = s.m_server := rfl
@[simp] theorem QueueOutgoing_queued (s : Storage) (msg : Message) (a b : Option INetworkConnection) :
    (s.QueueOutgoing msg a b).queued = s.queued ++ [⟨msg, a, b⟩] := rfl
@[simp] theorem QueueOutgoing_notified (s : Storage) (msg : Message) (a b : Option INetworkConnection) :
    (s.QueueOutgoing msg a b).notified = s.notified := rfl
@[simp] theorem QueueOutgoing_rpc_calls (s : Storage) (msg : Message) (a b : Option INetworkConnection) :
    (s.QueueOutgoing msg a b).rpc_calls = s.rpc_calls := rfl
@[simp] theorem QueueOutgoing_deref (s : Storage) (msg : Message) (a b : Option INetworkConnection) (q : Nat) :
    (s.QueueOutgoing msg a b).deref q = s.deref q := rfl
@[simp] theorem QueueOutgoing_keys (s : Storage) (msg : Message) (a b : Option INetworkConnection) :
    keys (s.QueueOutgoing msg a b) = keys s := rfl
@[simp] theorem QueueOutgoing_find (s : Storage) (msg : Message) (a b : Option INetworkConnection) (n : Bytes) :
    (s.QueueOutgoing msg a b).find n = s.find n := rfl

@[simp] theorem Notify_m_entries (s : Storage) (p f : Nat) (l : Bool) (v : Option Value) :
    (s.Notify p f l v).m_entries = s.m_entries := rfl
@[simp] theorem Notify_m_idmap (s : Storage) (p f : Nat) (l : Bool) (v : Option Value) :
    (s.Notify p f l v).m_idmap = s.m_idmap := rfl
@[simp] theorem Notify_m_localmap (s : Storage) (p f : Nat) (l : Bool) (v : Option Value) :
    (s.Notify p f l v).m_localmap = s.m_localmap := rfl
@[simp] theorem Notify_m_rpc_results (s : Storage) (p f : Nat) (l : Bool) (v : Option Value) :
    (s.Notify p f l v).m_rpc_results = s.m_rpc_results := rfl
@[simp] theorem Notify_m_rpc_blocking_calls (s : Storage) (p f : Nat) (l : Bool) (v : Option Value) :
    (s.Notify p f l v).m_rpc_blocking_calls = s.m_rpc_blocking_calls := rfl
@[simp] theorem Notify_m_persistent_dirty (s : Storage) (p f : Nat) (l : Bool) (v : Option Value) :
    (s.Notify p f l v).m_persistent_dirty = s.m_persistent_dirty := rfl
@[simp] theorem Notify_m_terminating (s : Storage) (p f : Nat) (l : Bool) (v : Option Value) :
    (s.Notify p f l v).m_terminating = s.m_terminating := rfl
@[simp] theorem Notify_m_dispatcher (s : Storage) (p f : Nat) (l : Bool) (v : Option Value) :
    (s.Notify p f l v).m_dispatcher = s.m_dispatcher := rfl
@[simp] theorem Notify_m_server (s : Storage) (p f : Nat) (l : Bool) (v : Option Value) :
    (s.Notify p f l v).m_server = s.m_server := rfl
@[simp] theorem Notify_queued (s : Storage) (p f : Nat) (l : Bool) (v : Option Value) :
    (s.Notify p f l v).queued = s.queued := rfl
@[simp] theorem Notify_notified (s : Storage) (p f : Nat) (l : Bool) (v : Option Value) :
    (s.Notify p f l v).notified = s.notified ++
      [⟨(s.deref p).local_id, (s.deref p).name, if v.isSome then v else (s.deref p).value,
        f ||| (if l then NT_NOTIFY_LOCAL else 0)⟩] := rfl
@[simp] theorem Notify_rpc_calls (s : Storage) (p f : Nat) (l : Bool) (v : Option Value) :
    (s.Notify p f l v).rpc_calls = s.rpc_calls := rfl
@[simp] theorem Notify_deref (s : Storage) (p f : Nat) (l : Bool) (v : Option Value) (q : Nat) :
    (s.Notify p f l v).deref q = s.deref q := rfl
@[simp] theorem Notify_keys (s : Storage) (p f : Nat) (l : Bool) (v : Option Value) :
    keys (s.Notify p f l v) = keys s := rfl
@[simp] theorem Notify_find (s : Storage) (p f : Nat) (l : Bool) (v : Option Value) (n : Bytes) :
    (s.Notify p f l v).find n = s.find n := rfl

@[simp] theorem ite_m_entries (c : Prop) [Decidable c] (a b : Storage) :
    (if c then a else b).m_entries = if c then a.m_entries else b.m_entries := by
  split <;> rfl
@[simp] theorem ite_m_idmap (c : Prop) [Decidable c] (a b : Storage) :
    (if c then a else b).m_idmap = if c then a.m_idmap else b.m_idmap := by
  split <;> rfl
@[simp] theorem ite_m_rpc_results (c : Prop) [Decidable c] (a b : Storage) :
    (if c then a else b).m_rpc_results = if c then a.m_rpc_results else b.m_rpc_results := by
  split <;> rfl
@[simp] theorem ite_m_rpc_blocking_calls (c : Prop) [Decidable c] (a b : Storage) :
    (if c then a else b).m_rpc_blocking_calls = if c then a.m_rpc_blocking_calls else b.m_rpc_blocking_calls := by
  split <;> rfl
@[simp] theorem ite_m_persistent_dirty (c : Prop) [Decidable c] (a b : Storage) :
    (if c then a else b).m_persistent_dirty = if c then a.m_persistent_dirty else b.m_persistent_dirty := by
  split <;> rfl
@[simp] theorem ite_m_terminating (c : Prop) [Decidable c] (a b : Storage) :
    (if c then a else b).m_terminating = if c then a.m_terminating else b.m_terminating := by
  split <;> rfl
@[simp] theorem ite_m_dispatcher (c : Prop) [Decidable c] (a b : Storage) :
    (if c then a else b).m_dispatcher = if c then a.m_dispatcher else b.m_dispatcher := by
  split <;> rfl
@[simp] theorem ite_m_server (c : Prop) [Decidable c] (a b : Storage) :
    (if c then a else b).m_server = if c then a.m_server else b.m_server := by
  split <;> rfl
@[simp] theorem ite_queued (c : Prop) [Decidable c] (a b : Storage) :
    (if c then a else b).queued = if c then a.queued else b.queued := by
  split <;> rfl
@[simp] theorem ite_notified (c : Prop) [Decidable c] (a b : Storage) :
    (if c then a else b).notified = if c then a.notified else b.notified := by
  split <;> rfl
@[simp] theorem ite_rpc_calls (c : Prop) [Decidable c] (a b : Storage) :
    (if c then a else b).rpc_calls = if c then a.rpc_calls else b.rpc_calls := by
  split <;> rfl
@[simp] theorem ite_length (c : Prop) [Decidable c] (a b : Storage) :
    (if c then a else b).m_localmap.length =
      if c then a.m_localmap.length else b.m_localmap.length := by
  split <;> rfl
@[simp] theorem ite_deref (c : Prop) [Decidable c] (a b : Storage) (q : Nat) :
    (if c then a else b).deref q = if c then a.deref q else b.deref q := by
  split <;> rfl
@[simp] theorem ite_keys (c : Prop) [Decidable c] (a b : Storage) :
    keys (if c then a else b) = if c then keys a else keys b := by
  split <;> rfl
@[simp] theorem ite_find (c : Prop) [Decidable c] (a b : Storage) (n : Bytes) :
    (if c then a else b).find n = if c then a.find n else b.find n := by
  split <;> rfl

@[simp] theorem growIdmap_eq (s : Storage) (n : Nat) :
    s.growIdmap n = s.set_idmap (s.m_idmap ++ List.replicate (n - s.m_idmap.length) none) :=
  rfl

@[simp] theorem store_length (s : Storage) (p : Nat) (e : Entry) :
    (s.store p e).m_localmap.length = s.m_localmap.length := by simp [store]

theorem deref_store (s : Storage) (p q : Nat) (e : Entry) :
    (s.store p e).deref q = if q = p ∧ p < s.m_localmap.length then e else s.deref q := by
  unfold deref store
  simp only [List.getElem?_set]
  by_cases h : p = q
  · subst h
    by_cases h2 : p < s.m_localmap.length
    · simp [h2]
    · simp [h2, List.getElem?_eq_none (Nat.le_of_not_lt h2)]
  · have : ¬ (q = p ∧ p < s.m_localmap.length) := fun hh => h hh.1.symm
    simp [h, this]

theorem deref_store_self (s : Storage) (p : Nat) (e : Entry) (h : p < s.m_localmap.length) :
    (s.store p e).deref p = e := by
  rw [deref_store]; simp [h]

theorem store_deref (s : Storage) (p : Nat) : s.store p (s.deref p) = s := by
  cases s with
  | mk a b c d e f g h i j k l =>
    simp only [store, deref, mk.injEq, true_and, and_true]
    by_cases hp : p < c.length
    · simp only [List.getElem?_eq_getElem hp, Option.getD_some]
      apply List.ext_getElem?
      intro i
      rw [List.getElem?_set]
      by_cases hi : p = i
      · subst hi
        simp [hp]
      · simp [hi]
    · simp [List.getElem?_eq_none (Nat.le_of_not_lt hp),
        List.set_eq_of_length_le (Nat.le_of_not_lt hp)]

@[simp] theorem keys_store (s : Storage) (p : Nat) (e : Entry) (h : key e = key (s.deref p)) :
    keys (s.store p e) = keys s := by
  unfold keys store
  simp only
  apply List.ext_getElem?
  intro i
  simp only [List.getElem?_map, List.getElem?_set]
  by_cases hip : p = i
  · subst hip
    by_cases hp : p < s.m_localmap.length
    · simp [hp, h, deref, List.getElem?_eq_getElem hp]
    · simp [hp, List.getElem?_eq_none (Nat.le_of_not_lt hp)]
  · simp [hip]

theorem SetEntryValueImpl_sameTable (s : Storage) (p : Nat) (v : Option Value) (l : Bool) :
    SameTable s (s.SetEntryValueImpl p v l) := by
  unfold SetEntryValueImpl SameTable
  cases v with
  | none => exact ⟨rfl, rfl⟩
  | some v =>
    cases hold : (s.deref p).value <;> simp [key, hold]

theorem SetEntryFlagsImpl_sameTable (s : Storage) (p : Nat) (f : Nat) (l : Bool) :
    SameTable s (s.SetEntryFlagsImpl p f l) := by
  unfold SetEntryFlagsImpl SameTable
  simp [key]

theorem DeleteEntryImpl_sameTable (s : Storage) (p : Nat) (l : Bool) :
    SameTable s (s.DeleteEntryImpl p l) := by
  unfold DeleteEntryImpl SameTable
  cases hold : (s.deref p).value <;> simp [key, hold]

theorem SameTable.same (s : Storage) : SameTable s s := ⟨rfl, rfl⟩

theorem SameTable.andThen {s t u : Storage} (h1 : SameTable s t) (h2 : SameTable t u) :
    SameTable s u := ⟨h2.1.trans h1.1, h2.2.trans h1.2⟩

theorem Ext.self (s : Storage) : Ext s s := ⟨⟨[], by simp⟩, ⟨[], by simp⟩⟩

theorem Ext.andExt {s t u : Storage} (h1 : Ext s t) (h2 : Ext t u) : Ext s u := by
  obtain ⟨⟨a, ha⟩, ⟨b, hb⟩⟩ := h1
  obtain ⟨⟨c, hc⟩, ⟨d, hd⟩⟩ := h2
  exact ⟨⟨a ++ c, by rw [hc, ha, List.append_assoc]⟩, ⟨b ++ d, by rw [hd, hb, List.append_assoc]⟩⟩

theorem Ext.lookup {s t : Storage} (h : Ext s t) {n : Bytes} {p : Nat}
    (hf : s.find n = some p) : t.find n = some p := by
  obtain ⟨⟨a, ha⟩, _⟩ := h
  unfold Storage.find at *
  rw [ha, List.lookup_append, hf]
  rfl

theorem Ext.getKey {s t : Storage} (h : Ext s t) {p : Nat} {k : Bytes × Nat}
    (hk : (keys s)[p]? = some k) : (keys t)[p]? = some k := by
  obtain ⟨_, ⟨b, hb⟩⟩ := h
  have hp : p < (keys s).length := by
    by_contra hc
    rw [List.getElem?_eq_none (Nat.le_of_not_lt hc)] at hk
    cases hk
  rw [hb, List.getElem?_append_left hp, hk]

theorem Ext.length {s t : Storage} (h : Ext s t) :
    s.m_localmap.length ≤ t.m_localmap.length := by
  obtain ⟨_, ⟨b, hb⟩⟩ := h
  have := congrArg List.length hb
  unfold Storage.keys at this
  rw [List.length_append, List.length_map, List.length_map] at this
  omega

theorem Good.unchanged (s : Storage) : Good s s := ⟨Ext.self s, id⟩

theorem Good.andGood {s t u : Storage} (h1 : Good s t) (h2 : Good t u) : Good s u :=
  ⟨h1.1.andExt h2.1, fun h => h2.2 (h1.2 h)⟩

theorem SameTable.good {s t : Storage} (h : SameTable s t) : Good s t := by
  refine ⟨⟨⟨[], by simp [h.1]⟩, ⟨[], by simp [h.2]⟩⟩, ?_⟩
  intro hw n p hf
  unfold Storage.find at hf
  rw [h.1] at hf
  rw [h.2]
  exact hw n p hf

theorem keys_getElem {s : Storage} {p : Nat} {k : Bytes × Nat}
    (h : (keys s)[p]? = some k) : p < s.m_localmap.length ∧ key (s.deref p) = k := by
  unfold Storage.keys at h
  rw [List.getElem?_map] at h
  cases hq : s.m_localmap[p]? with
  | none => rw [hq] at h; cases h
  | some e =>
    rw [hq] at h
    simp only [Option.map_some', Option.some.injEq] at h
    refine ⟨?_, ?_⟩
    · by_contra hc
      rw [List.getElem?_eq_none (Nat.le_of_not_lt hc)] at hq
      cases hq
    · simp [Storage.deref, hq, h]

theorem WF.lt {s : Storage} (h : WF s) {n : Bytes} {p : Nat} (hf : s.find n = some p) :
    p < s.m_localmap.length := (keys_getElem (h n p hf)).1

theorem WF.name {s : Storage} (h : WF s) {n : Bytes} {p : Nat} (hf : s.find n = some p) :
    (s.deref p).name = n := congrArg Prod.fst (keys_getElem (h n p hf)).2

theorem WF.local_id {s : Storage} (h : WF s) {n : Bytes} {p : Nat} (hf : s.find n = some p) :
    (s.deref p).local_id = p := congrArg Prod.snd (keys_getElem (h n p hf)).2

theorem WF_init : WF {} := by
  intro n p hf
  cases hf

theorem GetOrNew_of_find {s : Storage} {n : Bytes} {p : Nat} (h : s.find n = some p) :
    s.GetOrNew n = (s, p) := by
  simp [GetOrNew, h]

theorem GetOrNew_good (s : Storage) (n : Bytes) : Good s (s.GetOrNew n).1 := by
  unfold GetOrNew
  cases hf : s.find n with
  | some p => exact Good.unchanged s
  | none =>
    have hk : keys { s with
        m_entries := s.m_entries ++ [(n, s.m_localmap.length)],
        m_localmap := s.m_localmap ++ [{ name := n, local_id := s.m_localmap.length }] } =
        keys s ++ [(n, s.m_localmap.length)] := by
      unfold Storage.keys
      rw [List.map_append]
      rfl
    refine ⟨⟨⟨_, rfl⟩, ⟨[(n, s.m_localmap.length)], hk⟩⟩, ?_⟩
    intro hw m q hm
    simp only [Storage.find, List.lookup_append] at hm
    rw [hk]
    cases hl : s.m_entries.lookup m with
    | some q2 =>
      rw [hl] at hm
      simp only [Option.or_some, Option.some.injEq] at hm
      subst hm
      have h1 := hw m q2 hl
      have h2 : q2 < (keys s).length := by
        unfold Storage.keys
        rw [List.length_map]
        exact (keys_getElem h1).1
      rw [List.getElem?_append_left h2, h1]
    | none =>
      rw [hl] at hm
      simp only [Option.none_or, List.lookup, beq_iff_eq] at hm
      by_cases hmn : m = n
      · subst hmn
        simp at hm
        subst hm
        have h2 : (keys s).length = s.m_localmap.length := by
          unfold Storage.keys
          rw [List.length_map]
        rw [List.getElem?_append_right (Nat.le_of_eq h2), h2]
        simp
      · have : (m == n) = false := by simp [hmn]
        simp [this] at hm

theorem GetOrNew_find (s : Storage) (n : Bytes) :
    (s.GetOrNew n).1.find n = some (s.GetOrNew n).2 := by
  unfold GetOrNew
  cases hf : s.find n with
  | some p => simpa using hf
  | none =>
    simp only [Storage.find, List.lookup_append]
    unfold Storage.find at hf
    simp [hf, List.lookup]

theorem sameTable_store (s : Storage) (p : Nat) (e : Entry) (h : key e = key (s.deref p)) :
    SameTable s (s.store p e) := ⟨rfl, keys_store s p e h⟩

theorem sameTable_QueueOutgoing (s : Storage) (m : Message) (a b : Option INetworkConnection) :
    SameTable s (s.QueueOutgoing m a b) := ⟨rfl, rfl⟩

theorem DeleteAllEntriesStep_sameTable (l : Bool) (f : Entry → Bool × List Message)
    (acc : Storage × List Message) (p : Nat) :
    SameTable acc.1 (DeleteAllEntriesStep l f acc p).1 := by
  unfold DeleteAllEntriesStep SameTable
  simp only
  split
  · split
    · simp [key]
    · exact ⟨rfl, rfl⟩
  · exact ⟨rfl, rfl⟩

theorem foldl_sameTable {α β : Type} (f : Storage × β → α → Storage × β)
    (h : ∀ acc x, SameTable acc.1 (f acc x).1) (l : List α) (acc : Storage × β) :
    SameTable acc.1 (l.foldl f acc).1 := by
  induction l generalizing acc with
  | nil => exact SameTable.same _
  | cons x xs ih => exact (h acc x).andThen (ih (f acc x))

theorem DeleteAllEntriesImplF_sameTable (s : Storage) (l : Bool)
    (f : Entry → Bool × List Message) : SameTable s (s.DeleteAllEntriesImplF l f).1 :=
  foldl_sameTable _ (DeleteAllEntriesStep_sameTable l f) _ (s, [])

theorem DeleteAllEntriesImpl_sameTable (s : Storage) (l : Bool) :
    SameTable s (s.DeleteAllEntriesImpl l) :=
  DeleteAllEntriesImplF_sameTable s l _

theorem DeleteAllEntries_sameTable (s : Storage) : SameTable s s.DeleteAllEntries := by
  unfold DeleteAllEntries
  split
  · exact SameTable.same s
  · simp only
    split
    · exact DeleteAllEntriesImpl_sameTable s true
    · exact (DeleteAllEntriesImpl_sameTable s true).andThen (sameTable_QueueOutgoing _ _ _ _)

@[simp] theorem optAll_some {α : Type} (R : α → Prop) (t : α) : OptAll R (some t) ↔ R t := by
  simp [OptAll]

@[simp] theorem optAll_none {α : Type} (R : α → Prop) : OptAll R none := by
  simp [OptAll]

@[simp] theorem optAll_ite {α : Type} (R : α → Prop) (c : Prop) [Decidable c]
    (a b : Option α) :
    OptAll R (if c then a else b) ↔ (c → OptAll R a) ∧ (¬c → OptAll R b) := by
  split <;> simp [*]

theorem EntryAssignCommon_sameTable (s : Storage) (msg : Message) (conn : INetworkConnection)
    (p : Nat) (b : Bool) : OptAll (SameTable s) (s.EntryAssignCommon msg conn p b) := by
  unfold EntryAssignCommon
  simp [SameTable, key]

theorem ProcessIncomingEntryUpdate_sameTable (s : Storage) (msg : Message)
    (conn : INetworkConnection) : SameTable s (s.ProcessIncomingEntryUpdate msg conn) := by
  unfold ProcessIncomingEntryUpdate
  split
  · exact SameTable.same _
  · simp [SameTable, key]

theorem ProcessIncomingFlagsUpdate_sameTable (s : Storage) (msg : Message)
    (conn : INetworkConnection) : SameTable s (s.ProcessIncomingFlagsUpdate msg conn) := by
  unfold ProcessIncomingFlagsUpdate
  split
  · exact SameTable.same _
  · simp only
    split
    · exact (SetEntryFlagsImpl_sameTable _ _ _ _).andThen (sameTable_QueueOutgoing _ _ _ _)
    · exact SetEntryFlagsImpl_sameTable _ _ _ _

theorem ProcessIncomingEntryDelete_sameTable (s : Storage) (msg : Message)
    (conn : INetworkConnection) : SameTable s (s.ProcessIncomingEntryDelete msg conn) := by
  unfold ProcessIncomingEntryDelete
  split
  · exact SameTable.same _
  · simp only
    split
    · exact (DeleteEntryImpl_sameTable _ _ _).andThen (sameTable_QueueOutgoing _ _ _ _)
    · exact DeleteEntryImpl_sameTable _ _ _

theorem ProcessIncomingClearEntries_sameTable (s : Storage) (msg : Message)
    (conn : INetworkConnection) : SameTable s (s.ProcessIncomingClearEntries msg conn) := by
  unfold ProcessIncomingClearEntries
  simp only
  split
  · exact (DeleteAllEntriesImpl_sameTable _ _).andThen (sameTable_QueueOutgoing _ _ _ _)
  · exact DeleteAllEntriesImpl_sameTable _ _

theorem ProcessIncomingExecuteRpc_sameTable (s : Storage) (msg : Message)
    (cw : Option INetworkConnection) : SameTable s (s.ProcessIncomingExecuteRpc msg cw) := by
  unfold ProcessIncomingExecuteRpc
  repeat' split
  all_goals exact ⟨rfl, rfl⟩

theorem ProcessIncomingRpcResponse_sameTable (s : Storage) (msg : Message) :
    SameTable s (s.ProcessIncomingRpcResponse msg) := by
  unfold ProcessIncomingRpcResponse insertRpcResult
  repeat' split
  all_goals exact ⟨rfl, rfl⟩

theorem CreateRpc_sameTable (s : Storage) (a : Nat) (d : Bytes) (u ti : Nat) :
    SameTable s (s.CreateRpc a d u ti) := by
  unfold CreateRpc
  split
  · exact SameTable.same _
  · cases hold : (s.deref a).value <;> simp [SameTable, key, hold]

theorem CallRpc_sameTable (s : Storage) (a : Nat) (ps : Bytes) :
    OptAll (fun r => SameTable s r.1) (s.CallRpc a ps) := by
  unfold CallRpc
  cases hold : (s.deref a).value <;> simp [SameTable, key, hold]

theorem GetPersistentEntries_sameTable (s : Storage) (b : Bool) :
    SameTable s (s.GetPersistentEntries b).1 := by
  unfold GetPersistentEntries
  split <;> exact ⟨rfl, rfl⟩

theorem set_persistent_dirty_self (s : Storage) (b : Bool) (h : s.m_persistent_dirty = b) :
    s.set_persistent_dirty b = s := by
  cases s
  cases h
  rfl

/-- The file form of a save changes the dirty flag only: the flag is set
afterwards exactly when a periodic save of a dirty table ended in an error. -/
theorem SavePersistentFileState_eq (s : Storage) (fs : FileAnswers) (periodic : Bool) :
    s.SavePersistentFileState fs periodic = s.set_persistent_dirty
      (periodic && s.m_persistent_dirty &&
        (fs.open_failed || fs.has_error || fs.rename_failed)) := by
  unfold SavePersistentFileState GetPersistentEntries
  cases periodic <;> cases hd : s.m_persistent_dirty <;> cases fs.open_failed <;>
    cases fs.has_error <;> cases fs.rename_failed <;>
    simp [hd] <;>
    first
    | rfl
    | exact (set_persistent_dirty_self s false hd).symm

theorem SavePersistentFileState_sameTable (s : Storage) (fs : FileAnswers) (b : Bool) :
    SameTable s (s.SavePersistentFileState fs b) := by
  rw [SavePersistentFileState_eq]
  exact ⟨rfl, rfl⟩

/-- The state that `SavePersistentFile` returns is `SavePersistentFileState`. -/
theorem SavePersistentFile_state (s : Storage) (c : Encoders) (fs : FileAnswers)
    (periodic : Bool) :
    (s.SavePersistentFile c fs periodic).1 = s.SavePersistentFileState fs periodic := by
  unfold SavePersistentFile SavePersistentFileState
  simp only
  cases h : (s.GetPersistentEntries periodic).2 <;> rfl

theorem optAll_mono {α : Type} {R Q : α → Prop} (h : ∀ t, R t → Q t) {o : Option α}
    (ho : OptAll R o) : OptAll Q o := fun t ht => h t (ho t ht)

@[simp] theorem SetEntryValueImpl_m_entries (s : Storage) (p : Nat) (v : Option Value)
    (l : Bool) : (s.SetEntryValueImpl p v l).m_entries = s.m_entries :=
  (SetEntryValueImpl_sameTable s p v l).1
@[simp] theorem SetEntryValueImpl_keys (s : Storage) (p : Nat) (v : Option Value)
    (l : Bool) : keys (s.SetEntryValueImpl p v l) = keys s :=
  (SetEntryValueImpl_sameTable s p v l).2
@[simp] theorem SetEntryFlagsImpl_m_entries (s : Storage) (p f : Nat) (l : Bool) :
    (s.SetEntryFlagsImpl p f l).m_entries = s.m_entries :=
  (SetEntryFlagsImpl_sameTable s p f l).1
@[simp] theorem SetEntryFlagsImpl_keys (s : Storage) (p f : Nat) (l : Bool) :
    keys (s.SetEntryFlagsImpl p f l) = keys s :=
  (SetEntryFlagsImpl_sameTable s p f l).2
@[simp] theorem DeleteEntryImpl_m_entries (s : Storage) (p : Nat) (l : Bool) :
    (s.DeleteEntryImpl p l).m_entries = s.m_entries :=
  (DeleteEntryImpl_sameTable s p l).1
@[simp] theorem DeleteEntryImpl_keys (s : Storage) (p : Nat) (l : Bool) :
    keys (s.DeleteEntryImpl p l) = keys s :=
  (DeleteEntryImpl_sameTable s p l).2

theorem ProcessIncomingEntryAssign_good (s : Storage) (msg : Message)
    (conn : INetworkConnection) : OptAll (Good s) (s.ProcessIncomingEntryAssign msg conn) := by
  unfold ProcessIncomingEntryAssign
  have hg := GetOrNew_good s msg.str
  simp only
  by_cases hs : s.m_server = true
  · rw [if_pos hs]
    by_cases hid : msg.id = 0xffff
    · rw [if_pos hid]
      generalize s.GetOrNew msg.str = r at hg ⊢
      split
      · simpa using hg
      · simp only [optAll_some]
        refine hg.andGood (SameTable.good ?_)
        simp [SameTable, key]
    · rw [if_neg hid]
      split
      · simpa using Good.unchanged s
      · exact optAll_mono (fun t h => h.good) (EntryAssignCommon_sameTable _ _ _ _ _)
  · rw [if_neg hs]
    by_cases hid : msg.id = 0xffff
    · rw [if_pos hid]
      simpa using Good.unchanged s
    · rw [if_neg hid]
      have hgrow : SameTable s (if msg.id ≥ s.m_idmap.length then s.growIdmap (msg.id + 1)
          else s) := by
        split
        · exact ⟨rfl, rfl⟩
        · exact SameTable.same s
      generalize (if msg.id ≥ s.m_idmap.length then s.growIdmap (msg.id + 1) else s) = s1
        at hgrow ⊢
      split
      · exact optAll_mono (fun t h => hgrow.good.andGood h.good)
          (EntryAssignCommon_sameTable _ _ _ _ _)
      · -- create local
        have hg1 := GetOrNew_good s1 msg.str
        generalize s1.GetOrNew msg.str = r at hg1 ⊢
        have hbase : Good s
            ((r.1.store r.2 { r.1.deref r.2 with id := msg.id }).set_idmap
              ((r.1.store r.2 { r.1.deref r.2 with id := msg.id }).m_idmap.set
                msg.id (some r.2))) := by
          refine hgrow.good.andGood (hg1.andGood (SameTable.good ?_))
          simp [SameTable, key]
        generalize ((r.1.store r.2 { r.1.deref r.2 with id := msg.id }).set_idmap
              ((r.1.store r.2 { r.1.deref r.2 with id := msg.id }).m_idmap.set
                msg.id (some r.2))) = s2 at hbase ⊢
        split
        · simp only [optAll_some]
          refine hbase.andGood (SameTable.good ?_)
          simp [SameTable, key]
        · split
          · split
            · exact optAll_none _
            · refine optAll_mono (fun t h => hbase.andGood (SameTable.good ?_))
                (EntryAssignCommon_sameTable _ _ _ _ _)
              exact SameTable.andThen ⟨rfl, rfl⟩ h
          · exact optAll_mono (fun t h => hbase.andGood h.good)
              (EntryAssignCommon_sameTable _ _ _ _ _)

theorem foldl_good {α β : Type} (f : Storage × β → α → Storage × β)
    (h : ∀ acc x, Good acc.1 (f acc x).1) (l : List α) (acc : Storage × β) :
    Good acc.1 (l.foldl f acc).1 := by
  induction l generalizing acc with
  | nil => exact Good.unchanged _
  | cons x xs ih => exact (h acc x).andGood (ih (f acc x))

theorem foldl_sameTable1 {α : Type} (f : Storage → α → Storage)
    (h : ∀ s x, SameTable s (f s x)) (l : List α) (s : Storage) :
    SameTable s (l.foldl f s) := by
  induction l generalizing s with
  | nil => exact SameTable.same _
  | cons x xs ih => exact (h s x).andThen (ih (f s x))

theorem ApplyAssignStep_good (conn : INetworkConnection) (acc : Storage × List Message)
    (msg : Message) : Good acc.1 (ApplyAssignStep conn acc msg).1 := by
  unfold ApplyAssignStep
  split
  · exact Good.unchanged _
  · split
    · exact Good.unchanged _
    · have hg := GetOrNew_good acc.1 msg.str
      simp only
      generalize acc.1.GetOrNew msg.str = r at hg ⊢
      refine hg.andGood (SameTable.good ?_)
      cases hv : ((r.1.store r.2 { r.1.deref r.2 with
          seq_num := ⟨msg.seq_num_uid⟩, id := msg.id }).deref r.2).value
      · simp [SameTable, key, hv]
      · simp [SameTable, key, hv, apply_ite Prod.fst]

theorem ApplyInitialAssignments_good (s : Storage) (conn : INetworkConnection)
    (msgs : List Message) :
    OptAll (fun r => Good s r.1) (s.ApplyInitialAssignments conn msgs) := by
  unfold ApplyInitialAssignments
  split
  · simpa using Good.unchanged s
  · have h1 : SameTable s ((s.m_entries.map Prod.snd).foldl
        (fun s p => s.store p { s.deref p with id := 0xffff }) s) :=
      foldl_sameTable1 (fun s p => s.store p { s.deref p with id := 0xffff })
        (fun s p => sameTable_store _ _ _ rfl) _ _
    simp only
    generalize ((s.m_entries.map Prod.snd).foldl
        (fun s p => s.store p { s.deref p with id := 0xffff }) s) = s1 at h1 ⊢
    have h2 : Good s (s1.set_idmap []) := (h1.andThen ⟨rfl, rfl⟩).good
    generalize s1.set_idmap [] = s2 at h2 ⊢
    have h3 : Good s (msgs.foldl (ApplyAssignStep conn) (s2, [])).1 :=
      h2.andGood (foldl_good _ (ApplyAssignStep_good conn) msgs (s2, []))
    generalize msgs.foldl (ApplyAssignStep conn) (s2, []) = r at h3 ⊢
    have h4 : Good s (r.1.DeleteAllEntriesImplF false unassignedShouldDelete).1 :=
      h3.andGood (DeleteAllEntriesImplF_sameTable _ _ _).good
    generalize r.1.DeleteAllEntriesImplF false unassignedShouldDelete = d at h4 ⊢
    split
    · simpa using h4
    · split
      · exact optAll_none _
      · simp only [optAll_some]
        exact h4.andGood (foldl_sameTable1 _ (fun s m => sameTable_QueueOutgoing _ _ _ _) _ _).good

theorem GetEntry_good (s : Storage) (n : Bytes) : Good s (s.GetEntry n).1 := by
  unfold GetEntry
  split
  · exact Good.unchanged s
  · exact GetOrNew_good s n

theorem SetEntryValue_good (s : Storage) (n : Bytes) (v : Option Value) :
    Good s (s.SetEntryValue n v).1 := by
  unfold SetEntryValue
  have hg := GetOrNew_good s n
  generalize s.GetOrNew n = r at hg ⊢
  repeat' first | split | dsimp only
  all_goals first
    | exact Good.unchanged s
    | exact hg
    | exact hg.andGood (SetEntryValueImpl_sameTable _ _ _ _).good

theorem SetEntryValueId_good (s : Storage) (n : Nat) (v : Option Value) :
    Good s (s.SetEntryValueId n v).1 := by
  unfold SetEntryValueId
  repeat' split
  all_goals first
    | exact Good.unchanged s
    | exact (SetEntryValueImpl_sameTable _ _ _ _).good

theorem SetEntryTypeValue_good (s : Storage) (n : Bytes) (v : Option Value) :
    Good s (s.SetEntryTypeValue n v) := by
  unfold SetEntryTypeValue
  have hg := GetOrNew_good s n
  generalize s.GetOrNew n = r at hg ⊢
  repeat' first | split | dsimp only
  all_goals first
    | exact Good.unchanged s
    | exact hg.andGood (SetEntryValueImpl_sameTable _ _ _ _).good

theorem SetEntryTypeValueId_good (s : Storage) (n : Nat) (v : Option Value) :
    Good s (s.SetEntryTypeValueId n v) := by
  unfold SetEntryTypeValueId
  repeat' split
  all_goals first
    | exact Good.unchanged s
    | exact (SetEntryValueImpl_sameTable _ _ _ _).good

theorem SetDefaultEntryValue_good (s : Storage) (n : Bytes) (v : Option Value) :
    Good s (s.SetDefaultEntryValue n v).1 := by
  unfold SetDefaultEntryValue
  have hg := GetOrNew_good s n
  generalize s.GetOrNew n = r at hg ⊢
  repeat' first | split | dsimp only
  all_goals first
    | exact Good.unchanged s
    | exact hg
    | exact hg.andGood (SetEntryValueImpl_sameTable _ _ _ _).good

theorem SetDefaultEntryValueId_good (s : Storage) (n : Nat) (v : Option Value) :
    Good s (s.SetDefaultEntryValueId n v).1 := by
  unfold SetDefaultEntryValueId
  repeat' split
  all_goals first
    | exact Good.unchanged s
    | exact (SetEntryValueImpl_sameTable _ _ _ _).good

theorem SetEntryFlags_good (s : Storage) (n : Bytes) (f : Nat) :
    Good s (s.SetEntryFlags n f) := by
  unfold SetEntryFlags
  repeat' split
  all_goals first
    | exact Good.unchanged s
    | exact (SetEntryFlagsImpl_sameTable _ _ _ _).good

theorem SetEntryFlagsId_good (s : Storage) (n : Nat) (f : Nat) :
    Good s (s.SetEntryFlagsId n f) := by
  unfold SetEntryFlagsId
  repeat' split
  all_goals first
    | exact Good.unchanged s
    | exact (SetEntryFlagsImpl_sameTable _ _ _ _).good

theorem DeleteEntry_good (s : Storage) (n : Bytes) : Good s (s.DeleteEntry n) := by
  unfold DeleteEntry
  repeat' split
  all_goals first
    | exact Good.unchanged s
    | exact (DeleteEntryImpl_sameTable _ _ _).good

theorem DeleteEntryId_good (s : Storage) (n : Nat) : Good s (s.DeleteEntryId n) := by
  unfold DeleteEntryId
  repeat' split
  all_goals first
    | exact Good.unchanged s
    | exact (DeleteEntryImpl_sameTable _ _ _).good

theorem ProcessIncoming_good (s : Storage) (msg : Message) (conn : INetworkConnection)
    (cw : Option INetworkConnection) : OptAll (Good s) (s.ProcessIncoming msg conn cw) := by
  unfold ProcessIncoming
  split
  case h_7 => exact ProcessIncomingEntryAssign_good s msg conn
  case h_8 => simpa using (ProcessIncomingEntryUpdate_sameTable s msg conn).good
  case h_9 => simpa using (ProcessIncomingFlagsUpdate_sameTable s msg conn).good
  case h_10 => simpa using (ProcessIncomingEntryDelete_sameTable s msg conn).good
  case h_11 => simpa using (ProcessIncomingClearEntries_sameTable s msg conn).good
  case h_12 => simpa using (ProcessIncomingExecuteRpc_sameTable s msg cw).good
  case h_13 => simpa using (ProcessIncomingRpcResponse_sameTable s msg).good
  all_goals simpa using Good.unchanged s

theorem step_good (s t : Storage) (op : Op) (h : s.step op = some t) : Good s t := by
  cases op with
  | SetDispatcher server => cases h; exact SameTable.good ⟨rfl, rfl⟩
  | ClearDispatcher => cases h; exact SameTable.good ⟨rfl, rfl⟩
  | GetEntry name => cases h; exact GetEntry_good s name
  | SetEntryValue name value => cases h; exact SetEntryValue_good s name value
  | SetEntryValueId local_id value => cases h; exact SetEntryValueId_good s local_id value
  | SetEntryTypeValue name value => cases h; exact SetEntryTypeValue_good s name value
  | SetEntryTypeValueId local_id value =>
    cases h; exact SetEntryTypeValueId_good s local_id value
  | SetDefaultEntryValue name value => cases h; exact SetDefaultEntryValue_good s name value
  | SetDefaultEntryValueId local_id value =>
    cases h; exact SetDefaultEntryValueId_good s local_id value
  | SetEntryFlags name flags => cases h; exact SetEntryFlags_good s name flags
  | SetEntryFlagsId local_id flags => cases h; exact SetEntryFlagsId_good s local_id flags
  | DeleteEntry name => cases h; exact DeleteEntry_good s name
  | DeleteEntryId local_id => cases h; exact DeleteEntryId_good s local_id
  | DeleteAllEntries => cases h; exact (DeleteAllEntries_sameTable s).good
  | ProcessIncoming msg conn conn_weak => exact ProcessIncoming_good s msg conn conn_weak t h
  | ApplyInitialAssignments conn msgs =>
    simp only [step, Option.map_eq_some'] at h
    obtain ⟨r, hr, rfl⟩ := h
    exact ApplyInitialAssignments_good s conn msgs r hr
  | CreateRpc local_id d rpc_uid time =>
    cases h; exact (CreateRpc_sameTable s local_id d rpc_uid time).good
  | CallRpc local_id params =>
    simp only [step, Option.map_eq_some'] at h
    obtain ⟨r, hr, rfl⟩ := h
    exact (CallRpc_sameTable s local_id params r hr).good
  | SavePersistent periodic => cases h; exact (GetPersistentEntries_sameTable s periodic).good
  | SavePersistentFile fs periodic =>
    cases h; exact (SavePersistentFileState_sameTable s fs periodic).good

theorem run_good (s t : Storage) (ops : List Op) (h : s.run ops = some t) : Good s t := by
  induction ops generalizing s with
  | nil => cases h; exact Good.unchanged _
  | cons op ops ih =>
    simp only [run, Option.bind_eq_some] at h
    obtain ⟨u, hu, hr⟩ := h
    exact (step_good s u op hu).andGood (ih u hr)

theorem WF_of_run (ops : List Op) (s : Storage) (h : ({} : Storage).run ops = some s) :
    s.WF := (run_good _ _ ops h).2 WF_init

theorem isEmpty_eq_false {x : Bytes} (hx : x ≠ []) : x.isEmpty = false := by
  cases x with
  | nil => exact absurd rfl hx
  | cons a as => rfl

theorem GetEntry_spec (s : Storage) (hwf : s.WF) (x : Bytes) (hx : x ≠ []) :
    (s.GetEntry x).1.WF ∧ (s.GetEntry x).1.find x = some (s.GetEntry x).2 ∧
      (s.GetEntry x).1 = (s.GetOrNew x).1 := by
  have hg := GetOrNew_good s x
  have hf := GetOrNew_find s x
  have hw := hg.2 hwf
  have hl := hw.local_id hf
  unfold GetEntry
  rw [isEmpty_eq_false hx]
  simp only [Bool.false_eq_true, if_false]
  exact ⟨hw, by rw [hl]; exact hf, trivial⟩

theorem GetEntry_of_find (s : Storage) (hwf : s.WF) (x : Bytes) (hx : x ≠ []) (p : Nat)
    (hf : s.find x = some p) : s.GetEntry x = (s, p) := by
  unfold GetEntry
  rw [isEmpty_eq_false hx, GetOrNew_of_find hf]
  simp only [Bool.false_eq_true, if_false]
  rw [hwf.local_id hf]

theorem GetEntry_new (s : Storage) (hwf : s.WF) (x : Bytes) (hx : x ≠ [])
    (hf : s.find x = none) : (s.GetEntry x).2 = s.m_localmap.length := by
  have h := GetEntry_spec s hwf x hx
  have h2 : (s.GetOrNew x).2 = s.m_localmap.length := by
    simp [GetOrNew, hf]
  have hgf := GetOrNew_find s x
  have hw := (GetOrNew_good s x).2 hwf
  have hl := hw.local_id hgf
  unfold GetEntry
  rw [isEmpty_eq_false hx]
  simp only [Bool.false_eq_true, if_false]
  rw [hl, h2]

theorem Value.ne_of_type_ne {o v : Value} (h : o.type ≠ v.type) : Value.ne o v = true := by
  unfold Value.ne Value.eq
  have : o.data ≠ v.data := by
    intro hd
    apply h
    unfold Value.type
    rw [hd]
  simp [this]

theorem GetEntryValue_eq_some {s : Storage} {name : Bytes} {o : Value}
    (h : s.GetEntryValue name = some o) :
    ∃ p, s.find name = some p ∧ (s.deref p).value = some o := by
  unfold GetEntryValue at h
  cases hf : s.find name with
  | none => rw [hf] at h; cases h
  | some p => rw [hf] at h; exact ⟨p, rfl, h⟩

theorem GetEntryValueId_eq_some {s : Storage} {i : Nat} {o : Value}
    (h : s.GetEntryValueId i = some o) :
    i < s.m_localmap.length ∧ (s.deref i).value = some o := by
  unfold GetEntryValueId at h
  split at h
  · cases h
  · exact ⟨by omega, h⟩

theorem SetEntryValueImpl_value (s : Storage) (p : Nat) (v : Value) (l : Bool)
    (hp : p < s.m_localmap.length) :
    ((s.SetEntryValueImpl p (some v) l).deref p).value = some v := by
  unfold SetEntryValueImpl
  cases hold : (s.deref p).value <;> simp [deref_store, hp, hold, apply_ite Entry.value]

theorem SetEntryValueImpl_find (s : Storage) (p : Nat) (v : Option Value) (l : Bool) (n : Bytes) :
    (s.SetEntryValueImpl p v l).find n = s.find n := by
  unfold Storage.find
  rw [SetEntryValueImpl_m_entries]

/-- One accepted or rejected SetEntryValue on a name that is in the table. -/
theorem SetEntryValue_of_find (s : Storage) (hwf : s.WF) (name : Bytes) (hn : name ≠ [])
    (v : Value) (p : Nat) (hf : s.find name = some p) :
    (s.SetEntryValue name (some v)).1.WF ∧
    (s.SetEntryValue name (some v)).2 =
      (match s.GetEntryValue name with
        | none => true
        | some o => decide (o.type = v.type)) ∧
    (s.SetEntryValue name (some v)).1.GetEntryValue name =
      (match s.GetEntryValue name with
        | none => some v
        | some o => if o.type = v.type then some v else some o) := by
  have hp := hwf.lt hf
  have hw := (SetEntryValue_good s name (some v)).2 hwf
  refine ⟨hw, ?_⟩
  unfold SetEntryValue GetEntryValue
  rw [isEmpty_eq_false hn, GetOrNew_of_find hf, hf]
  simp only [Bool.false_eq_true, if_false]
  cases hv : (s.deref p).value with
  | none =>
    simp only [true_and]
    rw [SetEntryValueImpl_find, hf]
    exact SetEntryValueImpl_value s p v true hp
  | some o =>
    simp only
    by_cases ht : o.type = v.type
    · simp only [ht, ne_eq, not_true_eq_false, if_false, decide_True, if_true, true_and]
      rw [SetEntryValueImpl_find, hf]
      exact SetEntryValueImpl_value s p v true hp
    · simp [ht, hf, hv]

theorem GetOrNew_idem (s : Storage) (name : Bytes) :
    (s.GetOrNew name).1.GetOrNew name = s.GetOrNew name :=
  GetOrNew_of_find (GetOrNew_find s name)

theorem SetEntryValue_GetOrNew (s : Storage) (name : Bytes) (hn : name ≠ []) (v : Value) :
    (s.GetOrNew name).1.SetEntryValue name (some v) = s.SetEntryValue name (some v) := by
  unfold SetEntryValue
  rw [GetOrNew_idem, isEmpty_eq_false hn]
  rfl

theorem GetOrNew_new_value (s : Storage) (name : Bytes) (hf : s.find name = none) :
    ((s.GetOrNew name).1.deref (s.GetOrNew name).2).value = none := by
  unfold GetOrNew
  rw [hf]
  simp [deref]

theorem GetEntryValue_GetOrNew (s : Storage) (name : Bytes) :
    (s.GetOrNew name).1.GetEntryValue name = s.GetEntryValue name := by
  cases hf : s.find name with
  | some p => rw [GetOrNew_of_find hf]
  | none =>
    have h1 := GetOrNew_find s name
    have h2 := GetOrNew_new_value s name hf
    unfold GetEntryValue
    rw [h1, hf]
    exact h2

theorem SetEntryValue_spec (s : Storage) (hwf : s.WF) (name : Bytes) (hn : name ≠ [])
    (v : Value) :
    (s.SetEntryValue name (some v)).1.WF ∧
    (s.SetEntryValue name (some v)).2 =
      (match s.GetEntryValue name with
        | none => true
        | some o => decide (o.type = v.type)) ∧
    (s.SetEntryValue name (some v)).1.GetEntryValue name =
      (match s.GetEntryValue name with
        | none => some v
        | some o => if o.type = v.type then some v else some o) := by
  have h := SetEntryValue_of_find (s.GetOrNew name).1 ((GetOrNew_good s name).2 hwf) name hn v
    _ (GetOrNew_find s name)
  rw [SetEntryValue_GetOrNew s name hn, GetEntryValue_GetOrNew] at h
  exact h

theorem Value.type_eq_of_eq {o v : Value} (h : Value.eq o v = true) : o.type = v.type := by
  unfold Value.eq at h
  unfold Value.type
  rw [of_decide_eq_true h]

theorem store_store (s : Storage) (p : Nat) (e1 e2 : Entry) :
    (s.store p e1).store p e2 = s.store p e2 := by
  unfold store
  simp

theorem GetOrNew_value_none (s : Storage) (name : Bytes) (h : s.GetEntryValue name = none) :
    ((s.GetOrNew name).1.deref (s.GetOrNew name).2).value = none := by
  cases hf : s.find name with
  | none => exact GetOrNew_new_value s name hf
  | some p =>
    rw [GetOrNew_of_find hf]
    unfold GetEntryValue at h
    rw [hf] at h
    exact h

theorem DeleteEntryImpl_find (s : Storage) (p : Nat) (l : Bool) (n : Bytes) :
    (s.DeleteEntryImpl p l).find n = s.find n := by
  unfold Storage.find
  rw [DeleteEntryImpl_m_entries]

theorem DeleteEntryImpl_length (s : Storage) (p : Nat) (l : Bool) :
    (s.DeleteEntryImpl p l).m_localmap.length = s.m_localmap.length := by
  have h := congrArg List.length (DeleteEntryImpl_keys s p l)
  unfold Storage.keys at h
  rw [List.length_map, List.length_map] at h
  exact h

theorem DeleteEntryImpl_entry (s : Storage) (p : Nat) (l : Bool) (hp : p < s.m_localmap.length) :
    (s.DeleteEntryImpl p l).deref p =
      { s.deref p with value := none, id := 0xffff, local_write := false,
                       rpc_uid := UINT_MAX, flags := 0 } := by
  unfold DeleteEntryImpl
  cases hv : (s.deref p).value <;>
    by_cases hr : (s.deref p).rpc_uid = UINT_MAX <;>
    simp [hp, hv, hr, deref_store, apply_ite (fun s : Storage => s.deref p)]

theorem DeleteEntryImpl_idEntry (s : Storage) (p : Nat) (l : Bool) :
    (s.DeleteEntryImpl p l).idEntry (s.deref p).id = none := by
  unfold DeleteEntryImpl idEntry
  by_cases hi : (s.deref p).id < s.m_idmap.length
  · cases hv : (s.deref p).value <;> simp [hv, hi]
  · cases hv : (s.deref p).value <;>
      simp [hv, hi, List.getElem?_eq_none (Nat.le_of_not_lt hi)]

/-! ### Entries without a value have no assigned id -/

theorem deref_of_ge (s : Storage) (q : Nat) (h : s.m_localmap.length ≤ q) :
    s.deref q = default := by
  unfold deref
  rw [List.getElem?_eq_none h]
  rfl

theorem vacantOk_default : vacantOk default := fun _ => rfl

theorem Vacant.stored {s : Storage} (h : Vacant s) (p : Nat) (e : Entry) (he : vacantOk e) :
    Vacant (s.store p e) := by
  intro q
  rw [deref_store]
  split
  · exact he
  · exact h q

theorem SetEntryValueImpl_deref_ne (s : Storage) (p q : Nat) (v : Option Value) (l : Bool)
    (hq : q ≠ p) : (s.SetEntryValueImpl p v l).deref q = s.deref q := by
  unfold SetEntryValueImpl
  cases v with
  | none => rfl
  | some v => cases hold : (s.deref p).value <;> simp [deref_store, hq, hold]

theorem SetEntryFlagsImpl_deref_ne (s : Storage) (p q : Nat) (f : Nat) (l : Bool)
    (hq : q ≠ p) : (s.SetEntryFlagsImpl p f l).deref q = s.deref q := by
  unfold SetEntryFlagsImpl
  simp [deref_store, hq]

theorem DeleteEntryImpl_deref_ne (s : Storage) (p q : Nat) (l : Bool)
    (hq : q ≠ p) : (s.DeleteEntryImpl p l).deref q = s.deref q := by
  unfold DeleteEntryImpl
  cases hold : (s.deref p).value <;> simp [deref_store, hq, hold]

theorem SetEntryValueImpl_length (s : Storage) (p : Nat) (v : Option Value) (l : Bool) :
    (s.SetEntryValueImpl p v l).m_localmap.length = s.m_localmap.length := by
  have h := congrArg List.length (SetEntryValueImpl_keys s p v l)
  unfold Storage.keys at h
  rw [List.length_map, List.length_map] at h
  exact h

theorem SetEntryFlagsImpl_length (s : Storage) (p : Nat) (f : Nat) (l : Bool) :
    (s.SetEntryFlagsImpl p f l).m_localmap.length = s.m_localmap.length := by
  have h := congrArg List.length (SetEntryFlagsImpl_keys s p f l)
  unfold Storage.keys at h
  rw [List.length_map, List.length_map] at h
  exact h

theorem SetEntryValueImpl_vacant (s : Storage) (p : Nat) (v : Option Value) (l : Bool)
    (h : Vacant s) : Vacant (s.SetEntryValueImpl p v l) := by
  intro q
  by_cases hq : q = p
  · subst hq
    cases v with
    | none => exact h q
    | some v =>
      by_cases hp : q < s.m_localmap.length
      · intro hn
        rw [SetEntryValueImpl_value s q v l hp] at hn
        cases hn
      · rw [deref_of_ge _ _ (by rw [SetEntryValueImpl_length]; omega)]
        exact vacantOk_default
  · rw [SetEntryValueImpl_deref_ne s p q v l hq]
    exact h q

theorem SetEntryFlagsImpl_entry (s : Storage) (p : Nat) (f : Nat) (l : Bool) :
    ((s.SetEntryFlagsImpl p f l).deref p).value = (s.deref p).value ∧
    ((s.SetEntryFlagsImpl p f l).deref p).id = (s.deref p).id := by
  unfold SetEntryFlagsImpl
  by_cases hp : p < s.m_localmap.length
  · constructor <;> simp [deref_store, hp, apply_ite Entry.value, apply_ite Entry.id]
  · have hd : s.deref p = default := deref_of_ge _ _ (Nat.le_of_not_lt hp)
    have hv : (s.deref p).value = none := by rw [hd]; rfl
    simp [hv]

theorem SetEntryFlagsImpl_vacant (s : Storage) (p : Nat) (f : Nat) (l : Bool)
    (h : Vacant s) : Vacant (s.SetEntryFlagsImpl p f l) := by
  intro q
  by_cases hq : q = p
  · subst hq
    intro hn
    rw [(SetEntryFlagsImpl_entry s q f l).1] at hn
    rw [(SetEntryFlagsImpl_entry s q f l).2]
    exact h q hn
  · rw [SetEntryFlagsImpl_deref_ne s p q f l hq]
    exact h q

theorem DeleteEntryImpl_vacant (s : Storage) (p : Nat) (l : Bool)
    (h : Vacant s) : Vacant (s.DeleteEntryImpl p l) := by
  intro q
  by_cases hq : q = p
  · subst hq
    by_cases hp : q < s.m_localmap.length
    · rw [DeleteEntryImpl_entry s q l hp]
      intro _
      rfl
    · rw [deref_of_ge _ _ (by rw [DeleteEntryImpl_length]; omega)]
      exact vacantOk_default
  · rw [DeleteEntryImpl_deref_ne s p q l hq]
    exact h q


@[simp] theorem vacant_set_idmap (s : Storage) (m : List (Option Nat)) :
    Vacant (s.set_idmap m) ↔ Vacant s := Iff.rfl
@[simp] theorem vacant_set_persistent_dirty (s : Storage) (b : Bool) :
    Vacant (s.set_persistent_dirty b) ↔ Vacant s := Iff.rfl
@[simp] theorem vacant_set_rpc_results (s : Storage) (m : List ((Nat × Nat) × Bytes)) :
    Vacant (s.set_rpc_results m) ↔ Vacant s := Iff.rfl
@[simp] theorem vacant_rpcCall (s : Storage) (c : RpcServerCall) :
    Vacant (s.rpcCall c) ↔ Vacant s := Iff.rfl
@[simp] theorem vacant_QueueOutgoing (s : Storage) (m : Message)
    (a b : Option INetworkConnection) : Vacant (s.QueueOutgoing m a b) ↔ Vacant s := Iff.rfl
@[simp] theorem vacant_Notify (s : Storage) (p f : Nat) (l : Bool) (v : Option Value) :
    Vacant (s.Notify p f l v) ↔ Vacant s := Iff.rfl

theorem DeleteAllEntriesStep_vacant (l : Bool) (f : Entry → Bool × List Message)
    (acc : Storage × List Message) (p : Nat) (h : Vacant acc.1) :
    Vacant (DeleteAllEntriesStep l f acc p).1 := by
  unfold DeleteAllEntriesStep
  simp only
  split
  · split
    · refine Vacant.stored ?_ _ _ (fun _ => rfl)
      split
      · simpa using h
      · simpa using h
    · exact h
  · exact h

theorem foldl_vacant {α β : Type} (f : Storage × β → α → Storage × β)
    (h : ∀ acc x, Vacant acc.1 → Vacant (f acc x).1) (l : List α) (acc : Storage × β)
    (h0 : Vacant acc.1) : Vacant (l.foldl f acc).1 := by
  induction l generalizing acc with
  | nil => exact h0
  | cons x xs ih => exact ih (f acc x) (h acc x h0)

theorem DeleteAllEntriesImplF_vacant (s : Storage) (l : Bool)
    (f : Entry → Bool × List Message) (h : Vacant s) :
    Vacant (s.DeleteAllEntriesImplF l f).1 :=
  foldl_vacant _ (DeleteAllEntriesStep_vacant l f) _ (s, []) h

theorem DeleteAllEntriesImpl_vacant (s : Storage) (l : Bool) (h : Vacant s) :
    Vacant (s.DeleteAllEntriesImpl l) := DeleteAllEntriesImplF_vacant s l _ h

theorem DeleteAllEntries_vacant (s : Storage) (h : Vacant s) : Vacant s.DeleteAllEntries := by
  unfold DeleteAllEntries
  split
  · exact h
  · simp only
    split
    · exact DeleteAllEntriesImpl_vacant s true h
    · simpa using DeleteAllEntriesImpl_vacant s true h

theorem Vacant.branch {c : Prop} [Decidable c] {a b : Storage} (ha : Vacant a) (hb : Vacant b) :
    Vacant (if c then a else b) := by
  split
  · exact ha
  · exact hb

theorem EntryAssignCommon_vacant (s : Storage) (msg : Message) (conn : INetworkConnection)
    (p : Nat) (b : Bool) (h : Vacant s) (hm : msg.value.isSome = true) :
    OptAll Vacant (s.EntryAssignCommon msg conn p b) := by
  obtain ⟨v, hv⟩ := Option.isSome_iff_exists.mp hm
  unfold EntryAssignCommon
  simp only [optAll_ite, optAll_some, optAll_none, vacant_QueueOutgoing, vacant_Notify,
    implies_true, and_true, true_and]
  refine ⟨fun _ => ⟨fun _ _ => h, fun _ => h⟩, fun _ => ⟨fun _ => h, fun _ _ => ?_⟩⟩
  have h2 : ∀ (t : Storage) (e : Entry), Vacant t → e.value = msg.value →
      Vacant (t.store p e) := by
    intro t e ht he
    refine Vacant.stored ht _ _ ?_
    intro hn
    rw [he, hv] at hn
    cases hn
  constructor <;> intro _ <;> refine h2 _ _ ?_ rfl
  all_goals refine Vacant.branch ?_ ?_
  all_goals refine Vacant.branch ?_ h
  all_goals refine Vacant.stored ?_ _ _ ?_
  all_goals first | exact Vacant.branch h h | skip
  all_goals
    intro hn
    simp only [ite_deref, set_persistent_dirty_deref, ite_self] at hn ⊢
    exact h p hn


theorem GetOrNew_deref (s : Storage) (n : Bytes) (q : Nat) :
    (s.GetOrNew n).1.deref q =
      if s.find n = none ∧ q = s.m_localmap.length then
        { name := n, local_id := s.m_localmap.length } else s.deref q := by
  unfold GetOrNew
  cases hf : s.find n with
  | some p => simp
  | none =>
    simp only [deref, true_and]
    by_cases hq : q < s.m_localmap.length
    · rw [List.getElem?_append_left hq, if_neg (Nat.ne_of_lt hq)]
    · rw [List.getElem?_append_right (Nat.le_of_not_lt hq)]
      by_cases he : q = s.m_localmap.length
      · subst he
        simp
      · have : 1 ≤ q - s.m_localmap.length := by omega
        rw [if_neg he, List.getElem?_eq_none (Nat.le_of_not_lt hq),
          List.getElem?_eq_none (by simpa using this)]

theorem GetOrNew_vacant (s : Storage) (n : Bytes) (h : Vacant s) : Vacant (s.GetOrNew n).1 := by
  intro q
  rw [GetOrNew_deref]
  split
  · exact fun _ => rfl
  · exact h q

theorem ProcessIncomingEntryUpdate_vacant (s : Storage) (msg : Message)
    (conn : INetworkConnection) (h : Vacant s) (hm : msg.value.isSome = true) :
    Vacant (s.ProcessIncomingEntryUpdate msg conn) := by
  obtain ⟨v, hv⟩ := Option.isSome_iff_exists.mp hm
  unfold ProcessIncomingEntryUpdate
  split
  · exact h
  · rename_i p _
    simp only
    split
    · exact h
    · have h1 : ∀ e : Entry, e.value = msg.value → Vacant (s.store p e) := by
        intro e he
        refine Vacant.stored h _ _ ?_
        intro hn
        rw [he, hv] at hn
        cases hn
      refine Vacant.branch ?_ ?_ <;> simp only [vacant_QueueOutgoing, vacant_Notify] <;>
        refine Vacant.branch ?_ ?_ <;>
        exact h1 _ rfl

theorem ProcessIncomingFlagsUpdate_vacant (s : Storage) (msg : Message)
    (conn : INetworkConnection) (h : Vacant s) :
    Vacant (s.ProcessIncomingFlagsUpdate msg conn) := by
  unfold ProcessIncomingFlagsUpdate
  split
  · exact h
  · simp only
    exact Vacant.branch (by simpa using SetEntryFlagsImpl_vacant _ _ _ _ h)
      (SetEntryFlagsImpl_vacant _ _ _ _ h)

theorem ProcessIncomingEntryDelete_vacant (s : Storage) (msg : Message)
    (conn : INetworkConnection) (h : Vacant s) :
    Vacant (s.ProcessIncomingEntryDelete msg conn) := by
  unfold ProcessIncomingEntryDelete
  split
  · exact h
  · simp only
    exact Vacant.branch (by simpa using DeleteEntryImpl_vacant _ _ _ h)
      (DeleteEntryImpl_vacant _ _ _ h)

theorem ProcessIncomingClearEntries_vacant (s : Storage) (msg : Message)
    (conn : INetworkConnection) (h : Vacant s) :
    Vacant (s.ProcessIncomingClearEntries msg conn) := by
  unfold ProcessIncomingClearEntries
  simp only
  exact Vacant.branch (by simpa using DeleteAllEntriesImpl_vacant _ _ h)
    (DeleteAllEntriesImpl_vacant _ _ h)

theorem ProcessIncomingExecuteRpc_vacant (s : Storage) (msg : Message)
    (c : Option INetworkConnection) (h : Vacant s) :
    Vacant (s.ProcessIncomingExecuteRpc msg c) := by
  unfold ProcessIncomingExecuteRpc
  repeat' split
  all_goals exact h

theorem ProcessIncomingRpcResponse_vacant (s : Storage) (msg : Message) (h : Vacant s) :
    Vacant (s.ProcessIncomingRpcResponse msg) := by
  unfold ProcessIncomingRpcResponse insertRpcResult
  repeat' split
  all_goals exact h


theorem Vacant.restore {s : Storage} (h : Vacant s) (p : Nat) (e1 e2 : Entry)
    (m : List (Option Nat)) (he : vacantOk e2) :
    Vacant (((s.store p e1).set_idmap m).store p e2) := by
  intro q
  simp only [deref_store, set_idmap_deref, set_idmap_m_localmap, store_length]
  split
  · exact he
  · exact h q

theorem Vacant.of_valued {s : Storage} (h : Vacant s) (p : Nat) (e1 : Entry)
    (m : List (Option Nat))
    (hv : (((s.store p e1).set_idmap m).deref p).value ≠ none) :
    Vacant ((s.store p e1).set_idmap m) := by
  intro q
  by_cases hq : q = p
  · subst hq
    exact fun hn => absurd hn hv
  · simp only [deref_store, set_idmap_deref, hq, false_and, if_false]
    exact h q

theorem ProcessIncomingEntryAssign_vacant (s : Storage) (msg : Message)
    (conn : INetworkConnection) (h : Vacant s) (hm : msg.value.isSome = true) :
    OptAll Vacant (s.ProcessIncomingEntryAssign msg conn) := by
  obtain ⟨v, hv⟩ := Option.isSome_iff_exists.mp hm
  unfold ProcessIncomingEntryAssign
  have hg := GetOrNew_vacant s msg.str h
  simp only
  by_cases hs : s.m_server = true
  · rw [if_pos hs]
    by_cases hid : msg.id = 0xffff
    · rw [if_pos hid]
      generalize s.GetOrNew msg.str = r at hg ⊢
      split
      · simpa using hg
      · simp only [optAll_some]
        refine SetEntryValueImpl_vacant _ _ _ _ (Vacant.stored hg _ _ ?_)
        exact hg r.2
    · rw [if_neg hid]
      split
      · simpa using h
      · exact EntryAssignCommon_vacant _ _ _ _ _ h hm
  · rw [if_neg hs]
    by_cases hid : msg.id = 0xffff
    · rw [if_pos hid]
      simpa using h
    · rw [if_neg hid]
      have hgrow : Vacant (if msg.id ≥ s.m_idmap.length then s.growIdmap (msg.id + 1)
          else s) := Vacant.branch h h
      generalize (if msg.id ≥ s.m_idmap.length then s.growIdmap (msg.id + 1) else s) = s1
        at hgrow ⊢
      split
      · exact EntryAssignCommon_vacant _ _ _ _ _ hgrow hm
      · -- create local
        have hg1 := GetOrNew_vacant s1 msg.str hgrow
        generalize s1.GetOrNew msg.str = r at hg1 ⊢
        have hA := fun e2 => Vacant.restore hg1 r.2 { r.1.deref r.2 with id := msg.id } e2
          ((r.1.store r.2 { r.1.deref r.2 with id := msg.id }).m_idmap.set msg.id (some r.2))
        have hB := Vacant.of_valued hg1 r.2 { r.1.deref r.2 with id := msg.id }
          ((r.1.store r.2 { r.1.deref r.2 with id := msg.id }).m_idmap.set msg.id (some r.2))
        generalize ((r.1.store r.2 { r.1.deref r.2 with id := msg.id }).set_idmap
              ((r.1.store r.2 { r.1.deref r.2 with id := msg.id }).m_idmap.set
                msg.id (some r.2))) = s2 at hA hB ⊢
        split
        · simp only [optAll_some, vacant_Notify]
          refine hA _ ?_
          intro hn
          simp [hv] at hn
        · rename_i w hw
          have h2 : Vacant s2 := hB (by rw [hw]; exact Option.some_ne_none w)
          split
          · split
            · exact optAll_none _
            · exact EntryAssignCommon_vacant _ _ _ _ _ (by simpa using h2) hm
          · exact EntryAssignCommon_vacant _ _ _ _ _ h2 hm


@[simp] theorem vacant_growIdmap (s : Storage) (n : Nat) :
    Vacant (s.growIdmap n) ↔ Vacant s := Iff.rfl

theorem Vacant.restored {s : Storage} (h : Vacant s) (p : Nat) (e1 e2 : Entry)
    (he : vacantOk e2) : Vacant ((s.store p e1).store p e2) := by
  rw [store_store]
  exact Vacant.stored h p e2 he

theorem Vacant.of_value {s : Storage} (h : Vacant s) (p : Nat) (e1 : Entry)
    (hv : ((s.store p e1).deref p).value ≠ none) : Vacant (s.store p e1) := by
  intro q
  by_cases hq : q = p
  · subst hq
    exact fun hn => absurd hn hv
  · simp only [deref_store, hq, false_and, if_false]
    exact h q

theorem ApplyAssignStep_vacant (conn : INetworkConnection) (acc : Storage × List Message)
    (msg : Message) (h : Vacant acc.1) (hm : msg.carriesValue) :
    Vacant (ApplyAssignStep conn acc msg).1 := by
  unfold ApplyAssignStep
  split
  · exact h
  · rename_i ht
    obtain ⟨v, hv⟩ := Option.isSome_iff_exists.mp (hm (Or.inl (not_not.mp ht)))
    split
    · exact h
    · have hg := GetOrNew_vacant acc.1 msg.str h
      generalize acc.1.GetOrNew msg.str = r at hg ⊢
      simp only [vacant_set_idmap]
      have hA := fun e2 => Vacant.restored hg r.2
        { r.1.deref r.2 with seq_num := ⟨msg.seq_num_uid⟩, id := msg.id } e2
      have hB := Vacant.of_value hg r.2
        { r.1.deref r.2 with seq_num := ⟨msg.seq_num_uid⟩, id := msg.id }
      generalize r.1.store r.2
        { r.1.deref r.2 with seq_num := ⟨msg.seq_num_uid⟩, id := msg.id } = s2 at hA hB ⊢
      refine Vacant.branch ((vacant_growIdmap _ _).mpr ?_) ?_
      all_goals
        split
        · simp only [vacant_Notify]
          refine hA _ ?_
          intro hn
          simp [hv] at hn
        · rename_i w hw
          have h2 : Vacant s2 := hB (by rw [hw]; exact Option.some_ne_none w)
          split
          · exact Vacant.stored h2 _ _ (h2 r.2)
          · simp only [vacant_Notify]
            have h3 : Vacant (s2.store r.2 { s2.deref r.2 with value := msg.value }) := by
              refine Vacant.stored h2 _ _ ?_
              intro hn
              simp [hv] at hn
            exact Vacant.branch (Vacant.stored h3 _ _ (h3 r.2)) h3


theorem foldl_store_vacant (l : List Nat) (s : Storage) (h : Vacant s) :
    Vacant (l.foldl (fun s p => s.store p { s.deref p with id := 0xffff }) s) := by
  induction l generalizing s with
  | nil => exact h
  | cons p ps ih => exact ih _ (Vacant.stored h _ _ (fun _ => rfl))

theorem foldl_queue_vacant (l : List Message) (s : Storage) (h : Vacant s) :
    Vacant (l.foldl (fun s m => s.QueueOutgoing m none none) s) := by
  induction l generalizing s with
  | nil => exact h
  | cons p ps ih => exact ih _ h

theorem foldl_assign_vacant (conn : INetworkConnection) (l : List Message)
    (hl : ∀ m ∈ l, m.carriesValue) (acc : Storage × List Message) (h : Vacant acc.1) :
    Vacant (l.foldl (ApplyAssignStep conn) acc).1 := by
  induction l generalizing acc with
  | nil => exact h
  | cons m ms ih =>
    exact ih (fun x hx => hl x (List.mem_cons_of_mem _ hx)) _
      (ApplyAssignStep_vacant conn acc m h (hl m (List.mem_cons_self _ _)))

theorem ApplyInitialAssignments_vacant (s : Storage) (conn : INetworkConnection)
    (msgs : List Message) (h : Vacant s) (hm : ∀ m ∈ msgs, m.carriesValue) :
    OptAll (fun r => Vacant r.1) (s.ApplyInitialAssignments conn msgs) := by
  unfold ApplyInitialAssignments
  have h3 := DeleteAllEntriesImplF_vacant _ false unassignedShouldDelete
    (foldl_assign_vacant conn msgs hm (Storage.set_idmap _ [], [])
      ((vacant_set_idmap _ _).mpr (foldl_store_vacant (s.m_entries.map Prod.snd) s h)))
  simp only [optAll_ite, optAll_some, optAll_none, implies_true, and_true]
  refine ⟨fun _ => h, fun _ => ?_⟩
  exact ⟨fun _ => h3, fun _ => ⟨trivial, fun _ => foldl_queue_vacant _ _ h3⟩⟩

theorem CreateRpc_vacant (s : Storage) (local_id : Nat) (d : Bytes) (rpc_uid time : Nat)
    (h : Vacant s) : Vacant (s.CreateRpc local_id d rpc_uid time) := by
  unfold CreateRpc
  split
  · exact h
  · rename_i hlt
    have hlt2 : local_id < s.m_localmap.length := Nat.lt_of_not_le hlt
    simp only
    have h1 : Vacant (s.store local_id { s.deref local_id with
        value := some (Value.MakeRpc d time), rpc_uid := rpc_uid }) :=
      Vacant.stored h _ _ (fun hn => by simp at hn)
    have hv : ((s.store local_id { s.deref local_id with
        value := some (Value.MakeRpc d time), rpc_uid := rpc_uid }).deref local_id).value
        ≠ none := by
      rw [deref_store_self _ _ _ hlt2]
      simp
    generalize s.store local_id { s.deref local_id with
        value := some (Value.MakeRpc d time), rpc_uid := rpc_uid } = s1 at h1 hv ⊢
    split
    · exact h1
    · have h2 : Vacant (if (s1.deref local_id).id = 0xffff then
            (s1.store local_id { s1.deref local_id with id := s1.m_idmap.length }).set_idmap
              (s1.m_idmap ++ [some local_id])
          else s1) := by
        refine Vacant.branch ?_ h1
        rw [vacant_set_idmap]
        exact Vacant.stored h1 _ _ (fun hn => absurd hn hv)
      generalize (if (s1.deref local_id).id = 0xffff then
            (s1.store local_id { s1.deref local_id with id := s1.m_idmap.length }).set_idmap
              (s1.m_idmap ++ [some local_id])
          else s1) = s2 at h2 ⊢
      split
      · exact h2
      · have h3 := Vacant.stored h2 local_id
          { s2.deref local_id with seq_num := (s2.deref local_id).seq_num.inc } (h2 local_id)
        split
        · simpa using h3
        · simpa using h3

theorem CallRpc_vacant (s : Storage) (local_id : Nat) (params : Bytes) (h : Vacant s) :
    OptAll (fun r => Vacant r.1) (s.CallRpc local_id params) := by
  unfold CallRpc
  split
  · simpa using h
  · dsimp only
    split
    · simpa using h
    · have h1 := fun n => Vacant.stored h local_id
        { s.deref local_id with rpc_call_uid := n } (h local_id)
      simp only [optAll_ite, optAll_some, optAll_none, implies_true, and_true,
        vacant_rpcCall, vacant_QueueOutgoing]
      exact ⟨fun _ => h, fun _ => ⟨fun _ => h1 _, fun _ => ⟨trivial, fun _ => h1 _⟩⟩⟩

theorem GetEntry_vacant (s : Storage) (name : Bytes) (h : Vacant s) :
    Vacant (s.GetEntry name).1 := by
  unfold GetEntry
  split
  · exact h
  · exact GetOrNew_vacant s name h

theorem SetEntryValue_vacant (s : Storage) (name : Bytes) (v : Option Value) (h : Vacant s) :
    Vacant (s.SetEntryValue name v).1 := by
  unfold SetEntryValue
  have hg := GetOrNew_vacant s name h
  generalize s.GetOrNew name = r at hg ⊢
  repeat' first | split | dsimp only
  all_goals first | exact h | exact hg | exact SetEntryValueImpl_vacant _ _ _ _ hg

theorem SetEntryValueId_vacant (s : Storage) (p : Nat) (v : Option Value) (h : Vacant s) :
    Vacant (s.SetEntryValueId p v).1 := by
  unfold SetEntryValueId
  repeat' split
  all_goals first | exact h | exact SetEntryValueImpl_vacant _ _ _ _ h

theorem SetEntryTypeValue_vacant (s : Storage) (name : Bytes) (v : Option Value)
    (h : Vacant s) : Vacant (s.SetEntryTypeValue name v) := by
  unfold SetEntryTypeValue
  have hg := GetOrNew_vacant s name h
  generalize s.GetOrNew name = r at hg ⊢
  repeat' first | split | dsimp only
  all_goals first | exact h | exact SetEntryValueImpl_vacant _ _ _ _ hg

theorem SetEntryTypeValueId_vacant (s : Storage) (p : Nat) (v : Option Value)
    (h : Vacant s) : Vacant (s.SetEntryTypeValueId p v) := by
  unfold SetEntryTypeValueId
  repeat' split
  all_goals first | exact h | exact SetEntryValueImpl_vacant _ _ _ _ h

theorem SetDefaultEntryValue_vacant (s : Storage) (name : Bytes) (v : Option Value)
    (h : Vacant s) : Vacant (s.SetDefaultEntryValue name v).1 := by
  unfold SetDefaultEntryValue
  have hg := GetOrNew_vacant s name h
  generalize s.GetOrNew name = r at hg ⊢
  repeat' first | split | dsimp only
  all_goals first | exact h | exact hg | exact SetEntryValueImpl_vacant _ _ _ _ hg

theorem SetDefaultEntryValueId_vacant (s : Storage) (p : Nat) (v : Option Value)
    (h : Vacant s) : Vacant (s.SetDefaultEntryValueId p v).1 := by
  unfold SetDefaultEntryValueId
  repeat' split
  all_goals first | exact h | exact SetEntryValueImpl_vacant _ _ _ _ h

theorem SetEntryFlags_vacant (s : Storage) (name : Bytes) (f : Nat) (h : Vacant s) :
    Vacant (s.SetEntryFlags name f) := by
  unfold SetEntryFlags
  repeat' split
  all_goals first | exact h | exact SetEntryFlagsImpl_vacant _ _ _ _ h

theorem SetEntryFlagsId_vacant (s : Storage) (p f : Nat) (h : Vacant s) :
    Vacant (s.SetEntryFlagsId p f) := by
  unfold SetEntryFlagsId
  repeat' split
  all_goals first | exact h | exact SetEntryFlagsImpl_vacant _ _ _ _ h

theorem DeleteEntry_vacant (s : Storage) (name : Bytes) (h : Vacant s) :
    Vacant (s.DeleteEntry name) := by
  unfold DeleteEntry
  repeat' split
  all_goals first | exact h | exact DeleteEntryImpl_vacant _ _ _ h

theorem DeleteEntryId_vacant (s : Storage) (p : Nat) (h : Vacant s) :
    Vacant (s.DeleteEntryId p) := by
  unfold DeleteEntryId
  repeat' split
  all_goals first | exact h | exact DeleteEntryImpl_vacant _ _ _ h

theorem ProcessIncoming_vacant (s : Storage) (msg : Message) (conn : INetworkConnection)
    (cw : Option INetworkConnection) (h : Vacant s) (hm : msg.carriesValue) :
    OptAll Vacant (s.ProcessIncoming msg conn cw) := by
  unfold ProcessIncoming
  split
  all_goals try (simp only [optAll_some]; exact h)
  · rename_i ht
    exact ProcessIncomingEntryAssign_vacant s msg conn h (hm (Or.inl ht))
  · rename_i ht
    simpa using ProcessIncomingEntryUpdate_vacant s msg conn h (hm (Or.inr ht))
  · simpa using ProcessIncomingFlagsUpdate_vacant s msg conn h
  · simpa using ProcessIncomingEntryDelete_vacant s msg conn h
  · simpa using ProcessIncomingClearEntries_vacant s msg conn h
  · simpa using ProcessIncomingExecuteRpc_vacant s msg cw h
  · simpa using ProcessIncomingRpcResponse_vacant s msg h

theorem step_vacant (s : Storage) (op : Op) (h : Vacant s) (hop : op.carriesValues) :
    OptAll Vacant (s.step op) := by
  cases op <;> simp only [step, optAll_some]
  case SetDispatcher b => exact h
  case ClearDispatcher => exact h
  case GetEntry n => exact GetEntry_vacant s n h
  case SetEntryValue n v => exact SetEntryValue_vacant s n v h
  case SetEntryValueId n v => exact SetEntryValueId_vacant s n v h
  case SetEntryTypeValue n v => exact SetEntryTypeValue_vacant s n v h
  case SetEntryTypeValueId n v => exact SetEntryTypeValueId_vacant s n v h
  case SetDefaultEntryValue n v => exact SetDefaultEntryValue_vacant s n v h
  case SetDefaultEntryValueId n v => exact SetDefaultEntryValueId_vacant s n v h
  case SetEntryFlags n v => exact SetEntryFlags_vacant s n v h
  case SetEntryFlagsId n v => exact SetEntryFlagsId_vacant s n v h
  case DeleteEntry n => exact DeleteEntry_vacant s n h
  case DeleteEntryId n => exact DeleteEntryId_vacant s n h
  case DeleteAllEntries => exact DeleteAllEntries_vacant s h
  case ProcessIncoming m c cw => exact ProcessIncoming_vacant s m c cw h hop
  case ApplyInitialAssignments c ms =>
    intro t ht
    cases hr : s.ApplyInitialAssignments c ms with
    | none => rw [hr] at ht; cases ht
    | some r =>
      rw [hr] at ht
      cases ht
      exact ApplyInitialAssignments_vacant s c ms h hop r hr
  case CreateRpc l d u t => exact CreateRpc_vacant s l d u t h
  case CallRpc l ps =>
    intro t ht
    cases hr : s.CallRpc l ps with
    | none => rw [hr] at ht; cases ht
    | some r =>
      rw [hr] at ht
      cases ht
      exact CallRpc_vacant s l ps h r hr
  case SavePersistent b =>
    unfold GetPersistentEntries
    split
    · exact h
    · exact h
  case SavePersistentFile fs b =>
    rw [SavePersistentFileState_eq]
    exact h

theorem run_vacant (ops : List Op) (s t : Storage) (h : Vacant s)
    (hops : ∀ op ∈ ops, op.carriesValues) (hr : s.run ops = some t) : Vacant t := by
  induction ops generalizing s with
  | nil =>
    simp only [run, Option.some.injEq] at hr
    exact hr ▸ h
  | cons op ops ih =>
    simp only [run] at hr
    cases hs : s.step op with
    | none => rw [hs] at hr; cases hr
    | some u =>
      rw [hs] at hr
      exact ih u (step_vacant s op h (hops op (List.mem_cons_self _ _)) u hs)
        (fun x hx => hops x (List.mem_cons_of_mem _ hx)) hr

theorem Vacant_init : Vacant {} := by
  intro q
  exact fun _ => rfl

/-! ### Incoming messages, the delete-all loop and the shape of the table -/

theorem idEntry_eq_none (s : Storage) (id : Nat)
    (h : s.m_idmap.length ≤ id ∨ s.m_idmap[id]? = some none) : s.idEntry id = none := by
  unfold idEntry
  rcases h with h | h
  · rw [List.getElem?_eq_none h]
    rfl
  · rw [h]
    rfl

theorem SequenceNumber.le_self (a : SequenceNumber) : a.le a = true := by
  simp [SequenceNumber.le]

theorem SequenceNumber.not_le_of_lt {a b : SequenceNumber} (h : b.lt a = true) :
    a.le b = false := by
  simp only [SequenceNumber.lt, SequenceNumber.le, Bool.and_eq_true, Bool.or_eq_true,
    decide_eq_true_eq, Bool.or_eq_false_iff, decide_eq_false_iff_not, Bool.and_eq_false_imp,
    ne_eq] at h ⊢
  omega


theorem SequenceNumber.lt_self (a : SequenceNumber) : a.lt a = false := by
  simp [SequenceNumber.lt]

theorem DeleteAllEntriesStep_frame (l : Bool) (f : Entry → Bool × List Message)
    (acc : Storage × List Message) (p : Nat) :
    (DeleteAllEntriesStep l f acc p).1.queued = acc.1.queued ∧
    (DeleteAllEntriesStep l f acc p).1.m_server = acc.1.m_server ∧
    (DeleteAllEntriesStep l f acc p).1.m_dispatcher = acc.1.m_dispatcher ∧
    (DeleteAllEntriesStep l f acc p).1.m_persistent_dirty = acc.1.m_persistent_dirty ∧
    (DeleteAllEntriesStep l f acc p).1.rpc_calls = acc.1.rpc_calls ∧
    (DeleteAllEntriesStep l f acc p).1.m_rpc_results = acc.1.m_rpc_results := by
  unfold DeleteAllEntriesStep
  simp only
  split
  · split
    · simp
    · simp
  · simp

theorem DeleteAllEntries_fold_frame (l : Bool) (f : Entry → Bool × List Message)
    (ps : List Nat) (acc : Storage × List Message) :
    (ps.foldl (DeleteAllEntriesStep l f) acc).1.queued = acc.1.queued ∧
    (ps.foldl (DeleteAllEntriesStep l f) acc).1.m_server = acc.1.m_server ∧
    (ps.foldl (DeleteAllEntriesStep l f) acc).1.m_dispatcher = acc.1.m_dispatcher ∧
    (ps.foldl (DeleteAllEntriesStep l f) acc).1.m_persistent_dirty = acc.1.m_persistent_dirty ∧
    (ps.foldl (DeleteAllEntriesStep l f) acc).1.rpc_calls = acc.1.rpc_calls ∧
    (ps.foldl (DeleteAllEntriesStep l f) acc).1.m_rpc_results = acc.1.m_rpc_results := by
  induction ps generalizing acc with
  | nil => simp
  | cons p ps ih =>
    have h := DeleteAllEntriesStep_frame l f acc p
    have h2 := ih (DeleteAllEntriesStep l f acc p)
    simp only [List.foldl_cons]
    exact ⟨h2.1.trans h.1, h2.2.1.trans h.2.1, h2.2.2.1.trans h.2.2.1,
      h2.2.2.2.1.trans h.2.2.2.1, h2.2.2.2.2.1.trans h.2.2.2.2.1,
      h2.2.2.2.2.2.trans h.2.2.2.2.2⟩

theorem DeleteAllEntriesImplF_frame (s : Storage) (l : Bool)
    (f : Entry → Bool × List Message) :
    (s.DeleteAllEntriesImplF l f).1.queued = s.queued ∧
    (s.DeleteAllEntriesImplF l f).1.m_server = s.m_server ∧
    (s.DeleteAllEntriesImplF l f).1.m_dispatcher = s.m_dispatcher ∧
    (s.DeleteAllEntriesImplF l f).1.m_persistent_dirty = s.m_persistent_dirty ∧
    (s.DeleteAllEntriesImplF l f).1.rpc_calls = s.rpc_calls ∧
    (s.DeleteAllEntriesImplF l f).1.m_rpc_results = s.m_rpc_results :=
  DeleteAllEntries_fold_frame l f _ (s, [])

@[simp] theorem SetEntryFlagsImpl_remote_queued (s : Storage) (p f : Nat) :
    (s.SetEntryFlagsImpl p f false).queued = s.queued := by
  unfold SetEntryFlagsImpl
  simp

@[simp] theorem SetEntryFlagsImpl_m_server (s : Storage) (p f : Nat) (l : Bool) :
    (s.SetEntryFlagsImpl p f l).m_server = s.m_server := by
  unfold SetEntryFlagsImpl
  simp

@[simp] theorem SetEntryFlagsImpl_m_dispatcher (s : Storage) (p f : Nat) (l : Bool) :
    (s.SetEntryFlagsImpl p f l).m_dispatcher = s.m_dispatcher := by
  unfold SetEntryFlagsImpl
  simp

@[simp] theorem DeleteEntryImpl_remote_queued (s : Storage) (p : Nat) :
    (s.DeleteEntryImpl p false).queued = s.queued := by
  unfold DeleteEntryImpl
  cases hv : (s.deref p).value <;> simp [hv]

@[simp] theorem DeleteEntryImpl_m_server (s : Storage) (p : Nat) (l : Bool) :
    (s.DeleteEntryImpl p l).m_server = s.m_server := by
  unfold DeleteEntryImpl
  cases hv : (s.deref p).value <;> simp [hv]

@[simp] theorem DeleteEntryImpl_m_dispatcher (s : Storage) (p : Nat) (l : Bool) :
    (s.DeleteEntryImpl p l).m_dispatcher = s.m_dispatcher := by
  unfold DeleteEntryImpl
  cases hv : (s.deref p).value <;> simp [hv]


theorem EntryAssignCommon_queued (s : Storage) (msg : Message) (conn : INetworkConnection)
    (p : Nat) (b : Bool) :
    OptAll (fun t => t.queued = s.queued ∨
        (b = true ∧ ∃ m, m.type = .kEntryUpdate ∧ t.queued = s.queued ++ [⟨m, none, none⟩]) ∨
        (s.m_server = true ∧ s.m_dispatcher = true ∧ ∃ name flags, t.queued = s.queued ++
          [⟨Message.EntryAssign name msg.id msg.seq_num_uid msg.value flags, none,
            some conn⟩]))
      (s.EntryAssignCommon msg conn p b) := by
  unfold EntryAssignCommon
  simp only [optAll_ite, optAll_some, optAll_none, implies_true, and_true, true_and]
  refine ⟨fun _ => ⟨fun hb _ => Or.inr (Or.inl ⟨hb, _, rfl, rfl⟩), fun _ => Or.inl trivial⟩,
    fun _ => ⟨fun _ => Or.inl trivial, fun _ _ => ⟨?_, ?_⟩⟩⟩
  · intro h
    refine Or.inr (Or.inr ?_)
    simp only [Bool.and_eq_true] at h
    simp only [Notify_m_server, store_m_server, ite_m_server, set_persistent_dirty_m_server,
      ite_self, Notify_m_dispatcher, store_m_dispatcher, ite_m_dispatcher,
      set_persistent_dirty_m_dispatcher] at h
    refine ⟨h.1, h.2, ?_⟩
    simp only [QueueOutgoing_queued, Notify_queued, store_queued, ite_queued,
      set_persistent_dirty_queued, ite_self]
    exact ⟨_, _, rfl⟩
  · intro _
    left
    simp

@[simp] theorem GetOrNew_m_idmap (s : Storage) (n : Bytes) :
    (s.GetOrNew n).1.m_idmap = s.m_idmap := by
  unfold GetOrNew
  split <;> rfl

@[simp] theorem GetOrNew_m_rpc_results (s : Storage) (n : Bytes) :
    (s.GetOrNew n).1.m_rpc_results = s.m_rpc_results := by
  unfold GetOrNew
  split <;> rfl

@[simp] theorem GetOrNew_m_rpc_blocking_calls (s : Storage) (n : Bytes) :
    (s.GetOrNew n).1.m_rpc_blocking_calls = s.m_rpc_blocking_calls := by
  unfold GetOrNew
  split <;> rfl

@[simp] theorem GetOrNew_m_persistent_dirty (s : Storage) (n : Bytes) :
    (s.GetOrNew n).1.m_persistent_dirty = s.m_persistent_dirty := by
  unfold GetOrNew
  split <;> rfl

@[simp] theorem GetOrNew_m_terminating (s : Storage) (n : Bytes) :
    (s.GetOrNew n).1.m_terminating = s.m_terminating := by
  unfold GetOrNew
  split <;> rfl

@[simp] theorem GetOrNew_m_dispatcher (s : Storage) (n : Bytes) :
    (s.GetOrNew n).1.m_dispatcher = s.m_dispatcher := by
  unfold GetOrNew
  split <;> rfl

@[simp] theorem GetOrNew_m_server (s : Storage) (n : Bytes) :
    (s.GetOrNew n).1.m_server = s.m_server := by
  unfold GetOrNew
  split <;> rfl

@[simp] theorem GetOrNew_queued (s : Storage) (n : Bytes) :
    (s.GetOrNew n).1.queued = s.queued := by
  unfold GetOrNew
  split <;> rfl

@[simp] theorem GetOrNew_notified (s : Storage) (n : Bytes) :
    (s.GetOrNew n).1.notified = s.notified := by
  unfold GetOrNew
  split <;> rfl

@[simp] theorem GetOrNew_rpc_calls (s : Storage) (n : Bytes) :
    (s.GetOrNew n).1.rpc_calls = s.rpc_calls := by
  unfold GetOrNew
  split <;> rfl

theorem ProcessIncomingEntryAssign_server_queued (s : Storage) (msg : Message)
    (conn : INetworkConnection) (hsrv : s.m_server = true) (hne : msg.id ≠ 0xffff) :
    OptAll (fun t => t.queued = s.queued ∨
        ∃ name flags, t.queued = s.queued ++
          [⟨Message.EntryAssign name msg.id msg.seq_num_uid msg.value flags, none,
            some conn⟩])
      (s.ProcessIncomingEntryAssign msg conn) := by
  unfold ProcessIncomingEntryAssign
  simp only [hsrv, if_true, hne, if_false]
  split
  · simp
  · refine optAll_mono (fun t h => ?_) (EntryAssignCommon_queued s msg conn _ false)
    rcases h with h | ⟨h, _⟩ | ⟨_, _, h⟩
    · exact Or.inl h
    · cases h
    · exact Or.inr h

theorem ProcessIncomingEntryAssign_client_queued (s : Storage) (msg : Message)
    (conn : INetworkConnection) (hsrv : s.m_server = false) :
    OptAll (fun t => ∃ new, t.queued = s.queued ++ new ∧
        ∀ o ∈ new, o.only = none ∧ o.except = none ∧
          (o.msg.type = .kFlagsUpdate ∨ o.msg.type = .kEntryUpdate))
      (s.ProcessIncomingEntryAssign msg conn) := by
  have hc : ∀ (u : Storage) (p : Nat) (b : Bool), u.m_server = false →
      OptAll (fun t => ∃ new, t.queued = u.queued ++ new ∧
        ∀ o ∈ new, o.only = none ∧ o.except = none ∧
          (o.msg.type = .kFlagsUpdate ∨ o.msg.type = .kEntryUpdate))
      (u.EntryAssignCommon msg conn p b) := by
    intro u p b hu
    refine optAll_mono (fun t h => ?_) (EntryAssignCommon_queued u msg conn p b)
    rcases h with h | ⟨_, m, hm, h⟩ | ⟨h, _⟩
    · exact ⟨[], by simpa using h, by simp⟩
    · refine ⟨_, h, ?_⟩
      intro o ho
      simp only [List.mem_singleton] at ho
      subst ho
      exact ⟨rfl, rfl, Or.inr hm⟩
    · rw [hu] at h
      cases h
  unfold ProcessIncomingEntryAssign
  simp only [hsrv, Bool.false_eq_true, if_false]
  by_cases hid : msg.id = 0xffff
  · rw [if_pos hid]
    exact (optAll_some _ _).mpr ⟨[], by simp, by simp⟩
  · rw [if_neg hid]
    have h1 : (if msg.id ≥ s.m_idmap.length then s.growIdmap (msg.id + 1) else s).queued =
        s.queued ∧
        (if msg.id ≥ s.m_idmap.length then s.growIdmap (msg.id + 1) else s).m_server =
          false := by
      constructor
      · split <;> rfl
      · split
        · exact hsrv
        · exact hsrv
    generalize (if msg.id ≥ s.m_idmap.length then s.growIdmap (msg.id + 1) else s) = s1
      at h1 ⊢
    rw [← h1.1]
    split
    · exact hc _ _ false h1.2
    · have h2 : ((s1.GetOrNew msg.str).1.store (s1.GetOrNew msg.str).2
            { (s1.GetOrNew msg.str).1.deref (s1.GetOrNew msg.str).2 with
              id := msg.id }).queued = s1.queued ∧
          ((s1.GetOrNew msg.str).1.store (s1.GetOrNew msg.str).2
            { (s1.GetOrNew msg.str).1.deref (s1.GetOrNew msg.str).2 with
              id := msg.id }).m_server = false := by
        simp [h1.2]
      generalize s1.GetOrNew msg.str = r at h2 ⊢
      generalize r.1.store r.2 { r.1.deref r.2 with id := msg.id } = s2 at h2 ⊢
      rw [← h2.1]
      split
      · exact (optAll_some _ _).mpr ⟨[], by simp, by simp⟩
      · split
        · split
          · exact optAll_none _
          · refine optAll_mono (fun t h => ?_) (hc _ _ true (by simpa using h2.2))
            obtain ⟨new, h3, h4⟩ := h
            simp only [set_idmap_queued, QueueOutgoing_queued, List.append_assoc,
              List.singleton_append] at h3
            refine ⟨_, h3, ?_⟩
            intro o ho
            rcases List.mem_cons.mp ho with ho | ho
            · subst ho
              exact ⟨rfl, rfl, Or.inl rfl⟩
            · exact h4 o ho
        · refine optAll_mono (fun t h => ?_) (hc _ _ true (by simpa using h2.2))
          simpa using h

theorem ProcessIncoming_EntryUpdate (s : Storage) (msg : Message) (conn : INetworkConnection)
    (cw : Option INetworkConnection) (ht : msg.type = .kEntryUpdate) :
    s.ProcessIncoming msg conn cw = some (s.ProcessIncomingEntryUpdate msg conn) := by
  simp [ProcessIncoming, ht]

theorem ProcessIncoming_FlagsUpdate (s : Storage) (msg : Message) (conn : INetworkConnection)
    (cw : Option INetworkConnection) (ht : msg.type = .kFlagsUpdate) :
    s.ProcessIncoming msg conn cw = some (s.ProcessIncomingFlagsUpdate msg conn) := by
  simp [ProcessIncoming, ht]

theorem ProcessIncoming_EntryDelete (s : Storage) (msg : Message) (conn : INetworkConnection)
    (cw : Option INetworkConnection) (ht : msg.type = .kEntryDelete) :
    s.ProcessIncoming msg conn cw = some (s.ProcessIncomingEntryDelete msg conn) := by
  simp [ProcessIncoming, ht]

theorem ProcessIncoming_ClearEntries (s : Storage) (msg : Message) (conn : INetworkConnection)
    (cw : Option INetworkConnection) (ht : msg.type = .kClearEntries) :
    s.ProcessIncoming msg conn cw = some (s.ProcessIncomingClearEntries msg conn) := by
  simp [ProcessIncoming, ht]

theorem ProcessIncoming_EntryAssign (s : Storage) (msg : Message) (conn : INetworkConnection)
    (cw : Option INetworkConnection) (ht : msg.type = .kEntryAssign) :
    s.ProcessIncoming msg conn cw = s.ProcessIncomingEntryAssign msg conn := by
  simp [ProcessIncoming, ht]

theorem value_none_of_ge (s : Storage) (p : Nat) (h : s.m_localmap.length ≤ p) :
    (s.deref p).value = none := by
  unfold deref
  rw [List.getElem?_eq_none h]
  rfl

theorem lt_of_value_isSome {s : Storage} {p : Nat} (h : (s.deref p).value.isSome = true) :
    p < s.m_localmap.length := by
  by_contra hp
  rw [value_none_of_ge s p (Nat.le_of_not_lt hp)] at h
  cases h

theorem DeleteAllEntriesStep_deref (l : Bool) (f : Entry → Bool × List Message)
    (acc : Storage × List Message) (p q : Nat) :
    (DeleteAllEntriesStep l f acc p).1.deref q =
      if q = p ∧ deletes f (acc.1.deref p) = true then cleared (acc.1.deref p)
      else acc.1.deref q := by
  unfold DeleteAllEntriesStep deletes
  by_cases hv : (acc.1.deref p).value.isSome = true
  · have hp := lt_of_value_isSome hv
    by_cases hf : (f (acc.1.deref p)).1 = true
    · simp [hv, hf, deref_store, hp, cleared]
    · simp [hv, hf]
  · simp [hv]

theorem DeleteAllEntriesStep_notified (l : Bool) (f : Entry → Bool × List Message)
    (acc : Storage × List Message) (p : Nat) :
    (DeleteAllEntriesStep l f acc p).1.notified = acc.1.notified ++
      if deletes f (acc.1.deref p) = true then
        [⟨(acc.1.deref p).local_id, (acc.1.deref p).name, (acc.1.deref p).value,
          NT_NOTIFY_DELETE ||| (if l then NT_NOTIFY_LOCAL else 0)⟩]
      else [] := by
  unfold DeleteAllEntriesStep deletes
  by_cases hv : (acc.1.deref p).value.isSome = true
  · by_cases hf : (f (acc.1.deref p)).1 = true
    · simp [hv, hf]
    · simp [hv, hf]
  · simp [hv]

theorem DeleteAllEntriesStep_msgs (l : Bool) (f : Entry → Bool × List Message)
    (acc : Storage × List Message) (p : Nat) :
    (DeleteAllEntriesStep l f acc p).2 = acc.2 ++
      if (acc.1.deref p).value.isSome = true then (f (acc.1.deref p)).2 else [] := by
  unfold DeleteAllEntriesStep
  by_cases hv : (acc.1.deref p).value.isSome = true
  · by_cases hf : (f (acc.1.deref p)).1 = true
    · simp [hv, hf]
    · simp [hv, hf]
  · simp [hv]


theorem DeleteAllEntries_fold_deref (l : Bool) (f : Entry → Bool × List Message)
    (ps : List Nat) (acc : Storage × List Message) (q : Nat) :
    (ps.foldl (DeleteAllEntriesStep l f) acc).1.deref q =
      if q ∈ ps ∧ deletes f (acc.1.deref q) = true then cleared (acc.1.deref q)
      else acc.1.deref q := by
  induction ps generalizing acc with
  | nil => simp
  | cons p ps ih =>
    rw [List.foldl_cons, ih, DeleteAllEntriesStep_deref]
    by_cases hq : q = p
    · subst hq
      by_cases hd : deletes f (acc.1.deref q) = true
      · have hc : deletes f (cleared (acc.1.deref q)) = false := by
          simp [deletes, cleared]
        simp [hd, hc]
      · simp [hd]
    · simp [hq]

theorem DeleteAllEntries_fold_out (l : Bool) (f : Entry → Bool × List Message)
    (ps : List Nat) (hnd : ps.Nodup) (acc : Storage × List Message) :
    (ps.foldl (DeleteAllEntriesStep l f) acc).1.notified = acc.1.notified ++
      (ps.filter fun p => deletes f (acc.1.deref p)).map (fun p =>
        ⟨(acc.1.deref p).local_id, (acc.1.deref p).name, (acc.1.deref p).value,
          NT_NOTIFY_DELETE ||| (if l then NT_NOTIFY_LOCAL else 0)⟩) ∧
    (ps.foldl (DeleteAllEntriesStep l f) acc).2 = acc.2 ++
      ps.flatMap (fun p =>
        if (acc.1.deref p).value.isSome = true then (f (acc.1.deref p)).2 else []) := by
  induction ps generalizing acc with
  | nil => simp
  | cons p ps ih =>
    have hp : p ∉ ps := (List.nodup_cons.mp hnd).1
    have hsame : ∀ x ∈ ps, (DeleteAllEntriesStep l f acc p).1.deref x = acc.1.deref x := by
      intro x hx
      rw [DeleteAllEntriesStep_deref]
      have : x ≠ p := fun h => hp (h ▸ hx)
      simp [this]
    obtain ⟨h1, h2⟩ := ih (List.nodup_cons.mp hnd).2 (DeleteAllEntriesStep l f acc p)
    constructor
    · rw [List.foldl_cons, h1, DeleteAllEntriesStep_notified]
      rw [List.filter_congr (fun x hx => by rw [hsame x hx])]
      rw [List.map_congr_left (fun x hx => by rw [hsame x (List.mem_of_mem_filter hx)])]
      by_cases hd : deletes f (acc.1.deref p) = true
      · simp [hd, List.filter_cons]
      · simp [hd, List.filter_cons]
    · rw [List.foldl_cons, h2, DeleteAllEntriesStep_msgs]
      have : ps.flatMap (fun x =>
          if ((DeleteAllEntriesStep l f acc p).1.deref x).value.isSome = true then
            (f ((DeleteAllEntriesStep l f acc p).1.deref x)).2 else []) =
          ps.flatMap (fun x =>
            if (acc.1.deref x).value.isSome = true then (f (acc.1.deref x)).2 else []) := by
        simp only [List.flatMap]
        rw [List.map_congr_left (fun x hx => by rw [hsame x hx])]
      rw [this]
      simp [List.flatMap_cons]

theorem Grows.stay (s : Storage) : Grows s s := Grows.table (SameTable.same s)

theorem Grows.andGrows {s t u : Storage} (h1 : Grows s t) (h2 : Grows t u) : Grows s u :=
  Grows.next h1 h2

theorem SameTable.grows {s t : Storage} (h : SameTable s t) : Grows s t := Grows.table h

theorem GetOrNew_grows (s : Storage) (n : Bytes) : Grows s (s.GetOrNew n).1 := Grows.fresh s n

theorem ProcessIncomingEntryAssign_grows (s : Storage) (msg : Message)
    (conn : INetworkConnection) : OptAll (Grows s) (s.ProcessIncomingEntryAssign msg conn) := by
  unfold ProcessIncomingEntryAssign
  have hg := GetOrNew_grows s msg.str
  simp only
  by_cases hs : s.m_server = true
  · rw [if_pos hs]
    by_cases hid : msg.id = 0xffff
    · rw [if_pos hid]
      generalize s.GetOrNew msg.str = r at hg ⊢
      split
      · simpa using hg
      · simp only [optAll_some]
        refine hg.andGrows (SameTable.grows ?_)
        simp [SameTable, key]
    · rw [if_neg hid]
      split
      · simpa using Grows.stay s
      · exact optAll_mono (fun t h => h.grows) (EntryAssignCommon_sameTable _ _ _ _ _)
  · rw [if_neg hs]
    by_cases hid : msg.id = 0xffff
    · rw [if_pos hid]
      simpa using Grows.stay s
    · rw [if_neg hid]
      have hgrow : SameTable s (if msg.id ≥ s.m_idmap.length then s.growIdmap (msg.id + 1)
          else s) := by
        split
        · exact ⟨rfl, rfl⟩
        · exact SameTable.same s
      generalize (if msg.id ≥ s.m_idmap.length then s.growIdmap (msg.id + 1) else s) = s1
        at hgrow ⊢
      split
      · exact optAll_mono (fun t h => hgrow.grows.andGrows h.grows)
          (EntryAssignCommon_sameTable _ _ _ _ _)
      · -- create local
        have hg1 := GetOrNew_grows s1 msg.str
        generalize s1.GetOrNew msg.str = r at hg1 ⊢
        have hbase : Grows s
            ((r.1.store r.2 { r.1.deref r.2 with id := msg.id }).set_idmap
              ((r.1.store r.2 { r.1.deref r.2 with id := msg.id }).m_idmap.set
                msg.id (some r.2))) := by
          refine hgrow.grows.andGrows (hg1.andGrows (SameTable.grows ?_))
          simp [SameTable, key]
        generalize ((r.1.store r.2 { r.1.deref r.2 with id := msg.id }).set_idmap
              ((r.1.store r.2 { r.1.deref r.2 with id := msg.id }).m_idmap.set
                msg.id (some r.2))) = s2 at hbase ⊢
        split
        · simp only [optAll_some]
          refine hbase.andGrows (SameTable.grows ?_)
          simp [SameTable, key]
        · split
          · split
            · exact optAll_none _
            · refine optAll_mono (fun t h => hbase.andGrows (SameTable.grows ?_))
                (EntryAssignCommon_sameTable _ _ _ _ _)
              exact SameTable.andThen ⟨rfl, rfl⟩ h
          · exact optAll_mono (fun t h => hbase.andGrows h.grows)
              (EntryAssignCommon_sameTable _ _ _ _ _)

theorem foldl_grows {α β : Type} (f : Storage × β → α → Storage × β)
    (h : ∀ acc x, Grows acc.1 (f acc x).1) (l : List α) (acc : Storage × β) :
    Grows acc.1 (l.foldl f acc).1 := by
  induction l generalizing acc with
  | nil => exact Grows.stay _
  | cons x xs ih => exact (h acc x).andGrows (ih (f acc x))

theorem ApplyAssignStep_grows (conn : INetworkConnection) (acc : Storage × List Message)
    (msg : Message) : Grows acc.1 (ApplyAssignStep conn acc msg).1 := by
  unfold ApplyAssignStep
  split
  · exact Grows.stay _
  · split
    · exact Grows.stay _
    · have hg := GetOrNew_grows acc.1 msg.str
      simp only
      generalize acc.1.GetOrNew msg.str = r at hg ⊢
      refine hg.andGrows (SameTable.grows ?_)
      cases hv : ((r.1.store r.2 { r.1.deref r.2 with
          seq_num := ⟨msg.seq_num_uid⟩, id := msg.id }).deref r.2).value
      · simp [SameTable, key, hv]
      · simp [SameTable, key, hv, apply_ite Prod.fst]

theorem ApplyInitialAssignments_grows (s : Storage) (conn : INetworkConnection)
    (msgs : List Message) :
    OptAll (fun r => Grows s r.1) (s.ApplyInitialAssignments conn msgs) := by
  unfold ApplyInitialAssignments
  split
  · simpa using Grows.stay s
  · have h1 : SameTable s ((s.m_entries.map Prod.snd).foldl
        (fun s p => s.store p { s.deref p with id := 0xffff }) s) :=
      foldl_sameTable1 (fun s p => s.store p { s.deref p with id := 0xffff })
        (fun s p => sameTable_store _ _ _ rfl) _ _
    simp only
    generalize ((s.m_entries.map Prod.snd).foldl
        (fun s p => s.store p { s.deref p with id := 0xffff }) s) = s1 at h1 ⊢
    have h2 : Grows s (s1.set_idmap []) := h1.grows.andGrows (SameTable.grows (⟨rfl, rfl⟩ : SameTable s1 (s1.set_idmap [])))
    generalize s1.set_idmap [] = s2 at h2 ⊢
    have h3 : Grows s (msgs.foldl (ApplyAssignStep conn) (s2, [])).1 :=
      h2.andGrows (foldl_grows _ (ApplyAssignStep_grows conn) msgs (s2, []))
    generalize msgs.foldl (ApplyAssignStep conn) (s2, []) = r at h3 ⊢
    have h4 : Grows s (r.1.DeleteAllEntriesImplF false unassignedShouldDelete).1 :=
      h3.andGrows (DeleteAllEntriesImplF_sameTable _ _ _).grows
    generalize r.1.DeleteAllEntriesImplF false unassignedShouldDelete = d at h4 ⊢
    split
    · simpa using h4
    · split
      · exact optAll_none _
      · simp only [optAll_some]
        exact h4.andGrows (foldl_sameTable1 _ (fun s m => sameTable_QueueOutgoing _ _ _ _) _ _).grows

theorem GetEntry_grows (s : Storage) (n : Bytes) : Grows s (s.GetEntry n).1 := by
  unfold GetEntry
  split
  · exact Grows.stay s
  · exact GetOrNew_grows s n

theorem SetEntryValue_grows (s : Storage) (n : Bytes) (v : Option Value) :
    Grows s (s.SetEntryValue n v).1 := by
  unfold SetEntryValue
  have hg := GetOrNew_grows s n
  generalize s.GetOrNew n = r at hg ⊢
  repeat' first | split | dsimp only
  all_goals first
    | exact Grows.stay s
    | exact hg
    | exact hg.andGrows (SetEntryValueImpl_sameTable _ _ _ _).grows

theorem SetEntryValueId_grows (s : Storage) (n : Nat) (v : Option Value) :
    Grows s (s.SetEntryValueId n v).1 := by
  unfold SetEntryValueId
  repeat' first | split | dsimp only
  all_goals first
    | exact Grows.stay s
    | exact (SetEntryValueImpl_sameTable _ _ _ _).grows

theorem SetEntryTypeValue_grows (s : Storage) (n : Bytes) (v : Option Value) :
    Grows s (s.SetEntryTypeValue n v) := by
  unfold SetEntryTypeValue
  have hg := GetOrNew_grows s n
  generalize s.GetOrNew n = r at hg ⊢
  repeat' first | split | dsimp only
  all_goals first
    | exact Grows.stay s
    | exact hg.andGrows (SetEntryValueImpl_sameTable _ _ _ _).grows

theorem SetEntryTypeValueId_grows (s : Storage) (n : Nat) (v : Option Value) :
    Grows s (s.SetEntryTypeValueId n v) := by
  unfold SetEntryTypeValueId
  repeat' first | split | dsimp only
  all_goals first
    | exact Grows.stay s
    | exact (SetEntryValueImpl_sameTable _ _ _ _).grows

theorem SetDefaultEntryValue_grows (s : Storage) (n : Bytes) (v : Option Value) :
    Grows s (s.SetDefaultEntryValue n v).1 := by
  unfold SetDefaultEntryValue
  have hg := GetOrNew_grows s n
  generalize s.GetOrNew n = r at hg ⊢
  repeat' first | split | dsimp only
  all_goals first
    | exact Grows.stay s
    | exact hg
    | exact hg.andGrows (SetEntryValueImpl_sameTable _ _ _ _).grows

theorem SetDefaultEntryValueId_grows (s : Storage) (n : Nat) (v : Option Value) :
    Grows s (s.SetDefaultEntryValueId n v).1 := by
  unfold SetDefaultEntryValueId
  repeat' first | split | dsimp only
  all_goals first
    | exact Grows.stay s
    | exact (SetEntryValueImpl_sameTable _ _ _ _).grows

theorem SetEntryFlags_grows (s : Storage) (n : Bytes) (f : Nat) :
    Grows s (s.SetEntryFlags n f) := by
  unfold SetEntryFlags
  repeat' first | split | dsimp only
  all_goals first
    | exact Grows.stay s
    | exact (SetEntryFlagsImpl_sameTable _ _ _ _).grows

theorem SetEntryFlagsId_grows (s : Storage) (n : Nat) (f : Nat) :
    Grows s (s.SetEntryFlagsId n f) := by
  unfold SetEntryFlagsId
  repeat' first | split | dsimp only
  all_goals first
    | exact Grows.stay s
    | exact (SetEntryFlagsImpl_sameTable _ _ _ _).grows

theorem DeleteEntry_grows (s : Storage) (n : Bytes) : Grows s (s.DeleteEntry n) := by
  unfold DeleteEntry
  repeat' first | split | dsimp only
  all_goals first
    | exact Grows.stay s
    | exact (DeleteEntryImpl_sameTable _ _ _).grows

theorem DeleteEntryId_grows (s : Storage) (n : Nat) : Grows s (s.DeleteEntryId n) := by
  unfold DeleteEntryId
  repeat' first | split | dsimp only
  all_goals first
    | exact Grows.stay s
    | exact (DeleteEntryImpl_sameTable _ _ _).grows

theorem ProcessIncoming_grows (s : Storage) (msg : Message) (conn : INetworkConnection)
    (cw : Option INetworkConnection) : OptAll (Grows s) (s.ProcessIncoming msg conn cw) := by
  unfold ProcessIncoming
  split
  case h_7 => exact ProcessIncomingEntryAssign_grows s msg conn
  case h_8 => simpa using (ProcessIncomingEntryUpdate_sameTable s msg conn).grows
  case h_9 => simpa using (ProcessIncomingFlagsUpdate_sameTable s msg conn).grows
  case h_10 => simpa using (ProcessIncomingEntryDelete_sameTable s msg conn).grows
  case h_11 => simpa using (ProcessIncomingClearEntries_sameTable s msg conn).grows
  case h_12 => simpa using (ProcessIncomingExecuteRpc_sameTable s msg cw).grows
  case h_13 => simpa using (ProcessIncomingRpcResponse_sameTable s msg).grows
  all_goals simpa using Grows.stay s

theorem step_grows (s t : Storage) (op : Op) (h : s.step op = some t) : Grows s t := by
  cases op with
  | SetDispatcher server => cases h; exact SameTable.grows ⟨rfl, rfl⟩
  | ClearDispatcher => cases h; exact SameTable.grows ⟨rfl, rfl⟩
  | GetEntry name => cases h; exact GetEntry_grows s name
  | SetEntryValue name value => cases h; exact SetEntryValue_grows s name value
  | SetEntryValueId local_id value => cases h; exact SetEntryValueId_grows s local_id value
  | SetEntryTypeValue name value => cases h; exact SetEntryTypeValue_grows s name value
  | SetEntryTypeValueId local_id value =>
    cases h; exact SetEntryTypeValueId_grows s local_id value
  | SetDefaultEntryValue name value => cases h; exact SetDefaultEntryValue_grows s name value
  | SetDefaultEntryValueId local_id value =>
    cases h; exact SetDefaultEntryValueId_grows s local_id value
  | SetEntryFlags name flags => cases h; exact SetEntryFlags_grows s name flags
  | SetEntryFlagsId local_id flags => cases h; exact SetEntryFlagsId_grows s local_id flags
  | DeleteEntry name => cases h; exact DeleteEntry_grows s name
  | DeleteEntryId local_id => cases h; exact DeleteEntryId_grows s local_id
  | DeleteAllEntries => cases h; exact (DeleteAllEntries_sameTable s).grows
  | ProcessIncoming msg conn conn_weak => exact ProcessIncoming_grows s msg conn conn_weak t h
  | ApplyInitialAssignments conn msgs =>
    simp only [step, Option.map_eq_some'] at h
    obtain ⟨r, hr, rfl⟩ := h
    exact ApplyInitialAssignments_grows s conn msgs r hr
  | CreateRpc local_id d rpc_uid time =>
    cases h; exact (CreateRpc_sameTable s local_id d rpc_uid time).grows
  | CallRpc local_id params =>
    simp only [step, Option.map_eq_some'] at h
    obtain ⟨r, hr, rfl⟩ := h
    exact (CallRpc_sameTable s local_id params r hr).grows
  | SavePersistent periodic => cases h; exact (GetPersistentEntries_sameTable s periodic).grows
  | SavePersistentFile fs periodic =>
    cases h; exact (SavePersistentFileState_sameTable s fs periodic).grows

theorem run_grows (s t : Storage) (ops : List Op) (h : s.run ops = some t) : Grows s t := by
  induction ops generalizing s with
  | nil => cases h; exact Grows.stay _
  | cons op ops ih =>
    simp only [run, Option.bind_eq_some] at h
    obtain ⟨u, hu, hr⟩ := h
    exact (step_grows s u op hu).andGrows (ih u hr)


theorem keys_length (s : Storage) : (keys s).length = s.m_localmap.length := by
  unfold Storage.keys
  rw [List.length_map]

theorem SameTable.sameLength {s t : Storage} (h : SameTable s t) :
    t.m_localmap.length = s.m_localmap.length := by
  rw [← keys_length, ← keys_length, h.2]

theorem Tidy_init : Tidy {} := ⟨rfl, rfl, List.nodup_nil⟩

theorem SameTable.keepsTidy {s t : Storage} (h : SameTable s t) (hs : Tidy s) : Tidy t := by
  unfold Tidy
  rw [h.1, h.2, h.sameLength]
  exact hs

theorem GetOrNew_tidy (s : Storage) (n : Bytes) (hs : Tidy s) : Tidy (s.GetOrNew n).1 := by
  unfold GetOrNew
  cases hf : s.find n with
  | some p => exact hs
  | none =>
    have hk : keys { s with
        m_entries := s.m_entries ++ [(n, s.m_localmap.length)],
        m_localmap := s.m_localmap ++ [{ name := n, local_id := s.m_localmap.length }] } =
        keys s ++ [(n, s.m_localmap.length)] := by
      unfold Storage.keys
      rw [List.map_append]
      rfl
    obtain ⟨h1, h2, h3⟩ := hs
    refine ⟨?_, ?_, ?_⟩
    · rw [hk, ← h1]
    · rw [hk, List.map_append, h2]
      simp [List.range_succ]
    · rw [hk, List.map_append, List.nodup_append]
      refine ⟨h3, by simp, ?_⟩
      intro x hx hx2
      simp only [List.map_cons, List.map_nil, List.mem_singleton] at hx2
      subst hx2
      unfold Storage.find at hf
      rw [h1, List.lookup_eq_none_iff] at hf
      obtain ⟨k, hk1, hk2⟩ := List.mem_map.mp hx
      have := hf k hk1
      simp [hk2] at this

theorem Grows.tidy {s t : Storage} (h : Grows s t) : Tidy s → Tidy t := by
  induction h with
  | table h => exact h.keepsTidy
  | fresh s n => exact GetOrNew_tidy s n
  | next _ _ ih1 ih2 => exact fun hs => ih2 (ih1 hs)

theorem Tidy_of_run (ops : List Op) (s : Storage) (h : ({} : Storage).run ops = some s) :
    Tidy s := (run_grows _ _ ops h).tidy Tidy_init

theorem Tidy.pointers {s : Storage} (h : Tidy s) :
    s.m_entries.map Prod.snd = List.range s.m_localmap.length := by
  rw [h.1]
  exact h.2.1

theorem Tidy.nodup {s : Storage} (h : Tidy s) : (s.m_entries.map Prod.snd).Nodup := by
  rw [h.pointers]
  exact List.nodup_range _

/-! ### The initial synchronisation of a client -/

theorem DeleteAllEntriesImplF_deref (s : Storage) (l : Bool)
    (f : Entry → Bool × List Message) (q : Nat) :
    (s.DeleteAllEntriesImplF l f).1.deref q =
      if q ∈ s.m_entries.map Prod.snd ∧ deletes f (s.deref q) = true then cleared (s.deref q)
      else s.deref q :=
  DeleteAllEntries_fold_deref l f _ (s, []) q

theorem DeleteAllEntriesImplF_out (s : Storage) (l : Bool)
    (f : Entry → Bool × List Message) (hnd : (s.m_entries.map Prod.snd).Nodup) :
    (s.DeleteAllEntriesImplF l f).1.notified = s.notified ++
      ((s.m_entries.map Prod.snd).filter fun p => deletes f (s.deref p)).map (fun p =>
        ⟨(s.deref p).local_id, (s.deref p).name, (s.deref p).value,
          NT_NOTIFY_DELETE ||| (if l then NT_NOTIFY_LOCAL else 0)⟩) ∧
    (s.DeleteAllEntriesImplF l f).2 =
      (s.m_entries.map Prod.snd).flatMap (fun p =>
        if (s.deref p).value.isSome = true then (f (s.deref p)).2 else []) := by
  have h := DeleteAllEntries_fold_out l f _ hnd (s, [])
  simpa using h

theorem ApplyAssignStep_skip (conn : INetworkConnection) (acc : Storage × List Message)
    (msg : Message) (h : ¬ msg.assigns) : ApplyAssignStep conn acc msg = acc := by
  unfold ApplyAssignStep
  unfold Message.assigns at h
  by_cases ht : msg.type = .kEntryAssign
  · have hid : msg.id = 0xffff := by
      by_contra hc
      exact h ⟨ht, hc⟩
    simp [ht, hid]
  · simp [ht]

theorem GetOrNew_deref_ne (s : Storage) (n : Bytes) (q : Nat) (hq : q ≠ (s.GetOrNew n).2) :
    (s.GetOrNew n).1.deref q = s.deref q := by
  rw [GetOrNew_deref]
  split
  · rename_i h
    exfalso
    apply hq
    unfold GetOrNew
    rw [h.1]
    exact h.2
  · rfl

theorem ApplyAssignStep_deref_ne (conn : INetworkConnection) (acc : Storage × List Message)
    (msg : Message) (q : Nat) (hq : q ≠ (acc.1.GetOrNew msg.str).2) :
    (ApplyAssignStep conn acc msg).1.deref q = acc.1.deref q := by
  by_cases ha : msg.assigns
  · have h1 := GetOrNew_deref_ne acc.1 msg.str q hq
    unfold ApplyAssignStep
    simp only [ha.1, ne_eq, not_true_eq_false, if_false, ha.2]
    generalize acc.1.GetOrNew msg.str = r at hq h1 ⊢
    rw [← h1]
    cases hv : ((r.1.store r.2 { r.1.deref r.2 with
        seq_num := ⟨msg.seq_num_uid⟩, id := msg.id }).deref r.2).value <;>
      simp [hv, deref_store, hq, apply_ite Prod.fst]
  · rw [ApplyAssignStep_skip conn acc msg ha]


theorem ApplyAssignStep_deref_self (conn : INetworkConnection) (acc : Storage × List Message)
    (msg : Message) (ha : msg.assigns)
    (hp : (acc.1.GetOrNew msg.str).2 < (acc.1.GetOrNew msg.str).1.m_localmap.length) :
    (ApplyAssignStep conn acc msg).1.deref (acc.1.GetOrNew msg.str).2 =
      assigned conn msg ((acc.1.GetOrNew msg.str).1.deref (acc.1.GetOrNew msg.str).2) ∧
    (ApplyAssignStep conn acc msg).2 = acc.2 ++
      pushedBack msg ((acc.1.GetOrNew msg.str).1.deref (acc.1.GetOrNew msg.str).2) := by
  unfold ApplyAssignStep assigned pushedBack
  simp only [ha.1, ne_eq, not_true_eq_false, if_false, ha.2]
  generalize acc.1.GetOrNew msg.str = r at hp ⊢
  by_cases hv : (r.1.deref r.2).value = none
  · simp [hv, deref_store, hp]
  · obtain ⟨o, ho⟩ := Option.ne_none_iff_exists'.mp hv
    by_cases hw : (r.1.deref r.2).local_write = true <;>
      by_cases hP : (r.1.deref r.2).flags &&& NT_PERSISTENT = 0 <;>
      by_cases hpr : conn.proto_rev ≥ 0x0300 <;>
      simp [ho, deref_store, hp, hw, hP, hpr, Entry.IsPersistent]


theorem ApplyAssignStep_m_idmap (conn : INetworkConnection) (acc : Storage × List Message)
    (msg : Message) (ha : msg.assigns) :
    (ApplyAssignStep conn acc msg).1.m_idmap =
      (if msg.id ≥ acc.1.m_idmap.length then
          acc.1.m_idmap ++ List.replicate (msg.id + 1 - acc.1.m_idmap.length) none
        else acc.1.m_idmap).set msg.id (some (acc.1.GetOrNew msg.str).2) := by
  unfold ApplyAssignStep
  simp only [ha.1, ne_eq, not_true_eq_false, if_false, ha.2]
  have hm := GetOrNew_m_idmap acc.1 msg.str
  generalize acc.1.GetOrNew msg.str = r at hm ⊢
  rw [← hm]
  by_cases hv : ((r.1.store r.2 { r.1.deref r.2 with
        seq_num := ⟨msg.seq_num_uid⟩, id := msg.id }).deref r.2).value = none
  · simp only [hv]
    by_cases hge : msg.id ≥ r.1.m_idmap.length <;> simp [hge, growIdmap]
  · obtain ⟨o, ho⟩ := Option.ne_none_iff_exists'.mp hv
    simp only [ho]
    by_cases hge : msg.id ≥ r.1.m_idmap.length <;>
      simp [hge, growIdmap, apply_ite Prod.fst]

theorem ApplyAssignStep_idEntry (conn : INetworkConnection) (acc : Storage × List Message)
    (msg : Message) (ha : msg.assigns) :
    (ApplyAssignStep conn acc msg).1.idEntry msg.id = some (acc.1.GetOrNew msg.str).2 ∧
    ∀ i, i ≠ msg.id → (ApplyAssignStep conn acc msg).1.idEntry i = acc.1.idEntry i := by
  unfold idEntry
  rw [ApplyAssignStep_m_idmap conn acc msg ha]
  constructor
  · by_cases hge : msg.id ≥ acc.1.m_idmap.length
    · rw [if_pos hge, List.getElem?_set_self (by simp; omega)]
      rfl
    · rw [if_neg hge, List.getElem?_set_self (by omega)]
      rfl
  · intro i hi
    rw [List.getElem?_set_ne (Ne.symm hi)]
    by_cases hge : msg.id ≥ acc.1.m_idmap.length
    · rw [if_pos hge]
      by_cases hlt : i < acc.1.m_idmap.length
      · rw [List.getElem?_append_left hlt]
      · rw [List.getElem?_append_right (Nat.le_of_not_lt hlt),
          List.getElem?_eq_none (Nat.le_of_not_lt hlt)]
        cases h : (List.replicate (msg.id + 1 - acc.1.m_idmap.length)
            (none : Option Nat))[i - acc.1.m_idmap.length]? with
        | none => rfl
        | some x =>
          have := List.getElem?_mem h
          rw [List.mem_replicate] at this
          rw [this.2]
          rfl
    · rw [if_neg hge]

theorem ApplyAssignStep_fields (conn : INetworkConnection) (acc : Storage × List Message)
    (msg : Message) :
    (ApplyAssignStep conn acc msg).1.m_dispatcher = acc.1.m_dispatcher ∧
    (ApplyAssignStep conn acc msg).1.m_server = acc.1.m_server ∧
    (ApplyAssignStep conn acc msg).1.queued = acc.1.queued := by
  by_cases ha : msg.assigns
  · unfold ApplyAssignStep
    simp only [ha.1, ne_eq, not_true_eq_false, if_false, ha.2]
    have hm : (acc.1.GetOrNew msg.str).1.m_dispatcher = acc.1.m_dispatcher ∧
        (acc.1.GetOrNew msg.str).1.m_server = acc.1.m_server ∧
        (acc.1.GetOrNew msg.str).1.queued = acc.1.queued := by simp
    generalize acc.1.GetOrNew msg.str = r at hm ⊢
    rw [← hm.1, ← hm.2.1, ← hm.2.2]
    by_cases hv : ((r.1.store r.2 { r.1.deref r.2 with
          seq_num := ⟨msg.seq_num_uid⟩, id := msg.id }).deref r.2).value = none
    · simp [hv]
    · obtain ⟨o, ho⟩ := Option.ne_none_iff_exists'.mp hv
      simp [ho, apply_ite Prod.fst]
  · rw [ApplyAssignStep_skip conn acc msg ha]
    exact ⟨rfl, rfl, rfl⟩


theorem GetOrNew_ptr_ne (s : Storage) (hwf : WF s) {n m : Bytes} {p : Nat}
    (hf : s.find n = some p) (hne : m ≠ n) : (s.GetOrNew m).2 ≠ p := by
  intro hc
  have hg := GetOrNew_good s m
  have h1 := (hg.2 hwf).name (GetOrNew_find s m)
  have h2 := (hg.2 hwf).name (hg.1.lookup hf)
  rw [hc] at h1
  exact hne (h1.symm.trans h2)

theorem GetOrNew_ptr_lt (s : Storage) (hwf : WF s) (m : Bytes) :
    (s.GetOrNew m).2 < (s.GetOrNew m).1.m_localmap.length :=
  ((GetOrNew_good s m).2 hwf).lt (GetOrNew_find s m)

theorem assign_fold_untouched (conn : INetworkConnection) (L : List Message) (n : Bytes)
    (p : Nat) (hL : ∀ x ∈ L, x.assigns → x.str ≠ n) (acc : Storage × List Message)
    (hwf : WF acc.1) (hf : acc.1.find n = some p) :
    (L.foldl (ApplyAssignStep conn) acc).1.deref p = acc.1.deref p := by
  induction L generalizing acc with
  | nil => rfl
  | cons x xs ih =>
    have hg := ApplyAssignStep_good conn acc x
    rw [List.foldl_cons, ih (fun y hy => hL y (List.mem_cons_of_mem _ hy)) _ (hg.2 hwf)
      (hg.1.lookup hf)]
    by_cases ha : x.assigns
    · exact ApplyAssignStep_deref_ne conn acc x p
        (GetOrNew_ptr_ne acc.1 hwf hf (hL x (List.mem_cons_self _ _) ha)).symm
    · rw [ApplyAssignStep_skip conn acc x ha]

theorem assign_fold_idEntry (conn : INetworkConnection) (L : List Message) (i : Nat)
    (hL : ∀ x ∈ L, x.assigns → x.id ≠ i) (acc : Storage × List Message) :
    (L.foldl (ApplyAssignStep conn) acc).1.idEntry i = acc.1.idEntry i := by
  induction L generalizing acc with
  | nil => rfl
  | cons x xs ih =>
    rw [List.foldl_cons, ih (fun y hy => hL y (List.mem_cons_of_mem _ hy))]
    by_cases ha : x.assigns
    · exact (ApplyAssignStep_idEntry conn acc x ha).2 i
        (hL x (List.mem_cons_self _ _) ha).symm
    · rw [ApplyAssignStep_skip conn acc x ha]

theorem assign_fold_fields (conn : INetworkConnection) (L : List Message)
    (acc : Storage × List Message) :
    (L.foldl (ApplyAssignStep conn) acc).1.m_dispatcher = acc.1.m_dispatcher ∧
    (L.foldl (ApplyAssignStep conn) acc).1.m_server = acc.1.m_server ∧
    (L.foldl (ApplyAssignStep conn) acc).1.queued = acc.1.queued := by
  induction L generalizing acc with
  | nil => exact ⟨rfl, rfl, rfl⟩
  | cons x xs ih =>
    have h1 := ApplyAssignStep_fields conn acc x
    have h2 := ih (ApplyAssignStep conn acc x)
    rw [List.foldl_cons]
    exact ⟨h2.1.trans h1.1, h2.2.1.trans h1.2.1, h2.2.2.trans h1.2.2⟩

theorem ApplyAssignStep_msgs (conn : INetworkConnection) (acc : Storage × List Message)
    (msg : Message) (hwf : WF acc.1) :
    ∃ new, (ApplyAssignStep conn acc msg).2 = acc.2 ++ new ∧
      ∀ u ∈ new, msg.assigns ∧ u.type = .kEntryUpdate ∧ u.id = msg.id := by
  by_cases ha : msg.assigns
  · refine ⟨_, (ApplyAssignStep_deref_self conn acc msg ha
      (GetOrNew_ptr_lt acc.1 hwf msg.str)).2, ?_⟩
    intro u hu
    unfold pushedBack at hu
    split at hu
    · cases hu
    · split at hu
      · simp only [List.mem_singleton] at hu
        subst hu
        exact ⟨ha, rfl, rfl⟩
      · cases hu
  · rw [ApplyAssignStep_skip conn acc msg ha]
    exact ⟨[], by simp, by simp⟩

theorem assign_fold_msgs (conn : INetworkConnection) (L : List Message)
    (acc : Storage × List Message) (hwf : WF acc.1) :
    ∃ new, (L.foldl (ApplyAssignStep conn) acc).2 = acc.2 ++ new ∧
      ∀ u ∈ new, u.type = .kEntryUpdate ∧ ∃ x ∈ L, x.assigns ∧ u.id = x.id := by
  induction L generalizing acc with
  | nil => exact ⟨[], by simp, by simp⟩
  | cons x xs ih =>
    obtain ⟨n1, h1, h2⟩ := ApplyAssignStep_msgs conn acc x hwf
    obtain ⟨n2, h3, h4⟩ := ih (ApplyAssignStep conn acc x)
      ((ApplyAssignStep_good conn acc x).2 hwf)
    refine ⟨n1 ++ n2, by rw [List.foldl_cons, h3, h1, List.append_assoc], ?_⟩
    intro u hu
    rcases List.mem_append.mp hu with hu | hu
    · exact ⟨(h2 u hu).2.1, x, List.mem_cons_self _ _, (h2 u hu).1, (h2 u hu).2.2⟩
    · obtain ⟨ht, y, hy, hya, hyid⟩ := h4 u hu
      exact ⟨ht, y, List.mem_cons_of_mem _ hy, hya, hyid⟩


theorem assigned_covered (conn : INetworkConnection) (msg : Message) (e : Entry)
    (ha : msg.assigns) (hv : msg.value.isSome = true) :
    (assigned conn msg e).id ≠ 0xffff ∧ (assigned conn msg e).value.isSome = true := by
  unfold assigned
  cases he : e.value with
  | none => exact ⟨ha.2, hv⟩
  | some o =>
    simp only
    split
    · exact ⟨ha.2, by simp [he]⟩
    · exact ⟨ha.2, hv⟩

theorem ApplyAssignStep_covers (conn : INetworkConnection) (acc : Storage × List Message)
    (msg : Message) (hwf : WF acc.1) (ha : msg.assigns) (hv : msg.value.isSome = true) :
    Covered (ApplyAssignStep conn acc msg).1 msg.str := by
  have hg := ApplyAssignStep_good conn acc msg
  have h1 := (ApplyAssignStep_deref_self conn acc msg ha (GetOrNew_ptr_lt acc.1 hwf msg.str)).1
  have hfind : (ApplyAssignStep conn acc msg).1.find msg.str = some (acc.1.GetOrNew msg.str).2 := by
    have hs : SameTable (acc.1.GetOrNew msg.str).1 (ApplyAssignStep conn acc msg).1 := by
      unfold ApplyAssignStep
      simp only [ha.1, ne_eq, not_true_eq_false, if_false, ha.2]
      generalize acc.1.GetOrNew msg.str = r
      by_cases hv : ((r.1.store r.2 { r.1.deref r.2 with
            seq_num := ⟨msg.seq_num_uid⟩, id := msg.id }).deref r.2).value = none
      · simp [SameTable, key, hv]
      · obtain ⟨o, ho⟩ := Option.ne_none_iff_exists'.mp hv
        simp [SameTable, key, ho, apply_ite Prod.fst]
    unfold Storage.find
    rw [hs.1]
    exact GetOrNew_find acc.1 msg.str
  refine ⟨_, hfind, ?_⟩
  rw [h1]
  exact assigned_covered conn msg _ ha hv

theorem ApplyAssignStep_keeps_covered (conn : INetworkConnection)
    (acc : Storage × List Message) (msg : Message) (hwf : WF acc.1)
    (hm : msg.carriesValue) (n : Bytes) (hc : Covered acc.1 n) :
    Covered (ApplyAssignStep conn acc msg).1 n := by
  by_cases ha : msg.assigns
  · by_cases hn : msg.str = n
    · rw [← hn]
      exact ApplyAssignStep_covers conn acc msg hwf ha (hm (Or.inl ha.1))
    · obtain ⟨p, hf, hid, hv⟩ := hc
      refine ⟨p, (ApplyAssignStep_good conn acc msg).1.lookup hf, ?_⟩
      rw [ApplyAssignStep_deref_ne conn acc msg p (GetOrNew_ptr_ne acc.1 hwf hf hn).symm]
      exact ⟨hid, hv⟩
  · rw [ApplyAssignStep_skip conn acc msg ha]
    exact hc

theorem assign_fold_keeps_covered (conn : INetworkConnection) (L : List Message)
    (hL : ∀ x ∈ L, x.carriesValue) (n : Bytes) (acc : Storage × List Message)
    (hwf : WF acc.1) (hc : Covered acc.1 n) :
    Covered (L.foldl (ApplyAssignStep conn) acc).1 n := by
  induction L generalizing acc with
  | nil => exact hc
  | cons x xs ih =>
    exact ih (fun y hy => hL y (List.mem_cons_of_mem _ hy)) _
      ((ApplyAssignStep_good conn acc x).2 hwf)
      (ApplyAssignStep_keeps_covered conn acc x hwf (hL x (List.mem_cons_self _ _)) n hc)

theorem assign_fold_covers (conn : INetworkConnection) (L : List Message)
    (hL : ∀ x ∈ L, x.carriesValue) (m : Message) (hm : m ∈ L) (ha : m.assigns)
    (acc : Storage × List Message) (hwf : WF acc.1) :
    Covered (L.foldl (ApplyAssignStep conn) acc).1 m.str := by
  induction L generalizing acc with
  | nil => cases hm
  | cons x xs ih =>
    have hwf1 := (ApplyAssignStep_good conn acc x).2 hwf
    have hL1 : ∀ y ∈ xs, y.carriesValue := fun y hy => hL y (List.mem_cons_of_mem _ hy)
    rcases List.mem_cons.mp hm with h | h
    · subst h
      exact assign_fold_keeps_covered conn xs hL1 m.str _ hwf1
        (ApplyAssignStep_covers conn acc m hwf ha (hL m (List.mem_cons_self _ _) (Or.inl ha.1)))
    · exact ih hL1 h _ hwf1


theorem ApplyInitialAssignments_client (s : Storage) (conn : INetworkConnection)
    (msgs : List Message) (hs : s.m_server = false) :
    s.ApplyInitialAssignments conn msgs =
      if (s.applied conn msgs).2.isEmpty then some (s.reconciled conn msgs)
      else if !(s.reconciled conn msgs).1.m_dispatcher then none
      else some ((s.applied conn msgs).2.foldl (fun s m => s.QueueOutgoing m none none)
        (s.reconciled conn msgs).1, (s.reconciled conn msgs).2) := by
  unfold ApplyInitialAssignments reconciled applied clearIds
  simp only [hs, Bool.false_eq_true, if_false]

theorem foldl_store_deref (l : List Nat) (s : Storage) (q : Nat) :
    (l.foldl (fun s p => s.store p { s.deref p with id := 0xffff }) s).deref q =
      if q ∈ l then { s.deref q with id := 0xffff } else s.deref q := by
  induction l generalizing s with
  | nil => simp
  | cons p ps ih =>
    rw [List.foldl_cons, ih, deref_store]
    by_cases hq : q = p
    · subst hq
      by_cases hlt : q < s.m_localmap.length
      · simp [hlt]
      · have hd : s.deref q = default := deref_of_ge s q (Nat.le_of_not_lt hlt)
        simp [hlt, hd]
        exact fun _ => rfl
    · simp [hq]

theorem clearIds_deref (s : Storage) (q : Nat) :
    s.clearIds.deref q =
      if q ∈ s.m_entries.map Prod.snd then { s.deref q with id := 0xffff } else s.deref q := by
  unfold clearIds
  rw [set_idmap_deref, foldl_store_deref]

theorem clearIds_sameTable (s : Storage) : SameTable s s.clearIds := by
  unfold clearIds
  exact (foldl_sameTable1 (fun s p => s.store p { s.deref p with id := 0xffff })
    (fun s p => sameTable_store _ _ _ rfl) _ _).andThen ⟨rfl, rfl⟩

theorem foldl_store_fields (l : List Nat) (s : Storage) :
    (l.foldl (fun s p => s.store p { s.deref p with id := 0xffff }) s).m_dispatcher =
      s.m_dispatcher ∧
    (l.foldl (fun s p => s.store p { s.deref p with id := 0xffff }) s).m_server =
      s.m_server ∧
    (l.foldl (fun s p => s.store p { s.deref p with id := 0xffff }) s).queued = s.queued := by
  induction l generalizing s with
  | nil => exact ⟨rfl, rfl, rfl⟩
  | cons p ps ih =>
    rw [List.foldl_cons]
    exact ih _

theorem clearIds_fields (s : Storage) :
    s.clearIds.m_dispatcher = s.m_dispatcher ∧ s.clearIds.m_server = s.m_server ∧
    s.clearIds.queued = s.queued ∧ s.clearIds.m_idmap = [] := by
  unfold clearIds
  have h := foldl_store_fields (s.m_entries.map Prod.snd) s
  exact ⟨h.1, h.2.1, h.2.2, rfl⟩

theorem foldl_queue (l : List Message) (s : Storage) :
    (l.foldl (fun s m => s.QueueOutgoing m none none) s).queued =
      s.queued ++ l.map (fun m => ⟨m, none, none⟩) ∧
    (∀ q, (l.foldl (fun s m => s.QueueOutgoing m none none) s).deref q = s.deref q) ∧
    (l.foldl (fun s m => s.QueueOutgoing m none none) s).m_idmap = s.m_idmap ∧
    (l.foldl (fun s m => s.QueueOutgoing m none none) s).m_entries = s.m_entries := by
  induction l generalizing s with
  | nil => simp
  | cons m ms ih =>
    rw [List.foldl_cons]
    obtain ⟨h1, h2, h3, h4⟩ := ih (s.QueueOutgoing m none none)
    refine ⟨?_, ?_, ?_, ?_⟩
    · rw [h1]
      simp
    · intro q
      rw [h2]
      rfl
    · rw [h3]
      rfl
    · rw [h4]
      rfl


theorem lookup_of_mem_nodup {l : List (Bytes × Nat)} (hnd : (l.map Prod.fst).Nodup)
    {k : Bytes} {v : Nat} (h : (k, v) ∈ l) : l.lookup k = some v := by
  induction l with
  | nil => cases h
  | cons x xs ih =>
    obtain ⟨a, b⟩ := x
    rw [List.map_cons, List.nodup_cons] at hnd
    rcases List.mem_cons.mp h with h1 | h1
    · cases h1
      simp [List.lookup]
    · have hne : k ≠ a := by
        intro hc
        subst hc
        exact hnd.1 (List.mem_map.mpr ⟨(k, v), h1, rfl⟩)
      have hb : (k == a) = false := by simp [hne]
      simp only [List.lookup, hb]
      exact ih hnd.2 h1

theorem Tidy.keyAt {s : Storage} (h : Tidy s) {p : Nat} (hp : p < s.m_localmap.length) :
    (keys s)[p]? = some ((s.deref p).name, p) := by
  have hk : (keys s)[p]? = some (key (s.deref p)) := by
    unfold Storage.keys Storage.deref
    rw [List.getElem?_map, List.getElem?_eq_getElem hp]
    rfl
  have h2 := congrArg (fun l => l[p]?) h.2.1
  simp only [List.getElem?_map, hk, Option.map_some', List.getElem?_range hp,
    Option.some.injEq] at h2
  rw [hk]
  unfold key at h2 ⊢
  simp only at h2
  rw [h2]

theorem Tidy.find_name {s : Storage} (h : Tidy s) {p : Nat} (hp : p < s.m_localmap.length) :
    s.find (s.deref p).name = some p := by
  unfold Storage.find
  rw [h.1]
  exact lookup_of_mem_nodup h.2.2 (List.getElem?_mem (h.keyAt hp))

theorem Tidy.mem_pointers {s : Storage} (h : Tidy s) {p : Nat} :
    p ∈ s.m_entries.map Prod.snd ↔ p < s.m_localmap.length := by
  rw [h.pointers, List.mem_range]

theorem Tidy.wf {s : Storage} (h : Tidy s) : WF s := by
  intro n p hf
  unfold Storage.find at hf
  rw [h.1] at hf
  obtain ⟨l1, l2, hl, _⟩ := List.lookup_eq_some_iff.mp hf
  have hmem : (n, p) ∈ keys s := by rw [hl]; simp
  have hp : p < s.m_localmap.length := by
    rw [← List.mem_range, ← h.2.1]
    exact List.mem_map.mpr ⟨(n, p), hmem, rfl⟩
  have hk := h.keyAt hp
  have hnd : ((keys s).map Prod.snd).Nodup := by
    rw [h.2.1]
    exact List.nodup_range _
  have he := List.inj_on_of_nodup_map hnd (List.getElem?_mem hk) hmem rfl
  rw [hk, he]


theorem count_flatMap_one {α β : Type} [DecidableEq β] (l : List α) (hnd : l.Nodup)
    (g : α → List β) (m : β) (p : α) (hp : p ∈ l) (h1 : (g p).count m = 1)
    (h2 : ∀ q ∈ l, q ≠ p → m ∉ g q) : (l.flatMap g).count m = 1 := by
  induction l with
  | nil => cases hp
  | cons x xs ih =>
    rw [List.flatMap_cons, List.count_append]
    rw [List.nodup_cons] at hnd
    rcases List.mem_cons.mp hp with h | h
    · subst h
      have hz : (xs.flatMap g).count m = 0 := by
        rw [List.count_eq_zero]
        intro hm
        obtain ⟨q, hq, hmq⟩ := List.mem_flatMap.mp hm
        exact h2 q (List.mem_cons_of_mem _ hq) (fun hc => hnd.1 (hc ▸ hq)) hmq
      rw [h1, hz]
    · have hx : x ≠ p := fun hc => hnd.1 (hc ▸ h)
      have hz : (g x).count m = 0 :=
        List.count_eq_zero.mpr (h2 x (List.mem_cons_self _ _) hx)
      rw [hz, ih hnd.2 h (fun q hq => h2 q (List.mem_cons_of_mem _ hq))]

theorem Grows.toGood {s t : Storage} (h : Grows s t) : Good s t := by
  induction h with
  | table h => exact h.good
  | fresh s n => exact GetOrNew_good s n
  | next _ _ ih1 ih2 => exact ih1.andGood ih2

theorem applied_grows (s : Storage) (conn : INetworkConnection) (msgs : List Message) :
    Grows s (s.applied conn msgs).1 :=
  (clearIds_sameTable s).grows.andGrows
    (foldl_grows _ (ApplyAssignStep_grows conn) msgs (s.clearIds, []))

theorem reconciled_sameTable (s : Storage) (conn : INetworkConnection)
    (msgs : List Message) : SameTable (s.applied conn msgs).1 (s.reconciled conn msgs).1 :=
  DeleteAllEntriesImplF_sameTable _ _ _

theorem applied_fields (s : Storage) (conn : INetworkConnection) (msgs : List Message) :
    (s.applied conn msgs).1.m_dispatcher = s.m_dispatcher ∧
    (s.applied conn msgs).1.m_server = s.m_server ∧
    (s.applied conn msgs).1.queued = s.queued := by
  have h1 := assign_fold_fields conn msgs (s.clearIds, [])
  have h2 := clearIds_fields s
  exact ⟨h1.1.trans h2.1, h1.2.1.trans h2.2.1, h1.2.2.trans h2.2.2.1⟩

theorem reconciled_fields (s : Storage) (conn : INetworkConnection) (msgs : List Message) :
    (s.reconciled conn msgs).1.m_dispatcher = s.m_dispatcher ∧
    (s.reconciled conn msgs).1.m_server = s.m_server ∧
    (s.reconciled conn msgs).1.queued = s.queued := by
  have h1 := DeleteAllEntriesImplF_frame (s.applied conn msgs).1 false unassignedShouldDelete
  have h2 := applied_fields s conn msgs
  exact ⟨h1.2.2.1.trans h2.1, h1.2.1.trans h2.2.1, h1.1.trans h2.2.2⟩

/-- An entry whose name no assignment carries comes out of the loop "apply
assignments" as it was, with its id cleared. -/
theorem applied_deref_uncovered (s : Storage) (conn : INetworkConnection)
    (msgs : List Message) (hs : Tidy s) (p : Nat) (hp : p < s.m_localmap.length)
    (hL : ∀ m ∈ msgs, m.assigns → m.str ≠ (s.deref p).name) :
    (s.applied conn msgs).1.deref p = { s.deref p with id := 0xffff } := by
  have hst := clearIds_sameTable s
  have hwf : WF s.clearIds := hst.good.2 hs.wf
  have hf : s.clearIds.find (s.deref p).name = some p := by
    unfold Storage.find
    rw [hst.1]
    exact hs.find_name hp
  unfold applied
  rw [assign_fold_untouched conn msgs _ p hL (s.clearIds, []) hwf hf, clearIds_deref,
    if_pos (hs.mem_pointers.mpr hp)]


theorem ApplyInitialAssignments_result (s : Storage) (conn : INetworkConnection)
    (msgs : List Message) (hs : s.m_server = false) (t : Storage) (out : List Message)
    (h : s.ApplyInitialAssignments conn msgs = some (t, out)) :
    out = (s.reconciled conn msgs).2 ∧
    (∀ q, t.deref q = (s.reconciled conn msgs).1.deref q) ∧
    t.m_entries = (s.reconciled conn msgs).1.m_entries ∧
    t.m_idmap = (s.reconciled conn msgs).1.m_idmap ∧
    t.queued = s.queued ++ (s.applied conn msgs).2.map (fun m => ⟨m, none, none⟩) := by
  rw [ApplyInitialAssignments_client s conn msgs hs] at h
  have hq := (reconciled_fields s conn msgs).2.2
  by_cases he : (s.applied conn msgs).2.isEmpty = true
  · rw [if_pos he, Option.some.injEq] at h
    have : (s.applied conn msgs).2 = [] := List.isEmpty_iff.mp he
    have ht : t = (s.reconciled conn msgs).1 := by rw [h]
    have ho : out = (s.reconciled conn msgs).2 := by rw [h]
    subst ht ho
    refine ⟨rfl, fun _ => rfl, rfl, rfl, ?_⟩
    rw [this, hq]
    simp
  · rw [if_neg he] at h
    split at h
    · cases h
    · rw [Option.some.injEq] at h
      have hf := foldl_queue (s.applied conn msgs).2 (s.reconciled conn msgs).1
      have ht := (congrArg Prod.fst h).symm
      have ho := (congrArg Prod.snd h).symm
      simp only at ht ho
      subst ht ho
      exact ⟨rfl, hf.2.1, hf.2.2.2, hf.2.2.1, by rw [hf.1, hq]⟩

theorem ApplyInitialAssignments_returns (s : Storage) (conn : INetworkConnection)
    (msgs : List Message) (hd : s.m_dispatcher = true) :
    ∃ r, s.ApplyInitialAssignments conn msgs = some r := by
  cases hs : s.m_server with
  | true => exact ⟨(s, []), by simp [ApplyInitialAssignments, hs]⟩
  | false =>
    rw [ApplyInitialAssignments_client s conn msgs hs, (reconciled_fields s conn msgs).1, hd]
    split
    · exact ⟨_, rfl⟩
    · exact ⟨_, rfl⟩

theorem DeleteAllEntriesStep_idEntry (l : Bool) (f : Entry → Bool × List Message)
    (hf : ∀ e, (f e).1 = true → e.id = 0xffff) (acc : Storage × List Message) (p i : Nat)
    (hi : i ≠ 0xffff) :
    (DeleteAllEntriesStep l f acc p).1.idEntry i = acc.1.idEntry i := by
  unfold DeleteAllEntriesStep idEntry
  by_cases hv : (acc.1.deref p).value.isSome = true
  · by_cases hd : (f (acc.1.deref p)).1 = true
    · have hid := hf _ hd
      by_cases hlt : 65535 < acc.1.m_idmap.length
      · simp [hv, hd, hid, hlt, List.getElem?_set_ne hi.symm]
      · simp [hv, hd, hid, hlt]
    · simp [hv, hd]
  · simp [hv]

theorem DeleteAllEntriesImplF_idEntry (s : Storage) (l : Bool)
    (f : Entry → Bool × List Message) (hf : ∀ e, (f e).1 = true → e.id = 0xffff) (i : Nat)
    (hi : i ≠ 0xffff) : (s.DeleteAllEntriesImplF l f).1.idEntry i = s.idEntry i := by
  unfold DeleteAllEntriesImplF
  generalize s.m_entries.map Prod.snd = ps
  have : ∀ acc : Storage × List Message,
      (ps.foldl (DeleteAllEntriesStep l f) acc).1.idEntry i = acc.1.idEntry i := by
    induction ps with
    | nil => exact fun _ => rfl
    | cons p ps ih =>
      intro acc
      rw [List.foldl_cons, ih, DeleteAllEntriesStep_idEntry l f hf acc p i hi]
  exact this (s, [])

theorem unassignedShouldDelete_id (e : Entry) (h : (unassignedShouldDelete e).1 = true) :
    e.id = 0xffff := by
  unfold unassignedShouldDelete at h
  split at h
  · cases h
  · rename_i hid
    exact not_not.mp hid

theorem SequenceNumber.lt_inc (a : SequenceNumber) (h : a.m_value < 65536) :
    a.lt a.inc = true := by
  simp only [SequenceNumber.lt, SequenceNumber.inc, Bool.and_eq_true, Bool.or_eq_true,
    decide_eq_true_eq, ne_eq]
  omega

theorem assigned_kept (conn : INetworkConnection) (m : Message) (e : Entry) (o : Value)
    (he : e.value = some o) (hw : e.local_write = true) (hP : e.IsPersistent = false) :
    assigned conn m e = { e with seq_num := SequenceNumber.inc ⟨m.seq_num_uid⟩, id := m.id } ∧
    pushedBack m e =
      [Message.EntryUpdate m.id (SequenceNumber.inc ⟨m.seq_num_uid⟩).value (some o)] := by
  unfold assigned pushedBack
  simp [he, hw, hP]

theorem assigned_taken (conn : INetworkConnection) (m : Message) (e : Entry) (o : Value)
    (he : e.value = some o) (hc : ¬(e.local_write = true ∧ e.IsPersistent = false)) :
    (assigned conn m e).value = m.value ∧ (assigned conn m e).seq_num = ⟨m.seq_num_uid⟩ ∧
    pushedBack m e = [] := by
  unfold assigned pushedBack
  have hc2 : (e.local_write && !e.IsPersistent) = false := by
    cases hw : e.local_write <;> cases hP : e.IsPersistent <;> simp [hw, hP] at hc ⊢
  simp [he, hc2]

end Storage

/-! ## The persistent file writer -/

namespace SavePersistentImpl

/-- What the loop body of WriteString appends does not depend on the stream. -/
theorem WriteChar_append (os : Bytes) (c : Nat) : WriteChar os c = os ++ WriteChar [] c := by
  unfold WriteChar
  repeat' split
  all_goals simp

theorem foldl_WriteChar (str os : Bytes) :
    str.foldl WriteChar os = os ++ str.flatMap (WriteChar []) := by
  induction str generalizing os with
  | nil => simp
  | cons c str ih =>
    rw [List.foldl_cons, ih, WriteChar_append, List.flatMap_cons, List.append_assoc]

/-- The text of WriteString: the escapes of the bytes between two quotes. -/
theorem WriteString_eq (os str : Bytes) :
    WriteString os str = os ++ ([34] ++ str.flatMap (WriteChar []) ++ [34]) := by
  unfold WriteString
  simp only [foldl_WriteChar, List.append_assoc]

theorem WriteString_append (os str : Bytes) : WriteString os str = os ++ WriteString [] str := by
  rw [WriteString_eq, WriteString_eq []]
  rfl

theorem WriteBool_append (os : Bytes) (b : Bool) : WriteBool os b = os ++ WriteBool [] b := by
  simp [WriteBool]

theorem WriteType_append (os : Bytes) (t : NT_Type) :
    WriteType os t = (os ++ (WriteType [] t).1, (WriteType [] t).2) := by
  cases t <;> simp [WriteType]

theorem WriteArray_fold {α : Type} (write : Bytes → α → Bytes)
    (hw : ∀ os a, write os a = os ++ write [] a) (l : List α) (os : Bytes) :
    (l.foldl (fun (acc : Bytes × Bool) elem =>
      ((write (if !acc.2 then acc.1 ++ [44] else acc.1) elem, false) : Bytes × Bool))
        (os, false)).1
      = os ++ l.flatMap (fun a => [44] ++ write [] a) := by
  induction l generalizing os with
  | nil => simp
  | cons a l ih =>
    rw [List.foldl_cons]
    simp only [Bool.not_false, if_true]
    rw [ih, hw, List.flatMap_cons]
    simp only [List.append_assoc]

theorem arrayText_cons {α : Type} (write : α → Bytes) (a : α) (l : List α) :
    arrayText write (a :: l) = write a ++ l.flatMap (fun a => [44] ++ write a) := by
  induction l generalizing a with
  | nil => simp [arrayText]
  | cons b l ih =>
    rw [arrayText, ih, List.flatMap_cons]
    simp only [List.append_assoc]

theorem WriteArray_eq {α : Type} (write : Bytes → α → Bytes)
    (hw : ∀ os a, write os a = os ++ write [] a) (os : Bytes) (l : List α) :
    WriteArray write os l = os ++ arrayText (write []) l := by
  cases l with
  | nil => simp [WriteArray, arrayText]
  | cons a l =>
    unfold WriteArray
    rw [List.foldl_cons]
    simp only [Bool.not_true, Bool.false_eq_true, if_false]
    rw [WriteArray_fold write hw, hw, arrayText_cons, List.append_assoc]

/-- The text of a value. -/
theorem WriteValue_append (c : Encoders) (os : Bytes) (v : Value) :
    WriteValue c os v = os ++ WriteValue c [] v := by
  unfold WriteValue
  cases v.data with
  | boolean b => exact WriteBool_append os b
  | double d => simp
  | string str => exact WriteString_append os str
  | raw r => simp
  | boolean_array l =>
    simp only
    rw [WriteArray_eq _ WriteBool_append, WriteArray_eq _ WriteBool_append []]
    rfl
  | double_array l =>
    simp only
    rw [WriteArray_eq _ (fun os a => by simp), WriteArray_eq _ (fun os a => by simp) []]
    rfl
  | string_array l =>
    simp only
    rw [WriteArray_eq _ WriteString_append, WriteArray_eq _ WriteString_append []]
    rfl
  | rpc d => simp

theorem WriteEntry_append (c : Encoders) (os name : Bytes) (v : Value) :
    WriteEntry c os name v = os ++ WriteEntry c [] name v := by
  unfold WriteEntry
  rw [WriteType_append]
  by_cases h : (WriteType [] v.type).2 = true
  · simp only [h, Bool.not_true, Bool.false_eq_true, if_false]
    rw [WriteValue_append, WriteString_append, WriteValue_append c (WriteString _ _ ++ _),
      WriteString_append (WriteType [] v.type).1]
    simp only [List.append_assoc, List.nil_append]
  · simp [h]

theorem WriteEntries_eq (c : Encoders) (os : Bytes) (entries : List (Bytes × Option Value)) :
    WriteEntries c os entries = os ++ entries.flatMap (entryLine c) := by
  unfold WriteEntries
  induction entries generalizing os with
  | nil => simp
  | cons i l ih =>
    rw [List.foldl_cons, ih, List.flatMap_cons, ← List.append_assoc]
    congr 1
    unfold entryLine
    cases i.2 with
    | none => simp
    | some v => exact WriteEntry_append c os i.1 v

theorem Save_eq (c : Encoders) (os : Bytes) (entries : List (Bytes × Option Value)) :
    Save c os entries
      = os ++ (cstr "[NetworkTables Storage 3.0]\n" ++ entries.flatMap (entryLine c)) := by
  unfold Save WriteHeader
  rw [WriteEntries_eq, List.append_assoc]

theorem hexdigit_ne (x : Nat) : hexdigit x ≠ 10 := by
  unfold hexdigit
  split <;> omega

theorem WriteChar_oneLine (c : Nat) : 10 ∉ WriteChar [] c := by
  unfold WriteChar
  repeat' split
  · decide
  · decide
  · decide
  · decide
  · rename_i h1 h2 h3 h4 h5
    simpa using fun e => h3 e.symm
  · have h1 := hexdigit_ne ((c >>> 4) &&& 0xF)
    have h2 := hexdigit_ne ((c >>> 0) &&& 0xF)
    have h3 : cstr "\\x" = [92, 120] := by decide
    rw [h3]
    simp only [List.nil_append, List.cons_append, List.mem_cons, List.mem_singleton,
      List.not_mem_nil, or_false, not_or]
    exact ⟨by decide, by decide, fun e => h1 e.symm, fun e => h2 e.symm⟩

theorem WriteString_oneLine (str : Bytes) : 10 ∉ WriteString [] str := by
  rw [WriteString_eq]
  simp only [List.nil_append, List.cons_append, List.mem_cons, List.mem_append,
    List.mem_flatMap, List.mem_singleton, List.not_mem_nil, or_false, not_or, not_exists,
    not_and]
  exact ⟨by decide, fun c _ => WriteChar_oneLine c, by decide⟩

theorem WriteBool_oneLine (b : Bool) : 10 ∉ WriteBool [] b := by
  cases b <;> decide

theorem arrayText_oneLine {α : Type} (write : α → Bytes) (h : ∀ a, 10 ∉ write a)
    (l : List α) : 10 ∉ arrayText write l := by
  cases l with
  | nil => simp [arrayText]
  | cons a l =>
    rw [arrayText_cons]
    simp only [List.mem_append, List.mem_flatMap, not_or, not_exists, not_and]
    exact ⟨h a, fun b _ => ⟨by decide, h b⟩⟩

theorem WriteValue_oneLine (c : Encoders) (hc : c.oneLine) (v : Value) :
    10 ∉ WriteValue c [] v := by
  unfold WriteValue
  cases v.data with
  | boolean b => exact WriteBool_oneLine b
  | double d => simpa using hc.1 d
  | string str => exact WriteString_oneLine str
  | raw r => simpa using hc.2 r
  | boolean_array l =>
    simp only
    rw [WriteArray_eq _ WriteBool_append]
    simpa using arrayText_oneLine _ WriteBool_oneLine l
  | double_array l =>
    simp only
    rw [WriteArray_eq _ (fun os a => by simp)]
    simpa using arrayText_oneLine _ (fun d => by simpa using hc.1 d) l
  | string_array l =>
    simp only
    rw [WriteArray_eq _ WriteString_append]
    simpa using arrayText_oneLine _ WriteString_oneLine l
  | rpc d => simp

theorem WriteType_oneLine (t : NT_Type) : 10 ∉ (WriteType [] t).1 := by
  cases t <;> decide

/-- WriteType accepts every type of a value but the RPC definition. -/
theorem WriteType_value (v : Value) : (WriteType [] v.type).2 = !v.IsRpc := by
  unfold Value.IsRpc Value.type
  cases v.data <;> rfl

/-- The line of a value that is no RPC definition: one line break, at the end. -/
theorem WriteEntry_line (c : Encoders) (hc : c.oneLine) (name : Bytes) (v : Value)
    (hv : v.IsRpc = false) :
    ∃ body, WriteEntry c [] name v = body ++ [10] ∧ 10 ∉ body := by
  have ht : (WriteType [] v.type).2 = true := by rw [WriteType_value, hv]; rfl
  refine ⟨(WriteType [] v.type).1 ++ WriteString [] name ++ [61] ++ WriteValue c [] v, ?_, ?_⟩
  · unfold WriteEntry
    simp only [ht, Bool.not_true, Bool.false_eq_true, if_false]
    rw [WriteValue_append, WriteString_append]
  · simp only [List.mem_append, not_or, List.mem_singleton]
    exact ⟨⟨⟨WriteType_oneLine _, WriteString_oneLine _⟩, by decide⟩, WriteValue_oneLine c hc v⟩

/-- An RPC definition is not written. -/
theorem WriteEntry_rpc (c : Encoders) (name : Bytes) (v : Value) (hv : v.IsRpc = true) :
    WriteEntry c [] name v = [] := by
  have ht : (WriteType [] v.type).2 = false := by rw [WriteType_value, hv]; rfl
  have h1 : (WriteType [] v.type).1 = [] := by
    unfold Value.IsRpc at hv
    rw [of_decide_eq_true hv]
    rfl
  unfold WriteEntry
  simp [ht, h1]

theorem WriteEntry_count (c : Encoders) (hc : c.oneLine) (name : Bytes) (v : Value) :
    (WriteEntry c [] name v).count 10 = if v.IsRpc then 0 else 1 := by
  by_cases hv : v.IsRpc = true
  · rw [WriteEntry_rpc c name v hv, if_pos hv]
    rfl
  · have hv2 : v.IsRpc = false := by simpa using hv
    obtain ⟨body, hb, hn⟩ := WriteEntry_line c hc name v hv2
    rw [hb, if_neg hv, List.count_append, List.count_eq_zero.mpr hn]
    rfl

/-- A text that is empty or ends with a line break. -/
theorem WriteEntry_last (c : Encoders) (hc : c.oneLine) (name : Bytes) (v : Value) :
    WriteEntry c [] name v = [] ∨ (WriteEntry c [] name v).getLast? = some 10 := by
  by_cases hv : v.IsRpc = true
  · exact Or.inl (WriteEntry_rpc c name v hv)
  · have hv2 : v.IsRpc = false := by simpa using hv
    obtain ⟨body, hb, -⟩ := WriteEntry_line c hc name v hv2
    right
    rw [hb, List.getLast?_concat]

theorem flatMap_last {α : Type} (f : α → Bytes) (l : List α)
    (h : ∀ a ∈ l, f a = [] ∨ (f a).getLast? = some 10) :
    l.flatMap f = [] ∨ (l.flatMap f).getLast? = some 10 := by
  induction l with
  | nil => exact Or.inl rfl
  | cons a l ih =>
    rw [List.flatMap_cons]
    rcases ih (fun b hb => h b (List.mem_cons_of_mem _ hb)) with h1 | h1
    · rw [h1, List.append_nil]
      exact h a (List.mem_cons_self _ _)
    · right
      rw [List.getLast?_append, h1]
      rfl

theorem count_flatMap_lines {α : Type} (f : α → Bytes) (p : α → Bool) (l : List α)
    (h : ∀ a ∈ l, (f a).count 10 = if p a then 1 else 0) :
    (l.flatMap f).count 10 = l.countP p := by
  induction l with
  | nil => rfl
  | cons a l ih =>
    rw [List.flatMap_cons, List.count_append, ih (fun b hb => h b (List.mem_cons_of_mem _ hb)),
      h a (List.mem_cons_self _ _), List.countP_cons]
    omega

end SavePersistentImpl

/-- The packed word is the sum of its three fields. -/
theorem Handle.packed (t i x : Nat) (hi : i < 16) (hx : x < 1048576) :
    (t <<< 24) ||| (i <<< 20) ||| x = t * 16777216 + i * 1048576 + x := by
  have h1 : i <<< 20 ||| x = i * 1048576 + x := by
    rw [Nat.shiftLeft_eq]
    have := Nat.mul_add_lt_is_or (i := 20) (b := x) (by simpa using hx) i
    simp only [Nat.reducePow] at this
    rw [Nat.mul_comm, ← this]
  have h2 : i * 1048576 + x < 2 ^ 24 := by
    simp only [Nat.reducePow]
    omega
  rw [Nat.lor_assoc, h1, Nat.shiftLeft_eq]
  have := Nat.mul_add_lt_is_or (i := 24) (b := i * 1048576 + x) h2 t
  simp only [Nat.reducePow] at this
  rw [Nat.mul_comm, ← this]
  omega

/-- The masks 0x7f, 0xf and 0xfffff keep the low 7, 4 and 20 bits. -/
theorem lowBits (n : Nat) :
    n &&& 0x7f = n % 128 ∧ n &&& 0xf = n % 16 ∧ n &&& 0xfffff = n % 1048576 :=
  ⟨Nat.and_pow_two_sub_one_eq_mod n 7, Nat.and_pow_two_sub_one_eq_mod n 4,
    Nat.and_pow_two_sub_one_eq_mod n 20⟩

namespace Storage

theorem bytesLt_irrefl (a : Bytes) : bytesLt a a = false := by
  induction a with
  | nil => rfl
  | cons x xs ih => simp [bytesLt, ih]

theorem bytesLt_trans : ∀ (a b c : Bytes), bytesLt a b = true → bytesLt b c = true →
    bytesLt a c = true
  | [], [], _, h, _ => by simp [bytesLt] at h
  | [], _ :: _, [], _, h => by simp [bytesLt] at h
  | [], _ :: _, _ :: _, _, _ => by simp [bytesLt]
  | _ :: _, [], _, h, _ => by simp [bytesLt] at h
  | _ :: _, _ :: _, [], _, h => by simp [bytesLt] at h
  | x :: xs, y :: ys, z :: zs, h1, h2 => by
    simp only [bytesLt, Bool.or_eq_true, Bool.and_eq_true, decide_eq_true_eq] at h1 h2 ⊢
    rcases h1 with h1 | ⟨e1, h1⟩
    · rcases h2 with h2 | ⟨e2, h2⟩
      · exact Or.inl (by omega)
      · exact Or.inl (by omega)
    · rcases h2 with h2 | ⟨e2, h2⟩
      · exact Or.inl (by omega)
      · exact Or.inr ⟨by omega, bytesLt_trans xs ys zs h1 h2⟩

theorem bytesLt_total : ∀ (a b : Bytes), a ≠ b → bytesLt a b = false → bytesLt b a = true
  | [], [], h, _ => absurd rfl h
  | [], _ :: _, _, h => by simp [bytesLt] at h
  | _ :: _, [], _, _ => by simp [bytesLt]
  | x :: xs, y :: ys, hne, h => by
    simp only [bytesLt, Bool.or_eq_false_iff, Bool.and_eq_false_imp, decide_eq_false_iff_not,
      decide_eq_true_eq] at h
    simp only [bytesLt, Bool.or_eq_true, Bool.and_eq_true, decide_eq_true_eq]
    by_cases e : x = y
    · subst e
      right
      refine ⟨rfl, bytesLt_total xs ys (fun e2 => hne (by rw [e2])) (h.2 rfl)⟩
    · left
      omega

theorem insertByName_perm (x : Bytes × Value) (l : List (Bytes × Value)) :
    (insertByName x l).Perm (x :: l) := by
  induction l with
  | nil => exact List.Perm.refl _
  | cons y ys ih =>
    unfold insertByName
    split
    · exact (List.Perm.cons y ih).trans (List.Perm.swap x y ys)
    · exact List.Perm.refl _

theorem sortByName_perm (l : List (Bytes × Value)) : (sortByName l).Perm l := by
  induction l with
  | nil => exact List.Perm.refl _
  | cons x xs ih =>
    exact (insertByName_perm x (xs.foldr insertByName [])).trans (List.Perm.cons x ih)

theorem insertByName_sorted (x : Bytes × Value) (l : List (Bytes × Value))
    (hx : ∀ y ∈ l, y.1 ≠ x.1) (hl : l.Pairwise (fun a b => bytesLt a.1 b.1 = true)) :
    (insertByName x l).Pairwise (fun a b => bytesLt a.1 b.1 = true) := by
  induction l with
  | nil => simp [insertByName]
  | cons y ys ih =>
    rw [List.pairwise_cons] at hl
    unfold insertByName
    split
    · rename_i hlt
      rw [List.pairwise_cons]
      refine ⟨fun z hz => ?_, ih (fun z hz => hx z (List.mem_cons_of_mem _ hz)) hl.2⟩
      rcases List.mem_cons.mp ((insertByName_perm x ys).mem_iff.mp hz) with h | h
      · rw [h]
        exact hlt
      · exact hl.1 z h
    · rename_i hlt
      have hxy : bytesLt x.1 y.1 = true :=
        bytesLt_total y.1 x.1 (hx y (List.mem_cons_self _ _)) (by simpa using hlt)
      rw [List.pairwise_cons]
      refine ⟨fun z hz => ?_, List.pairwise_cons.mpr hl⟩
      rcases List.mem_cons.mp hz with h | h
      · rw [h]
        exact hxy
      · exact bytesLt_trans _ _ _ hxy (hl.1 z h)

theorem sortByName_sorted (l : List (Bytes × Value)) (hnd : (l.map Prod.fst).Nodup) :
    (sortByName l).Pairwise (fun a b => bytesLt a.1 b.1 = true) := by
  induction l with
  | nil => exact List.Pairwise.nil
  | cons x xs ih =>
    rw [List.map_cons, List.nodup_cons] at hnd
    refine insertByName_sorted x _ (fun y hy e => ?_) (ih hnd.2)
    have hy2 : y ∈ xs := (sortByName_perm xs).mem_iff.mp hy
    exact hnd.1 (e ▸ List.mem_map_of_mem Prod.fst hy2)

/-- The call of an entry with an RPC definition and a 16-bit call uid. -/
theorem CallRpc_valid (s : Storage) (local_id : Nat) (params : Bytes) (v : Value)
    (hp : local_id < s.m_localmap.length) (hv : (s.deref local_id).value = some v)
    (hr : v.IsRpc = true) (hu : (s.deref local_id).rpc_call_uid ≤ 0xffff) :
    s.CallRpc local_id params =
      if s.m_server then
        some ((s.store local_id { s.deref local_id with
            rpc_call_uid := ((s.deref local_id).rpc_call_uid + 1) % 65536 }).rpcCall
          (.ProcessRpc local_id (((s.deref local_id).rpc_call_uid + 1) % 65536)
            (s.deref local_id).name params none (s.deref local_id).rpc_uid),
          ((s.deref local_id).rpc_call_uid + 1) % 65536)
      else if !s.m_dispatcher then none
      else
        some ((s.store local_id { s.deref local_id with
            rpc_call_uid := ((s.deref local_id).rpc_call_uid + 1) % 65536 }).QueueOutgoing
          (Message.ExecuteRpc (s.deref local_id).id
            (((s.deref local_id).rpc_call_uid + 1) % 65536) params) none none,
          ((s.deref local_id).rpc_call_uid + 1) % 65536) := by
  have e : (if (s.deref local_id).rpc_call_uid + 1 > 0xffff then 0
      else (s.deref local_id).rpc_call_uid + 1)
      = ((s.deref local_id).rpc_call_uid + 1) % 65536 := by
    split <;> omega
  unfold CallRpc
  simp only [ge_iff_le, Nat.not_le.mpr hp, if_false, hv, hr, e]
  simp [hp, deref_store, Message.ExecuteRpc]

@[simp] theorem set_rpc_blocking_calls_m_rpc_results (s : Storage) (m : List (Nat × Nat)) :
    (s.set_rpc_blocking_calls m).m_rpc_results = s.m_rpc_results := rfl
@[simp] theorem set_rpc_blocking_calls_m_rpc_blocking_calls (s : Storage)
    (m : List (Nat × Nat)) : (s.set_rpc_blocking_calls m).m_rpc_blocking_calls = m := rfl
@[simp] theorem set_rpc_blocking_calls_m_terminating (s : Storage) (m : List (Nat × Nat)) :
    (s.set_rpc_blocking_calls m).m_terminating = s.m_terminating := rfl
@[simp] theorem set_rpc_blocking_calls_m_localmap (s : Storage) (m : List (Nat × Nat)) :
    (s.set_rpc_blocking_calls m).m_localmap = s.m_localmap := rfl

/-- Erasing a key from the result map removes its result. -/
theorem lookup_erased {β : Type} (k : Nat × Nat) (l : List ((Nat × Nat) × β)) :
    (l.filter (·.1 ≠ k)).lookup k = none := by
  induction l with
  | nil => rfl
  | cons a l ih =>
    obtain ⟨ak, av⟩ := a
    rw [List.filter_cons]
    by_cases h : ak = k
    · rw [if_neg (by simpa using h)]
      exact ih
    · rw [if_pos (by simpa using h)]
      have h2 : (k == ak) = false := by simpa using fun e => h e.symm
      simp only [List.lookup_cons, h2]
      exact ih

/-- Erasing a key from the result map keeps the results of the other keys. -/
theorem lookup_kept {β : Type} (k j : Nat × Nat) (hj : j ≠ k) (l : List ((Nat × Nat) × β)) :
    (l.filter (·.1 ≠ k)).lookup j = l.lookup j := by
  induction l with
  | nil => rfl
  | cons a l ih =>
    obtain ⟨ak, av⟩ := a
    rw [List.filter_cons]
    by_cases h : ak = k
    · rw [if_neg (by simpa using h)]
      have h2 : (j == ak) = false := by
        rw [h]
        simpa using hj
      simp only [List.lookup_cons, h2]
      exact ih
    · rw [if_pos (by simpa using h)]
      cases h3 : j == ak
      · simp only [List.lookup_cons, h3]
        exact ih
      · simp only [List.lookup_cons, h3]

/-- Inserting a pair that is new into the in-flight set and erasing it
again gives the set back. -/
theorem erase_inserted (k : Nat × Nat) (l : List (Nat × Nat)) (h : k ∉ l) :
    (l ++ [k]).filter (· ≠ k) = l := by
  rw [List.filter_append]
  have h1 : l.filter (· ≠ k) = l := by
    rw [List.filter_eq_self]
    intro a ha
    have : a ≠ k := fun e => h (e ▸ ha)
    simpa using this
  have h2 : [k].filter (· ≠ k) = [] := by
    rw [List.filter_cons, if_neg (by simp)]
    rfl
  rw [h1, h2, List.append_nil]

end Storage

namespace Storage

open SavePersistentImpl

theorem flatMap_entryLine (c : Encoders) (l : List (Bytes × Value)) :
    (l.map fun i => (i.1, some i.2)).flatMap (entryLine c)
      = l.flatMap fun i => WriteEntry c [] i.1 i.2 := by
  induction l with
  | nil => rfl
  | cons a l ih =>
    rw [List.map_cons, List.flatMap_cons, List.flatMap_cons, ih]
    rfl

/-- A save that is not skipped: the dirty flag is cleared and the sorted
persistent entries are collected. -/
theorem GetPersistentEntries_collects (s : Storage) (periodic : Bool)
    (h : periodic = false ∨ s.m_persistent_dirty = true) :
    s.GetPersistentEntries periodic
      = (s.set_persistent_dirty false, some (sortByName (persistentEntries s))) := by
  unfold GetPersistentEntries
  have e : (periodic && !s.m_persistent_dirty) = false := by
    rcases h with h | h <;> simp [h]
  rw [e]
  rfl

/-- A periodic save of a table that is not dirty is skipped. -/
theorem GetPersistentEntries_skips (s : Storage) (h : s.m_persistent_dirty = false) :
    s.GetPersistentEntries true = (s, none) := by
  unfold GetPersistentEntries
  rw [h]
  rfl

/-- The text of a save that is not skipped. -/
theorem SavePersistent_text (s : Storage) (c : Encoders) (os : Bytes) (periodic : Bool)
    (h : periodic = false ∨ s.m_persistent_dirty = true) :
    s.SavePersistent c os periodic
      = (s.set_persistent_dirty false, os ++ (cstr "[NetworkTables Storage 3.0]\n" ++
          (sortByName (persistentEntries s)).flatMap fun i => WriteEntry c [] i.1 i.2)) := by
  unfold SavePersistent
  rw [GetPersistentEntries_collects s periodic h]
  simp only [Save_eq, flatMap_entryLine]

theorem persistentEntry_eq_some (s : Storage) (i : Bytes × Nat) (j : Bytes × Value) :
    persistentEntry s i = some j ↔
      j.1 = i.1 ∧ (s.deref i.2).value = some j.2 ∧ (s.deref i.2).IsPersistent = true := by
  unfold persistentEntry
  cases hv : (s.deref i.2).value with
  | none => simp
  | some w =>
    by_cases hp : (s.deref i.2).IsPersistent = true
    · simp only [hp, if_true, Option.some.injEq, and_true]
      constructor
      · rintro rfl
        exact ⟨rfl, rfl⟩
      · rintro ⟨h1, h2⟩
        exact Prod.ext h1.symm h2
    · simp [hp]

theorem mem_persistentEntries (s : Storage) (n : Bytes) (v : Value) :
    (n, v) ∈ persistentEntries s ↔
      ∃ p, (n, p) ∈ s.m_entries ∧ (s.deref p).value = some v ∧
        (s.deref p).IsPersistent = true := by
  unfold persistentEntries
  rw [List.mem_filterMap]
  constructor
  · rintro ⟨⟨m, p⟩, hm, h⟩
    obtain ⟨h1, h2, h3⟩ := (persistentEntry_eq_some s _ _).mp h
    cases h1
    exact ⟨p, hm, h2, h3⟩
  · rintro ⟨p, hm, hv, hp⟩
    exact ⟨(n, p), hm, (persistentEntry_eq_some s _ _).mpr ⟨rfl, hv, hp⟩⟩

theorem names_filterMap_sublist (f : Bytes × Nat → Option (Bytes × Value))
    (hf : ∀ i j, f i = some j → j.1 = i.1) (l : List (Bytes × Nat)) :
    ((l.filterMap f).map Prod.fst).Sublist (l.map Prod.fst) := by
  induction l with
  | nil => exact List.Sublist.slnil
  | cons a l ih =>
    cases h : f a with
    | none =>
      rw [List.filterMap_cons_none h, List.map_cons]
      exact List.Sublist.cons _ ih
    | some b =>
      rw [List.filterMap_cons_some h, List.map_cons, List.map_cons, hf a b h]
      exact List.Sublist.cons₂ _ ih

/-- The names of the name map of a tidy table are distinct. -/
theorem Tidy.names {s : Storage} (h : Tidy s) : (s.m_entries.map Prod.fst).Nodup := by
  rw [h.1]
  exact h.2.2

theorem persistentEntries_nodup (s : Storage) (hnd : (s.m_entries.map Prod.fst).Nodup) :
    ((persistentEntries s).map Prod.fst).Nodup :=
  List.Nodup.sublist
    (names_filterMap_sublist _ (fun i j h => ((persistentEntry_eq_some s i j).mp h).1) _) hnd

/-- Two lists of entries with distinct names and the same elements are
sorted into the same list. -/
theorem sortByName_unique (l1 l2 : List (Bytes × Value)) (hp : l1.Perm l2)
    (hnd : (l1.map Prod.fst).Nodup) : sortByName l1 = sortByName l2 := by
  have hnd2 : (l2.map Prod.fst).Nodup := (hp.map Prod.fst).nodup_iff.mp hnd
  have h1 := sortByName_sorted l1 hnd
  have h2 := sortByName_sorted l2 hnd2
  have hp2 : (sortByName l1).Perm (sortByName l2) :=
    ((sortByName_perm l1).trans hp).trans (sortByName_perm l2).symm
  haveI : IsAntisymm (Bytes × Value) (fun a b => bytesLt a.1 b.1 = true) :=
    ⟨fun a b hab hba => by
      have := bytesLt_trans _ _ _ hab hba
      rw [bytesLt_irrefl] at this
      cases this⟩
  exact List.eq_of_perm_of_sorted hp2 h1 h2

theorem persistentEntries_perm (s t : Storage) (hp : t.m_entries.Perm s.m_entries)
    (hd : ∀ p, t.deref p = s.deref p) : (persistentEntries t).Perm (persistentEntries s) := by
  unfold persistentEntries
  have : persistentEntry t = persistentEntry s := by
    funext i
    unfold persistentEntry
    rw [hd]
  rw [this]
  exact hp.filterMap _

theorem persistentEntries_length (s : Storage) :
    (persistentEntries s).length = s.m_entries.countP fun i =>
      (s.deref i.2).value.isSome && (s.deref i.2).IsPersistent := by
  unfold persistentEntries
  rw [List.length_filterMap_eq_countP]
  congr 1
  funext i
  unfold persistentEntry
  cases hv : (s.deref i.2).value with
  | none => rfl
  | some w =>
    by_cases hp : (s.deref i.2).IsPersistent = true
    · simp [hp]
    · simp [hp]

/-- The persistent entries that are written: those whose value is no RPC
definition. -/
theorem persistentEntries_written (s : Storage) :
    (persistentEntries s).countP (fun i => !i.2.IsRpc) = s.m_entries.countP fun i =>
      (s.deref i.2).value.any (fun v => !v.IsRpc) && (s.deref i.2).IsPersistent := by
  unfold persistentEntries
  rw [List.countP_filterMap]
  congr 1
  funext i
  unfold persistentEntry
  cases hv : (s.deref i.2).value with
  | none => rfl
  | some w =>
    by_cases hp : (s.deref i.2).IsPersistent = true
    · simp [hp]
    · simp [hp]

end Storage

namespace SavePersistentImpl

theorem hexdigit_upper (n : Nat) (h : n < 16) : hexdigit n = upperHex n := by
  interval_cases n <;> decide

/-- The loop body of WriteString writes the escape of the byte. -/
theorem WriteChar_escape (b : Nat) (hb : b < 256) : WriteChar [] b = escapeByte b := by
  have h1 : (b >>> 4) &&& 0xF = b / 16 := by
    rw [Nat.shiftRight_eq_div_pow, (lowBits _).2.1]
    omega
  have h2 : (b >>> 0) &&& 0xF = b % 16 := by
    rw [Nat.shiftRight_eq_div_pow, (lowBits _).2.1]
    omega
  unfold WriteChar escapeByte isprint
  rw [h1, h2, hexdigit_upper _ (by omega), hexdigit_upper _ (by omega)]
  by_cases e1 : b = 92
  · simp [e1]
  by_cases e2 : b = 9
  · simp [e2]
  by_cases e3 : b = 10
  · simp [e3]
  by_cases e4 : b = 34
  · simp [e4]
  by_cases e5 : 0x20 ≤ b ∧ b ≤ 0x7e ∧ b ≠ 61
  · simp [e1, e2, e3, e4, e5]
  · have e6 : ¬ ((decide (0x20 ≤ b) && decide (b ≤ 0x7e) && (b != 61)) = true) := by
      intro h
      simp only [Bool.and_eq_true, decide_eq_true_eq, bne_iff_ne] at h
      exact e5 ⟨h.1.1, h.1.2, h.2⟩
    simp only [e1, e2, e3, e4, e5, e6, if_false, List.nil_append, List.append_assoc]
    rfl

end SavePersistentImpl

/-! ## The id map, the ids and the values -/

namespace Storage

theorem idEntry_grow (s : Storage) (id : Nat) :
    (if id ≥ s.m_idmap.length then s.growIdmap (id + 1) else s).idEntry id = s.idEntry id := by
  unfold idEntry
  split
  · rename_i h
    simp only [growIdmap_eq, set_idmap_m_idmap]
    rw [List.getElem?_append_right h, List.getElem?_eq_none (Nat.le_of_eq rfl |>.trans h)]
    simp
  · rfl

/-- The common path for an entry that waited for its id on a client with a
dispatcher: an older message is answered with the local value, a newer one
replaces value and seq_num; the id, the flags and id_map stay. -/
theorem EntryAssignCommon_pending (u : Storage) (msg : Message) (conn : INetworkConnection)
    (p : Nat) (hu : u.m_server = false) (hd : u.m_dispatcher = true)
    (hp : p < u.m_localmap.length) (hv : msg.value.isSome = true)
    (hval : (u.deref p).value.isSome = true) :
    ∃ t, u.EntryAssignCommon msg conn p true = some t ∧ t.m_idmap = u.m_idmap ∧
      (t.deref p).id = (u.deref p).id ∧ (t.deref p).flags = (u.deref p).flags ∧
      t.queued = u.queued ++
        (if SequenceNumber.lt ⟨msg.seq_num_uid⟩ (u.deref p).seq_num then
          [⟨Message.EntryUpdate (u.deref p).id (u.deref p).seq_num.value (u.deref p).value,
            none, none⟩]
        else []) ∧
      (SequenceNumber.lt ⟨msg.seq_num_uid⟩ (u.deref p).seq_num = true →
        t.deref p = u.deref p) := by
  unfold EntryAssignCommon
  by_cases hlt : SequenceNumber.lt ⟨msg.seq_num_uid⟩ (u.deref p).seq_num = true
  · simp [hlt, hd]
  · by_cases hn : msg.str ≠ (u.deref p).name
    · simp [hlt, hn]
    · have hn2 : msg.str = (u.deref p).name := by simpa using hn
      have hv2 : msg.value.isNone = false := by
        cases h : msg.value with
        | none => rw [h] at hv; cases hv
        | some w => rfl
      have hval2 : (u.deref p).value.isNone = false := by
        cases h : (u.deref p).value with
        | none => rw [h] at hval; cases hval
        | some w => rfl
      simp [hlt, hn2, hu, hv2, hval2, deref_store, hp]

end Storage

namespace SavePersistentImpl

theorem hexdigit_mem (n : Nat) (h : n < 16) : hexdigit n ∈ cstr "0123456789ABCDEF" := by
  interval_cases n <;> decide

theorem hexchar_plain (h : Nat) (hm : h ∈ cstr "0123456789ABCDEF") :
    0x20 ≤ h ∧ h ≤ 0x7e ∧ h ≠ 10 ∧ h ≠ 34 ∧ h ≠ 61 := by
  have e : cstr "0123456789ABCDEF"
      = [48, 49, 50, 51, 52, 53, 54, 55, 56, 57, 65, 66, 67, 68, 69, 70] := by decide
  rw [e] at hm
  simp only [List.mem_cons, List.mem_singleton, List.not_mem_nil, or_false] at hm
  omega

theorem WriteChar_form (c : Nat) : escapeForm (WriteChar [] c) := by
  unfold WriteChar escapeForm
  split
  · exact Or.inr (Or.inl rfl)
  split
  · exact Or.inr (Or.inr (Or.inl rfl))
  split
  · exact Or.inr (Or.inr (Or.inr (Or.inl rfl)))
  split
  · exact Or.inr (Or.inr (Or.inr (Or.inr (Or.inl rfl))))
  split
  · rename_i h1 h2 h3 h4 h5
    unfold isprint at h5
    simp only [Bool.and_eq_true, decide_eq_true_eq, bne_iff_ne, ne_eq] at h5
    exact Or.inl ⟨c, rfl, h5.1.1, h5.1.2, h3, h4, h5.2, h1⟩
  · refine Or.inr (Or.inr (Or.inr (Or.inr (Or.inr ⟨_, _, rfl, ?_, ?_⟩))))
    · apply hexdigit_mem
      rw [(lowBits _).2.1]
      omega
    · apply hexdigit_mem
      rw [(lowBits _).2.1]
      omega

/-- The bytes of one escape are printable, none is a newline or '=', and a
double quote is the second character of the escape of the double quote. -/
theorem escapeForm_bytes (tok : Bytes) (h : escapeForm tok) :
    (∀ c ∈ tok, 0x20 ≤ c ∧ c ≤ 0x7e ∧ c ≠ 10 ∧ c ≠ 61) ∧ (34 ∈ tok → tok = [92, 34]) := by
  rcases h with ⟨c, rfl, h1, h2, h3, h4, h5, h6⟩ | rfl | rfl | rfl | rfl | ⟨h, l, rfl, hh, hl⟩
  · refine ⟨fun d hd => ?_, fun hm => ?_⟩
    · rw [List.mem_singleton] at hd
      subst hd
      exact ⟨h1, h2, h3, h5⟩
    · rw [List.mem_singleton] at hm
      exact absurd hm.symm h4
  · exact ⟨by decide, by decide⟩
  · exact ⟨by decide, by decide⟩
  · exact ⟨by decide, by decide⟩
  · exact ⟨by decide, by decide⟩
  · have a := hexchar_plain h hh
    have b := hexchar_plain l hl
    refine ⟨fun d hd => ?_, fun hm => ?_⟩
    · simp only [List.mem_cons, List.mem_singleton, List.not_mem_nil, or_false] at hd
      omega
    · simp only [List.mem_cons, List.mem_singleton, List.not_mem_nil, or_false] at hm
      omega

theorem hexval_upperHex (n : Nat) (h : n < 16) : hexval (upperHex n) = n := by
  interval_cases n <;> decide

/-- The decoder reads the escape of a byte back as the byte. -/
theorem unescape_escapeByte (b : Nat) (hb : b < 256) (out : Bytes) :
    (escapeByte b).foldl unescapeStep (.plain, out) = (.plain, out ++ [b]) := by
  unfold escapeByte
  by_cases e1 : b = 92
  · subst e1
    rfl
  by_cases e2 : b = 9
  · subst e2
    rfl
  by_cases e3 : b = 10
  · subst e3
    rfl
  by_cases e4 : b = 34
  · subst e4
    rfl
  rw [if_neg e1, if_neg e2, if_neg e3, if_neg e4]
  split
  · simp [unescapeStep, e1]
  · have h1 := hexval_upperHex (b / 16) (by omega)
    have h2 := hexval_upperHex (b % 16) (by omega)
    have h3 : cstr "\\x" = [92, 120] := by decide
    rw [h3]
    simp only [List.cons_append, List.nil_append, List.foldl_cons, List.foldl_nil, unescapeStep,
      if_true, h1, h2]
    have : b / 16 * 16 + b % 16 = b := by omega
    rw [this]

theorem unescape_flatMap (s : Bytes) (hs : ∀ b ∈ s, b < 256) (out : Bytes) :
    (s.flatMap escapeByte).foldl unescapeStep (.plain, out) = (.plain, out ++ s) := by
  induction s generalizing out with
  | nil => simp
  | cons b s ih =>
    rw [List.flatMap_cons, List.foldl_append, unescape_escapeByte b (hs b (List.mem_cons_self _ _)),
      ih (fun c hc => hs c (List.mem_cons_of_mem _ hc))]
    simp

theorem flatMap_WriteChar (s : Bytes) (hs : ∀ b ∈ s, b < 256) :
    s.flatMap (WriteChar []) = s.flatMap escapeByte := by
  induction s with
  | nil => rfl
  | cons c s ih =>
    rw [List.flatMap_cons, List.flatMap_cons, ih (fun b hm => hs b (List.mem_cons_of_mem _ hm)),
      WriteChar_escape c (hs c (List.mem_cons_self _ _))]

/-- The decoder reads the text of WriteString back as the string. -/
theorem unescape_WriteString (s : Bytes) (hs : ∀ b ∈ s, b < 256) :
    unescape (WriteString [] s) = s := by
  unfold unescape
  rw [WriteString_eq, flatMap_WriteChar s hs]
  have : (([] ++ ([34] ++ s.flatMap escapeByte ++ [34]) : Bytes).drop 1).dropLast
      = s.flatMap escapeByte := by
    simp [List.dropLast_concat]
  rw [this, unescape_flatMap s hs]
  rfl


end SavePersistentImpl

namespace Storage

/-- The entry that ApplyInitialAssignments leaves for an assignment that is
the only one of the call with its name: the entry of the loop "apply
assignments", made from the entry before the call with its id cleared. -/
theorem ApplyInitialAssignments_entry (s : Storage) (conn : INetworkConnection)
    (pre post : List Message) (m : Message) (p : Nat) (o : Value)
    (hs : s.m_server = false) (hT : Tidy s) (ha : m.assigns)
    (hf : s.find m.str = some p) (ho : (s.deref p).value = some o)
    (huniq : ∀ x ∈ pre ++ post, x.assigns → x.str ≠ m.str)
    (t : Storage) (out : List Message)
    (hres : s.ApplyInitialAssignments conn (pre ++ m :: post) = some (t, out)) :
    t.deref p = assigned conn m { s.deref p with id := 0xffff } := by
  obtain ⟨_, hderef, _, _, _⟩ := ApplyInitialAssignments_result s conn _ hs t out hres
  have hp : p < s.m_localmap.length := hT.wf.lt hf
  have hst := clearIds_sameTable s
  have hwf0 : WF s.clearIds := hst.good.2 hT.wf
  have hf0 : s.clearIds.find m.str = some p := by
    unfold Storage.find
    rw [hst.1]
    exact hf
  have hpre : ∀ x ∈ pre, x.assigns → x.str ≠ m.str :=
    fun x hx hxa => huniq x (List.mem_append_left _ hx) hxa
  have hpost : ∀ x ∈ post, x.assigns → x.str ≠ m.str :=
    fun x hx hxa => huniq x (List.mem_append_right _ hx) hxa
  have hg1 := foldl_good _ (ApplyAssignStep_good conn) pre (s.clearIds, [])
  have hwf1 := hg1.2 hwf0
  have hf1 := hg1.1.lookup hf0
  have he1 := assign_fold_untouched conn pre m.str p hpre (s.clearIds, []) hwf0 hf0
  rw [clearIds_deref, if_pos (hT.mem_pointers.mpr hp)] at he1
  generalize hacc1 : pre.foldl (ApplyAssignStep conn) (s.clearIds, []) = acc1
    at hg1 hwf1 hf1 he1
  have hgn : acc1.1.GetOrNew m.str = (acc1.1, p) := GetOrNew_of_find hf1
  have hp1 : p < acc1.1.m_localmap.length := hwf1.lt hf1
  have h2 := ApplyAssignStep_deref_self conn acc1 m ha (by rw [hgn]; exact hp1)
  rw [hgn] at h2
  simp only at h2
  rw [he1] at h2
  have hg2 := ApplyAssignStep_good conn acc1 m
  have hwf2 := hg2.2 hwf1
  have hf2 := hg2.1.lookup hf1
  generalize hacc2 : ApplyAssignStep conn acc1 m = acc2 at h2 hg2 hwf2 hf2
  have he3 := assign_fold_untouched conn post m.str p hpost acc2 hwf2 hf2
  have happ : s.applied conn (pre ++ m :: post) = post.foldl (ApplyAssignStep conn) acc2 := by
    unfold applied
    rw [List.foldl_append, List.foldl_cons, hacc1, hacc2]
  have hE : (s.applied conn (pre ++ m :: post)).1.deref p =
      assigned conn m { s.deref p with id := 0xffff } := by
    rw [happ, he3, h2.1]
  have hid : (assigned conn m { s.deref p with id := 0xffff }).id = m.id := by
    unfold assigned
    simp only [ho]
    split <;> rfl
  rw [hderef]
  unfold reconciled
  rw [DeleteAllEntriesImplF_deref, hE]
  have : deletes unassignedShouldDelete (assigned conn m { s.deref p with id := 0xffff }) =
      false := by
    simp [deletes, unassignedShouldDelete, hid, ha.2]
  simp [this]

/-- The sequence number of the entry after the common handling of an
EntryAssign for an entry of a known id. -/
theorem EntryAssignCommon_seq (u : Storage) (msg : Message) (conn : INetworkConnection)
    (p : Nat) (hp : p < u.m_localmap.length) (hv : msg.value.isSome = true)
    (hval : (u.deref p).value.isSome = true) :
    ∃ t, u.EntryAssignCommon msg conn p false = some t ∧
      (t.deref p).seq_num =
        if SequenceNumber.lt ⟨msg.seq_num_uid⟩ (u.deref p).seq_num = true ∨
            msg.str ≠ (u.deref p).name then (u.deref p).seq_num
        else ⟨msg.seq_num_uid⟩ := by
  unfold EntryAssignCommon
  have hv2 : msg.value.isNone = false := by
    cases h : msg.value with
    | none => rw [h] at hv; cases hv
    | some w => rfl
  have hval2 : (u.deref p).value.isNone = false := by
    cases h : (u.deref p).value with
    | none => rw [h] at hval; cases hval
    | some w => rfl
  by_cases hlt : SequenceNumber.lt ⟨msg.seq_num_uid⟩ (u.deref p).seq_num = true
  · simp [hlt]
  · by_cases hn : msg.str ≠ (u.deref p).name
    · simp [hlt, hn]
    · have hn2 : msg.str = (u.deref p).name := by simpa using hn
      by_cases hr : conn.proto_rev ≥ 0x0300
      · by_cases hsd : u.m_server = true ∧ u.m_dispatcher = true
        · simp [hlt, hn2, hv2, hval2, deref_store, hp, hr, hsd.1, hsd.2]
        · simp [hlt, hn2, hv2, hval2, deref_store, hp, hr, hsd]
      · by_cases hsd : u.m_server = true ∧ u.m_dispatcher = true
        · simp [hlt, hn2, hv2, hval2, deref_store, hp, hr, hsd.1, hsd.2]
        · simp [hlt, hn2, hv2, hval2, deref_store, hp, hr, hsd]

theorem lt_of_idEntry {s : Storage} {id p : Nat} (h : s.idEntry id = some p) :
    id < s.m_idmap.length := by
  by_contra hn
  unfold idEntry at h
  rw [List.getElem?_eq_none (Nat.le_of_not_lt hn)] at h
  cases h

/-- The sequence number of the entry after an EntryUpdate for a known id. -/
theorem ProcessIncomingEntryUpdate_seq (s : Storage) (msg : Message)
    (conn : INetworkConnection) (p : Nat) (hslot : s.idEntry msg.id = some p)
    (hp : p < s.m_localmap.length) :
    ((s.ProcessIncomingEntryUpdate msg conn).deref p).seq_num =
      if SequenceNumber.le ⟨msg.seq_num_uid⟩ (s.deref p).seq_num = true then (s.deref p).seq_num
      else ⟨msg.seq_num_uid⟩ := by
  unfold ProcessIncomingEntryUpdate
  rw [hslot]
  by_cases hle : SequenceNumber.le ⟨msg.seq_num_uid⟩ (s.deref p).seq_num = true
  · simp [hle]
  · by_cases hsd : s.m_server = true ∧ s.m_dispatcher = true
    · by_cases hP : (s.deref p).IsPersistent = true
      · simp [hle, deref_store, hp, hsd.1, hsd.2, Entry.IsPersistent] at hP ⊢
      · simp [hle, deref_store, hp, hsd.1, hsd.2, Entry.IsPersistent] at hP ⊢
    · by_cases hP : (s.deref p).IsPersistent = true
      · simp [hle, deref_store, hp, hsd, Entry.IsPersistent] at hP ⊢
      · simp [hle, deref_store, hp, hsd, Entry.IsPersistent] at hP ⊢

/-- A sequence number that is not older than or equal to another one is not
older than it. -/
theorem SequenceNumber.not_lt_of_not_le {a b : SequenceNumber}
    (h : ¬ SequenceNumber.le a b = true) : SequenceNumber.lt a b = false := by
  unfold SequenceNumber.le at h
  cases hl : SequenceNumber.lt a b
  · rfl
  · rw [hl] at h
    simp at h


/-! ### The id map and the ids of the entries -/

/-- The lookup in a list of slots. -/
theorem slot_some_lt {m : List (Option Nat)} {i p : Nat} (h : (m[i]?).getD none = some p) :
    i < m.length := by
  by_contra hn
  rw [List.getElem?_eq_none (Nat.le_of_not_lt hn)] at h
  cases h

theorem slot_append_left (m l : List (Option Nat)) (i : Nat) (h : i < m.length) :
    ((m ++ l)[i]?).getD none = (m[i]?).getD none := by
  rw [List.getElem?_append_left h]

theorem slot_append_none (m : List (Option Nat)) (k i : Nat) :
    ((m ++ List.replicate k none)[i]?).getD none = (m[i]?).getD none := by
  by_cases h : i < m.length
  · rw [List.getElem?_append_left h]
  · rw [List.getElem?_append_right (Nat.le_of_not_lt h),
      List.getElem?_eq_none (Nat.le_of_not_lt h)]
    by_cases h2 : i - m.length < k
    · rw [List.getElem?_replicate, if_pos h2]
      rfl
    · rw [List.getElem?_replicate, if_neg h2]

theorem slot_set (m : List (Option Nat)) (j i : Nat) (x : Option Nat) :
    ((m.set j x)[i]?).getD none =
      if i = j ∧ j < m.length then x else (m[i]?).getD none := by
  rw [List.getElem?_set]
  by_cases h : j = i
  · subst h
    by_cases h2 : j < m.length
    · simp [h2]
    · simp [h2, List.getElem?_eq_none (Nat.le_of_not_lt h2)]
  · have : ¬(i = j ∧ j < m.length) := fun hh => h hh.1.symm
    simp [h, this]


namespace View

@[simp] theorem write_server (v : View) (p : Nat) (b : Bool) : (v.write p b).server = v.server :=
  rfl
@[simp] theorem write_idmap (v : View) (p : Nat) (b : Bool) : (v.write p b).idmap = v.idmap :=
  rfl
@[simp] theorem write_slot (v : View) (p : Nat) (b : Bool) (i : Nat) :
    (v.write p b).slot i = v.slot i := rfl
theorem write_sig (v : View) (p : Nat) (b : Bool) (q : Nat) :
    (v.write p b).sig q = if q = p then ((v.sig p).1, b) else v.sig q := by
  unfold write
  simp only [Function.update_apply]
theorem write_id (v : View) (p : Nat) (b : Bool) (q : Nat) :
    ((v.write p b).sig q).1 = (v.sig q).1 := by
  rw [write_sig]
  split
  · rename_i h
    rw [h]
  · rfl

@[simp] theorem assign_server (v : View) (p : Nat) : (v.assign p).server = v.server := rfl
@[simp] theorem assign_idmap (v : View) (p : Nat) : (v.assign p).idmap = v.idmap ++ [some p] :=
  rfl
theorem assign_sig (v : View) (p : Nat) (q : Nat) :
    (v.assign p).sig q = if q = p then (v.idmap.length, true) else v.sig q := by
  unfold assign
  simp only [Function.update_apply]
theorem assign_slot (v : View) (p : Nat) (i : Nat) :
    (v.assign p).slot i = if i = v.idmap.length then some p else v.slot i := by
  unfold slot
  rw [assign_idmap]
  by_cases h : i < v.idmap.length
  · rw [slot_append_left _ _ _ h, if_neg (by omega)]
  · by_cases h2 : i = v.idmap.length
    · subst h2
      simp
    · rw [List.getElem?_eq_none (by simp; omega), List.getElem?_eq_none (by omega), if_neg h2]

@[simp] theorem release_server (v : View) (p : Nat) : (v.release p).server = v.server := rfl
theorem release_sig (v : View) (p : Nat) (q : Nat) :
    (v.release p).sig q = if q = p then (0xffff, false) else v.sig q := by
  unfold release
  simp only [Function.update_apply]
theorem release_length (v : View) (p : Nat) : (v.release p).idmap.length = v.idmap.length := by
  unfold release
  simp only
  split
  · rw [List.length_set]
  · rfl
theorem release_slot (v : View) (p : Nat) (i : Nat) :
    (v.release p).slot i = if i = (v.sig p).1 then none else v.slot i := by
  unfold slot release
  simp only
  by_cases h : (v.sig p).1 < v.idmap.length
  · rw [if_pos h, slot_set]
    by_cases h2 : i = (v.sig p).1
    · rw [if_pos ⟨h2, h⟩, if_pos h2]
    · rw [if_neg (fun hh => h2 hh.1), if_neg h2]
  · rw [if_neg h]
    by_cases h2 : i = (v.sig p).1
    · rw [if_pos h2, h2, List.getElem?_eq_none (Nat.le_of_not_lt h)]
      rfl
    · rw [if_neg h2]

@[simp] theorem bind_server (v : View) (i p : Nat) (b : Bool) : (v.bind i p b).server = v.server :=
  rfl
theorem bind_sig (v : View) (i p : Nat) (b : Bool) (q : Nat) :
    (v.bind i p b).sig q = if q = p then (i, b) else v.sig q := by
  unfold bind
  simp only [Function.update_apply]
theorem bind_length (v : View) (i p : Nat) (b : Bool) :
    (v.bind i p b).idmap.length = max v.idmap.length (i + 1) := by
  unfold bind
  simp only [List.length_set, List.length_append, List.length_replicate]
  omega
theorem bind_slot (v : View) (i p : Nat) (b : Bool) (j : Nat) :
    (v.bind i p b).slot j = if j = i then some p else v.slot j := by
  unfold slot bind
  simp only
  rw [slot_set, slot_append_none]
  by_cases h : j = i
  · rw [if_pos ⟨h, by simp only [List.length_append, List.length_replicate]; omega⟩, if_pos h]
  · rw [if_neg (fun hh => h hh.1), if_neg h]

theorem slot_lt {v : View} {i p : Nat} (h : v.slot i = some p) : i < v.idmap.length :=
  slot_some_lt h

/-- The slots of a linked view refer to entries with an assigned id. -/
theorem Linked.slot_id {v : View} (h : v.Linked) {i p : Nat} (hs : v.slot i = some p) :
    (v.sig p).1 ≠ 0xffff := by
  have h1 := h.1 i p hs
  have h2 := slot_lt hs
  have h3 := h.2.2
  omega

theorem Linked.write {v : View} (h : v.Linked) (p : Nat) (b : Bool) : (v.write p b).Linked := by
  refine ⟨fun i q hs => ?_, fun q hq => ?_, h.2.2⟩
  · rw [write_id]
    exact h.1 i q hs
  · rw [write_id] at hq ⊢
    exact h.2.1 q hq

theorem Linked.role {v : View} (h : v.Linked) (b : Bool) : Linked { v with server := b } := h

theorem Linked.assign {v : View} (h : v.Linked) (p : Nat) (hp : (v.sig p).1 = 0xffff)
    (hl : v.idmap.length < 0xffff) : (v.assign p).Linked := by
  refine ⟨fun i q hs => ?_, fun q hq => ?_, ?_⟩
  · rw [assign_slot] at hs
    rw [assign_sig]
    by_cases hi : i = v.idmap.length
    · rw [if_pos hi] at hs
      cases hs
      rw [if_pos rfl, hi]
    · rw [if_neg hi] at hs
      have h1 := h.1 i q hs
      have h2 := h.slot_id hs
      have hqp : q ≠ p := fun e => h2 (e ▸ hp)
      rw [if_neg hqp]
      exact h1
  · rw [assign_sig] at hq ⊢
    rw [assign_slot]
    by_cases hqp : q = p
    · rw [if_pos hqp]
      simp only [if_true, hqp]
    · rw [if_neg hqp] at hq ⊢
      have h1 := h.2.1 q hq
      have h2 := slot_lt h1
      rw [if_neg (by omega)]
      exact h1
  · rw [assign_idmap, List.length_append, List.length_singleton]
    omega

theorem Linked.release {v : View} (h : v.Linked) (p : Nat) : (v.release p).Linked := by
  refine ⟨fun i q hs => ?_, fun q hq => ?_, ?_⟩
  · rw [release_slot] at hs
    by_cases hi : i = (v.sig p).1
    · rw [if_pos hi] at hs
      cases hs
    · rw [if_neg hi] at hs
      have h1 := h.1 i q hs
      have hqp : q ≠ p := fun e => hi (by rw [← h1, e])
      rw [release_sig, if_neg hqp]
      exact h1
  · rw [release_sig] at hq ⊢
    by_cases hqp : q = p
    · rw [if_pos hqp] at hq
      exact absurd rfl hq
    · rw [if_neg hqp] at hq ⊢
      have h1 := h.2.1 q hq
      rw [release_slot]
      by_cases hi : (v.sig q).1 = (v.sig p).1
      · exfalso
        rw [hi] at h1
        have h2 := h.2.1 p (by rw [← hi]; exact hq)
        rw [h1] at h2
        exact hqp (Option.some.inj h2)
      · rw [if_neg hi]
        exact h1
  · rw [release_length]
    exact h.2.2

theorem Linked.bind {v : View} (h : v.Linked) (i p : Nat) (b : Bool) (hi : i < 0xffff)
    (hs : v.slot i = none) (hp : (v.sig p).1 = 0xffff) : (v.bind i p b).Linked := by
  refine ⟨fun j q hj => ?_, fun q hq => ?_, ?_⟩
  · rw [bind_slot] at hj
    rw [bind_sig]
    by_cases hji : j = i
    · rw [if_pos hji] at hj
      cases hj
      rw [if_pos rfl, hji]
    · rw [if_neg hji] at hj
      have h1 := h.1 j q hj
      have h2 := h.slot_id hj
      have hqp : q ≠ p := fun e => h2 (e ▸ hp)
      rw [if_neg hqp]
      exact h1
  · rw [bind_sig] at hq ⊢
    rw [bind_slot]
    by_cases hqp : q = p
    · rw [if_pos hqp]
      simp only [if_true, hqp]
    · rw [if_neg hqp] at hq ⊢
      have h1 := h.2.1 q hq
      have hne : (v.sig q).1 ≠ i := by
        intro e
        rw [e, hs] at h1
        cases h1
      rw [if_neg hne]
      exact h1
  · rw [bind_length]
    have := h.2.2
    omega

theorem Released.trans {u v w : View} (h1 : Released u v) (h2 : Released v w) :
    Released u w := by
  induction h1 with
  | refl v => exact h2
  | step v p _ ih => exact Released.step v p (ih h2)

theorem Released.one (v : View) (p : Nat) : Released v (v.release p) :=
  Released.step v p (Released.refl _)

theorem Released.staysLinked {v w : View} (h : Released v w) (hl : v.Linked) : w.Linked := by
  induction h with
  | refl v => exact hl
  | step v p _ ih => exact ih (hl.release p)

theorem Released.sameServer {v w : View} (h : Released v w) : w.server = v.server := by
  induction h with
  | refl v => rfl
  | step v p _ ih => exact ih

theorem Released.keepsLength {v w : View} (h : Released v w) : w.idmap.length = v.idmap.length := by
  induction h with
  | refl v => rfl
  | step v p _ ih => rw [ih, release_length]

/-- After releases every entry has the id and the value mark it had, or
neither an id nor a value. -/
theorem Released.sig {v w : View} (h : Released v w) (q : Nat) :
    w.sig q = v.sig q ∨ w.sig q = (0xffff, false) := by
  induction h with
  | refl v => exact Or.inl rfl
  | step v p _ ih =>
    rcases ih with h1 | h1
    · rw [h1, release_sig]
      by_cases hq : q = p
      · rw [if_pos hq]
        exact Or.inr rfl
      · rw [if_neg hq]
        exact Or.inl rfl
    · exact Or.inr h1

/-- A call with an effect keeps the id map and the ids in agreement as long
as the id map stays below 0xFFFF slots. -/
theorem Effect.linked {v w : View} (h : Effect v w) (hl : v.Linked)
    (hb : w.idmap.length ≤ 0xffff) : w.Linked := by
  cases h with
  | same => exact hl
  | write p b _ => exact hl.write p b
  | assign p hp =>
    rw [assign_idmap, List.length_append, List.length_singleton] at hb
    exact hl.assign p hp (by omega)
  | released _ h => exact h.staysLinked hl


end View

theorem view_ext {s : Storage} {v : View} (h1 : s.m_server = v.server)
    (h2 : s.m_idmap = v.idmap) (h3 : ∀ q, sig (s.deref q) = v.sig q) : view s = v := by
  cases v with
  | mk a b c =>
    unfold view
    simp only at h1 h2 h3
    rw [h1, h2]
    congr 1
    funext q
    exact h3 q

@[simp] theorem view_server (s : Storage) : (view s).server = s.m_server := rfl
@[simp] theorem view_idmap (s : Storage) : (view s).idmap = s.m_idmap := rfl
@[simp] theorem view_sig (s : Storage) (q : Nat) : (view s).sig q = sig (s.deref q) := rfl
@[simp] theorem view_slot (s : Storage) (i : Nat) : (view s).slot i = s.idEntry i := rfl

theorem sig_default : sig (default : Entry) = (0xffff, false) := rfl

theorem SetEntryFlagsImpl_view (s : Storage) (p f : Nat) (l : Bool) :
    view (s.SetEntryFlagsImpl p f l) = view s := by
  apply view_ext
  · simp
  · unfold SetEntryFlagsImpl
    simp
  · intro q
    unfold SetEntryFlagsImpl
    by_cases hp : p < s.m_localmap.length <;> by_cases hq : q = p <;>
      simp [deref_store, hp, hq, sig, apply_ite Entry.id, apply_ite Entry.value]

@[simp] theorem SetEntryValueImpl_m_server (s : Storage) (p : Nat) (v : Option Value)
    (l : Bool) : (s.SetEntryValueImpl p v l).m_server = s.m_server := by
  unfold SetEntryValueImpl
  cases v with
  | none => rfl
  | some v => cases hold : (s.deref p).value <;> simp [hold]

theorem SetEntryValueImpl_view (s : Storage) (p : Nat) (v : Value) (l : Bool)
    (hp : p < s.m_localmap.length) :
    view (s.SetEntryValueImpl p (some v) l) =
      if s.m_server = true ∧ (s.deref p).id = 0xffff then (view s).assign p
      else (view s).write p true := by
  by_cases hc : s.m_server = true ∧ (s.deref p).id = 0xffff
  · rw [if_pos hc]
    apply view_ext
    · simp
    · unfold SetEntryValueImpl
      cases hold : (s.deref p).value <;> simp [deref_store, hp, hold, hc.1, hc.2]
    · intro q
      rw [View.assign_sig]
      by_cases hq : q = p
      · subst hq
        unfold SetEntryValueImpl
        cases hold : (s.deref q).value <;>
          simp [deref_store, hp, hold, hc.1, hc.2, sig, apply_ite Entry.id,
            apply_ite Entry.value]
      · rw [SetEntryValueImpl_deref_ne _ _ _ _ _ hq, if_neg hq]
        rfl
  · rw [if_neg hc]
    have hc2 : (s.m_server && decide ((s.deref p).id = 0xffff)) = false := by
      cases hsrv : s.m_server
      · rfl
      · simp only [hsrv, true_and] at hc
        simp [hc]
    apply view_ext
    · simp
    · unfold SetEntryValueImpl
      cases hold : (s.deref p).value <;> simp [deref_store, hp, hold, hc2]
    · intro q
      rw [View.write_sig]
      by_cases hq : q = p
      · subst hq
        unfold SetEntryValueImpl
        cases hold : (s.deref q).value <;>
          simp [deref_store, hp, hold, hc2, sig, apply_ite Entry.id, apply_ite Entry.value]
      · rw [SetEntryValueImpl_deref_ne _ _ _ _ _ hq, if_neg hq]
        rfl

theorem DeleteEntryImpl_view (s : Storage) (p : Nat) (l : Bool) :
    view (s.DeleteEntryImpl p l) = (view s).release p := by
  apply view_ext
  · simp
  · unfold DeleteEntryImpl View.release
    by_cases hi : (s.deref p).id < s.m_idmap.length <;>
      cases hold : (s.deref p).value <;> simp [hold, hi, sig]
  · intro q
    rw [View.release_sig]
    by_cases hq : q = p
    · subst hq
      rw [if_pos rfl]
      unfold DeleteEntryImpl
      by_cases hp : q < s.m_localmap.length
      · cases hold : (s.deref q).value <;>
          simp [deref_store, hp, hold, sig, apply_ite Entry.id, apply_ite Entry.value]
      · have hd : s.deref q = default := deref_of_ge s q (Nat.le_of_not_lt hp)
        cases hold : (s.deref q).value <;>
          simp [deref_store, hp, hold, sig, apply_ite Entry.id, apply_ite Entry.value, hd]
        all_goals exact ⟨rfl, rfl⟩
    · rw [DeleteEntryImpl_deref_ne _ _ _ _ hq, if_neg hq]
      rfl

theorem QueueOutgoing_view (s : Storage) (m : Message) (a b : Option INetworkConnection) :
    view (s.QueueOutgoing m a b) = view s := rfl

theorem Notify_view (s : Storage) (p f : Nat) (l : Bool) (v : Option Value) :
    view (s.Notify p f l v) = view s := rfl

theorem DeleteAllEntriesStep_released (l : Bool) (f : Entry → Bool × List Message)
    (acc : Storage × List Message) (p : Nat) :
    View.Released (view acc.1) (view (DeleteAllEntriesStep l f acc p).1) := by
  unfold DeleteAllEntriesStep
  by_cases hv : (acc.1.deref p).value.isSome = true
  · by_cases hf : (f (acc.1.deref p)).1 = true
    · simp only [hv, hf, if_true]
      have : view ((if ((acc.1.Notify p NT_NOTIFY_DELETE l none).deref p).id <
              (acc.1.Notify p NT_NOTIFY_DELETE l none).m_idmap.length then
            (acc.1.Notify p NT_NOTIFY_DELETE l none).set_idmap
              ((acc.1.Notify p NT_NOTIFY_DELETE l none).m_idmap.set
                ((acc.1.Notify p NT_NOTIFY_DELETE l none).deref p).id none)
          else acc.1.Notify p NT_NOTIFY_DELETE l none).store p
          { (if ((acc.1.Notify p NT_NOTIFY_DELETE l none).deref p).id <
              (acc.1.Notify p NT_NOTIFY_DELETE l none).m_idmap.length then
            (acc.1.Notify p NT_NOTIFY_DELETE l none).set_idmap
              ((acc.1.Notify p NT_NOTIFY_DELETE l none).m_idmap.set
                ((acc.1.Notify p NT_NOTIFY_DELETE l none).deref p).id none)
          else acc.1.Notify p NT_NOTIFY_DELETE l none).deref p with
            id := 0xffff, local_write := false, value := none }) = (view acc.1).release p := by
        apply view_ext
        · simp
        · unfold View.release
          by_cases hi : (acc.1.deref p).id < acc.1.m_idmap.length <;> simp [hi, sig]
        · intro q
          rw [View.release_sig]
          have hp : p < acc.1.m_localmap.length := lt_of_value_isSome hv
          by_cases hq : q = p
          · subst hq
            simp [deref_store, hp, sig]
          · simp [deref_store, hq]
      rw [this]
      exact View.Released.one _ _
    · simp only [hv, hf, if_true, Bool.false_eq_true, if_false]
      exact View.Released.refl _
  · simp only [hv, Bool.false_eq_true, if_false]
    exact View.Released.refl _

theorem DeleteAllEntries_fold_released (l : Bool) (f : Entry → Bool × List Message)
    (ps : List Nat) (acc : Storage × List Message) :
    View.Released (view acc.1) (view (ps.foldl (DeleteAllEntriesStep l f) acc).1) := by
  induction ps generalizing acc with
  | nil => exact View.Released.refl _
  | cons p ps ih =>
    rw [List.foldl_cons]
    exact (DeleteAllEntriesStep_released l f acc p).trans (ih _)

theorem DeleteAllEntriesImplF_released (s : Storage) (l : Bool)
    (f : Entry → Bool × List Message) :
    View.Released (view s) (view (s.DeleteAllEntriesImplF l f).1) :=
  DeleteAllEntries_fold_released l f _ (s, [])

theorem DeleteAllEntriesImpl_released (s : Storage) (l : Bool) :
    View.Released (view s) (view (s.DeleteAllEntriesImpl l)) :=
  DeleteAllEntriesImplF_released s l _

theorem DeleteAllEntries_released (s : Storage) :
    View.Released (view s) (view s.DeleteAllEntries) := by
  unfold DeleteAllEntries
  split
  · exact View.Released.refl _
  · simp only
    split
    · exact DeleteAllEntriesImpl_released s true
    · rw [QueueOutgoing_view]
      exact DeleteAllEntriesImpl_released s true

/-- A change that leaves the role, the id map, the other entries and the
id of the entry `p` alone sets at most the value mark of `p`. -/
theorem view_write {s t : Storage} {p : Nat} (h1 : t.m_server = s.m_server)
    (h2 : t.m_idmap = s.m_idmap) (h3 : ∀ q, q ≠ p → t.deref q = s.deref q)
    (h4 : (t.deref p).id = (s.deref p).id) :
    view t = (view s).write p (t.deref p).value.isSome := by
  apply view_ext
  · exact h1
  · exact h2
  · intro q
    rw [View.write_sig]
    by_cases hq : q = p
    · subst hq
      rw [if_pos rfl]
      simp only [view_sig]
      unfold sig
      rw [h4]
    · rw [if_neg hq, h3 q hq]
      rfl

theorem view_same {s t : Storage} (h1 : t.m_server = s.m_server)
    (h2 : t.m_idmap = s.m_idmap) (h3 : ∀ q, sig (t.deref q) = sig (s.deref q)) :
    view t = view s :=
  view_ext h1 h2 h3

theorem GetOrNew_view (s : Storage) (n : Bytes) : view (s.GetOrNew n).1 = view s := by
  apply view_same
  · simp
  · simp
  · intro q
    unfold GetOrNew
    cases hf : s.find n with
    | some p => rfl
    | none =>
      simp only
      unfold deref
      simp only
      by_cases hq : q < s.m_localmap.length
      · rw [List.getElem?_append_left hq]
      · rw [List.getElem?_append_right (Nat.le_of_not_lt hq),
          List.getElem?_eq_none (Nat.le_of_not_lt hq)]
        by_cases hq2 : q - s.m_localmap.length = 0
        · rw [hq2]
          rfl
        · rw [List.getElem?_eq_none (by simp; omega)]

theorem EntryAssignCommon_deref_ne (s : Storage) (msg : Message) (conn : INetworkConnection)
    (p : Nat) (b : Bool) (q : Nat) (hq : q ≠ p) :
    OptAll (fun t => t.deref q = s.deref q) (s.EntryAssignCommon msg conn p b) := by
  unfold EntryAssignCommon
  simp [deref_store, hq]

theorem EntryAssignCommon_id (s : Storage) (msg : Message) (conn : INetworkConnection)
    (p : Nat) (b : Bool) :
    OptAll (fun t => (t.deref p).id = (s.deref p).id ∧ t.m_idmap = s.m_idmap ∧
      t.m_server = s.m_server) (s.EntryAssignCommon msg conn p b) := by
  unfold EntryAssignCommon
  by_cases hp : p < s.m_localmap.length
  · simp [deref_store, hp, apply_ite Entry.id]
  · simp [deref_store, hp, apply_ite Entry.id]

theorem EntryAssignCommon_view (s : Storage) (msg : Message) (conn : INetworkConnection)
    (p : Nat) (b : Bool) :
    OptAll (fun t => view t = (view s).write p (t.deref p).value.isSome)
      (s.EntryAssignCommon msg conn p b) := by
  intro t ht
  obtain ⟨h1, h2, h3⟩ := EntryAssignCommon_id s msg conn p b t ht
  exact view_write h3 h2 (fun q hq => EntryAssignCommon_deref_ne s msg conn p b q hq t ht) h1

theorem ProcessIncomingEntryUpdate_view (s : Storage) (msg : Message)
    (conn : INetworkConnection) :
    view (s.ProcessIncomingEntryUpdate msg conn) = view s ∨
    ∃ p, s.idEntry msg.id = some p ∧
      view (s.ProcessIncomingEntryUpdate msg conn) =
        (view s).write p ((s.ProcessIncomingEntryUpdate msg conn).deref p).value.isSome := by
  unfold ProcessIncomingEntryUpdate
  cases hs : s.idEntry msg.id with
  | none => exact Or.inl rfl
  | some p =>
    refine Or.inr ⟨p, rfl, ?_⟩
    apply view_write
    · simp
    · simp
    · intro q hq
      simp [deref_store, hq]
    · by_cases hp : p < s.m_localmap.length
      · simp [deref_store, hp, apply_ite Entry.id]
      · simp [deref_store, hp, apply_ite Entry.id]

theorem ProcessIncomingFlagsUpdate_view (s : Storage) (msg : Message)
    (conn : INetworkConnection) : view (s.ProcessIncomingFlagsUpdate msg conn) = view s := by
  unfold ProcessIncomingFlagsUpdate
  split
  · rfl
  · simp only
    split
    · rw [QueueOutgoing_view, SetEntryFlagsImpl_view]
    · rw [SetEntryFlagsImpl_view]

theorem ProcessIncomingEntryDelete_view (s : Storage) (msg : Message)
    (conn : INetworkConnection) :
    View.Released (view s) (view (s.ProcessIncomingEntryDelete msg conn)) := by
  unfold ProcessIncomingEntryDelete
  split
  · exact View.Released.refl _
  · simp only
    split
    · rw [QueueOutgoing_view, DeleteEntryImpl_view]
      exact View.Released.one _ _
    · rw [DeleteEntryImpl_view]
      exact View.Released.one _ _

theorem ProcessIncomingClearEntries_view (s : Storage) (msg : Message)
    (conn : INetworkConnection) :
    View.Released (view s) (view (s.ProcessIncomingClearEntries msg conn)) := by
  unfold ProcessIncomingClearEntries
  simp only
  split
  · rw [QueueOutgoing_view]
    exact DeleteAllEntriesImpl_released s false
  · exact DeleteAllEntriesImpl_released s false

theorem ProcessIncomingExecuteRpc_view (s : Storage) (msg : Message)
    (cw : Option INetworkConnection) : view (s.ProcessIncomingExecuteRpc msg cw) = view s := by
  unfold ProcessIncomingExecuteRpc
  repeat' split
  all_goals rfl

theorem ProcessIncomingRpcResponse_view (s : Storage) (msg : Message) :
    view (s.ProcessIncomingRpcResponse msg) = view s := by
  unfold ProcessIncomingRpcResponse insertRpcResult
  repeat' split
  all_goals rfl

theorem GetPersistentEntries_view (s : Storage) (b : Bool) :
    view (s.GetPersistentEntries b).1 = view s := by
  unfold GetPersistentEntries
  split <;> rfl

theorem CallRpc_view (s : Storage) (a : Nat) (ps : Bytes) :
    OptAll (fun r => view r.1 = view s) (s.CallRpc a ps) := by
  intro r hr
  apply view_same
  · revert r
    show OptAll (fun r => r.1.m_server = s.m_server) (s.CallRpc a ps)
    unfold CallRpc
    cases hold : (s.deref a).value <;> simp [hold]
  · revert r
    show OptAll (fun r => r.1.m_idmap = s.m_idmap) (s.CallRpc a ps)
    unfold CallRpc
    cases hold : (s.deref a).value <;> simp [hold]
  · intro q
    revert r
    show OptAll (fun r => sig (r.1.deref q) = sig (s.deref q)) (s.CallRpc a ps)
    unfold CallRpc
    by_cases hq : q = a
    · by_cases hp : a < s.m_localmap.length
      · cases hold : (s.deref a).value <;> simp [hold, deref_store, hq, hp, sig]
      · cases hold : (s.deref a).value <;> simp [hold, deref_store, hq, hp, sig]
    · cases hold : (s.deref a).value <;> simp [hold, deref_store, hq, sig]

/-- The effect of CreateRpc on the view. -/
theorem CreateRpc_view (s : Storage) (p : Nat) (d : Bytes) (u ti : Nat) :
    view (s.CreateRpc p d u ti) = view s ∨
    ((s.deref p).id = 0xffff ∧ view (s.CreateRpc p d u ti) = (view s).assign p) ∨
    ((s.deref p).id ≠ 0xffff ∧ view (s.CreateRpc p d u ti) = (view s).write p true) := by
  unfold CreateRpc
  by_cases hp : p < s.m_localmap.length
  · rw [if_neg (by omega)]
    simp only
    cases hold : (s.deref p).value with
    | none =>
      simp only [Bool.false_eq_true, if_false]
      by_cases hi : (s.deref p).id = 0xffff
      · refine Or.inr (Or.inl ⟨hi, ?_⟩)
        apply view_ext
        · simp
        · simp [deref_store, hp, hi]
        · intro q
          rw [View.assign_sig]
          by_cases hq : q = p
          · subst hq
            simp [deref_store, hp, hi, sig, apply_ite Entry.id, apply_ite Entry.value]
          · simp [deref_store, hq, apply_ite Entry.id, apply_ite Entry.value]
      · refine Or.inr (Or.inr ⟨hi, ?_⟩)
        apply view_ext
        · simp
        · simp [deref_store, hp, hi]
        · intro q
          rw [View.write_sig]
          by_cases hq : q = p
          · subst hq
            simp [deref_store, hp, hi, sig, apply_ite Entry.id, apply_ite Entry.value]
          · simp [deref_store, hq, apply_ite Entry.id, apply_ite Entry.value]
    | some o =>
      simp only
      by_cases hsame : Value.eq o (Value.MakeRpc d ti) = true
      · refine Or.inl ?_
        rw [if_pos hsame]
        apply view_same
        · simp
        · simp
        · intro q
          by_cases hq : q = p
          · subst hq
            simp [deref_store, hp, sig, hold]
          · simp [deref_store, hq]
      · rw [if_neg hsame]
        by_cases hi : (s.deref p).id = 0xffff
        · refine Or.inr (Or.inl ⟨hi, ?_⟩)
          apply view_ext
          · simp
          · simp [deref_store, hp, hi]
          · intro q
            rw [View.assign_sig]
            by_cases hq : q = p
            · subst hq
              simp [deref_store, hp, hi, sig, apply_ite Entry.id, apply_ite Entry.value]
            · simp [deref_store, hq, apply_ite Entry.id, apply_ite Entry.value]
        · refine Or.inr (Or.inr ⟨hi, ?_⟩)
          apply view_ext
          · simp
          · simp [deref_store, hp, hi]
          · intro q
            rw [View.write_sig]
            by_cases hq : q = p
            · subst hq
              simp [deref_store, hp, hi, sig, apply_ite Entry.id, apply_ite Entry.value]
            · simp [deref_store, hq, apply_ite Entry.id, apply_ite Entry.value]
  · rw [if_pos (by omega)]
    exact Or.inl rfl


theorem View.Effect.idle (v : View) : View.Effect v v := View.Effect.same v

theorem View.Effect.of_eq {v w : View} (h : w = v) : View.Effect v w := by
  rw [h]
  exact View.Effect.idle v

/-- The effect of the shared write path on the view. -/
theorem SetEntryValueImpl_effect (s : Storage) (p : Nat) (v : Option Value) (l : Bool)
    (hp : p < s.m_localmap.length) :
    View.Effect (view s) (view (s.SetEntryValueImpl p v l)) := by
  cases v with
  | none => exact View.Effect.idle _
  | some v =>
    rw [SetEntryValueImpl_view s p v l hp]
    split
    · rename_i hc
      exact View.Effect.assign _ p hc.2
    · rename_i hc
      refine View.Effect.write _ p true ?_
      by_cases hi : (s.deref p).id = 0xffff
      · right
        left
        cases hsrv : s.m_server
        · exact hsrv
        · exact absurd ⟨hsrv, hi⟩ hc
      · exact Or.inl hi

/-- An effect after the lookup or creation of an entry is an effect. -/
theorem Effect_GetOrNew (s : Storage) (n : Bytes) (t : Storage)
    (h : View.Effect (view (s.GetOrNew n).1) (view t)) : View.Effect (view s) (view t) := by
  rw [GetOrNew_view] at h
  exact h

theorem GetEntry_effect (s : Storage) (n : Bytes) :
    View.Effect (view s) (view (s.GetEntry n).1) := by
  unfold GetEntry
  split
  · exact View.Effect.idle _
  · exact View.Effect.of_eq (GetOrNew_view s n)

theorem SetEntryValue_effect (s : Storage) (hwf : WF s) (n : Bytes) (v : Option Value) :
    View.Effect (view s) (view (s.SetEntryValue n v).1) := by
  unfold SetEntryValue
  have hp := GetOrNew_ptr_lt s hwf n
  split
  · exact View.Effect.idle _
  · cases v with
    | none => exact View.Effect.idle _
    | some v =>
      simp only
      split
      · split
        · exact View.Effect.of_eq (GetOrNew_view s n)
        · exact Effect_GetOrNew s n _ (SetEntryValueImpl_effect _ _ _ _ hp)
      · exact Effect_GetOrNew s n _ (SetEntryValueImpl_effect _ _ _ _ hp)

theorem SetEntryValueId_effect (s : Storage) (i : Nat) (v : Option Value) :
    View.Effect (view s) (view (s.SetEntryValueId i v).1) := by
  unfold SetEntryValueId
  cases v with
  | none => exact View.Effect.idle _
  | some v =>
    simp only
    split
    · exact View.Effect.idle _
    · rename_i hi
      split
      · split
        · exact View.Effect.idle _
        · exact SetEntryValueImpl_effect _ _ _ _ (by omega)
      · exact SetEntryValueImpl_effect _ _ _ _ (by omega)

theorem SetEntryTypeValue_effect (s : Storage) (hwf : WF s) (n : Bytes) (v : Option Value) :
    View.Effect (view s) (view (s.SetEntryTypeValue n v)) := by
  unfold SetEntryTypeValue
  have hp := GetOrNew_ptr_lt s hwf n
  split
  · exact View.Effect.idle _
  · cases v with
    | none => exact View.Effect.idle _
    | some v => exact Effect_GetOrNew s n _ (SetEntryValueImpl_effect _ _ _ _ hp)

theorem SetEntryTypeValueId_effect (s : Storage) (i : Nat) (v : Option Value) :
    View.Effect (view s) (view (s.SetEntryTypeValueId i v)) := by
  unfold SetEntryTypeValueId
  cases v with
  | none => exact View.Effect.idle _
  | some v =>
    simp only
    split
    · exact View.Effect.idle _
    · exact SetEntryValueImpl_effect _ _ _ _ (by omega)

theorem SetDefaultEntryValue_effect (s : Storage) (hwf : WF s) (n : Bytes)
    (v : Option Value) :
    View.Effect (view s) (view (s.SetDefaultEntryValue n v).1) := by
  unfold SetDefaultEntryValue
  have hp := GetOrNew_ptr_lt s hwf n
  split
  · exact View.Effect.idle _
  · cases v with
    | none => exact View.Effect.idle _
    | some v =>
      simp only
      split
      · exact View.Effect.of_eq (GetOrNew_view s n)
      · exact Effect_GetOrNew s n _ (SetEntryValueImpl_effect _ _ _ _ hp)

theorem SetDefaultEntryValueId_effect (s : Storage) (i : Nat) (v : Option Value) :
    View.Effect (view s) (view (s.SetDefaultEntryValueId i v).1) := by
  unfold SetDefaultEntryValueId
  cases v with
  | none => exact View.Effect.idle _
  | some v =>
    simp only
    split
    · exact View.Effect.idle _
    · split
      · exact View.Effect.idle _
      · exact SetEntryValueImpl_effect _ _ _ _ (by omega)

theorem SetEntryFlags_effect (s : Storage) (n : Bytes) (f : Nat) :
    View.Effect (view s) (view (s.SetEntryFlags n f)) := by
  unfold SetEntryFlags
  split
  · exact View.Effect.idle _
  · split
    · exact View.Effect.idle _
    · exact View.Effect.of_eq (SetEntryFlagsImpl_view _ _ _ _)

theorem SetEntryFlagsId_effect (s : Storage) (i : Nat) (f : Nat) :
    View.Effect (view s) (view (s.SetEntryFlagsId i f)) := by
  unfold SetEntryFlagsId
  split
  · exact View.Effect.idle _
  · exact View.Effect.of_eq (SetEntryFlagsImpl_view _ _ _ _)

theorem DeleteEntry_effect (s : Storage) (n : Bytes) :
    View.Effect (view s) (view (s.DeleteEntry n)) := by
  unfold DeleteEntry
  split
  · exact View.Effect.idle _
  · rw [DeleteEntryImpl_view]
    exact View.Effect.released _ _ (View.Released.one _ _)

theorem DeleteEntryId_effect (s : Storage) (i : Nat) :
    View.Effect (view s) (view (s.DeleteEntryId i)) := by
  unfold DeleteEntryId
  split
  · exact View.Effect.idle _
  · rw [DeleteEntryImpl_view]
    exact View.Effect.released _ _ (View.Released.one _ _)

theorem CreateRpc_effect (s : Storage) (p : Nat) (d : Bytes) (u ti : Nat) :
    View.Effect (view s) (view (s.CreateRpc p d u ti)) := by
  rcases CreateRpc_view s p d u ti with h | ⟨hi, h⟩ | ⟨hi, h⟩
  · exact View.Effect.of_eq h
  · rw [h]
    exact View.Effect.assign _ p hi
  · rw [h]
    exact View.Effect.write _ p true (Or.inl hi)

/-- The effect of an EntryAssign on a server. -/
theorem ProcessIncomingEntryAssign_effect (s : Storage) (hwf : WF s) (msg : Message)
    (conn : INetworkConnection) (hs : s.m_server = true) :
    OptAll (fun t => View.Effect (view s) (view t)) (s.ProcessIncomingEntryAssign msg conn) := by
  unfold ProcessIncomingEntryAssign
  have hp := GetOrNew_ptr_lt s hwf msg.str
  simp only [hs, if_true]
  by_cases hid : msg.id = 0xffff
  · rw [if_pos hid]
    split
    · rw [optAll_some]
      exact View.Effect.of_eq (GetOrNew_view s msg.str)
    · rw [optAll_some]
      apply Effect_GetOrNew s msg.str
      have hv : view ((s.GetOrNew msg.str).1.store (s.GetOrNew msg.str).2
          { (s.GetOrNew msg.str).1.deref (s.GetOrNew msg.str).2 with
            flags := msg.flags, seq_num := ⟨msg.seq_num_uid⟩ }) = view (s.GetOrNew msg.str).1 := by
        apply view_same
        · simp
        · simp
        · intro q
          by_cases hq : q = (s.GetOrNew msg.str).2
          · rw [hq]
            simp [deref_store, hp, sig]
          · simp [deref_store, hq]
      rw [← hv]
      exact SetEntryValueImpl_effect _ _ _ _ (by simpa using hp)
  · rw [if_neg hid]
    cases hslot : s.idEntry msg.id with
    | none =>
      simp only [optAll_some]
      exact View.Effect.idle _
    | some p =>
      simp only
      intro t ht
      rw [EntryAssignCommon_view s msg conn p false t ht]
      exact View.Effect.write _ p _ (Or.inr (Or.inr ⟨msg.id, hslot⟩))

theorem ProcessIncomingEntryUpdate_effect (s : Storage) (msg : Message)
    (conn : INetworkConnection) :
    View.Effect (view s) (view (s.ProcessIncomingEntryUpdate msg conn)) := by
  rcases ProcessIncomingEntryUpdate_view s msg conn with h | ⟨p, hp, h⟩
  · exact View.Effect.of_eq h
  · rw [h]
    exact View.Effect.write _ p _ (Or.inr (Or.inr ⟨msg.id, hp⟩))

theorem SetDispatcher_view (s : Storage) (b : Bool) :
    view (s.SetDispatcher b) = { view s with server := b } := rfl

/-- The effect of a call on the view, for a server and for the calls of a
client other than EntryAssign messages and initial assignments. -/
theorem step_effect (s t : Storage) (op : Op) (hwf : WF s)
    (hop : s.m_server = true ∨ ¬op.syncs) (hne : ∀ b, op ≠ .SetDispatcher b)
    (h : s.step op = some t) : View.Effect (view s) (view t) := by
  cases op with
  | SetDispatcher server => exact absurd rfl (hne server)
  | ClearDispatcher => cases h; exact View.Effect.idle _
  | GetEntry name => cases h; exact GetEntry_effect s name
  | SetEntryValue name value => cases h; exact SetEntryValue_effect s hwf name value
  | SetEntryValueId local_id value => cases h; exact SetEntryValueId_effect s local_id value
  | SetEntryTypeValue name value => cases h; exact SetEntryTypeValue_effect s hwf name value
  | SetEntryTypeValueId local_id value =>
    cases h; exact SetEntryTypeValueId_effect s local_id value
  | SetDefaultEntryValue name value =>
    cases h; exact SetDefaultEntryValue_effect s hwf name value
  | SetDefaultEntryValueId local_id value =>
    cases h; exact SetDefaultEntryValueId_effect s local_id value
  | SetEntryFlags name flags => cases h; exact SetEntryFlags_effect s name flags
  | SetEntryFlagsId local_id flags => cases h; exact SetEntryFlagsId_effect s local_id flags
  | DeleteEntry name => cases h; exact DeleteEntry_effect s name
  | DeleteEntryId local_id => cases h; exact DeleteEntryId_effect s local_id
  | DeleteAllEntries =>
    cases h; exact View.Effect.released _ _ (DeleteAllEntries_released s)
  | ProcessIncoming msg conn conn_weak =>
    simp only [step] at h
    unfold ProcessIncoming at h
    split at h
    case h_7 ht =>
      rcases hop with hs | hn
      · exact ProcessIncomingEntryAssign_effect s hwf msg conn hs t h
      · exact absurd ht hn
    case h_8 => cases h; exact ProcessIncomingEntryUpdate_effect s msg conn
    case h_9 => cases h; exact View.Effect.of_eq (ProcessIncomingFlagsUpdate_view s msg conn)
    case h_10 =>
      cases h; exact View.Effect.released _ _ (ProcessIncomingEntryDelete_view s msg conn)
    case h_11 =>
      cases h; exact View.Effect.released _ _ (ProcessIncomingClearEntries_view s msg conn)
    case h_12 =>
      cases h; exact View.Effect.of_eq (ProcessIncomingExecuteRpc_view s msg conn_weak)
    case h_13 => cases h; exact View.Effect.of_eq (ProcessIncomingRpcResponse_view s msg)
    all_goals (cases h; exact View.Effect.idle _)
  | ApplyInitialAssignments conn msgs =>
    rcases hop with hs | hn
    · simp only [step, ApplyInitialAssignments, hs, if_true, Option.map_some'] at h
      cases h
      exact View.Effect.idle _
    · exact absurd trivial hn
  | CreateRpc local_id d rpc_uid time =>
    cases h; exact CreateRpc_effect s local_id d rpc_uid time
  | CallRpc local_id params =>
    simp only [step, Option.map_eq_some'] at h
    obtain ⟨r, hr, rfl⟩ := h
    exact View.Effect.of_eq (CallRpc_view s local_id params r hr)
  | SavePersistent periodic =>
    cases h; exact View.Effect.of_eq (GetPersistentEntries_view s periodic)
  | SavePersistentFile fs periodic =>
    cases h
    exact View.Effect.of_eq (by rw [SavePersistentFileState_eq]; rfl)


namespace View

theorem Effect.server {v w : View} (h : Effect v w) : w.server = v.server := by
  cases h with
  | same => rfl
  | write p b _ => rfl
  | assign p hp => rfl
  | released _ h => exact h.sameServer

theorem Effect.length_le {v w : View} (h : Effect v w) : v.idmap.length ≤ w.idmap.length := by
  cases h with
  | same => exact Nat.le_refl _
  | write p b _ => exact Nat.le_refl _
  | assign p hp =>
    rw [assign_idmap, List.length_append]
    omega
  | released _ h => rw [h.keepsLength]

/-- After one call every entry has the id it had, or none, or it had none
and has the length of the id map before the call, and is appended to it. -/
theorem Effect.ids {v w : View} (h : Effect v w) (q : Nat) :
    (w.sig q).1 = (v.sig q).1 ∨ (w.sig q).1 = 0xffff ∨
      ((v.sig q).1 = 0xffff ∧ (w.sig q).1 = v.idmap.length ∧
        w.idmap = v.idmap ++ [some q]) := by
  cases h with
  | same => exact Or.inl rfl
  | write p b _ => exact Or.inl (write_id v p b q)
  | assign p hp =>
    rw [assign_sig]
    by_cases hq : q = p
    · subst hq
      rw [if_pos rfl]
      exact Or.inr (Or.inr ⟨hp, rfl, rfl⟩)
    · rw [if_neg hq]
      exact Or.inl rfl
  | released _ h =>
    rcases h.sig q with h1 | h1
    · exact Or.inl (by rw [h1])
    · exact Or.inr (Or.inl (by rw [h1]))

theorem Fresh.afterRelease {v : View} (h : v.Fresh) (p : Nat) : (v.release p).Fresh := by
  refine ⟨fun q hq => ?_, fun a b ha hab => ?_⟩
  · rw [release_sig] at hq ⊢
    rw [release_length]
    by_cases hqp : q = p
    · rw [if_pos hqp] at hq
      exact absurd rfl hq
    · rw [if_neg hqp] at hq ⊢
      exact h.1 q hq
  · rw [release_sig, release_sig] at hab
    rw [release_sig] at ha
    by_cases hap : a = p
    · rw [if_pos hap] at ha
      exact absurd rfl ha
    · rw [if_neg hap] at ha hab
      by_cases hbp : b = p
      · rw [if_pos hbp] at hab
        exact absurd hab ha
      · rw [if_neg hbp] at hab
        exact h.2 a b ha hab

theorem Released.staysFresh {v w : View} (h : Released v w) (hf : v.Fresh) : w.Fresh := by
  induction h with
  | refl v => exact hf
  | step v p _ ih => exact ih (hf.afterRelease p)

theorem Effect.fresh {v w : View} (h : Effect v w) (hf : v.Fresh) : w.Fresh := by
  cases h with
  | same => exact hf
  | write p b _ =>
    refine ⟨fun q hq => ?_, fun a c ha hac => ?_⟩
    · rw [write_id] at hq ⊢
      exact hf.1 q hq
    · rw [write_id] at ha
      rw [write_id, write_id] at hac
      exact hf.2 a c ha hac
  | assign p hp =>
    refine ⟨fun q hq => ?_, fun a c ha hac => ?_⟩
    · rw [assign_sig] at hq ⊢
      rw [assign_idmap, List.length_append, List.length_singleton]
      by_cases hqp : q = p
      · rw [if_pos hqp]
        exact Nat.lt_succ_self _
      · rw [if_neg hqp] at hq ⊢
        exact Nat.lt_succ_of_lt (hf.1 q hq)
    · rw [assign_sig] at ha
      rw [assign_sig, assign_sig] at hac
      by_cases hap : a = p
      · by_cases hcp : c = p
        · rw [hap, hcp]
        · rw [if_pos hap, if_neg hcp] at hac
          simp only at hac
          by_cases hc : (v.sig c).1 = 0xffff
          · rw [if_pos hap] at ha
            simp only at ha
            omega
          · have := hf.1 c hc
            omega
      · rw [if_neg hap] at ha hac
        by_cases hcp : c = p
        · rw [if_pos hcp] at hac
          simp only at hac
          have := hf.1 a ha
          omega
        · rw [if_neg hcp] at hac
          exact hf.2 a c ha hac
  | released _ h => exact h.staysFresh hf

/-- On a server a call keeps every entry with a value assigned, as long as
the id map and the ids agree and the id map stays below 0xFFFF slots. -/
theorem Effect.assigned {v w : View} (h : Effect v w) (hs : v.server = true)
    (hl : v.Linked) (ha : v.Assigned) (hb : w.idmap.length ≤ 0xffff) : w.Assigned := by
  cases h with
  | same => exact ha
  | write p b hw =>
    intro q hq
    rw [write_id]
    rw [write_sig] at hq
    by_cases hqp : q = p
    · subst hqp
      rcases hw with h1 | h1 | ⟨i, h1⟩
      · exact h1
      · rw [hs] at h1
        cases h1
      · exact hl.slot_id h1
    · rw [if_neg hqp] at hq
      exact ha q hq
  | assign p hp =>
    intro q hq
    rw [assign_sig] at hq ⊢
    rw [assign_idmap, List.length_append, List.length_singleton] at hb
    by_cases hqp : q = p
    · rw [if_pos hqp]
      simp only
      omega
    · rw [if_neg hqp] at hq ⊢
      exact ha q hq
  | released _ h =>
    intro q hq
    rcases h.sig q with h1 | h1
    · rw [h1] at hq ⊢
      exact ha q hq
    · rw [h1] at hq
      cases hq


end View

/-- One call on a server that keeps the role: the table stays a server and
the call has an effect on the view. -/
theorem step_server (s t : Storage) (op : Op) (hwf : WF s) (hs : s.m_server = true)
    (hop : op.serves) (h : s.step op = some t) :
    t.m_server = true ∧ View.Effect (view s) (view t) := by
  by_cases hd : ∃ b, op = .SetDispatcher b
  · obtain ⟨b, rfl⟩ := hd
    have hb : b = true := hop
    subst hb
    cases h
    refine ⟨rfl, ?_⟩
    have : view (s.SetDispatcher true) = view s := by
      rw [SetDispatcher_view]
      unfold view
      rw [hs]
    rw [this]
    exact View.Effect.same _
  · have hne : ∀ b, op ≠ .SetDispatcher b := fun b e => hd ⟨b, e⟩
    have he := step_effect s t op hwf (Or.inl hs) hne h
    exact ⟨he.server.trans hs, he⟩

theorem step_tidy (s t : Storage) (op : Op) (hT : Tidy s) (h : s.step op = some t) : Tidy t :=
  (step_grows s t op h).tidy hT

theorem view_init : view ({} : Storage) = ⟨true, [], fun _ => (0xffff, false)⟩ := rfl

theorem Linked_init : (view ({} : Storage)).Linked := by
  refine ⟨fun i p h => ?_, fun p h => ?_, by decide⟩
  · cases h
  · exact absurd rfl h

theorem Assigned_init : (view ({} : Storage)).Assigned := by
  intro p h
  cases h

theorem Fresh_init : (view ({} : Storage)).Fresh :=
  ⟨fun _ h => absurd rfl h, fun _ _ h _ => absurd rfl h⟩

/-- The runs of a server: role, tidiness, and the ids. -/
theorem run_server (ops : List Op) (hops : ∀ op ∈ ops, op.serves) (s t : Storage)
    (hT : Tidy s) (hs : s.m_server = true) (h : s.run ops = some t) :
    t.m_server = true ∧ Tidy t ∧ s.m_idmap.length ≤ t.m_idmap.length ∧
    ((view s).Fresh → (view t).Fresh) ∧
    (∀ q, (t.deref q).id = (s.deref q).id ∨ (t.deref q).id = 0xffff ∨
      s.m_idmap.length ≤ (t.deref q).id) := by
  induction ops generalizing s with
  | nil =>
    cases h
    exact ⟨hs, hT, Nat.le_refl _, id, fun q => Or.inl rfl⟩
  | cons op ops ih =>
    simp only [run, Option.bind_eq_some] at h
    obtain ⟨u, hu, hrun⟩ := h
    obtain ⟨hus, he⟩ := step_server s u op hT.wf hs (hops op (List.mem_cons_self _ _)) hu
    have huT := step_tidy s u op hT hu
    obtain ⟨h1, h2, h3, h4, h5⟩ :=
      ih (fun o ho => hops o (List.mem_cons_of_mem _ ho)) u huT hus hrun
    have hle : s.m_idmap.length ≤ u.m_idmap.length := he.length_le
    refine ⟨h1, h2, Nat.le_trans hle h3, fun hf => h4 (he.fresh hf), fun q => ?_⟩
    rcases h5 q with h6 | h6 | h6
    · rcases he.ids q with h7 | h7 | ⟨_, h7, _⟩
      · exact Or.inl (h6.trans h7)
      · exact Or.inr (Or.inl (h6.trans h7))
      · refine Or.inr (Or.inr ?_)
        rw [h6]
        exact Nat.le_of_eq h7.symm
    · exact Or.inr (Or.inl h6)
    · exact Or.inr (Or.inr (Nat.le_trans hle h6))

/-- On a server every entry with a value has an assigned id, as long as the
id map has at most 0xFFFF slots. -/
theorem run_assigned (ops : List Op) (hops : ∀ op ∈ ops, op.serves) (s t : Storage)
    (hT : Tidy s) (hs : s.m_server = true) (hl : (view s).Linked) (ha : (view s).Assigned)
    (h : s.run ops = some t) (hb : t.m_idmap.length ≤ 0xffff) :
    (view t).Linked ∧ (view t).Assigned := by
  induction ops generalizing s with
  | nil =>
    cases h
    exact ⟨hl, ha⟩
  | cons op ops ih =>
    simp only [run, Option.bind_eq_some] at h
    obtain ⟨u, hu, hrun⟩ := h
    obtain ⟨hus, he⟩ := step_server s u op hT.wf hs (hops op (List.mem_cons_self _ _)) hu
    have huT := step_tidy s u op hT hu
    have hops2 : ∀ o ∈ ops, o.serves := fun o ho => hops o (List.mem_cons_of_mem _ ho)
    have hub : u.m_idmap.length ≤ 0xffff :=
      Nat.le_trans (run_server ops hops2 u t huT hus hrun).2.2.1 hb
    exact ih hops2 u huT hus (he.linked hl hub) (he.assigned hs hl ha hub) hrun


theorem View.bind_write (v : View) (i p : Nat) (b c : Bool) :
    (v.bind i p b).write p c = v.bind i p c := by
  unfold View.write View.bind
  simp

theorem grown_idmap (m : List (Option Nat)) (i : Nat) :
    (if i ≥ m.length then m ++ List.replicate (i + 1 - m.length) none else m)
      = m ++ List.replicate (i + 1 - m.length) none := by
  split
  · rfl
  · rename_i h
    have : i + 1 - m.length = 0 := by omega
    rw [this]
    simp

theorem assigned_id (conn : INetworkConnection) (m : Message) (e : Entry) :
    (assigned conn m e).id = m.id := by
  unfold assigned
  cases e.value with
  | none => rfl
  | some o =>
    simp only
    split <;> rfl

theorem assigned_name (conn : INetworkConnection) (m : Message) (e : Entry) :
    (assigned conn m e).name = e.name := by
  unfold assigned
  cases e.value with
  | none => rfl
  | some o =>
    simp only
    split <;> rfl

/-- One turn of the loop "apply assignments" enters the entry of the name
under the id of the message. -/
theorem ApplyAssignStep_view (conn : INetworkConnection) (acc : Storage × List Message)
    (msg : Message) (ha : msg.assigns) (hwf : WF acc.1) :
    view (ApplyAssignStep conn acc msg).1 =
      (view acc.1).bind msg.id (acc.1.GetOrNew msg.str).2
        ((ApplyAssignStep conn acc msg).1.deref (acc.1.GetOrNew msg.str).2).value.isSome := by
  have hp := GetOrNew_ptr_lt acc.1 hwf msg.str
  apply view_ext
  · exact (ApplyAssignStep_fields conn acc msg).2.1
  · rw [ApplyAssignStep_m_idmap conn acc msg ha, grown_idmap]
    rfl
  · intro q
    rw [View.bind_sig]
    by_cases hq : q = (acc.1.GetOrNew msg.str).2
    · rw [if_pos hq, hq]
      unfold sig
      rw [(ApplyAssignStep_deref_self conn acc msg ha hp).1, assigned_id]
    · rw [if_neg hq, ApplyAssignStep_deref_ne conn acc msg q hq]
      rfl

/-- The entry that GetOrNew yields has the name asked for. -/
theorem GetOrNew_name (s : Storage) (hwf : WF s) (n : Bytes) :
    ((s.GetOrNew n).1.deref (s.GetOrNew n).2).name = n :=
  ((GetOrNew_good s n).2 hwf).name (GetOrNew_find s n)

/-- An entry that GetOrNew yields and that has an id was in the table under
its name. -/
theorem GetOrNew_had_id (s : Storage) (hwf : WF s) (n : Bytes)
    (h : (s.deref (s.GetOrNew n).2).id ≠ 0xffff) :
    s.find n = some (s.GetOrNew n).2 ∧ (s.deref (s.GetOrNew n).2).name = n := by
  cases hf : s.find n with
  | some p =>
    rw [GetOrNew_of_find hf]
    exact ⟨rfl, hwf.name hf⟩
  | none =>
    exfalso
    apply h
    have : (s.GetOrNew n).2 = s.m_localmap.length := by
      unfold GetOrNew
      rw [hf]
    rw [this, deref_of_ge s _ (Nat.le_refl _)]
    rfl

/-- The loop "apply assignments" keeps the id map and the ids in agreement
when the assignments have 16-bit ids, pairwise different names and pairwise
different ids; `U` holds the assignments applied so far. -/
theorem assign_fold_linked (conn : INetworkConnection) (L : List Message)
    (hL16 : ∀ m ∈ L, m.id ≤ 0xffff) (U : List Message)
    (hU : ∀ x ∈ U, ∀ y ∈ L, y.assigns → x.str ≠ y.str ∧ x.id ≠ y.id)
    (hP : (L.filter (fun m => decide m.assigns)).Pairwise
      (fun x y => x.str ≠ y.str ∧ x.id ≠ y.id))
    (acc : Storage × List Message) (hwf : WF acc.1) (hl : (view acc.1).Linked)
    (hK : ∀ q, (acc.1.deref q).id ≠ 0xffff →
      ∃ x ∈ U, (acc.1.deref q).name = x.str ∧ (acc.1.deref q).id = x.id) :
    (view (L.foldl (ApplyAssignStep conn) acc).1).Linked := by
  induction L generalizing acc U with
  | nil => exact hl
  | cons m L ih =>
    rw [List.foldl_cons]
    have hL16' : ∀ x ∈ L, x.id ≤ 0xffff := fun x hx => hL16 x (List.mem_cons_of_mem _ hx)
    by_cases ha : m.assigns
    · rw [List.filter_cons_of_pos (by simpa using ha)] at hP
      have hP1 : ∀ y ∈ L.filter (fun m => decide m.assigns), m.str ≠ y.str ∧ m.id ≠ y.id :=
        fun y hy => List.rel_of_pairwise_cons hP hy
      have hP2 := List.Pairwise.of_cons hP
      have hwf' : WF (ApplyAssignStep conn acc m).1 := (ApplyAssignStep_good conn acc m).2 hwf
      have hp := GetOrNew_ptr_lt acc.1 hwf m.str
      have hv := ApplyAssignStep_view conn acc m ha hwf
      have hUm := hU
      -- the slot of the id is empty
      have hslot : (view acc.1).slot m.id = none := by
        cases hs : (view acc.1).slot m.id with
        | none => rfl
        | some q =>
          exfalso
          have h1 : (acc.1.deref q).id = m.id := hl.1 m.id q hs
          obtain ⟨x, hx, -, hxi⟩ := hK q (by rw [h1]; exact ha.2)
          exact (hU x hx m (List.mem_cons_self _ _) ha).2 (hxi.symm.trans h1)
      -- the entry of the name has no id
      have hnoid : ((view acc.1).sig (acc.1.GetOrNew m.str).2).1 = 0xffff := by
        by_contra hc
        have hc' : (acc.1.deref (acc.1.GetOrNew m.str).2).id ≠ 0xffff := hc
        obtain ⟨-, hn⟩ := GetOrNew_had_id acc.1 hwf m.str hc'
        obtain ⟨x, hx, hxn, -⟩ := hK _ hc'
        exact (hU x hx m (List.mem_cons_self _ _) ha).1 (hxn.symm.trans hn)
      have hl' : (view (ApplyAssignStep conn acc m).1).Linked := by
        rw [hv]
        have h16 := hL16 m (List.mem_cons_self _ _)
        have hne := ha.2
        exact hl.bind _ _ _ (by omega) hslot hnoid
      refine ih hL16' (m :: U) (fun x hx y hy hya => ?_) hP2 _ hwf' hl' (fun q hq => ?_)
      · rcases List.mem_cons.mp hx with rfl | hx
        · exact hP1 y (List.mem_filter.mpr ⟨hy, by simpa using hya⟩)
        · exact hU x hx y (List.mem_cons_of_mem _ hy) hya
      · by_cases hqp : q = (acc.1.GetOrNew m.str).2
        · refine ⟨m, List.mem_cons_self _ _, ?_, ?_⟩
          · rw [hqp, (ApplyAssignStep_deref_self conn acc m ha hp).1, assigned_name]
            exact GetOrNew_name acc.1 hwf m.str
          · rw [hqp, (ApplyAssignStep_deref_self conn acc m ha hp).1, assigned_id]
        · rw [ApplyAssignStep_deref_ne conn acc m q hqp] at hq ⊢
          obtain ⟨x, hx, h1, h2⟩ := hK q hq
          exact ⟨x, List.mem_cons_of_mem _ hx, h1, h2⟩
    · rw [List.filter_cons_of_neg (by simpa using ha)] at hP
      rw [ApplyAssignStep_skip conn acc m ha]
      exact ih hL16' U (fun x hx y hy hya => hU x hx y (List.mem_cons_of_mem _ hy) hya) hP acc
        hwf hl hK

theorem Linked_of_eq {s t : Storage} (h1 : t.m_idmap = s.m_idmap)
    (h2 : ∀ q, t.deref q = s.deref q) (h : (view s).Linked) : (view t).Linked := by
  have : ∀ b, view t = { view s with server := b } → (view t).Linked := by
    intro b e
    rw [e]
    exact h
  refine this t.m_server ?_
  unfold view
  simp only [h1, h2]

theorem clearIds_linked (s : Storage) (hT : Tidy s) :
    (view s.clearIds).Linked ∧ ∀ q, (s.clearIds.deref q).id = 0xffff := by
  have hid : ∀ q, (s.clearIds.deref q).id = 0xffff := by
    intro q
    rw [clearIds_deref]
    by_cases hq : q < s.m_localmap.length
    · rw [if_pos (hT.mem_pointers.mpr hq)]
    · rw [if_neg (fun h => hq (hT.mem_pointers.mp h)), deref_of_ge s q (Nat.le_of_not_lt hq)]
      rfl
  refine ⟨⟨fun i p h => ?_, fun p h => absurd (hid p) h, ?_⟩, hid⟩
  · rw [view_slot] at h
    unfold idEntry at h
    rw [(clearIds_fields s).2.2.2] at h
    cases h
  · rw [view_idmap, (clearIds_fields s).2.2.2]
    exact Nat.zero_le _

/-- Initial assignments with 16-bit ids, pairwise different names and
pairwise different ids leave the id map and the ids in agreement. -/
theorem ApplyInitialAssignments_linked (s : Storage) (conn : INetworkConnection)
    (msgs : List Message) (hs : s.m_server = false) (hT : Tidy s)
    (h16 : ∀ m ∈ msgs, m.id ≤ 0xffff)
    (hP : (msgs.filter (fun m => decide m.assigns)).Pairwise
      (fun x y => x.str ≠ y.str ∧ x.id ≠ y.id)) :
    OptAll (fun r => (view r.1).Linked) (s.ApplyInitialAssignments conn msgs) := by
  intro r hr
  obtain ⟨-, hd, -, hm, -⟩ := ApplyInitialAssignments_result s conn msgs hs r.1 r.2 hr
  apply Linked_of_eq hm hd
  have hc := clearIds_linked s hT
  have hwf : WF s.clearIds := (clearIds_sameTable s).good.2 hT.wf
  have ha : (view (s.applied conn msgs).1).Linked :=
    assign_fold_linked conn msgs h16 [] (fun x hx => absurd hx (List.not_mem_nil x)) hP
      (s.clearIds, []) hwf hc.1 (fun q hq => absurd (hc.2 q) hq)
  exact (DeleteAllEntriesImplF_released _ false unassignedShouldDelete).staysLinked ha

/-- A store that keeps the id of the entry keeps the id map and the ids in
agreement. -/
theorem Linked_store (u : Storage) (p : Nat) (e : Entry) (he : e.id = (u.deref p).id)
    (h : (view u).Linked) : (view (u.store p e)).Linked := by
  have : view (u.store p e) = (view u).write p ((u.store p e).deref p).value.isSome := by
    apply view_write
    · simp
    · simp
    · intro q hq
      simp [deref_store, hq]
    · by_cases hp : p < u.m_localmap.length
      · simp [deref_store, hp, he]
      · simp [deref_store, hp]
  rw [this]
  exact h.write _ _

/-- An EntryAssign on a client with a 16-bit id keeps the id map and the ids
in agreement, when it gives no second id to an entry that has one. -/
theorem ProcessIncomingEntryAssign_client_linked (s : Storage) (hwf : WF s) (msg : Message)
    (conn : INetworkConnection) (hs : s.m_server = false) (hl : (view s).Linked)
    (h16 : msg.id ≤ 0xffff)
    (hfair : s.idEntry msg.id = none → ∀ p, s.find msg.str = some p →
      (s.deref p).id = 0xffff) :
    OptAll (fun t => (view t).Linked) (s.ProcessIncomingEntryAssign msg conn) := by
  unfold ProcessIncomingEntryAssign
  simp only [hs, Bool.false_eq_true, if_false]
  by_cases hid : msg.id = 0xffff
  · rw [if_pos hid, optAll_some]
    exact hl
  · rw [if_neg hid]
    -- the table after the id map has grown
    have g1 : SameTable s (if msg.id ≥ s.m_idmap.length then s.growIdmap (msg.id + 1)
        else s) := by
      split
      · exact ⟨rfl, rfl⟩
      · exact SameTable.same s
    have g2 : ∀ i, (if msg.id ≥ s.m_idmap.length then s.growIdmap (msg.id + 1)
        else s).idEntry i = s.idEntry i := by
      intro i
      unfold idEntry
      split
      · simp only [growIdmap_eq, set_idmap_m_idmap]
        exact slot_append_none _ _ _
      · rfl
    have g3 : ∀ q, (if msg.id ≥ s.m_idmap.length then s.growIdmap (msg.id + 1)
        else s).deref q = s.deref q := by
      intro q
      split <;> rfl
    have g4 : (if msg.id ≥ s.m_idmap.length then s.growIdmap (msg.id + 1)
        else s).m_idmap.length ≤ 0xffff := by
      have := hl.2.2
      simp only [view_idmap] at this
      split
      · simp only [growIdmap_eq, set_idmap_m_idmap, List.length_append, List.length_replicate]
        omega
      · exact this
    have g5 : msg.id < (if msg.id ≥ s.m_idmap.length then s.growIdmap (msg.id + 1)
        else s).m_idmap.length := by
      split
      · simp only [growIdmap_eq, set_idmap_m_idmap, List.length_append, List.length_replicate]
        omega
      · omega
    generalize (if msg.id ≥ s.m_idmap.length then s.growIdmap (msg.id + 1) else s) = s1
      at g1 g2 g3 g4 g5 ⊢
    have hwf1 : WF s1 := g1.good.2 hwf
    have hl1 : (view s1).Linked :=
      ⟨fun i p h => by
          rw [view_slot, g2] at h
          rw [view_sig, g3]
          exact hl.1 i p h,
        fun p h => by
          rw [view_sig, g3] at h ⊢
          rw [view_slot, g2]
          exact hl.2.1 p h,
        g4⟩
    cases hslot : s1.idEntry msg.id with
    | some p =>
      simp only
      intro t ht
      rw [EntryAssignCommon_view s1 msg conn p false t ht]
      exact hl1.write _ _
    | none =>
      simp only
      have hp := GetOrNew_ptr_lt s1 hwf1 msg.str
      -- the entry of the name has no id
      have hnoid : ((s1.GetOrNew msg.str).1.deref (s1.GetOrNew msg.str).2).id = 0xffff := by
        have e : sig ((s1.GetOrNew msg.str).1.deref (s1.GetOrNew msg.str).2)
            = sig (s1.deref (s1.GetOrNew msg.str).2) := by
          have := congrArg (fun v => v.sig (s1.GetOrNew msg.str).2) (GetOrNew_view s1 msg.str)
          exact this
        have e1 : ((s1.GetOrNew msg.str).1.deref (s1.GetOrNew msg.str).2).id
            = (s1.deref (s1.GetOrNew msg.str).2).id := congrArg Prod.fst e
        rw [e1]
        by_contra hc
        obtain ⟨hf, -⟩ := GetOrNew_had_id s1 hwf1 msg.str hc
        have hf' : s.find msg.str = some (s1.GetOrNew msg.str).2 := by
          unfold Storage.find at hf ⊢
          rw [← g1.1]
          exact hf
        rw [g3] at hc
        exact hc (hfair (by rw [← g2]; exact hslot) _ hf')
      have hv := GetOrNew_view s1 msg.str
      have hslot' : (s1.GetOrNew msg.str).1.idEntry msg.id = none := by
        unfold idEntry
        rw [GetOrNew_m_idmap]
        exact hslot
      have hlen : msg.id < (s1.GetOrNew msg.str).1.m_idmap.length := by
        rw [GetOrNew_m_idmap]
        exact g5
      have hlr : (view (s1.GetOrNew msg.str).1).Linked := by
        rw [hv]
        exact hl1
      generalize s1.GetOrNew msg.str = r at hp hnoid hslot' hlen hlr ⊢
      -- the entry is entered under the id
      have hb : view ((r.1.store r.2 { r.1.deref r.2 with id := msg.id }).set_idmap
          ((r.1.store r.2 { r.1.deref r.2 with id := msg.id }).m_idmap.set msg.id (some r.2)))
          = (view r.1).bind msg.id r.2 (r.1.deref r.2).value.isSome := by
        apply view_ext
        · simp
        · unfold View.bind
          have : msg.id + 1 - r.1.m_idmap.length = 0 := by omega
          simp [this]
        · intro q
          rw [View.bind_sig]
          by_cases hq : q = r.2
          · rw [hq]
            simp [deref_store, hp, sig]
          · simp [deref_store, hq]
      have hlb : (view ((r.1.store r.2 { r.1.deref r.2 with id := msg.id }).set_idmap
          ((r.1.store r.2 { r.1.deref r.2 with id := msg.id }).m_idmap.set msg.id
            (some r.2)))).Linked := by
        rw [hb]
        exact hlr.bind _ _ _ (by omega) hslot' hnoid
      generalize ((r.1.store r.2 { r.1.deref r.2 with id := msg.id }).set_idmap
          ((r.1.store r.2 { r.1.deref r.2 with id := msg.id }).m_idmap.set msg.id (some r.2)))
          = u at hlb ⊢
      split
      · rw [optAll_some, Notify_view]
        exact Linked_store u r.2 _ rfl hlb
      · split
        · split
          · exact optAll_none _
          · intro t ht
            rw [EntryAssignCommon_view _ msg conn r.2 true t ht, QueueOutgoing_view]
            exact hlb.write _ _
        · intro t ht
          rw [EntryAssignCommon_view _ msg conn r.2 true t ht]
          exact hlb.write _ _


theorem run_append (s : Storage) (a b : List Op) :
    s.run (a ++ b) = (s.run a).bind fun t => t.run b := by
  induction a generalizing s with
  | nil => rfl
  | cons op a ih =>
    simp only [List.cons_append, run]
    cases s.step op with
    | none => rfl
    | some u => exact ih u

/-- A server writes the entry 0, the entry of foo, which has no id: the
entry gets the value and the length of the id map as its id. -/
theorem write_foo (s : Storage) (hs : s.m_server = true) (hT : Tidy s)
    (hf : s.find exFoo = some 0) (hid : (s.deref 0).id = 0xffff) :
    ∃ t, s.step (.SetEntryTypeValue exFoo (some exTrue)) = some t ∧ t.m_server = true ∧
      Tidy t ∧ t.find exFoo = some 0 ∧ (t.deref 0).value = some exTrue ∧
      (t.deref 0).id = s.m_idmap.length ∧ t.m_idmap.length = s.m_idmap.length + 1 := by
  have hp : 0 < s.m_localmap.length := hT.wf.lt hf
  have hst : s.step (.SetEntryTypeValue exFoo (some exTrue))
      = some (s.SetEntryValueImpl 0 (some exTrue) true) := by
    simp only [step, SetEntryTypeValue, GetOrNew_of_find hf]
    rfl
  have hv := SetEntryValueImpl_view s 0 exTrue true hp
  rw [if_pos ⟨hs, hid⟩] at hv
  refine ⟨_, hst, by simp [hs], step_tidy s _ _ hT hst, ?_, SetEntryValueImpl_value s 0 _ _ hp,
    ?_, ?_⟩
  · rw [SetEntryValueImpl_find]
    exact hf
  · have := congrArg (fun v => (v.sig 0).1) hv
    simpa [View.assign_sig, sig] using this
  · have := congrArg (fun v => v.idmap.length) hv
    simpa using this

/-- A server writes and deletes foo: foo has no id again, and the id map has
one slot more. -/
theorem cycle_foo (s : Storage) (hs : s.m_server = true) (hT : Tidy s)
    (hf : s.find exFoo = some 0) (hid : (s.deref 0).id = 0xffff) :
    ∃ t, s.run (exCycles 1) = some t ∧ t.m_server = true ∧ Tidy t ∧
      t.find exFoo = some 0 ∧ (t.deref 0).id = 0xffff ∧
      t.m_idmap.length = s.m_idmap.length + 1 := by
  obtain ⟨u, hu, hus, huT, huf, -, -, hul⟩ := write_foo s hs hT hf hid
  have hst : u.step (.DeleteEntry exFoo) = some (u.DeleteEntryImpl 0 true) := by
    simp only [step, DeleteEntry, huf]
  have hv := DeleteEntryImpl_view u 0 true
  refine ⟨u.DeleteEntryImpl 0 true, ?_, by simp [hus], step_tidy u _ _ huT hst, ?_, ?_, ?_⟩
  · show s.run [Op.SetEntryTypeValue exFoo (some exTrue), Op.DeleteEntry exFoo] = _
    simp only [run, hu, Option.some_bind, hst]
  · rw [DeleteEntryImpl_find]
    exact huf
  · have := congrArg (fun v => (v.sig 0).1) hv
    simpa [View.release_sig, sig] using this
  · have := congrArg (fun v => v.idmap.length) hv
    simp only [View.release_length, view_idmap] at this
    rw [this, hul]

theorem exCycles_succ (n : Nat) : exCycles (n + 1) = exCycles 1 ++ exCycles n := by
  unfold exCycles
  rw [List.replicate_succ, List.flatten_cons]
  simp

theorem cycles_foo (n : Nat) (s : Storage) (hs : s.m_server = true) (hT : Tidy s)
    (hf : s.find exFoo = some 0) (hid : (s.deref 0).id = 0xffff) :
    ∃ t, s.run (exCycles n) = some t ∧ t.m_server = true ∧ Tidy t ∧
      t.find exFoo = some 0 ∧ (t.deref 0).id = 0xffff ∧
      t.m_idmap.length = s.m_idmap.length + n := by
  induction n generalizing s with
  | zero => exact ⟨s, rfl, hs, hT, hf, hid, rfl⟩
  | succ n ih =>
    obtain ⟨u, hu, hus, huT, huf, hui, hul⟩ := cycle_foo s hs hT hf hid
    obtain ⟨t, ht, hts, htT, htf, hti, htl⟩ := ih u hus huT huf hui
    refine ⟨t, ?_, hts, htT, htf, hti, ?_⟩
    · rw [exCycles_succ, run_append, hu]
      exact ht
    · rw [htl, hul]
      omega

theorem exCycles_serves (n : Nat) : ∀ op ∈ exCycles n, op.serves := by
  intro op h
  unfold exCycles at h
  obtain ⟨l, hl, hop⟩ := List.mem_flatten.mp h
  rw [List.eq_of_mem_replicate hl] at hop
  simp only [List.mem_cons, List.mem_singleton, List.not_mem_nil, or_false] at hop
  rcases hop with rfl | rfl <;> exact trivial

/-- One fair call keeps the id map and the ids in agreement. -/
theorem step_linked (s t : Storage) (op : Op) (hT : Tidy s) (hl : (view s).Linked)
    (hf : fairOp s op) (h : s.step op = some t) (hb : t.m_idmap.length ≤ 0xffff) :
    (view t).Linked := by
  by_cases hd : ∃ b, op = .SetDispatcher b
  · obtain ⟨b, rfl⟩ := hd
    cases h
    exact hl
  · have hne : ∀ b, op ≠ .SetDispatcher b := fun b e => hd ⟨b, e⟩
    by_cases hop : s.m_server = true ∨ ¬op.syncs
    · exact (step_effect s t op hT.wf hop hne h).linked hl hb
    · have hs : s.m_server = false := by
        cases hsrv : s.m_server
        · rfl
        · exact absurd (Or.inl hsrv) hop
      have hsy : op.syncs := by
        by_contra hc
        exact hop (Or.inr hc)
      cases op with
      | ProcessIncoming msg conn cw =>
        have ht : msg.type = .kEntryAssign := hsy
        simp only [step] at h
        rw [ProcessIncoming_EntryAssign _ _ _ _ ht] at h
        exact ProcessIncomingEntryAssign_client_linked s hT.wf msg conn hs hl hf.1
          (fun h1 p hp => hf.2 hs ht h1 p hp) t h
      | ApplyInitialAssignments conn msgs =>
        simp only [step, Option.map_eq_some'] at h
        obtain ⟨r, hr, rfl⟩ := h
        exact ApplyInitialAssignments_linked s conn msgs hs hT (hf hs).1 (hf hs).2 r hr
      | _ => exact absurd hsy (by simp [Op.syncs])

/-- A fair run keeps the id map and the ids in agreement. -/
theorem run_linked (ops : List Op) (s t : Storage) (hT : Tidy s) (hl : (view s).Linked)
    (hf : fairRun s ops) (h : s.run ops = some t) : (view t).Linked := by
  induction ops generalizing s with
  | nil =>
    cases h
    exact hl
  | cons op ops ih =>
    simp only [run, Option.bind_eq_some] at h
    obtain ⟨u, hu, hrun⟩ := h
    obtain ⟨hb, hf2⟩ := hf.2 u hu
    exact ih u (step_tidy s u op hT hu) (step_linked s u op hT hl hf.1 hu hb) hf2 hrun

end Storage

/-! ## The dirty flag -/

namespace Storage

/-! ### The dirty flag and the changes of PERSISTENT entries -/

theorem core_persistent (e : Entry) : (core e).persistent = e.IsPersistent := rfl

theorem core_saved (e : Entry) : (core e).saved = e.saved := rfl

theorem core_ne {e f : Entry} (h : core e ≠ core f) :
    e.value ≠ f.value ∨ e.flags ≠ f.flags ∨ e.seq_num ≠ f.seq_num := by
  by_contra hc
  simp only [not_or, not_not] at hc
  apply h
  unfold core
  rw [hc.1, hc.2.1, hc.2.2]


namespace Ledger

theorem kept_refl (a : Ledger) : Kept a a := id

theorem raised_refl (a : Ledger) : Raised a a := fun h => Or.inl h

theorem tracked_refl (a : Ledger) : Tracked a a := fun _ h => absurd (Eq.refl _) h

theorem mark_dirty (a : Ledger) (p : Nat) (c : Core) (d : Bool) :
    (a.mark p c d).dirty = (a.dirty || d) := Eq.refl _

theorem mark_core (a : Ledger) (p : Nat) (c : Core) (d : Bool) (q : Nat) :
    (a.mark p c d).core q = if q = p then c else a.core q := by
  unfold mark
  simp only [Function.update_apply]

theorem mark_mark (a : Ledger) (p : Nat) (c c2 : Core) (d : Bool) :
    (a.mark p c false).mark p c2 d = a.mark p c2 d := by
  unfold mark
  simp

theorem kept_mark (a : Ledger) (p : Nat) (c : Core) (d : Bool) : Kept a (a.mark p c d) := by
  intro h
  rw [mark_dirty, h]
  exact Eq.refl _

theorem raised_mark (a : Ledger) (p : Nat) (c : Core) (d : Bool)
    (h : d = true → ((a.core p).persistent = true ∨ c.persistent = true) ∧ c ≠ a.core p) :
    Raised a (a.mark p c d) := by
  intro hd
  rw [mark_dirty] at hd
  cases ha : a.dirty
  · rw [ha, Bool.false_or] at hd
    refine Or.inr ⟨p, ?_, ?_⟩
    · rw [mark_core, if_pos (Eq.refl p)]
      exact (h hd).1
    · rw [mark_core, if_pos (Eq.refl p)]
      exact (h hd).2
  · exact Or.inl (Eq.refl _)

theorem tracked_mark (a : Ledger) (p : Nat) (c : Core) (d : Bool)
    (h : c.saved ≠ (a.core p).saved → d = true) : Tracked a (a.mark p c d) := by
  intro q hq
  rw [mark_core] at hq
  rw [mark_dirty]
  by_cases hqp : q = p
  · rw [if_pos hqp, hqp] at hq
    rw [h hq]
    exact Bool.or_true _
  · rw [if_neg hqp] at hq
    exact absurd (Eq.refl _) hq


end Ledger

theorem ledger_ext {s : Storage} {a : Ledger} (h1 : s.m_persistent_dirty = a.dirty)
    (h2 : ∀ q, core (s.deref q) = a.core q) : ledger s = a := by
  cases a with
  | mk d c =>
    unfold ledger
    simp only at h1 h2
    rw [h1]
    congr 1
    funext q
    exact h2 q

/-- A change of the dirty flag and of the entry `p` alone is a mark. -/
theorem ledger_mark {s t : Storage} {p : Nat} {d : Bool}
    (h1 : t.m_persistent_dirty = (s.m_persistent_dirty || d))
    (h2 : ∀ q, q ≠ p → t.deref q = s.deref q) :
    ledger t = (ledger s).mark p (core (t.deref p)) d := by
  apply ledger_ext
  · exact h1
  · intro q
    rw [Ledger.mark_core]
    by_cases hq : q = p
    · rw [if_pos hq, hq]
    · rw [if_neg hq, h2 q hq]
      exact Eq.refl _

theorem ledger_same {s t : Storage} (h1 : t.m_persistent_dirty = s.m_persistent_dirty)
    (h2 : ∀ q, core (t.deref q) = core (s.deref q)) : ledger t = ledger s :=
  ledger_ext h1 h2

theorem persistent_iff (a b : Nat) :
    (a &&& NT_PERSISTENT ≠ b &&& NT_PERSISTENT) ↔
      (decide (a &&& NT_PERSISTENT ≠ 0) ≠ decide (b &&& NT_PERSISTENT ≠ 0)) := by
  have ha : a &&& NT_PERSISTENT = a % 2 := Nat.and_pow_two_sub_one_eq_mod a 1
  have hb : b &&& NT_PERSISTENT = b % 2 := Nat.and_pow_two_sub_one_eq_mod b 1
  rw [ha, hb]
  have h1 : a % 2 = 0 ∨ a % 2 = 1 := by omega
  have h2 : b % 2 = 0 ∨ b % 2 = 1 := by omega
  rcases h1 with h1 | h1 <;> rcases h2 with h2 | h2 <;> simp [h1, h2]

theorem core_ne_of {e f : Entry}
    (h : e.value ≠ f.value ∨ e.flags ≠ f.flags ∨ e.seq_num ≠ f.seq_num) : core e ≠ core f := by
  intro hc
  unfold core at hc
  injection hc with h1 h2 h3
  rcases h with h | h | h
  · exact h h1
  · exact h h2
  · exact h h3

theorem sound_of_eq {a b : Ledger} (h : b.dirty = a.dirty) : a.Sound b :=
  ⟨fun ha => h.trans ha, fun hb => Or.inl (h.symm.trans hb)⟩

theorem sound_refl (a : Ledger) : a.Sound a := sound_of_eq (Eq.refl _)

/-- A change of the entry `p` alone that sets the dirty flag only when `d`
holds. -/
theorem sound_intro {s t : Storage} {p : Nat} (d : Bool)
    (h1 : t.m_persistent_dirty = (s.m_persistent_dirty || d))
    (h2 : ∀ q, q ≠ p → t.deref q = s.deref q)
    (h3 : d = true →
      ((s.deref p).IsPersistent = true ∨ (t.deref p).IsPersistent = true) ∧
      ((t.deref p).value ≠ (s.deref p).value ∨ (t.deref p).flags ≠ (s.deref p).flags ∨
        (t.deref p).seq_num ≠ (s.deref p).seq_num)) :
    (ledger s).Sound (ledger t) := by
  rw [ledger_mark h1 h2]
  refine ⟨Ledger.kept_mark _ _ _ _, Ledger.raised_mark _ _ _ _ fun hd => ?_⟩
  obtain ⟨ha, hb⟩ := h3 hd
  exact ⟨ha, core_ne_of hb⟩

/-- A change of the entry `p` alone that sets the dirty flag when `d` holds. -/
theorem tracked_intro {s t : Storage} {p : Nat} (d : Bool)
    (h1 : t.m_persistent_dirty = (s.m_persistent_dirty || d))
    (h2 : ∀ q, q ≠ p → t.deref q = s.deref q)
    (h4 : (t.deref p).saved ≠ (s.deref p).saved → d = true) :
    (ledger s).Tracked (ledger t) := by
  rw [ledger_mark h1 h2]
  exact Ledger.tracked_mark _ _ _ _ h4

theorem marks_intro {s t : Storage} {p : Nat} (d : Bool)
    (h1 : t.m_persistent_dirty = (s.m_persistent_dirty || d))
    (h2 : ∀ q, q ≠ p → t.deref q = s.deref q)
    (h3 : d = true →
      ((s.deref p).IsPersistent = true ∨ (t.deref p).IsPersistent = true) ∧
      ((t.deref p).value ≠ (s.deref p).value ∨ (t.deref p).flags ≠ (s.deref p).flags ∨
        (t.deref p).seq_num ≠ (s.deref p).seq_num))
    (h4 : (t.deref p).saved ≠ (s.deref p).saved → d = true) :
    (ledger s).Sound (ledger t) ∧ (ledger s).Tracked (ledger t) :=
  ⟨sound_intro d h1 h2 h3, tracked_intro d h1 h2 h4⟩

theorem isPersistent_default : (default : Entry).IsPersistent = false := rfl

theorem isPersistent_lt {s : Storage} {p : Nat} (h : (s.deref p).IsPersistent = true) :
    p < s.m_localmap.length := by
  by_contra hp
  rw [deref_of_ge s p (Nat.le_of_not_lt hp)] at h
  cases h

theorem saved_none_of_ge (s : Storage) (p : Nat) (h : s.m_localmap.length ≤ p) :
    (s.deref p).saved = none := by
  rw [deref_of_ge s p h]
  rfl

theorem SetEntryValueImpl_dirty (s : Storage) (p : Nat) (v : Value) (l : Bool) :
    (s.SetEntryValueImpl p (some v) l).m_persistent_dirty =
      (s.m_persistent_dirty || ((s.deref p).IsPersistent &&
        match (s.deref p).value with
        | none => true
        | some o => Value.ne o v)) := by
  unfold SetEntryValueImpl
  by_cases hp : p < s.m_localmap.length
  · cases hold : (s.deref p).value <;>
      by_cases hP : (s.deref p).flags &&& NT_PERSISTENT = 0 <;>
      cases hd : s.m_persistent_dirty <;>
      simp [deref_store, hp, hold, Entry.IsPersistent, apply_ite Entry.flags, hP, hd]
  · have hd : s.deref p = default := deref_of_ge s p (Nat.le_of_not_lt hp)
    have hf : (s.deref p).flags &&& NT_PERSISTENT = 0 := by rw [hd]; rfl
    cases hold : (s.deref p).value <;>
      cases hd : s.m_persistent_dirty <;>
      simp [deref_store, hp, hold, Entry.IsPersistent, apply_ite Entry.flags, hf, hd]

theorem SetEntryValueImpl_flags (s : Storage) (p : Nat) (v : Option Value) (l : Bool) :
    ((s.SetEntryValueImpl p v l).deref p).flags = (s.deref p).flags := by
  unfold SetEntryValueImpl
  cases v with
  | none => rfl
  | some v =>
    by_cases hp : p < s.m_localmap.length <;> cases hold : (s.deref p).value <;>
      simp [deref_store, hp, hold, apply_ite Entry.flags]

theorem saved_eq (e : Entry) :
    e.saved = if e.IsPersistent = true then e.value.map Value.data else none := rfl

theorem isPersistent_congr {e f : Entry} (h : e.flags = f.flags) :
    e.IsPersistent = f.IsPersistent := by
  unfold Entry.IsPersistent
  rw [h]

/-- A write sets the dirty flag exactly for a new content of a PERSISTENT
entry. -/
theorem SetEntryValueImpl_marks (s : Storage) (p : Nat) (v : Option Value) (l : Bool) :
    (ledger s).Sound (ledger (s.SetEntryValueImpl p v l)) ∧
    (ledger s).Tracked (ledger (s.SetEntryValueImpl p v l)) := by
  cases v with
  | none => exact ⟨sound_refl _, Ledger.tracked_refl _⟩
  | some v =>
    have hf := SetEntryValueImpl_flags s p (some v) l
    have hP := isPersistent_congr hf
    refine marks_intro _ (SetEntryValueImpl_dirty s p v l)
      (fun q hq => SetEntryValueImpl_deref_ne s p q _ l hq) (fun hd => ?_) (fun hs => ?_)
    · rw [Bool.and_eq_true] at hd
      refine ⟨Or.inl hd.1, Or.inl ?_⟩
      rw [SetEntryValueImpl_value s p v l (isPersistent_lt hd.1)]
      cases hold : (s.deref p).value with
      | none => exact fun h => Option.noConfusion h
      | some o =>
        intro h
        cases h
        have h2 := hd.2
        rw [hold] at h2
        simp [Value.ne, Value.eq] at h2
    · rw [saved_eq, saved_eq, hP] at hs
      cases hpers : (s.deref p).IsPersistent with
      | false => simp [hpers] at hs
      | true =>
        rw [SetEntryValueImpl_value s p v l (isPersistent_lt hpers)] at hs
        cases hold : (s.deref p).value with
        | none => rfl
        | some o =>
          simp only [hpers, hold, if_true, Option.map_some', ne_eq, Option.some.injEq] at hs
          simp only [Bool.true_and, Value.ne, Value.eq]
          simpa using fun h => hs h.symm

theorem SetEntryFlagsImpl_dirty (s : Storage) (p f : Nat) (l : Bool) :
    (s.SetEntryFlagsImpl p f l).m_persistent_dirty =
      (s.m_persistent_dirty || ((s.deref p).value.isSome &&
        decide ((s.deref p).flags &&& NT_PERSISTENT ≠ f &&& NT_PERSISTENT))) := by
  unfold SetEntryFlagsImpl
  cases hold : (s.deref p).value <;>
    by_cases hP : (s.deref p).flags &&& NT_PERSISTENT = f &&& NT_PERSISTENT <;>
    by_cases he : (s.deref p).flags = f <;>
    cases hd : s.m_persistent_dirty <;>
    simp [hold, hP, he, hd]

theorem SetEntryFlagsImpl_flags (s : Storage) (p f : Nat) (l : Bool)
    (hv : (s.deref p).value.isSome = true) :
    ((s.SetEntryFlagsImpl p f l).deref p).flags = f := by
  have hp := lt_of_value_isSome hv
  obtain ⟨o, ho⟩ := Option.isSome_iff_exists.mp hv
  unfold SetEntryFlagsImpl
  by_cases he : (s.deref p).flags = f <;>
    simp [deref_store, hp, ho, he, apply_ite Entry.flags]

theorem SetEntryFlagsImpl_none (s : Storage) (p f : Nat) (l : Bool)
    (hv : (s.deref p).value = none) : s.SetEntryFlagsImpl p f l = s := by
  unfold SetEntryFlagsImpl
  simp [hv]

/-- A change of the flags sets the dirty flag exactly for a change of the
PERSISTENT flag of an entry with a value. -/
theorem SetEntryFlagsImpl_marks (s : Storage) (p f : Nat) (l : Bool) :
    (ledger s).Sound (ledger (s.SetEntryFlagsImpl p f l)) ∧
    (ledger s).Tracked (ledger (s.SetEntryFlagsImpl p f l)) := by
  cases hold : (s.deref p).value with
  | none =>
    rw [SetEntryFlagsImpl_none s p f l hold]
    exact ⟨sound_refl _, Ledger.tracked_refl _⟩
  | some o =>
    have hv : (s.deref p).value.isSome = true := by rw [hold]; rfl
    have hfl := SetEntryFlagsImpl_flags s p f l hv
    have hval := (SetEntryFlagsImpl_entry s p f l).1
    refine marks_intro _ (SetEntryFlagsImpl_dirty s p f l)
      (fun q hq => SetEntryFlagsImpl_deref_ne s p q f l hq) (fun hd => ?_) (fun hs => ?_)
    · rw [Bool.and_eq_true, decide_eq_true_eq] at hd
      have h2 := hd.2
      refine ⟨?_, Or.inr (Or.inl ?_)⟩
      · unfold Entry.IsPersistent
        rw [hfl]
        by_cases h0 : (s.deref p).flags &&& NT_PERSISTENT = 0
        · right
          rw [h0] at h2
          simpa using fun h => h2 h.symm
        · left
          simpa using h0
      · rw [hfl]
        intro h
        rw [h] at h2
        exact h2 rfl
    · rw [hv, Bool.true_and, decide_eq_true_eq]
      intro h
      apply hs
      rw [saved_eq, saved_eq, hval]
      unfold Entry.IsPersistent
      rw [hfl, h]

theorem DeleteEntryImpl_dirty (s : Storage) (p : Nat) (l : Bool) :
    (s.DeleteEntryImpl p l).m_persistent_dirty =
      (s.m_persistent_dirty || (s.deref p).IsPersistent) := by
  unfold DeleteEntryImpl
  by_cases hp : p < s.m_localmap.length
  · cases hold : (s.deref p).value <;>
      by_cases hP : (s.deref p).flags &&& NT_PERSISTENT = 0 <;>
      cases hd : s.m_persistent_dirty <;>
      simp [deref_store, hp, hold, Entry.IsPersistent, apply_ite Entry.flags, hP, hd]
  · have hd : s.deref p = default := deref_of_ge s p (Nat.le_of_not_lt hp)
    have hf : (s.deref p).flags &&& NT_PERSISTENT = 0 := by rw [hd]; rfl
    cases hold : (s.deref p).value <;>
      cases hd : s.m_persistent_dirty <;>
      simp [deref_store, hp, hold, Entry.IsPersistent, apply_ite Entry.flags, hf, hd]

theorem DeleteEntryImpl_flags (s : Storage) (p : Nat) (l : Bool)
    (hp : p < s.m_localmap.length) :
    ((s.DeleteEntryImpl p l).deref p).flags = 0 ∧
    ((s.DeleteEntryImpl p l).deref p).value = none := by
  unfold DeleteEntryImpl
  cases hold : (s.deref p).value <;>
    simp [deref_store, hp, hold, apply_ite Entry.flags, apply_ite Entry.value]

/-- A deletion sets the dirty flag exactly for a PERSISTENT entry. -/
theorem DeleteEntryImpl_marks (s : Storage) (p : Nat) (l : Bool) :
    (ledger s).Sound (ledger (s.DeleteEntryImpl p l)) ∧
    (ledger s).Tracked (ledger (s.DeleteEntryImpl p l)) := by
  refine marks_intro _ (DeleteEntryImpl_dirty s p l)
    (fun q hq => DeleteEntryImpl_deref_ne s p q l hq) (fun hd => ?_) (fun hs => ?_)
  · refine ⟨Or.inl hd, Or.inr (Or.inl ?_)⟩
    rw [(DeleteEntryImpl_flags s p l (isPersistent_lt hd)).1]
    intro h
    unfold Entry.IsPersistent at hd
    rw [← h] at hd
    simp at hd
  · by_contra hn
    apply hs
    rw [saved_eq, saved_eq]
    simp only [hn, Bool.false_eq_true, if_false]
    by_cases hp : p < s.m_localmap.length
    · rw [(DeleteEntryImpl_flags s p l hp).2]
      simp
    · have h1 : (s.DeleteEntryImpl p l).deref p = default := by
        apply deref_of_ge
        rw [DeleteEntryImpl_length]
        exact Nat.le_of_not_lt hp
      rw [h1]
      rfl

@[simp] theorem ledger_QueueOutgoing (s : Storage) (m : Message)
    (a b : Option INetworkConnection) : ledger (s.QueueOutgoing m a b) = ledger s := rfl

@[simp] theorem ledger_Notify (s : Storage) (p f : Nat) (l : Bool) (v : Option Value) :
    ledger (s.Notify p f l v) = ledger s := rfl

@[simp] theorem ledger_rpcCall (s : Storage) (c : RpcServerCall) :
    ledger (s.rpcCall c) = ledger s := rfl

@[simp] theorem ledger_set_idmap (s : Storage) (m : List (Option Nat)) :
    ledger (s.set_idmap m) = ledger s := rfl

@[simp] theorem ledger_set_rpc_results (s : Storage) (m : List ((Nat × Nat) × Bytes)) :
    ledger (s.set_rpc_results m) = ledger s := rfl

@[simp] theorem ledger_growIdmap (s : Storage) (n : Nat) : ledger (s.growIdmap n) = ledger s :=
  rfl

@[simp] theorem ledger_SetDispatcher (s : Storage) (b : Bool) :
    ledger (s.SetDispatcher b) = ledger s := rfl

@[simp] theorem ledger_ClearDispatcher (s : Storage) : ledger s.ClearDispatcher = ledger s := rfl

theorem ledger_insertRpcResult (s : Storage) (k : Nat × Nat) (r : Bytes) :
    ledger (s.insertRpcResult k r) = ledger s := by
  unfold insertRpcResult
  split <;> rfl

theorem ledger_store_same (s : Storage) (p : Nat) (e : Entry) (h : core e = core (s.deref p)) :
    ledger (s.store p e) = ledger s := by
  apply ledger_same
  · rfl
  · intro q
    rw [deref_store]
    split
    · rename_i hq
      rw [hq.1, h]
    · rfl

theorem ledger_GetOrNew (s : Storage) (n : Bytes) : ledger (s.GetOrNew n).1 = ledger s := by
  apply ledger_same
  · unfold GetOrNew
    cases s.find n <;> rfl
  · intro q
    rw [GetOrNew_deref]
    split
    · rename_i h
      rw [deref_of_ge s q (Nat.le_of_eq h.2.symm)]
      rfl
    · rfl

/-- An accepted EntryUpdate sets the dirty flag exactly for a PERSISTENT
entry. -/
theorem ProcessIncomingEntryUpdate_marks (s : Storage) (msg : Message)
    (conn : INetworkConnection) :
    (ledger s).Sound (ledger (s.ProcessIncomingEntryUpdate msg conn)) ∧
    (ledger s).Tracked (ledger (s.ProcessIncomingEntryUpdate msg conn)) := by
  cases hs : s.idEntry msg.id with
  | none =>
    have : s.ProcessIncomingEntryUpdate msg conn = s := by
      unfold ProcessIncomingEntryUpdate
      rw [hs]
    rw [this]
    exact ⟨sound_refl _, Ledger.tracked_refl _⟩
  | some p =>
    by_cases hle : (SequenceNumber.mk msg.seq_num_uid).le (s.deref p).seq_num = true
    · have : s.ProcessIncomingEntryUpdate msg conn = s := by
        unfold ProcessIncomingEntryUpdate
        simp [hs, hle]
      rw [this]
      exact ⟨sound_refl _, Ledger.tracked_refl _⟩
    · have h1 : (s.ProcessIncomingEntryUpdate msg conn).m_persistent_dirty =
          (s.m_persistent_dirty || (s.deref p).IsPersistent) := by
        unfold ProcessIncomingEntryUpdate
        by_cases hp : p < s.m_localmap.length
        · by_cases hP : (s.deref p).flags &&& NT_PERSISTENT = 0 <;>
            cases hd : s.m_persistent_dirty <;>
            simp [hs, hle, deref_store, hp, Entry.IsPersistent, hP, hd]
        · have hd : s.deref p = default := deref_of_ge s p (Nat.le_of_not_lt hp)
          have hf : (s.deref p).flags &&& NT_PERSISTENT = 0 := by rw [hd]; rfl
          cases hd : s.m_persistent_dirty <;>
            simp [hs, hle, deref_store, hp, Entry.IsPersistent, hf, hd]
      have h2 : ∀ q, q ≠ p → (s.ProcessIncomingEntryUpdate msg conn).deref q = s.deref q := by
        intro q hq
        unfold ProcessIncomingEntryUpdate
        simp [hs, hle, deref_store, hq]
      have h3 : p < s.m_localmap.length →
          ((s.ProcessIncomingEntryUpdate msg conn).deref p).seq_num = ⟨msg.seq_num_uid⟩ := by
        intro hp
        unfold ProcessIncomingEntryUpdate
        simp [hs, hle, deref_store, hp, apply_ite Entry.seq_num]
      have h4 : ((s.ProcessIncomingEntryUpdate msg conn).deref p).flags = (s.deref p).flags := by
        unfold ProcessIncomingEntryUpdate
        by_cases hp : p < s.m_localmap.length <;>
          simp [hs, hle, deref_store, hp, apply_ite Entry.flags]
      refine marks_intro _ h1 h2 (fun hd => ?_) (fun hsv => ?_)
      · refine ⟨Or.inl hd, Or.inr (Or.inr ?_)⟩
        rw [h3 (isPersistent_lt hd)]
        intro h
        rw [← h] at hle
        exact hle (SequenceNumber.le_self _)
      · by_contra hn
        apply hsv
        rw [saved_eq, saved_eq, isPersistent_congr h4]
        simp [hn]


theorem neOpt_ne {a b : Option Value} (h : neOpt a b = true) : b ≠ a := by
  cases a with
  | none => simp [neOpt] at h
  | some x =>
    cases b with
    | none => simp [neOpt] at h
    | some y =>
      intro e
      cases e
      simp [neOpt, Value.ne, Value.eq] at h

theorem neOpt_data {x y : Value} (h : x.data ≠ y.data) : neOpt (some x) (some y) = true := by
  simp [neOpt, Value.ne, Value.eq, h]

/-- The common handling of an EntryAssign that is not ignored: the dirty
flag, the value and the flags afterwards. -/
theorem EntryAssignCommon_accepts (s : Storage) (msg : Message) (conn : INetworkConnection)
    (p : Nat) (b : Bool)
    (hlt : (SequenceNumber.mk msg.seq_num_uid).lt (s.deref p).seq_num = false)
    (hn : msg.str = (s.deref p).name) (hp : p < s.m_localmap.length) (fl : Nat)
    (hfl : fl = if (!b && decide (conn.proto_rev ≥ 0x0300)) = true then msg.flags
      else (s.deref p).flags) :
    OptAll (fun t =>
      t.m_persistent_dirty = (s.m_persistent_dirty ||
        (decide ((s.deref p).flags &&& NT_PERSISTENT ≠ fl &&& NT_PERSISTENT) ||
          (decide (fl &&& NT_PERSISTENT ≠ 0) && neOpt (s.deref p).value msg.value))) ∧
      (t.deref p).value = msg.value ∧ (t.deref p).flags = fl ∧
      (fl &&& NT_PERSISTENT ≠ 0 → (s.deref p).value.isSome = true ∧ msg.value.isSome = true))
      (s.EntryAssignCommon msg conn p b) := by
  unfold EntryAssignCommon
  cases hu : (!b && decide (conn.proto_rev ≥ 0x0300))
  · simp only [hu, Bool.false_eq_true, if_false] at hfl
    subst hfl
    by_cases hP : (s.deref p).flags &&& NT_PERSISTENT = 0 <;>
      cases hold : (s.deref p).value <;> cases hm : msg.value <;>
      cases hd : s.m_persistent_dirty <;>
      simp [hlt, hn, hu, hP, hold, hm, hd, deref_store, hp, Entry.IsPersistent, neOpt,
        apply_ite Entry.flags, apply_ite Entry.value]
  · simp only [hu, if_true] at hfl
    subst hfl
    by_cases hP : (s.deref p).flags &&& NT_PERSISTENT = 0 <;>
      by_cases hQ : msg.flags &&& NT_PERSISTENT = 0 <;>
      cases hold : (s.deref p).value <;> cases hm : msg.value <;>
      cases hd : s.m_persistent_dirty <;>
      simp [hlt, hn, hu, hP, hQ, hold, hm, hd, deref_store, hp, Entry.IsPersistent, neOpt,
        apply_ite Entry.flags, apply_ite Entry.value] <;>
      exact ⟨fun _ _ => Bool.or_comm _ _, fun _ => Bool.or_comm _ _⟩

theorem EntryAssignCommon_ignores (s : Storage) (msg : Message) (conn : INetworkConnection)
    (p : Nat) (b : Bool)
    (h : (SequenceNumber.mk msg.seq_num_uid).lt (s.deref p).seq_num = true ∨
      msg.str ≠ (s.deref p).name) :
    OptAll (fun t => ledger t = ledger s) (s.EntryAssignCommon msg conn p b) := by
  unfold EntryAssignCommon
  by_cases hlt : (SequenceNumber.mk msg.seq_num_uid).lt (s.deref p).seq_num = true
  · simp [hlt]
  · rcases h with h | h
    · exact absurd h hlt
    · simp [hlt, h]

theorem isPersistent_iff (e : Entry) : e.IsPersistent = true ↔ e.flags &&& NT_PERSISTENT ≠ 0 := by
  unfold Entry.IsPersistent
  simp

/-- The common handling of an EntryAssign sets the dirty flag exactly for
a change of the PERSISTENT flag and for a new content of a PERSISTENT
entry. -/
theorem EntryAssignCommon_marks (s : Storage) (msg : Message) (conn : INetworkConnection)
    (p : Nat) (b : Bool) (hp : p < s.m_localmap.length) :
    OptAll (fun t => (ledger s).Sound (ledger t) ∧ (ledger s).Tracked (ledger t))
      (s.EntryAssignCommon msg conn p b) := by
  intro t ht
  by_cases hlt : (SequenceNumber.mk msg.seq_num_uid).lt (s.deref p).seq_num = true
  · rw [EntryAssignCommon_ignores s msg conn p b (Or.inl hlt) t ht]
    exact ⟨sound_refl _, Ledger.tracked_refl _⟩
  · by_cases hn : msg.str = (s.deref p).name
    · have hlt2 : (SequenceNumber.mk msg.seq_num_uid).lt (s.deref p).seq_num = false := by
        simpa using hlt
      obtain ⟨h1, hv, hf, hboth⟩ :=
        EntryAssignCommon_accepts s msg conn p b hlt2 hn hp _ rfl t ht
      generalize (if (!b && decide (conn.proto_rev ≥ 0x0300)) = true then msg.flags
        else (s.deref p).flags) = fl at h1 hf hboth
      have hPt : (t.deref p).IsPersistent = true ↔ fl &&& NT_PERSISTENT ≠ 0 := by
        rw [isPersistent_iff, hf]
      refine marks_intro _ h1 (fun q hq => EntryAssignCommon_deref_ne s msg conn p b q hq t ht)
        (fun hd => ?_) (fun hs => ?_)
      · rw [Bool.or_eq_true, Bool.and_eq_true, decide_eq_true_eq, decide_eq_true_eq] at hd
        rcases hd with hd | hd
        · refine ⟨?_, Or.inr (Or.inl ?_)⟩
          · by_cases h0 : (s.deref p).flags &&& NT_PERSISTENT = 0
            · right
              rw [hPt]
              intro h
              rw [h0, h] at hd
              exact hd rfl
            · left
              exact (isPersistent_iff _).mpr h0
          · rw [hf]
            intro h
            rw [h] at hd
            exact hd rfl
        · refine ⟨Or.inr (hPt.mpr hd.1), Or.inl ?_⟩
          rw [hv]
          exact neOpt_ne hd.2
      · by_contra hd
        apply hs
        rw [Bool.or_eq_true, Bool.and_eq_true, decide_eq_true_eq, decide_eq_true_eq,
          not_or, not_not, not_and] at hd
        obtain ⟨hbit, hval⟩ := hd
        rw [saved_eq, saved_eq]
        by_cases hfl : fl &&& NT_PERSISTENT = 0
        · have e1 : (t.deref p).IsPersistent = false := by
            cases h : (t.deref p).IsPersistent
            · rfl
            · exact absurd hfl (hPt.mp h)
          have e2 : (s.deref p).IsPersistent = false := by
            cases h : (s.deref p).IsPersistent
            · rfl
            · exact absurd (hbit.trans hfl) ((isPersistent_iff _).mp h)
          rw [e1, e2]
          rfl
        · have e1 : (t.deref p).IsPersistent = true := hPt.mpr hfl
          have e2 : (s.deref p).IsPersistent = true :=
            (isPersistent_iff _).mpr (fun h => hfl (hbit.symm.trans h))
          rw [e1, e2, hv]
          obtain ⟨ho, hm⟩ := hboth hfl
          obtain ⟨o, ho⟩ := Option.isSome_iff_exists.mp ho
          obtain ⟨w, hw⟩ := Option.isSome_iff_exists.mp hm
          have hval2 := hval hfl
          rw [ho, hw] at hval2 ⊢
          simp only [neOpt, Value.ne, Value.eq, Bool.not_eq_true, Bool.not_eq_false',
            decide_eq_true_eq] at hval2
          simp only [if_true, Option.map_some', hval2]
    · rw [EntryAssignCommon_ignores s msg conn p b (Or.inr hn) t ht]
      exact ⟨sound_refl _, Ledger.tracked_refl _⟩


/-! ### The slots of the id map refer to entries of the table -/

theorem Bounded_init : Bounded {} := by
  intro i p h
  cases h

theorem Bounded.mono {s t : Storage} (hb : Bounded s) (h1 : t.m_idmap = s.m_idmap)
    (h2 : s.m_localmap.length ≤ t.m_localmap.length) : Bounded t := by
  intro i p h
  unfold idEntry at h
  rw [h1] at h
  exact Nat.lt_of_lt_of_le (hb i p h) h2

theorem lt_of_id {s : Storage} {p : Nat} (h : (s.deref p).id ≠ 0xffff) :
    p < s.m_localmap.length := by
  by_contra hp
  rw [deref_of_ge s p (Nat.le_of_not_lt hp)] at h
  exact h rfl


namespace View

theorem Released.keepsSlots {v w : View} (h : Released v w) (i p : Nat)
    (hs : w.slot i = some p) : v.slot i = some p := by
  induction h with
  | refl v => exact hs
  | step v q _ ih =>
    have := ih hs
    rw [release_slot] at this
    split at this
    · cases this
    · exact this

theorem Effect.slots {v w : View} (h : Effect v w) (i p : Nat) (hs : w.slot i = some p) :
    v.slot i = some p ∨ (w.sig p).2 = true := by
  cases h with
  | same => exact Or.inl hs
  | write q b _ => exact Or.inl hs
  | assign q hq =>
    rw [assign_slot] at hs
    split at hs
    · cases hs
      right
      rw [assign_sig, if_pos rfl]
    · exact Or.inl hs
  | released _ h => exact Or.inl (h.keepsSlots i p hs)


end View

theorem Bounded_of_effect {s t : Storage} (hb : Bounded s)
    (he : View.Effect (view s) (view t))
    (hl : s.m_localmap.length ≤ t.m_localmap.length) : Bounded t := by
  intro i p h
  rcases he.slots i p h with h1 | h1
  · exact Nat.lt_of_lt_of_le (hb i p h1) hl
  · exact lt_of_value_isSome h1

theorem Bounded_set {s : Storage} (hb : Bounded s) (i p : Nat) (hp : p < s.m_localmap.length) :
    Bounded (s.set_idmap (s.m_idmap.set i (some p))) := by
  intro j q h
  unfold idEntry at h
  simp only [set_idmap_m_idmap] at h
  rw [slot_set] at h
  split at h
  · cases h
    exact hp
  · exact hb j q h

theorem assign_fold_bounded (conn : INetworkConnection) (L : List Message)
    (acc : Storage × List Message) (hwf : WF acc.1) (hb : Bounded acc.1) :
    Bounded (L.foldl (ApplyAssignStep conn) acc).1 := by
  induction L generalizing acc with
  | nil => exact hb
  | cons m L ih =>
    rw [List.foldl_cons]
    have hg := ApplyAssignStep_good conn acc m
    refine ih _ (hg.2 hwf) ?_
    by_cases ha : m.assigns
    · have hp := GetOrNew_ptr_lt acc.1 hwf m.str
      have hv := ApplyAssignStep_view conn acc m ha hwf
      intro i p h
      have h2 : (view (ApplyAssignStep conn acc m).1).slot i = some p := h
      rw [hv, View.bind_slot] at h2
      split at h2
      · cases h2
        apply lt_of_id
        rw [(ApplyAssignStep_deref_self conn acc m ha hp).1, assigned_id]
        exact ha.2
      · exact Nat.lt_of_lt_of_le (hb i p h2) hg.1.length
    · rw [ApplyAssignStep_skip conn acc m ha]
      exact hb

theorem ApplyInitialAssignments_bounded (s : Storage) (conn : INetworkConnection)
    (msgs : List Message) (hs : s.m_server = false) (hT : Tidy s) :
    OptAll (fun r => Tidy r.1 → Bounded r.1) (s.ApplyInitialAssignments conn msgs) := by
  intro r hr hTr
  obtain ⟨-, -, he, hm, -⟩ := ApplyInitialAssignments_result s conn msgs hs r.1 r.2 hr
  have hwf : WF s.clearIds := (clearIds_sameTable s).good.2 hT.wf
  have hc : Bounded s.clearIds := by
    intro i p h
    unfold idEntry at h
    rw [(clearIds_fields s).2.2.2] at h
    cases h
  have ha : Bounded (s.applied conn msgs).1 := assign_fold_bounded conn msgs (s.clearIds, []) hwf hc
  have hTa : Tidy (s.applied conn msgs).1 := (applied_grows s conn msgs).tidy hT
  have hst := reconciled_sameTable s conn msgs
  have hTc : Tidy (s.reconciled conn msgs).1 := hst.keepsTidy hTa
  have hrel := DeleteAllEntriesImplF_released (s.applied conn msgs).1 false unassignedShouldDelete
  intro i p h
  unfold idEntry at h
  rw [hm] at h
  have h1 : (view (s.reconciled conn msgs).1).slot i = some p := h
  have h2 := hrel.keepsSlots i p h1
  have h3 : p < (s.applied conn msgs).1.m_localmap.length := ha i p h2
  rw [← hst.sameLength, ← hTc.mem_pointers, ← he, hTr.mem_pointers] at h3
  exact h3

theorem EntryAssignCommon_bounded (s : Storage) (msg : Message) (conn : INetworkConnection)
    (p : Nat) (b : Bool) (hb : Bounded s) :
    OptAll Bounded (s.EntryAssignCommon msg conn p b) := by
  intro t ht
  exact hb.mono (EntryAssignCommon_id s msg conn p b t ht).2.1
    (Nat.le_of_eq (EntryAssignCommon_sameTable s msg conn p b t ht).sameLength.symm)

/-- An EntryAssign on a client enters an entry of the table. -/
theorem ProcessIncomingEntryAssign_client_bounded (s : Storage) (hwf : WF s) (msg : Message)
    (conn : INetworkConnection) (hs : s.m_server = false) (hb : Bounded s) :
    OptAll Bounded (s.ProcessIncomingEntryAssign msg conn) := by
  unfold ProcessIncomingEntryAssign
  simp only [hs, Bool.false_eq_true, if_false]
  by_cases hid : msg.id = 0xffff
  · rw [if_pos hid, optAll_some]
    exact hb
  · rw [if_neg hid]
    have g1 : SameTable s (if msg.id ≥ s.m_idmap.length then s.growIdmap (msg.id + 1)
        else s) := by
      split
      · exact ⟨rfl, rfl⟩
      · exact SameTable.same s
    have g2 : ∀ i, (if msg.id ≥ s.m_idmap.length then s.growIdmap (msg.id + 1)
        else s).idEntry i = s.idEntry i := by
      intro i
      unfold idEntry
      split
      · simp only [growIdmap_eq, set_idmap_m_idmap]
        exact slot_append_none _ _ _
      · rfl
    have hb1 : Bounded (if msg.id ≥ s.m_idmap.length then s.growIdmap (msg.id + 1)
        else s) := by
      intro i p h
      rw [g2] at h
      rw [g1.sameLength]
      exact hb i p h
    generalize (if msg.id ≥ s.m_idmap.length then s.growIdmap (msg.id + 1) else s) = s1
      at g1 hb1 ⊢
    have hwf1 : WF s1 := g1.good.2 hwf
    cases hslot : s1.idEntry msg.id with
    | some p =>
      simp only
      exact EntryAssignCommon_bounded s1 msg conn p false hb1
    | none =>
      simp only
      have hp := GetOrNew_ptr_lt s1 hwf1 msg.str
      have hbr : Bounded (s1.GetOrNew msg.str).1 :=
        hb1.mono (GetOrNew_m_idmap s1 msg.str) (GetOrNew_good s1 msg.str).1.length
      generalize s1.GetOrNew msg.str = r at hp hbr ⊢
      have hbu : Bounded ((r.1.store r.2 { r.1.deref r.2 with id := msg.id }).set_idmap
          ((r.1.store r.2 { r.1.deref r.2 with id := msg.id }).m_idmap.set msg.id
            (some r.2))) := by
        have h0 : Bounded (r.1.store r.2 { r.1.deref r.2 with id := msg.id }) :=
          hbr.mono rfl (by simp [store])
        exact Bounded_set h0 msg.id r.2 (by simpa [store] using hp)
      generalize ((r.1.store r.2 { r.1.deref r.2 with id := msg.id }).set_idmap
          ((r.1.store r.2 { r.1.deref r.2 with id := msg.id }).m_idmap.set msg.id (some r.2)))
          = u at hbu ⊢
      split
      · rw [optAll_some]
        exact hbu.mono rfl (by simp [store, Notify])
      · split
        · split
          · exact optAll_none _
          · exact EntryAssignCommon_bounded _ msg conn r.2 true (hbu.mono rfl (Nat.le_refl _))
        · exact EntryAssignCommon_bounded _ msg conn r.2 true hbu

/-- Every call keeps the slots of the id map within the table. -/
theorem step_bounded (s t : Storage) (op : Op) (hT : Tidy s) (hb : Bounded s)
    (h : s.step op = some t) : Bounded t := by
  have hlen : s.m_localmap.length ≤ t.m_localmap.length := (step_good s t op h).1.length
  by_cases hd : ∃ b, op = .SetDispatcher b
  · obtain ⟨b, rfl⟩ := hd
    cases h
    exact hb
  · have hne : ∀ b, op ≠ .SetDispatcher b := fun b e => hd ⟨b, e⟩
    by_cases hop : s.m_server = true ∨ ¬op.syncs
    · exact Bounded_of_effect hb (step_effect s t op hT.wf hop hne h) hlen
    · have hs : s.m_server = false := by
        cases hsrv : s.m_server
        · rfl
        · exact absurd (Or.inl hsrv) hop
      have hsy : op.syncs := by
        by_contra hc
        exact hop (Or.inr hc)
      cases op with
      | ProcessIncoming msg conn cw =>
        have ht : msg.type = .kEntryAssign := hsy
        simp only [step] at h
        rw [ProcessIncoming_EntryAssign _ _ _ _ ht] at h
        exact ProcessIncomingEntryAssign_client_bounded s hT.wf msg conn hs hb t h
      | ApplyInitialAssignments conn msgs =>
        have hTt := step_tidy s t _ hT h
        simp only [step, Option.map_eq_some'] at h
        obtain ⟨r, hr, rfl⟩ := h
        exact ApplyInitialAssignments_bounded s conn msgs hs hT r hr hTt
      | _ => exact absurd hsy (by simp [Op.syncs])

/-- In every state reached from the empty table the slots of the id map
refer to entries of the table. -/
theorem run_bounded (ops : List Op) (s t : Storage) (hT : Tidy s) (hb : Bounded s)
    (h : s.run ops = some t) : Bounded t := by
  induction ops generalizing s with
  | nil =>
    cases h
    exact hb
  | cons op ops ih =>
    simp only [run, Option.bind_eq_some] at h
    obtain ⟨u, hu, hrun⟩ := h
    exact ih u (step_tidy s u op hT hu) (step_bounded s u op hT hb hu) hrun


/-! ### The dirty flag across the calls -/

theorem marked_idle (s : Storage) : Marked s s := ⟨sound_refl _, Ledger.tracked_refl _⟩

theorem marked_of_eq {s t : Storage} (h : ledger t = ledger s) : Marked s t := by
  unfold Marked
  rw [h]
  exact marked_idle s

theorem marked_after {s u t : Storage} (h1 : ledger u = ledger s) (h2 : Marked u t) :
    Marked s t := by
  unfold Marked at h2 ⊢
  rw [← h1]
  exact h2

theorem marked_before {s u t : Storage} (h1 : Marked s u) (h2 : ledger t = ledger u) :
    Marked s t := by
  unfold Marked at h1 ⊢
  rw [h2]
  exact h1

theorem ledger_queue_if (s : Storage) (c : Prop) [Decidable c] (m : Message)
    (a b : Option INetworkConnection) :
    ledger (if c then s.QueueOutgoing m a b else s) = ledger s := by
  split <;> rfl

theorem SetEntryValue_marked (s : Storage) (n : Bytes) (v : Option Value) :
    Marked s (s.SetEntryValue n v).1 := by
  unfold SetEntryValue
  split
  · exact marked_idle s
  · cases v with
    | none => exact marked_idle s
    | some v =>
      simp only
      split
      · split
        · exact marked_of_eq (ledger_GetOrNew s n)
        · exact marked_after (ledger_GetOrNew s n) (SetEntryValueImpl_marks _ _ _ _)
      · exact marked_after (ledger_GetOrNew s n) (SetEntryValueImpl_marks _ _ _ _)

theorem SetEntryValueId_marked (s : Storage) (i : Nat) (v : Option Value) :
    Marked s (s.SetEntryValueId i v).1 := by
  unfold SetEntryValueId
  cases v with
  | none => exact marked_idle s
  | some v =>
    simp only
    split
    · exact marked_idle s
    · split
      · split
        · exact marked_idle s
        · exact SetEntryValueImpl_marks _ _ _ _
      · exact SetEntryValueImpl_marks _ _ _ _

theorem SetEntryTypeValue_marked (s : Storage) (n : Bytes) (v : Option Value) :
    Marked s (s.SetEntryTypeValue n v) := by
  unfold SetEntryTypeValue
  split
  · exact marked_idle s
  · cases v with
    | none => exact marked_idle s
    | some v => exact marked_after (ledger_GetOrNew s n) (SetEntryValueImpl_marks _ _ _ _)

theorem SetEntryTypeValueId_marked (s : Storage) (i : Nat) (v : Option Value) :
    Marked s (s.SetEntryTypeValueId i v) := by
  unfold SetEntryTypeValueId
  cases v with
  | none => exact marked_idle s
  | some v =>
    simp only
    split
    · exact marked_idle s
    · exact SetEntryValueImpl_marks _ _ _ _

theorem SetDefaultEntryValue_marked (s : Storage) (n : Bytes) (v : Option Value) :
    Marked s (s.SetDefaultEntryValue n v).1 := by
  unfold SetDefaultEntryValue
  split
  · exact marked_idle s
  · cases v with
    | none => exact marked_idle s
    | some v =>
      simp only
      split
      · exact marked_of_eq (ledger_GetOrNew s n)
      · exact marked_after (ledger_GetOrNew s n) (SetEntryValueImpl_marks _ _ _ _)

theorem SetDefaultEntryValueId_marked (s : Storage) (i : Nat) (v : Option Value) :
    Marked s (s.SetDefaultEntryValueId i v).1 := by
  unfold SetDefaultEntryValueId
  cases v with
  | none => exact marked_idle s
  | some v =>
    simp only
    split
    · exact marked_idle s
    · split
      · exact marked_idle s
      · exact SetEntryValueImpl_marks _ _ _ _

theorem SetEntryFlags_marked (s : Storage) (n : Bytes) (f : Nat) :
    Marked s (s.SetEntryFlags n f) := by
  unfold SetEntryFlags
  split
  · exact marked_idle s
  · split
    · exact marked_idle s
    · exact SetEntryFlagsImpl_marks _ _ _ _

theorem SetEntryFlagsId_marked (s : Storage) (i : Nat) (f : Nat) :
    Marked s (s.SetEntryFlagsId i f) := by
  unfold SetEntryFlagsId
  split
  · exact marked_idle s
  · exact SetEntryFlagsImpl_marks _ _ _ _

theorem DeleteEntry_marked (s : Storage) (n : Bytes) : Marked s (s.DeleteEntry n) := by
  unfold DeleteEntry
  split
  · exact marked_idle s
  · exact DeleteEntryImpl_marks _ _ _

theorem DeleteEntryId_marked (s : Storage) (i : Nat) : Marked s (s.DeleteEntryId i) := by
  unfold DeleteEntryId
  split
  · exact marked_idle s
  · exact DeleteEntryImpl_marks _ _ _

theorem GetEntry_marked (s : Storage) (n : Bytes) : Marked s (s.GetEntry n).1 := by
  unfold GetEntry
  split
  · exact marked_idle s
  · exact marked_of_eq (ledger_GetOrNew s n)

/-- The default DeleteAllEntriesImpl deletes entries without the PERSISTENT
flag only: what a save writes stays, and so does the dirty flag. -/
theorem DeleteAllEntriesImpl_marked (s : Storage) (l : Bool) :
    Marked s (s.DeleteAllEntriesImpl l) := by
  unfold DeleteAllEntriesImpl
  have hd := (DeleteAllEntriesImplF_frame s l (fun e => (!e.IsPersistent, []))).2.2.2.1
  refine ⟨sound_of_eq hd, fun q hq => ?_⟩
  exfalso
  apply hq
  show ((s.DeleteAllEntriesImplF l _).1.deref q).saved = (s.deref q).saved
  rw [DeleteAllEntriesImplF_deref]
  split
  · rename_i h
    have hP : (s.deref q).IsPersistent = false := by
      have := h.2
      unfold deletes at this
      rw [Bool.and_eq_true] at this
      simpa using this.2
    rw [saved_eq, saved_eq]
    have hc : (cleared (s.deref q)).IsPersistent = false := hP
    rw [hc, hP]
    rfl
  · rfl

theorem DeleteAllEntries_marked (s : Storage) : Marked s s.DeleteAllEntries := by
  unfold DeleteAllEntries
  split
  · exact marked_idle s
  · simp only
    split
    · exact DeleteAllEntriesImpl_marked s true
    · exact marked_before (DeleteAllEntriesImpl_marked s true) rfl

theorem ProcessIncomingFlagsUpdate_marked (s : Storage) (msg : Message)
    (conn : INetworkConnection) : Marked s (s.ProcessIncomingFlagsUpdate msg conn) := by
  unfold ProcessIncomingFlagsUpdate
  split
  · exact marked_idle s
  · exact marked_before (SetEntryFlagsImpl_marks _ _ _ _) (ledger_queue_if _ _ _ _ _)

theorem ProcessIncomingEntryDelete_marked (s : Storage) (msg : Message)
    (conn : INetworkConnection) : Marked s (s.ProcessIncomingEntryDelete msg conn) := by
  unfold ProcessIncomingEntryDelete
  split
  · exact marked_idle s
  · exact marked_before (DeleteEntryImpl_marks _ _ _) (ledger_queue_if _ _ _ _ _)

theorem ProcessIncomingClearEntries_marked (s : Storage) (msg : Message)
    (conn : INetworkConnection) : Marked s (s.ProcessIncomingClearEntries msg conn) := by
  unfold ProcessIncomingClearEntries
  exact marked_before (DeleteAllEntriesImpl_marked s false) (ledger_queue_if _ _ _ _ _)

theorem ProcessIncomingExecuteRpc_marked (s : Storage) (msg : Message)
    (cw : Option INetworkConnection) : Marked s (s.ProcessIncomingExecuteRpc msg cw) := by
  apply marked_of_eq
  unfold ProcessIncomingExecuteRpc
  repeat' split
  all_goals rfl

theorem ProcessIncomingRpcResponse_marked (s : Storage) (msg : Message) :
    Marked s (s.ProcessIncomingRpcResponse msg) := by
  apply marked_of_eq
  unfold ProcessIncomingRpcResponse insertRpcResult
  repeat' split
  all_goals rfl

theorem CallRpc_marked (s : Storage) (a : Nat) (ps : Bytes) :
    OptAll (fun r => Marked s r.1) (s.CallRpc a ps) := by
  intro r hr
  apply marked_of_eq
  apply ledger_same
  · revert r
    show OptAll (fun r => r.1.m_persistent_dirty = s.m_persistent_dirty) (s.CallRpc a ps)
    unfold CallRpc
    cases hold : (s.deref a).value <;> simp [hold]
  · intro q
    revert r
    show OptAll (fun r => core (r.1.deref q) = core (s.deref q)) (s.CallRpc a ps)
    unfold CallRpc
    by_cases hq : q = a
    · by_cases hp : a < s.m_localmap.length
      · cases hold : (s.deref a).value <;> simp [hold, deref_store, hq, hp, core]
      · cases hold : (s.deref a).value <;> simp [hold, deref_store, hq, hp, core]
    · cases hold : (s.deref a).value <;> simp [hold, deref_store, hq, core]


theorem saved_of_none {e : Entry} (h : e.value = none) : e.saved = none := by
  rw [saved_eq, h]
  split <;> rfl

/-- A server that is asked for an id takes the flags and the value of the
message: the dirty flag is set exactly when the flags are PERSISTENT and
the value is new. -/
theorem assignNew_marks (r : Storage) (p : Nat) (msg : Message)
    (hp : p < r.m_localmap.length) :
    (ledger r).Sound (ledger ((r.store p { r.deref p with
      flags := msg.flags, seq_num := ⟨msg.seq_num_uid⟩ }).SetEntryValueImpl p msg.value false)) ∧
    ((r.deref p).value = none →
      (ledger r).Tracked (ledger ((r.store p { r.deref p with
        flags := msg.flags, seq_num := ⟨msg.seq_num_uid⟩ }).SetEntryValueImpl p msg.value
          false))) := by
  have hs1 : (r.store p { r.deref p with
      flags := msg.flags, seq_num := ⟨msg.seq_num_uid⟩ }).deref p = { r.deref p with
      flags := msg.flags, seq_num := ⟨msg.seq_num_uid⟩ } := by
    rw [deref_store, if_pos ⟨rfl, hp⟩]
  have hs2 : ∀ q, q ≠ p → (r.store p { r.deref p with
      flags := msg.flags, seq_num := ⟨msg.seq_num_uid⟩ }).deref q = r.deref q := by
    intro q hq
    rw [deref_store, if_neg (fun h => hq h.1)]
  have hs3 : (r.store p { r.deref p with
      flags := msg.flags, seq_num := ⟨msg.seq_num_uid⟩ }).m_persistent_dirty
      = r.m_persistent_dirty := rfl
  have hs4 : p < (r.store p { r.deref p with
      flags := msg.flags, seq_num := ⟨msg.seq_num_uid⟩ }).m_localmap.length := by
    rw [store_length]
    exact hp
  generalize (r.store p { r.deref p with
      flags := msg.flags, seq_num := ⟨msg.seq_num_uid⟩ }) = s1 at hs1 hs2 hs3 hs4 ⊢
  have hv1 : (s1.deref p).value = (r.deref p).value := by rw [hs1]
  cases hm : msg.value with
  | none =>
    have e : s1.SetEntryValueImpl p none false = s1 := rfl
    rw [e]
    refine ⟨sound_of_eq hs3, fun hn q hq => ?_⟩
    exfalso
    apply hq
    show (s1.deref q).saved = (r.deref q).saved
    by_cases hqp : q = p
    · rw [hqp, saved_of_none hn, saved_of_none (hv1.trans hn)]
    · rw [hs2 q hqp]
  | some v =>
    have hf := SetEntryValueImpl_flags s1 p (some v) false
    have hval := SetEntryValueImpl_value s1 p v false hs4
    have hd := SetEntryValueImpl_dirty s1 p v false
    rw [hs3] at hd
    have hP : ((s1.SetEntryValueImpl p (some v) false).deref p).IsPersistent
        = (s1.deref p).IsPersistent := isPersistent_congr hf
    have h2 : ∀ q, q ≠ p → (s1.SetEntryValueImpl p (some v) false).deref q = r.deref q :=
      fun q hq => (SetEntryValueImpl_deref_ne s1 p q _ false hq).trans (hs2 q hq)
    constructor
    · refine sound_intro _ hd h2 (fun hdd => ?_)
      rw [Bool.and_eq_true] at hdd
      refine ⟨Or.inr (hP.trans hdd.1), Or.inl ?_⟩
      rw [hval]
      have h3 := hdd.2
      rw [hv1] at h3
      cases hold : (r.deref p).value with
      | none => exact fun h => Option.noConfusion h
      | some o =>
        intro h
        cases h
        rw [hold] at h3
        simp [Value.ne, Value.eq] at h3
    · intro hn
      refine tracked_intro _ hd h2 (fun hsv => ?_)
      rw [hv1, hn, Bool.and_eq_true]
      refine ⟨?_, rfl⟩
      by_contra hc
      apply hsv
      rw [saved_of_none hn, saved_eq, hP]
      simp [hc]

theorem dirty_of_ledger {s t : Storage} (h : ledger t = ledger s) :
    t.m_persistent_dirty = s.m_persistent_dirty := congrArg Ledger.dirty h

theorem saved_of_ledger {s t : Storage} (h : ledger t = ledger s) (q : Nat) :
    (t.deref q).saved = (s.deref q).saved := by
  have := congrArg (fun a => (a.core q).saved) h
  exact this

theorem value_of_ledger {s t : Storage} (h : ledger t = ledger s) (q : Nat) :
    (t.deref q).value = (s.deref q).value := by
  have := congrArg (fun a => (a.core q).value) h
  exact this

/-- An EntryAssign keeps the dirty flag sound, and it marks every change of
what a save writes unless `marksAssign` leaves it out. -/
theorem ProcessIncomingEntryAssign_marks (s : Storage) (hwf : WF s) (hb : Bounded s)
    (msg : Message) (conn : INetworkConnection) :
    OptAll (fun t => (ledger s).Sound (ledger t) ∧
      (marksAssign s msg → (ledger s).Tracked (ledger t)))
      (s.ProcessIncomingEntryAssign msg conn) := by
  unfold ProcessIncomingEntryAssign
  by_cases hs : s.m_server = true
  · simp only [hs, if_true]
    by_cases hid : msg.id = 0xffff
    · rw [if_pos hid]
      have hp := GetOrNew_ptr_lt s hwf msg.str
      have hl := ledger_GetOrNew s msg.str
      have hc : marksAssign s msg → ((s.GetOrNew msg.str).1.deref (s.GetOrNew msg.str).2).value
          = none ∨ ((s.GetOrNew msg.str).1.deref (s.GetOrNew msg.str).2).id ≠ 0xffff := by
        intro hm
        cases hf : s.find msg.str with
        | none => exact Or.inl (GetOrNew_new_value s msg.str hf)
        | some p =>
          rw [GetOrNew_of_find hf]
          exact hm.1 hs hid p hf
      generalize s.GetOrNew msg.str = r at hp hl hc ⊢
      split
      · rw [optAll_some, hl]
        exact ⟨sound_refl _, fun _ => Ledger.tracked_refl _⟩
      · rename_i hni
        rw [optAll_some, ← hl]
        have h := assignNew_marks r.1 r.2 msg hp
        refine ⟨h.1, fun hm => h.2 ?_⟩
        rcases hc hm with h1 | h1
        · exact h1
        · exact absurd h1 hni
    · rw [if_neg hid]
      cases hslot : s.idEntry msg.id with
      | none =>
        simp only [optAll_some]
        exact ⟨sound_refl _, fun _ => Ledger.tracked_refl _⟩
      | some p =>
        simp only
        intro t ht
        have h := EntryAssignCommon_marks s msg conn p false (hb _ _ hslot) t ht
        exact ⟨h.1, fun _ => h.2⟩
  · have hs : s.m_server = false := by simpa using hs
    simp only [hs, Bool.false_eq_true, if_false]
    by_cases hid : msg.id = 0xffff
    · rw [if_pos hid, optAll_some]
      exact ⟨sound_refl _, fun _ => Ledger.tracked_refl _⟩
    · rw [if_neg hid]
      have g1 : SameTable s (if msg.id ≥ s.m_idmap.length then s.growIdmap (msg.id + 1)
          else s) := by
        split
        · exact ⟨rfl, rfl⟩
        · exact SameTable.same s
      have g2 : ∀ i, (if msg.id ≥ s.m_idmap.length then s.growIdmap (msg.id + 1)
          else s).idEntry i = s.idEntry i := by
        intro i
        unfold idEntry
        split
        · simp only [growIdmap_eq, set_idmap_m_idmap]
          exact slot_append_none _ _ _
        · rfl
      have g3 : ledger (if msg.id ≥ s.m_idmap.length then s.growIdmap (msg.id + 1)
          else s) = ledger s := by
        split <;> rfl
      have hb1 : Bounded (if msg.id ≥ s.m_idmap.length then s.growIdmap (msg.id + 1)
          else s) := by
        intro i p h
        rw [g2] at h
        rw [g1.sameLength]
        exact hb i p h
      have g4 := g2 msg.id
      generalize (if msg.id ≥ s.m_idmap.length then s.growIdmap (msg.id + 1) else s) = s1
        at g1 g3 g4 hb1 ⊢
      have hwf1 : WF s1 := g1.good.2 hwf
      cases hslot : s1.idEntry msg.id with
      | some p =>
        simp only
        intro t ht
        have h := EntryAssignCommon_marks s1 msg conn p false (hb1 _ _ hslot) t ht
        rw [g3] at h
        exact ⟨h.1, fun _ => h.2⟩
      | none =>
        simp only
        have hp := GetOrNew_ptr_lt s1 hwf1 msg.str
        have hl : ledger (s1.GetOrNew msg.str).1 = ledger s :=
          (ledger_GetOrNew s1 msg.str).trans g3
        have hc : marksAssign s msg →
            ((s1.GetOrNew msg.str).1.deref (s1.GetOrNew msg.str).2).value.isSome = true := by
          intro hm
          obtain ⟨p, hf, hv⟩ := hm.2 hs hid (g4.symm.trans hslot)
          have hf1 : s1.find msg.str = some p := by
            unfold Storage.find at hf ⊢
            rw [g1.1]
            exact hf
          rw [GetOrNew_of_find hf1]
          have := value_of_ledger g3 p
          simp only at this ⊢
          rw [this]
          exact hv
        generalize s1.GetOrNew msg.str = r at hp hl hc ⊢
        have hu : ledger ((r.1.store r.2 { r.1.deref r.2 with id := msg.id }).set_idmap
            ((r.1.store r.2 { r.1.deref r.2 with id := msg.id }).m_idmap.set msg.id
              (some r.2))) = ledger s := by
          rw [ledger_set_idmap]
          exact (ledger_store_same r.1 r.2 { r.1.deref r.2 with id := msg.id } rfl).trans hl
        have hpu : r.2 < ((r.1.store r.2 { r.1.deref r.2 with id := msg.id }).set_idmap
            ((r.1.store r.2 { r.1.deref r.2 with id := msg.id }).m_idmap.set msg.id
              (some r.2))).m_localmap.length := by
          simpa [store, set_idmap] using hp
        have hc2 : marksAssign s msg →
            (((r.1.store r.2 { r.1.deref r.2 with id := msg.id }).set_idmap
            ((r.1.store r.2 { r.1.deref r.2 with id := msg.id }).m_idmap.set msg.id
              (some r.2))).deref r.2).value.isSome = true := by
          intro hm
          rw [value_of_ledger (hu.trans hl.symm)]
          exact hc hm
        generalize ((r.1.store r.2 { r.1.deref r.2 with id := msg.id }).set_idmap
            ((r.1.store r.2 { r.1.deref r.2 with id := msg.id }).m_idmap.set msg.id (some r.2)))
            = u at hu hpu hc2 ⊢
        split
        · rename_i hnone
          rw [optAll_some]
          refine ⟨sound_of_eq ?_, fun hm => ?_⟩
          · exact (show _ = u.m_persistent_dirty from rfl).trans (dirty_of_ledger hu)
          · have := hc2 hm
            rw [hnone] at this
            cases this
        · split
          · split
            · exact optAll_none _
            · intro t ht
              have h := EntryAssignCommon_marks (u.QueueOutgoing _ none none) msg conn r.2 true
                hpu t ht
              simp only [ledger_QueueOutgoing, hu] at h
              exact ⟨h.1, fun _ => h.2⟩
          · intro t ht
            have h := EntryAssignCommon_marks _ msg conn r.2 true hpu t ht
            rw [hu] at h
            exact ⟨h.1, fun _ => h.2⟩


/-- CreateRpc leaves the dirty flag alone. -/
theorem CreateRpc_dirty (s : Storage) (p : Nat) (d : Bytes) (u ti : Nat) :
    (s.CreateRpc p d u ti).m_persistent_dirty = s.m_persistent_dirty := by
  unfold CreateRpc
  by_cases hp : p < s.m_localmap.length
  · cases hold : (s.deref p).value <;> simp [hold, hp]
  · simp [hp]

theorem clearIds_dirty (s : Storage) : s.clearIds.m_persistent_dirty = s.m_persistent_dirty := by
  unfold clearIds
  rw [set_idmap_m_persistent_dirty]
  generalize s.m_entries.map Prod.snd = l
  induction l generalizing s with
  | nil => rfl
  | cons p ps ih =>
    rw [List.foldl_cons, ih]
    rfl

theorem ApplyAssignStep_dirty (conn : INetworkConnection) (acc : Storage × List Message)
    (msg : Message) :
    (ApplyAssignStep conn acc msg).1.m_persistent_dirty = acc.1.m_persistent_dirty := by
  by_cases ha : msg.assigns
  · unfold ApplyAssignStep
    simp only [ha.1, ne_eq, not_true_eq_false, if_false, ha.2]
    have hm : (acc.1.GetOrNew msg.str).1.m_persistent_dirty = acc.1.m_persistent_dirty := by
      simp
    generalize acc.1.GetOrNew msg.str = r at hm ⊢
    rw [← hm]
    by_cases hv : ((r.1.store r.2 { r.1.deref r.2 with
          seq_num := ⟨msg.seq_num_uid⟩, id := msg.id }).deref r.2).value = none
    · simp [hv]
    · obtain ⟨o, ho⟩ := Option.ne_none_iff_exists'.mp hv
      simp [ho, apply_ite Prod.fst]
  · rw [ApplyAssignStep_skip conn acc msg ha]

theorem assign_fold_dirty (conn : INetworkConnection) (L : List Message)
    (acc : Storage × List Message) :
    (L.foldl (ApplyAssignStep conn) acc).1.m_persistent_dirty = acc.1.m_persistent_dirty := by
  induction L generalizing acc with
  | nil => rfl
  | cons m L ih => rw [List.foldl_cons, ih, ApplyAssignStep_dirty]

theorem foldl_queue_dirty (l : List Message) (s : Storage) :
    (l.foldl (fun s m => s.QueueOutgoing m none none) s).m_persistent_dirty =
      s.m_persistent_dirty := by
  induction l generalizing s with
  | nil => rfl
  | cons m ms ih =>
    rw [List.foldl_cons, ih]
    rfl

/-- ApplyInitialAssignments leaves the dirty flag alone. -/
theorem ApplyInitialAssignments_dirty (s : Storage) (conn : INetworkConnection)
    (msgs : List Message) :
    OptAll (fun r => r.1.m_persistent_dirty = s.m_persistent_dirty)
      (s.ApplyInitialAssignments conn msgs) := by
  by_cases hs : s.m_server = true
  · unfold ApplyInitialAssignments
    simp [hs]
  · have hs : s.m_server = false := by simpa using hs
    rw [ApplyInitialAssignments_client s conn msgs hs]
    have h1 : (s.reconciled conn msgs).1.m_persistent_dirty = s.m_persistent_dirty := by
      unfold reconciled
      rw [(DeleteAllEntriesImplF_frame _ _ _).2.2.2.1]
      unfold applied
      rw [assign_fold_dirty]
      exact clearIds_dirty s
    split
    · rw [optAll_some]
      exact h1
    · split
      · exact optAll_none _
      · rw [optAll_some]
        simp only
        rw [foldl_queue_dirty]
        exact h1

/-- A save that collects the entries clears the dirty flag; a save that is
skipped changes nothing. -/
theorem GetPersistentEntries_dirty (s : Storage) (periodic : Bool) :
    (s.GetPersistentEntries periodic).1.m_persistent_dirty =
      (s.m_persistent_dirty && !s.collects (.SavePersistent periodic)) ∧
    ∀ q, (s.GetPersistentEntries periodic).1.deref q = s.deref q := by
  unfold GetPersistentEntries collects
  cases periodic <;> cases hd : s.m_persistent_dirty <;> simp [hd, set_persistent_dirty, deref]

/-- The file form of a save that collects the entries and does not fail as
a periodic save clears the dirty flag; every other one leaves it as it
was. -/
theorem SavePersistentFileState_dirty (s : Storage) (fs : FileAnswers) (periodic : Bool) :
    (s.SavePersistentFileState fs periodic).m_persistent_dirty =
      (s.m_persistent_dirty && !s.collects (.SavePersistentFile fs periodic)) ∧
    ∀ q, (s.SavePersistentFileState fs periodic).deref q = s.deref q := by
  rw [SavePersistentFileState_eq]
  refine ⟨?_, fun q => rfl⟩
  unfold collects
  obtain ⟨a, b, c⟩ := fs
  cases periodic <;> cases hd : s.m_persistent_dirty <;> cases a <;> cases b <;> cases c <;>
    simp [hd]

/-- Every call but a save that collects the entries keeps the dirty flag
sound: it stays set, and it is set only for a change of a PERSISTENT
entry. -/
theorem step_sound (s t : Storage) (op : Op) (hT : Tidy s) (hb : Bounded s)
    (hc : s.collects op = false) (h : s.step op = some t) : (ledger s).Sound (ledger t) := by
  cases op with
  | SetDispatcher server => cases h; exact sound_refl _
  | ClearDispatcher => cases h; exact sound_refl _
  | GetEntry name => cases h; exact (GetEntry_marked s name).1
  | SetEntryValue name value => cases h; exact (SetEntryValue_marked s name value).1
  | SetEntryValueId local_id value => cases h; exact (SetEntryValueId_marked s local_id value).1
  | SetEntryTypeValue name value => cases h; exact (SetEntryTypeValue_marked s name value).1
  | SetEntryTypeValueId local_id value =>
    cases h; exact (SetEntryTypeValueId_marked s local_id value).1
  | SetDefaultEntryValue name value =>
    cases h; exact (SetDefaultEntryValue_marked s name value).1
  | SetDefaultEntryValueId local_id value =>
    cases h; exact (SetDefaultEntryValueId_marked s local_id value).1
  | SetEntryFlags name flags => cases h; exact (SetEntryFlags_marked s name flags).1
  | SetEntryFlagsId local_id flags => cases h; exact (SetEntryFlagsId_marked s local_id flags).1
  | DeleteEntry name => cases h; exact (DeleteEntry_marked s name).1
  | DeleteEntryId local_id => cases h; exact (DeleteEntryId_marked s local_id).1
  | DeleteAllEntries => cases h; exact (DeleteAllEntries_marked s).1
  | ProcessIncoming msg conn conn_weak =>
    simp only [step] at h
    unfold ProcessIncoming at h
    split at h
    case h_7 => exact (ProcessIncomingEntryAssign_marks s hT.wf hb msg conn t h).1
    case h_8 => cases h; exact (ProcessIncomingEntryUpdate_marks s msg conn).1
    case h_9 => cases h; exact (ProcessIncomingFlagsUpdate_marked s msg conn).1
    case h_10 => cases h; exact (ProcessIncomingEntryDelete_marked s msg conn).1
    case h_11 => cases h; exact (ProcessIncomingClearEntries_marked s msg conn).1
    case h_12 => cases h; exact (ProcessIncomingExecuteRpc_marked s msg conn_weak).1
    case h_13 => cases h; exact (ProcessIncomingRpcResponse_marked s msg).1
    all_goals (cases h; exact sound_refl _)
  | ApplyInitialAssignments conn msgs =>
    simp only [step, Option.map_eq_some'] at h
    obtain ⟨r, hr, rfl⟩ := h
    exact sound_of_eq (ApplyInitialAssignments_dirty s conn msgs r hr)
  | CreateRpc local_id d rpc_uid time =>
    cases h
    exact sound_of_eq (CreateRpc_dirty s local_id d rpc_uid time)
  | CallRpc local_id params =>
    simp only [step, Option.map_eq_some'] at h
    obtain ⟨r, hr, rfl⟩ := h
    exact (CallRpc_marked s local_id params r hr).1
  | SavePersistent periodic =>
    cases h
    apply sound_of_eq
    show (s.GetPersistentEntries periodic).1.m_persistent_dirty = s.m_persistent_dirty
    rw [(GetPersistentEntries_dirty s periodic).1, hc]
    simp
  | SavePersistentFile fs periodic =>
    cases h
    apply sound_of_eq
    show (s.SavePersistentFileState fs periodic).m_persistent_dirty = s.m_persistent_dirty
    rw [(SavePersistentFileState_dirty s fs periodic).1, hc]
    simp

/-- Every call that `marking` admits sets the dirty flag when it changes
what a save writes. -/
theorem step_tracked (s t : Storage) (op : Op) (hT : Tidy s) (hb : Bounded s)
    (hm : marking s op) (h : s.step op = some t) : (ledger s).Tracked (ledger t) := by
  cases op with
  | SetDispatcher server => cases h; exact Ledger.tracked_refl _
  | ClearDispatcher => cases h; exact Ledger.tracked_refl _
  | GetEntry name => cases h; exact (GetEntry_marked s name).2
  | SetEntryValue name value => cases h; exact (SetEntryValue_marked s name value).2
  | SetEntryValueId local_id value => cases h; exact (SetEntryValueId_marked s local_id value).2
  | SetEntryTypeValue name value => cases h; exact (SetEntryTypeValue_marked s name value).2
  | SetEntryTypeValueId local_id value =>
    cases h; exact (SetEntryTypeValueId_marked s local_id value).2
  | SetDefaultEntryValue name value =>
    cases h; exact (SetDefaultEntryValue_marked s name value).2
  | SetDefaultEntryValueId local_id value =>
    cases h; exact (SetDefaultEntryValueId_marked s local_id value).2
  | SetEntryFlags name flags => cases h; exact (SetEntryFlags_marked s name flags).2
  | SetEntryFlagsId local_id flags => cases h; exact (SetEntryFlagsId_marked s local_id flags).2
  | DeleteEntry name => cases h; exact (DeleteEntry_marked s name).2
  | DeleteEntryId local_id => cases h; exact (DeleteEntryId_marked s local_id).2
  | DeleteAllEntries => cases h; exact (DeleteAllEntries_marked s).2
  | ProcessIncoming msg conn conn_weak =>
    simp only [step] at h
    unfold ProcessIncoming at h
    split at h
    case h_7 ht => exact (ProcessIncomingEntryAssign_marks s hT.wf hb msg conn t h).2 (hm ht)
    case h_8 => cases h; exact (ProcessIncomingEntryUpdate_marks s msg conn).2
    case h_9 => cases h; exact (ProcessIncomingFlagsUpdate_marked s msg conn).2
    case h_10 => cases h; exact (ProcessIncomingEntryDelete_marked s msg conn).2
    case h_11 => cases h; exact (ProcessIncomingClearEntries_marked s msg conn).2
    case h_12 => cases h; exact (ProcessIncomingExecuteRpc_marked s msg conn_weak).2
    case h_13 => cases h; exact (ProcessIncomingRpcResponse_marked s msg).2
    all_goals (cases h; exact Ledger.tracked_refl _)
  | ApplyInitialAssignments conn msgs =>
    have hs : s.m_server = true := hm
    simp only [step, ApplyInitialAssignments, hs, if_true, Option.map_some'] at h
    cases h
    exact Ledger.tracked_refl _
  | CreateRpc local_id d rpc_uid time => exact absurd hm id
  | CallRpc local_id params =>
    simp only [step, Option.map_eq_some'] at h
    obtain ⟨r, hr, rfl⟩ := h
    exact (CallRpc_marked s local_id params r hr).2
  | SavePersistent periodic =>
    cases h
    intro q hq
    exfalso
    apply hq
    show ((s.GetPersistentEntries periodic).1.deref q).saved = (s.deref q).saved
    rw [(GetPersistentEntries_dirty s periodic).2]
  | SavePersistentFile fs periodic =>
    cases h
    intro q hq
    exfalso
    apply hq
    show ((s.SavePersistentFileState fs periodic).deref q).saved = (s.deref q).saved
    rw [(SavePersistentFileState_dirty s fs periodic).2]

/-- A save that collects the entries clears the dirty flag. -/
theorem step_collects (s t : Storage) (op : Op) (hc : s.collects op = true)
    (h : s.step op = some t) : t.m_persistent_dirty = false := by
  cases op with
  | SavePersistent periodic =>
    cases h
    show (s.GetPersistentEntries periodic).1.m_persistent_dirty = false
    rw [(GetPersistentEntries_dirty s periodic).1, hc]
    simp
  | SavePersistentFile fs periodic =>
    cases h
    show (s.SavePersistentFileState fs periodic).m_persistent_dirty = false
    rw [(SavePersistentFileState_dirty s fs periodic).1, hc]
    simp
  | _ => cases hc


/-! ### The dirty flag along a run -/

theorem touches_of_raised {s t : Storage} (h : (ledger s).Raised (ledger t))
    (hd : t.m_persistent_dirty = true) : s.m_persistent_dirty = true ∨ touches s t := by
  rcases h hd with h1 | ⟨p, hp, hc⟩
  · exact Or.inl h1
  · exact Or.inr ⟨p, hp, core_ne hc⟩

theorem dirty_of_tracked {s t : Storage} (h : (ledger s).Tracked (ledger t))
    (hr : resaves s t) : t.m_persistent_dirty = true := by
  obtain ⟨p, hp⟩ := hr
  exact h p hp

theorem run_snoc (s : Storage) (a : List Op) (op : Op) (t : Storage)
    (h : s.run (a ++ [op]) = some t) : ∃ u, s.run a = some u ∧ u.step op = some t := by
  rw [run_append] at h
  cases hu : s.run a with
  | none =>
    rw [hu] at h
    cases h
  | some u =>
    rw [hu, Option.some_bind] at h
    refine ⟨u, rfl, ?_⟩
    simp only [run] at h
    cases hs : u.step op with
    | none =>
      rw [hs] at h
      cases h
    | some w =>
      rw [hs, Option.some_bind] at h
      exact h

theorem run_tidy (ops : List Op) (s t : Storage) (hT : Tidy s) (h : s.run ops = some t) :
    Tidy t := (run_grows s t ops h).tidy hT

theorem uncollected_snoc (a : List Op) (s u : Storage) (op : Op) (h : s.run a = some u)
    (hu : uncollected s a) (hc : u.collects op = false) : uncollected s (a ++ [op]) := by
  induction a generalizing s with
  | nil =>
    cases h
    exact ⟨hc, fun _ _ => trivial⟩
  | cons x a ih =>
    simp only [run, Option.bind_eq_some] at h
    obtain ⟨w, hw, hrun⟩ := h
    refine ⟨hu.1, fun w2 hw2 => ?_⟩
    have : w2 = w := by
      rw [Option.mem_def, hw] at hw2
      exact (Option.some.inj hw2).symm
    subst this
    exact ih w2 hrun (hu.2 w2 hw)

/-- Without a collecting save the dirty flag stays set. -/
theorem run_kept (post : List Op) (v t : Storage) (hT : Tidy v) (hb : Bounded v)
    (hu : uncollected v post) (h : v.run post = some t) (hd : v.m_persistent_dirty = true) :
    t.m_persistent_dirty = true := by
  induction post generalizing v with
  | nil =>
    cases h
    exact hd
  | cons op post ih =>
    simp only [run, Option.bind_eq_some] at h
    obtain ⟨w, hw, hrun⟩ := h
    exact ih w (step_tidy v w op hT hw) (step_bounded v w op hT hb hw) (hu.2 w hw) hrun
      ((step_sound v w op hT hb hu.1 hw).1 hd)

/-- The dirty flag at the end of a run was set at the start and never
collected, or a call after which no save collected the entries changed a
PERSISTENT entry. -/
theorem run_raised (ops : List Op) (s t : Storage) (hT : Tidy s) (hb : Bounded s)
    (h : s.run ops = some t) (hd : t.m_persistent_dirty = true) :
    (s.m_persistent_dirty = true ∧ uncollected s ops) ∨
    ∃ pre op post u v, ops = pre ++ op :: post ∧ s.run pre = some u ∧ u.step op = some v ∧
      v.run post = some t ∧ touches u v ∧ uncollected v post := by
  induction ops using List.reverseRecOn generalizing t with
  | nil =>
    cases h
    exact Or.inl ⟨hd, trivial⟩
  | append_singleton init op ih =>
    obtain ⟨u, hu, hstep⟩ := run_snoc s init op t h
    have hTu := run_tidy init s u hT hu
    have hbu := run_bounded init s u hT hb hu
    cases hc : u.collects op with
    | true =>
      rw [step_collects u t op hc hstep] at hd
      cases hd
    | false =>
      rcases touches_of_raised (step_sound u t op hTu hbu hc hstep).2 hd with h1 | h1
      · rcases ih u hu h1 with ⟨h2, h3⟩ | ⟨pre, op2, post, u2, v2, he, hp, hs, hr, ht, hun⟩
        · exact Or.inl ⟨h2, uncollected_snoc init s u op hu h3 hc⟩
        · refine Or.inr ⟨pre, op2, post ++ [op], u2, v2, ?_, hp, hs, ?_, ht, ?_⟩
          · rw [he]
            simp
          · rw [run_append, hr, Option.some_bind]
            simp only [run, hstep, Option.some_bind]
          · exact uncollected_snoc post v2 u op hr hun hc
      · exact Or.inr ⟨init, op, [], u, t, rfl, hu, hstep, rfl, h1, trivial⟩

/-! ### The sequence numbers after remote changes -/

theorem assigned_seq (conn : INetworkConnection) (m : Message) (e : Entry) :
    (assigned conn m e).seq_num =
      if (e.value.isSome && e.local_write && !e.IsPersistent) = true
        then SequenceNumber.inc ⟨m.seq_num_uid⟩ else ⟨m.seq_num_uid⟩ := by
  unfold assigned
  cases hv : e.value with
  | none => rfl
  | some o =>
    simp only [Option.isSome_some, Bool.true_and]
    split <;> rfl

/-- One turn of the loop "apply assignments" starts with the lookup of the
name: it does the same on the table in which the name has been looked up. -/
theorem ApplyAssignStep_looked (conn : INetworkConnection) (acc : Storage × List Message)
    (m : Message) (ha : m.assigns) :
    ApplyAssignStep conn ((acc.1.GetOrNew m.str).1, acc.2) m = ApplyAssignStep conn acc m := by
  unfold ApplyAssignStep
  simp only [ha.1, ha.2, ne_eq, not_true_eq_false, if_false, GetOrNew_idem]

theorem ApplyAssignStep_find (conn : INetworkConnection) (acc : Storage × List Message)
    (m : Message) (ha : m.assigns) :
    (ApplyAssignStep conn acc m).1.find m.str = some (acc.1.GetOrNew m.str).2 := by
  have hg := ApplyAssignStep_good conn ((acc.1.GetOrNew m.str).1, acc.2) m
  rw [ApplyAssignStep_looked conn acc m ha] at hg
  exact hg.1.lookup (GetOrNew_find acc.1 m.str)

/-- The sequence number that ApplyInitialAssignments leaves for the last
assignment of the call with its name: the one that its turn of the loop
"apply assignments" sets. -/
theorem ApplyInitialAssignments_last_seq (s : Storage) (conn : INetworkConnection)
    (pre post : List Message) (m : Message)
    (hs : s.m_server = false) (hT : Tidy s) (ha : m.assigns)
    (hpost : ∀ x ∈ post, x.assigns → x.str ≠ m.str)
    (t : Storage) (out : List Message)
    (hres : s.ApplyInitialAssignments conn (pre ++ m :: post) = some (t, out)) :
    (t.deref ((s.applied conn pre).1.GetOrNew m.str).2).seq_num =
      (assigned conn m (((s.applied conn pre).1.GetOrNew m.str).1.deref
        ((s.applied conn pre).1.GetOrNew m.str).2)).seq_num := by
  obtain ⟨_, hderef, _, _, _⟩ := ApplyInitialAssignments_result s conn _ hs t out hres
  have hwf0 : WF s.clearIds := (clearIds_sameTable s).good.2 hT.wf
  have hwf1 : WF (s.applied conn pre).1 :=
    (foldl_good _ (ApplyAssignStep_good conn) pre (s.clearIds, [])).2 hwf0
  have happ : s.applied conn (pre ++ m :: post) =
      post.foldl (ApplyAssignStep conn) (ApplyAssignStep conn (s.applied conn pre) m) := by
    unfold applied
    rw [List.foldl_append, List.foldl_cons]
  generalize s.applied conn pre = acc at hwf1 happ ⊢
  have hp := GetOrNew_ptr_lt acc.1 hwf1 m.str
  have h2 := (ApplyAssignStep_deref_self conn acc m ha hp).1
  have hwf2 := (ApplyAssignStep_good conn acc m).2 hwf1
  have hf2 := ApplyAssignStep_find conn acc m ha
  have he3 := assign_fold_untouched conn post m.str _ hpost _ hwf2 hf2
  rw [hderef]
  unfold reconciled
  rw [DeleteAllEntriesImplF_deref, happ, he3, h2]
  split <;> rfl

/-- The sequence number of the entry after the common handling of an
EntryAssign, whenever it returns. -/
theorem EntryAssignCommon_seqs (s : Storage) (msg : Message) (conn : INetworkConnection)
    (p : Nat) (b : Bool) (hp : p < s.m_localmap.length) :
    OptAll (fun t => (t.deref p).seq_num =
      if SequenceNumber.lt ⟨msg.seq_num_uid⟩ (s.deref p).seq_num = true ∨
          msg.str ≠ (s.deref p).name then (s.deref p).seq_num
      else ⟨msg.seq_num_uid⟩) (s.EntryAssignCommon msg conn p b) := by
  unfold EntryAssignCommon
  by_cases hlt : SequenceNumber.lt ⟨msg.seq_num_uid⟩ (s.deref p).seq_num = true
  · simp [hlt]
  · by_cases hn : msg.str = (s.deref p).name
    · simp [hlt, hn, deref_store, hp, apply_ite Entry.seq_num]
    · simp [hlt, hn]

/-- The common handling of an EntryAssign returns when the entry and the
message have values and, for a message that may need an update, a dispatcher
is attached. -/
theorem EntryAssignCommon_returns (s : Storage) (msg : Message) (conn : INetworkConnection)
    (p : Nat) (b : Bool) (hp : p < s.m_localmap.length)
    (hval : (s.deref p).value.isSome = true) (hv : msg.value.isSome = true)
    (hd : b = true → s.m_dispatcher = true) :
    ∃ t, s.EntryAssignCommon msg conn p b = some t := by
  cases b with
  | false =>
    obtain ⟨t, h, _⟩ := EntryAssignCommon_seq s msg conn p hp hv hval
    exact ⟨t, h⟩
  | true =>
    have hd1 := hd rfl
    have hv2 : msg.value.isNone = false := by
      cases h : msg.value with
      | none => rw [h] at hv; cases hv
      | some w => rfl
    have hval2 : (s.deref p).value.isNone = false := by
      cases h : (s.deref p).value with
      | none => rw [h] at hval; cases hval
      | some w => rfl
    unfold EntryAssignCommon
    by_cases hlt : SequenceNumber.lt ⟨msg.seq_num_uid⟩ (s.deref p).seq_num = true
    · simp [hlt, hd1]
    · by_cases hn : msg.str ≠ (s.deref p).name
      · simp [hlt, hn]
      · have hn2 : msg.str = (s.deref p).name := by simpa using hn
        cases hsrv : s.m_server <;> simp [hlt, hn2, hv2, hval2, deref_store, hp, hsrv, hd1]

/-- A write that is not local leaves the sequence number alone. -/
theorem SetEntryValueImpl_remote_seq (s : Storage) (p : Nat) (v : Option Value) :
    ((s.SetEntryValueImpl p v false).deref p).seq_num = (s.deref p).seq_num := by
  unfold SetEntryValueImpl
  cases v with
  | none => rfl
  | some v =>
    by_cases hp : p < s.m_localmap.length <;> cases hold : (s.deref p).value <;>
      simp [deref_store, hp, hold, apply_ite Entry.seq_num]

/-- An EntryUpdate leaves the entries that its id does not refer to as they
were. -/
theorem ProcessIncomingEntryUpdate_others (s : Storage) (msg : Message)
    (conn : INetworkConnection) (q : Nat) (hq : s.idEntry msg.id ≠ some q) :
    (s.ProcessIncomingEntryUpdate msg conn).deref q = s.deref q := by
  unfold ProcessIncomingEntryUpdate
  cases hs : s.idEntry msg.id with
  | none => rfl
  | some p =>
    have hne : q ≠ p := fun e => hq (by rw [hs, e])
    simp [deref_store, hne]

/-- The lookup of a name does not read the id map. -/
theorem GetOrNew_set_idmap (s : Storage) (m : List (Option Nat)) (n : Bytes) :
    (s.set_idmap m).GetOrNew n = ((s.GetOrNew n).1.set_idmap m, (s.GetOrNew n).2) := by
  unfold GetOrNew
  rw [set_idmap_find]
  cases s.find n <;> rfl

theorem ApplyInitialAssignments_last_find (s : Storage) (conn : INetworkConnection)
    (pre post : List Message) (m : Message)
    (hs : s.m_server = false) (ha : m.assigns)
    (t : Storage) (out : List Message)
    (hres : s.ApplyInitialAssignments conn (pre ++ m :: post) = some (t, out)) :
    t.find m.str = some ((s.applied conn pre).1.GetOrNew m.str).2 := by
  obtain ⟨_, _, hent, _, _⟩ := ApplyInitialAssignments_result s conn _ hs t out hres
  have happ : s.applied conn (pre ++ m :: post) =
      post.foldl (ApplyAssignStep conn) (ApplyAssignStep conn (s.applied conn pre) m) := by
    unfold applied
    rw [List.foldl_append, List.foldl_cons]
  have hf2 := ApplyAssignStep_find conn (s.applied conn pre) m ha
  have hg := foldl_good _ (ApplyAssignStep_good conn) post
    (ApplyAssignStep conn (s.applied conn pre) m)
  have hf3 := hg.1.lookup hf2
  rw [← happ] at hf3
  have hst := DeleteAllEntriesImplF_sameTable (s.applied conn (pre ++ m :: post)).1 false
    unassignedShouldDelete
  unfold Storage.find at hf3 ⊢
  rw [hent]
  unfold reconciled
  rw [hst.1]
  exact hf3

theorem set_idmap_same (s : Storage) : s.set_idmap s.m_idmap = s := by
  cases s
  rfl

/-- The sequence number after an EntryAssign on a client whose id is in no
slot of the id map. -/
theorem ProcessIncomingEntryAssign_client_seq (s : Storage) (msg : Message)
    (conn : INetworkConnection) (hid : msg.id ≠ 0xffff) (hs : s.m_server = false)
    (hslot : s.idEntry msg.id = none) (hwf : WF s) :
    ((((s.GetOrNew msg.str).1.deref (s.GetOrNew msg.str).2).value = none ∨
        (s.m_dispatcher = true ∧ msg.value.isSome = true)) →
      ∃ t, s.ProcessIncomingEntryAssign msg conn = some t) ∧
    ∀ t, s.ProcessIncomingEntryAssign msg conn = some t →
      (t.deref (s.GetOrNew msg.str).2).seq_num =
        if ((s.GetOrNew msg.str).1.deref (s.GetOrNew msg.str).2).value.isSome = true ∧
            SequenceNumber.lt ⟨msg.seq_num_uid⟩
              ((s.GetOrNew msg.str).1.deref (s.GetOrNew msg.str).2).seq_num = true
          then ((s.GetOrNew msg.str).1.deref (s.GetOrNew msg.str).2).seq_num
          else ⟨msg.seq_num_uid⟩ := by
  unfold ProcessIncomingEntryAssign
  simp only [hs, Bool.false_eq_true, if_false, hid]
  have h1 : (if msg.id ≥ s.m_idmap.length then s.growIdmap (msg.id + 1) else s).idEntry msg.id
      = none := (idEntry_grow s msg.id).trans hslot
  have h0 : ∃ m, (if msg.id ≥ s.m_idmap.length then s.growIdmap (msg.id + 1) else s)
      = s.set_idmap m := by
    split
    · exact ⟨_, rfl⟩
    · exact ⟨_, (set_idmap_same s).symm⟩
  obtain ⟨m, hm⟩ := h0
  rw [hm] at h1 ⊢
  rw [h1]
  simp only [GetOrNew_set_idmap]
  have hp := GetOrNew_ptr_lt s hwf msg.str
  have hname := GetOrNew_name s hwf msg.str
  have hdis := GetOrNew_m_dispatcher s msg.str
  generalize s.GetOrNew msg.str = r at hp hname hdis
  have hp1 : r.2 < (r.1.set_idmap m).m_localmap.length := hp
  simp only [set_idmap_deref, deref_store_self _ _ _ hp1]
  cases hval : (r.1.deref r.2).value with
  | none =>
    refine ⟨fun _ => ⟨_, rfl⟩, fun t h => ?_⟩
    rw [← Option.some.inj h]
    simp [deref_store, hp]
  | some o =>
    generalize hu : ((r.1.set_idmap m).store r.2 _).set_idmap _ = u
    have hu1 : (u.deref r.2).seq_num = (r.1.deref r.2).seq_num ∧
        (u.deref r.2).name = (r.1.deref r.2).name ∧ (u.deref r.2).value = some o ∧
        (u.deref r.2).flags = (r.1.deref r.2).flags := by
      rw [← hu]
      simp [deref_store, hp]
    have hu2 : r.2 < u.m_localmap.length := by
      rw [← hu]
      simpa using hp
    have hu3 : u.m_dispatcher = s.m_dispatcher := by
      rw [← hu]
      simpa using hdis
    have hA : ∀ v : Storage, v.deref r.2 = u.deref r.2 →
        v.m_localmap.length = u.m_localmap.length → v.m_dispatcher = u.m_dispatcher →
        ((s.m_dispatcher = true ∧ msg.value.isSome = true) →
          ∃ t, v.EntryAssignCommon msg conn r.2 true = some t) ∧
        ∀ t, v.EntryAssignCommon msg conn r.2 true = some t →
          (t.deref r.2).seq_num =
            if SequenceNumber.lt ⟨msg.seq_num_uid⟩ (r.1.deref r.2).seq_num = true
              then (r.1.deref r.2).seq_num else ⟨msg.seq_num_uid⟩ := by
      intro v hv1 hv2 hv3
      have hpv : r.2 < v.m_localmap.length := by rw [hv2]; exact hu2
      refine ⟨fun hc => EntryAssignCommon_returns v msg conn r.2 true hpv
        (by rw [hv1, hu1.2.2.1]; rfl) hc.2 (fun _ => by rw [hv3, hu3]; exact hc.1),
        fun t h => ?_⟩
      have h2 := EntryAssignCommon_seqs v msg conn r.2 true hpv t h
      rw [hv1, hu1.1, hu1.2.1] at h2
      simpa [hname] using h2
    simp only [Option.isSome_some, true_and, false_or, reduceCtorEq]
    by_cases hfl : msg.flags ≠ (r.1.deref r.2).flags
    · rw [if_pos hfl]
      cases hd : s.m_dispatcher with
      | false =>
        rw [hd] at hu3
        simp [hu3]
      | true =>
        rw [hd] at hu3
        simp only [hu3, Bool.not_true, Bool.false_eq_true, if_false]
        have := hA (u.QueueOutgoing (Message.FlagsUpdate msg.id (r.1.deref r.2).flags) none none)
          (by simp) (by simp) (by simp)
        rw [hd] at this
        exact ⟨fun hc => this.1 ⟨rfl, hc.2⟩, this.2⟩
    · rw [if_neg hfl]
      exact hA u rfl rfl rfl


end Storage

/-! ## The claims -/

namespace Storage

/-- C1 (type invariance under SetEntryValue). When the entry addressed by a
non-empty name, or by a local id, holds a value `o`, SetEntryValue with a
value `v` of another type returns false and the state after the call is the
state before it: the entry (value, flags, id, seq_num, local_write), id_map
and persistent_dirty are unchanged, and the records of queued messages and
of notifications have not grown. -/
theorem C1_type_mismatch_rejected (s : Storage) (name : Bytes) (local_id : Nat) (o v : Value)
    (ht : o.type ≠ v.type) :
    (name ≠ [] → s.GetEntryValue name = some o →
      s.SetEntryValue name (some v) = (s, false)) ∧
    (s.GetEntryValueId local_id = some o →
      s.SetEntryValueId local_id (some v) = (s, false)) := by
  constructor
  · intro hn h
    obtain ⟨p, hf, hv⟩ := GetEntryValue_eq_some h
    unfold SetEntryValue
    rw [isEmpty_eq_false hn, GetOrNew_of_find hf]
    simp [hv, ht]
  · intro h
    obtain ⟨hlt, hv⟩ := GetEntryValueId_eq_some h
    unfold SetEntryValueId
    simp [hv, ht, hlt]

/-- Witness of C1: the table with foo = true rejects a double. -/
theorem C1_type_mismatch_rejected_witness :
    exTrue.type ≠ exDouble.type ∧ exFoo ≠ [] ∧
      exServerFoo.GetEntryValue exFoo = some exTrue ∧
      exServerFoo.GetEntryValueId 0 = some exTrue ∧
      exServerFoo.SetEntryValue exFoo (some exDouble) = (exServerFoo, false) ∧
      exServerFoo.SetEntryValueId 0 (some exDouble) = (exServerFoo, false) :=
  ⟨by decide, by decide, by decide, by decide,
    (C1_type_mismatch_rejected exServerFoo exFoo 0 exTrue exDouble (by decide)).1
      (by decide) (by decide),
    (C1_type_mismatch_rejected exServerFoo exFoo 0 exTrue exDouble (by decide)).2
      (by decide)⟩

/-- C2 (last written value of matching type). After any finite sequence of
SetEntryValue calls with non-null values on a non-empty name, started in
any well-formed state (either role, dispatcher attached or not),
GetEntryValue(name) is the value passed to the last call that returned
true, and is the value before the sequence when no call returned true;
this is the last written value whose type matches the type the entry
already had. -/
theorem C2_last_accepted_value (s : Storage) (hwf : s.WF) (name : Bytes) (hn : name ≠ [])
    (vs : List Value) :
    (s.setEntryValues name vs).1.GetEntryValue name =
      (match lastAccepted vs (s.setEntryValues name vs).2 with
        | some w => some w
        | none => s.GetEntryValue name) ∧
    (s.setEntryValues name vs).1.GetEntryValue name =
      lastMatching (s.GetEntryValue name) vs := by
  induction vs generalizing s with
  | nil => exact ⟨rfl, rfl⟩
  | cons v vs ih =>
    obtain ⟨hw, hb, hg⟩ := SetEntryValue_spec s hwf name hn v
    obtain ⟨ih1, ih2⟩ := ih (s.SetEntryValue name (some v)).1 hw
    simp only [setEntryValues, lastAccepted, lastMatching]
    refine ⟨?_, ?_⟩
    · rw [ih1]
      cases hl : lastAccepted vs
          (setEntryValues (s.SetEntryValue name (some v)).1 name vs).2 with
      | some w => rfl
      | none =>
        simp only
        rw [hg, hb]
        cases hc : s.GetEntryValue name with
        | none => simp
        | some o =>
          by_cases ht : o.type = v.type <;> simp [ht]
    · rw [ih2, hg]

/-- Witness of C2: on the empty client table the writes true, 0.0, false
to "foo" return true, false, true and leave foo = false. -/
theorem C2_last_accepted_value_witness :
    exFoo ≠ [] ∧
      (exClient.setEntryValues exFoo [exTrue, exDouble, exFalse]).2 = [true, false, true] ∧
      (exClient.setEntryValues exFoo [exTrue, exDouble, exFalse]).1.GetEntryValue exFoo =
        some exFalse :=
  ⟨by decide, by decide,
    (C2_last_accepted_value exClient (WF_of_run [.SetDispatcher false] exClient rfl) exFoo
      (by decide) [exTrue, exDouble, exFalse]).2⟩

theorem GetEntry_stable (s : Storage) (hwf : s.WF) (x : Bytes) (hx : x ≠ [])
    (ops : List Op) (t : Storage) (hrun : (s.GetEntry x).1.run ops = some t) :
    (t.GetEntry x).2 = (s.GetEntry x).2 ∧
      ∀ y : Bytes, y ≠ [] → (t.GetEntry y).2 = (s.GetEntry x).2 → y = x := by
  obtain ⟨hw0, hf0, _⟩ := GetEntry_spec s hwf x hx
  have hg := run_good _ _ ops hrun
  have hwt : t.WF := hg.2 hw0
  have hft : t.find x = some (s.GetEntry x).2 := hg.1.lookup hf0
  refine ⟨by rw [GetEntry_of_find t hwt x hx _ hft], ?_⟩
  intro y hy hh
  cases hfy : t.find y with
  | some q =>
    rw [GetEntry_of_find t hwt y hy q hfy] at hh
    simp only at hh
    rw [← hh] at hft
    rw [← hwt.name hfy, ← hwt.name hft]
  | none =>
    rw [GetEntry_new t hwt y hy hfy] at hh
    have := hwt.lt hft
    omega

/-- C3 (handle stability). Let `h` be the handle that GetEntry(x) returns for
a non-empty name `x` in a well-formed state (every state reachable from the
empty table is well formed, `WF_of_run`). After any sequence of storage
operations that return (writes, flag changes, DeleteEntry, DeleteAllEntries,
incoming messages, initial assignments, RPC calls, saves, dispatcher
changes) GetEntry(x) returns `h` again, and no other non-empty name is
given `h`; in particular `h = GetEntry(x); DeleteEntry(x); h' = GetEntry(x)`
gives `h = h'`. -/
theorem C3_handle_stability (s : Storage) (hwf : s.WF) (x : Bytes) (hx : x ≠ [])
    (ops : List Op) (t : Storage) (hrun : (s.GetEntry x).1.run ops = some t) :
    (t.GetEntry x).2 = (s.GetEntry x).2 ∧
    (∀ y : Bytes, y ≠ [] → (t.GetEntry y).2 = (s.GetEntry x).2 → y = x) ∧
    (((s.GetEntry x).1.DeleteEntry x).GetEntry x).2 = (s.GetEntry x).2 :=
  ⟨(GetEntry_stable s hwf x hx ops t hrun).1, (GetEntry_stable s hwf x hx ops t hrun).2,
    (GetEntry_stable s hwf x hx [.DeleteEntry x] _ rfl).1⟩

/-- Witness of C3: the calls of the test DeleteCheckHandle on the empty
server table. -/
theorem C3_handle_stability_witness :
    exFoo ≠ [] ∧ (exServer.GetEntry exFoo).1.run exOps = some exDeleted ∧
      (exDeleted.GetEntry exFoo).2 = (exServer.GetEntry exFoo).2 :=
  ⟨by decide, by decide,
    (C3_handle_stability exServer (WF_of_run [.SetDispatcher true] exServer rfl) exFoo
      (by decide) exOps exDeleted (by decide)).1⟩

/-- C4 (first assignment). With a dispatcher attached, let the entry `p` of
the state `s` have no value and no assigned id (an entry without a value has
none in every state reached from the empty table, `run_vacant`). The local
write of `v` stores `v`, increments seq_num by one (16 bits, wrapping),
sends one NEW|LOCAL notification and queues exactly one message
EntryAssign(name, id, new seq, v, flags) to all connections; on a server
id is the length of id_map before the call and the entry is appended to
id_map at that index, on a client id is 0xFFFF and id_map is unchanged.
SetEntryValue, SetEntryTypeValue and SetDefaultEntryValue, by local id or by
a non-empty name (whose entry GetOrNew looks up or creates), all perform
this write. -/
theorem C4_local_write_new_value (s : Storage) (p : Nat) (v : Value)
    (hd : s.m_dispatcher = true) (hp : p < s.m_localmap.length)
    (hv : (s.deref p).value = none) (hid : (s.deref p).id = 0xffff) :
    -- the state after the write, relative to the state `s` in which the entry exists
    ((s.SetEntryValueImpl p (some v) true).deref p).value = some v ∧
    ((s.SetEntryValueImpl p (some v) true).deref p).seq_num = (s.deref p).seq_num.inc ∧
    (s.SetEntryValueImpl p (some v) true).notified = s.notified ++
      [⟨(s.deref p).local_id, (s.deref p).name, some v, NT_NOTIFY_NEW ||| NT_NOTIFY_LOCAL⟩] ∧
    (s.SetEntryValueImpl p (some v) true).queued = s.queued ++
      [⟨Message.EntryAssign (s.deref p).name
          ((s.SetEntryValueImpl p (some v) true).deref p).id
          (s.deref p).seq_num.inc.value (some v) (s.deref p).flags, none, none⟩] ∧
    (s.m_server = true →
      ((s.SetEntryValueImpl p (some v) true).deref p).id = s.m_idmap.length ∧
      (s.SetEntryValueImpl p (some v) true).m_idmap = s.m_idmap ++ [some p]) ∧
    (s.m_server = false →
      ((s.SetEntryValueImpl p (some v) true).deref p).id = 0xffff ∧
      (s.SetEntryValueImpl p (some v) true).m_idmap = s.m_idmap) ∧
    -- the three local writes by local id are this write
    s.SetEntryValueId p (some v) = (s.SetEntryValueImpl p (some v) true, true) ∧
    s.SetEntryTypeValueId p (some v) = s.SetEntryValueImpl p (some v) true ∧
    s.SetDefaultEntryValueId p (some v) = (s.SetEntryValueImpl p (some v) true, true) ∧
    -- the three local writes by name are this write, after the entry of the name
    -- has been looked up or created
    (∀ (s0 : Storage) (name : Bytes), name ≠ [] → s0.GetOrNew name = (s, p) →
      s0.SetEntryValue name (some v) = (s.SetEntryValueImpl p (some v) true, true) ∧
      s0.SetEntryTypeValue name (some v) = s.SetEntryValueImpl p (some v) true ∧
      s0.SetDefaultEntryValue name (some v) = (s.SetEntryValueImpl p (some v) true, true)) := by
  refine ⟨?_, ?_, ?_, ?_, ?_, ?_, ?_, ?_, ?_, ?_⟩
  · exact SetEntryValueImpl_value s p v true hp
  · unfold SetEntryValueImpl
    cases hsrv : s.m_server <;> simp [hd, hp, hv, hid, hsrv, deref_store]
  · unfold SetEntryValueImpl
    cases hsrv : s.m_server <;> simp [hd, hp, hv, hid, hsrv, deref_store]
  · unfold SetEntryValueImpl
    cases hsrv : s.m_server <;> simp [hd, hp, hv, hid, hsrv, deref_store]
  · intro hsrv
    unfold SetEntryValueImpl
    simp [hd, hp, hv, hid, hsrv, deref_store]
  · intro hsrv
    unfold SetEntryValueImpl
    simp [hd, hp, hv, hid, hsrv, deref_store]
  · unfold SetEntryValueId
    simp [hv, hp]
  · unfold SetEntryTypeValueId
    simp [hp]
  · unfold SetDefaultEntryValueId
    simp [hv, hp]
  · intro s0 name hn hg
    unfold SetEntryValue SetEntryTypeValue SetDefaultEntryValue
    rw [isEmpty_eq_false hn, hg]
    simp [hv]

/-- Witness of C4: from the empty table the write foo = true queues
EntryAssign("foo", 0, 1, true, 0) on a server and
EntryAssign("foo", 0xFFFF, 1, true, 0) on a client. -/
theorem C4_local_write_new_value_witness :
    (exServerNew.m_dispatcher = true ∧ 0 < exServerNew.m_localmap.length ∧
      (exServerNew.deref 0).value = none ∧ (exServerNew.deref 0).id = 0xffff ∧
      exServer.GetOrNew exFoo = (exServerNew, 0) ∧
      (exServerNew.SetEntryValueImpl 0 (some exTrue) true).queued =
        [⟨Message.EntryAssign exFoo 0 1 (some exTrue) 0, none, none⟩] ∧
      exServer.SetEntryTypeValue exFoo (some exTrue) =
        exServerNew.SetEntryValueImpl 0 (some exTrue) true) ∧
    (exClientNew.m_dispatcher = true ∧ 0 < exClientNew.m_localmap.length ∧
      (exClientNew.deref 0).value = none ∧ (exClientNew.deref 0).id = 0xffff ∧
      (exClientNew.SetEntryValueImpl 0 (some exTrue) true).queued =
        [⟨Message.EntryAssign exFoo 0xffff 1 (some exTrue) 0, none, none⟩] ∧
      (exClientNew.SetEntryValueImpl 0 (some exTrue) true).m_idmap = []) :=
  ⟨⟨by decide, by decide, by decide, by decide, by decide,
      (C4_local_write_new_value exServerNew 0 exTrue (by decide) (by decide) (by decide)
        (by decide)).2.2.2.1,
      ((C4_local_write_new_value exServerNew 0 exTrue (by decide) (by decide) (by decide)
        (by decide)).2.2.2.2.2.2.2.2.2 exServer exFoo (by decide) (by decide)).2.1⟩,
    ⟨by decide, by decide, by decide, by decide,
      (C4_local_write_new_value exClientNew 0 exTrue (by decide) (by decide) (by decide)
        (by decide)).2.2.2.1,
      ((C4_local_write_new_value exClientNew 0 exTrue (by decide) (by decide) (by decide)
        (by decide)).2.2.2.2.2.1 (by decide)).2⟩⟩

/-- C5 (type change). With a dispatcher attached, let the entry `p` hold a
value `o`. SetEntryTypeValue (by local id or by name) of a value `v` of
another type stores `v`, increments seq_num by one, sends one UPDATE|LOCAL
notification and queues one EntryAssign(name, id, new seq, v, flags), not an
EntryUpdate, carrying the entry's id, which is the id it already had (a
server first gives an id to an entry that has none), in both roles. -/
theorem C5_type_change_emits_assign (s : Storage) (p : Nat) (o v : Value)
    (hd : s.m_dispatcher = true) (hp : p < s.m_localmap.length)
    (hv : (s.deref p).value = some o) (ht : o.type ≠ v.type) :
    ((s.SetEntryValueImpl p (some v) true).deref p).value = some v ∧
    ((s.SetEntryValueImpl p (some v) true).deref p).seq_num = (s.deref p).seq_num.inc ∧
    (s.SetEntryValueImpl p (some v) true).notified = s.notified ++
      [⟨(s.deref p).local_id, (s.deref p).name, some v,
        NT_NOTIFY_UPDATE ||| NT_NOTIFY_LOCAL⟩] ∧
    (s.SetEntryValueImpl p (some v) true).queued = s.queued ++
      [⟨Message.EntryAssign (s.deref p).name
          ((s.SetEntryValueImpl p (some v) true).deref p).id
          (s.deref p).seq_num.inc.value (some v) (s.deref p).flags, none, none⟩] ∧
    (¬(s.m_server = true ∧ (s.deref p).id = 0xffff) →
      ((s.SetEntryValueImpl p (some v) true).deref p).id = (s.deref p).id) ∧
    s.SetEntryTypeValueId p (some v) = s.SetEntryValueImpl p (some v) true ∧
    (∀ name : Bytes, name ≠ [] → s.find name = some p →
      s.SetEntryTypeValue name (some v) = s.SetEntryValueImpl p (some v) true) := by
  have hne := Value.ne_of_type_ne ht
  refine ⟨?_, ?_, ?_, ?_, ?_, ?_, ?_⟩
  · exact SetEntryValueImpl_value s p v true hp
  · unfold SetEntryValueImpl
    by_cases hc : s.m_server = true ∧ (s.deref p).id = 0xffff <;>
      simp [hd, hp, hv, ht, hne, hc, deref_store]
  · unfold SetEntryValueImpl
    by_cases hc : s.m_server = true ∧ (s.deref p).id = 0xffff <;>
      simp [hd, hp, hv, ht, hne, hc, deref_store]
  · unfold SetEntryValueImpl
    by_cases hc : s.m_server = true ∧ (s.deref p).id = 0xffff <;>
      simp [hd, hp, hv, ht, hne, hc, deref_store]
  · intro hc
    unfold SetEntryValueImpl
    simp [hd, hp, hv, ht, hne, hc, deref_store]
  · unfold SetEntryTypeValueId
    simp [hp]
  · intro name hn hf
    unfold SetEntryTypeValue
    rw [isEmpty_eq_false hn, GetOrNew_of_find hf]
    simp

/-- Witness of C5: on the server table with foo = true the write
foo = 0.0 queues EntryAssign("foo", 0, 2, 0.0, 0). -/
theorem C5_type_change_emits_assign_witness :
    exServerFoo.m_dispatcher = true ∧ 0 < exServerFoo.m_localmap.length ∧
      (exServerFoo.deref 0).value = some exTrue ∧ exTrue.type ≠ exDouble.type ∧
      (exServerFoo.SetEntryValueImpl 0 (some exDouble) true).queued = exServerFoo.queued ++
        [⟨Message.EntryAssign exFoo 0 2 (some exDouble) 0, none, none⟩] :=
  ⟨by decide, by decide, by decide, by decide,
    (C5_type_change_emits_assign exServerFoo 0 exTrue exDouble (by decide) (by decide)
      (by decide) (by decide)).2.2.2.1⟩

/-- C6 (value update). With a dispatcher attached, let the entry `p` hold a
value `o`. A local write (SetEntryValue or SetEntryTypeValue, by local id or
by name) of a value `v` of the same type that is not equal to `o` stores
`v`, increments seq_num by one and sends one UPDATE|LOCAL notification; it
queues exactly EntryUpdate(id, new seq, v) when the entry's id is assigned
and nothing when the id is still 0xFFFF, seq_num being incremented all the
same; on a client the write does not change the id. -/
theorem C6_same_type_update (s : Storage) (p : Nat) (o v : Value)
    (hd : s.m_dispatcher = true) (hp : p < s.m_localmap.length)
    (hv : (s.deref p).value = some o) (ht : o.type = v.type) (hne : Value.ne o v = true) :
    ((s.SetEntryValueImpl p (some v) true).deref p).value = some v ∧
    ((s.SetEntryValueImpl p (some v) true).deref p).seq_num = (s.deref p).seq_num.inc ∧
    (s.SetEntryValueImpl p (some v) true).notified = s.notified ++
      [⟨(s.deref p).local_id, (s.deref p).name, some v,
        NT_NOTIFY_UPDATE ||| NT_NOTIFY_LOCAL⟩] ∧
    (((s.SetEntryValueImpl p (some v) true).deref p).id ≠ 0xffff →
      (s.SetEntryValueImpl p (some v) true).queued = s.queued ++
        [⟨Message.EntryUpdate ((s.SetEntryValueImpl p (some v) true).deref p).id
            (s.deref p).seq_num.inc.value (some v), none, none⟩]) ∧
    (((s.SetEntryValueImpl p (some v) true).deref p).id = 0xffff →
      (s.SetEntryValueImpl p (some v) true).queued = s.queued) ∧
    (s.m_server = false →
      ((s.SetEntryValueImpl p (some v) true).deref p).id = (s.deref p).id) ∧
    s.SetEntryValueId p (some v) = (s.SetEntryValueImpl p (some v) true, true) ∧
    s.SetEntryTypeValueId p (some v) = s.SetEntryValueImpl p (some v) true ∧
    (∀ name : Bytes, name ≠ [] → s.find name = some p →
      s.SetEntryValue name (some v) = (s.SetEntryValueImpl p (some v) true, true) ∧
      s.SetEntryTypeValue name (some v) = s.SetEntryValueImpl p (some v) true) := by
  refine ⟨?_, ?_, ?_, ?_, ?_, ?_, ?_, ?_, ?_⟩
  · exact SetEntryValueImpl_value s p v true hp
  · unfold SetEntryValueImpl
    by_cases hc : s.m_server = true ∧ (s.deref p).id = 0xffff <;>
      simp [hd, hp, hv, ht, hne, hc, deref_store]
  · unfold SetEntryValueImpl
    by_cases hc : s.m_server = true ∧ (s.deref p).id = 0xffff <;>
      simp [hd, hp, hv, ht, hne, hc, deref_store]
  · unfold SetEntryValueImpl
    by_cases hc : s.m_server = true ∧ (s.deref p).id = 0xffff <;>
      simp [hd, hp, hv, ht, hne, hc, deref_store]
  · unfold SetEntryValueImpl
    by_cases hc : s.m_server = true ∧ (s.deref p).id = 0xffff <;>
      simp [hd, hp, hv, ht, hne, hc, deref_store]
  · intro hsrv
    unfold SetEntryValueImpl
    simp [hd, hp, hv, ht, hne, hsrv, deref_store]
  · unfold SetEntryValueId
    simp [hv, hp, ht]
  · unfold SetEntryTypeValueId
    simp [hp]
  · intro name hn hf
    unfold SetEntryValue SetEntryTypeValue
    rw [isEmpty_eq_false hn, GetOrNew_of_find hf]
    simp [hv, ht]

/-- Witness of C6: the write foo = false over foo = true queues
EntryUpdate(0, 2, false) on the server and nothing on the client, whose
entry has no id yet and gets seq_num 2. -/
theorem C6_same_type_update_witness :
    (exServerFoo.m_dispatcher = true ∧ 0 < exServerFoo.m_localmap.length ∧
      (exServerFoo.deref 0).value = some exTrue ∧ exTrue.type = exFalse.type ∧
      Value.ne exTrue exFalse = true ∧
      ((exServerFoo.SetEntryValueImpl 0 (some exFalse) true).deref 0).id ≠ 0xffff ∧
      (exServerFoo.SetEntryValueImpl 0 (some exFalse) true).queued = exServerFoo.queued ++
        [⟨Message.EntryUpdate 0 2 (some exFalse), none, none⟩]) ∧
    (exClientFoo.m_dispatcher = true ∧ 0 < exClientFoo.m_localmap.length ∧
      (exClientFoo.deref 0).value = some exTrue ∧
      ((exClientFoo.SetEntryValueImpl 0 (some exFalse) true).deref 0).id = 0xffff ∧
      (exClientFoo.SetEntryValueImpl 0 (some exFalse) true).queued = exClientFoo.queued ∧
      ((exClientFoo.SetEntryValueImpl 0 (some exFalse) true).deref 0).seq_num = ⟨2⟩) :=
  ⟨⟨by decide, by decide, by decide, by decide, by decide, by decide,
      (C6_same_type_update exServerFoo 0 exTrue exFalse (by decide) (by decide) (by decide)
        (by decide) (by decide)).2.2.2.1 (by decide)⟩,
    ⟨by decide, by decide, by decide, by decide,
      (C6_same_type_update exClientFoo 0 exTrue exFalse (by decide) (by decide) (by decide)
        (by decide) (by decide)).2.2.2.2.1 (by decide),
      (C6_same_type_update exClientFoo 0 exTrue exFalse (by decide) (by decide) (by decide)
        (by decide) (by decide)).2.1⟩⟩

/-- C7, as amended (equal value). Let the entry `p` hold a value `o`. A local
write (SetEntryValue or SetEntryTypeValue, by local id or by name) of a
value `v` equal to `o` is silent: no notification, no queued message, and
seq_num, flags and persistent_dirty are unchanged; the stored value object
is replaced by `v` and local_write becomes true. Unless the role is server
and the entry has no assigned id, nothing else changes: the id and id_map
are unchanged and the state is the old state with these two fields of the
entry set. -/
theorem C7_equal_value_silent (s : Storage) (p : Nat) (o v : Value)
    (hp : p < s.m_localmap.length)
    (hv : (s.deref p).value = some o) (heq : Value.eq o v = true) :
    (s.SetEntryValueImpl p (some v) true).notified = s.notified ∧
    (s.SetEntryValueImpl p (some v) true).queued = s.queued ∧
    ((s.SetEntryValueImpl p (some v) true).deref p).seq_num = (s.deref p).seq_num ∧
    ((s.SetEntryValueImpl p (some v) true).deref p).flags = (s.deref p).flags ∧
    (s.SetEntryValueImpl p (some v) true).m_persistent_dirty = s.m_persistent_dirty ∧
    ((s.SetEntryValueImpl p (some v) true).deref p).value = some v ∧
    ((s.SetEntryValueImpl p (some v) true).deref p).local_write = true ∧
    (¬(s.m_server = true ∧ (s.deref p).id = 0xffff) →
      s.SetEntryValueImpl p (some v) true =
        s.store p { s.deref p with value := some v, local_write := true }) ∧
    s.SetEntryValueId p (some v) = (s.SetEntryValueImpl p (some v) true, true) ∧
    s.SetEntryTypeValueId p (some v) = s.SetEntryValueImpl p (some v) true ∧
    (∀ name : Bytes, name ≠ [] → s.find name = some p →
      s.SetEntryValue name (some v) = (s.SetEntryValueImpl p (some v) true, true) ∧
      s.SetEntryTypeValue name (some v) = s.SetEntryValueImpl p (some v) true) := by
  have ht := Value.type_eq_of_eq heq
  have hne : Value.ne o v = false := by simp [Value.ne, heq]
  refine ⟨?_, ?_, ?_, ?_, ?_, ?_, ?_, ?_, ?_, ?_, ?_⟩
  · unfold SetEntryValueImpl
    by_cases hc : s.m_server = true ∧ (s.deref p).id = 0xffff <;>
      simp [hp, hv, ht, hne, hc, deref_store]
  · unfold SetEntryValueImpl
    by_cases hc : s.m_server = true ∧ (s.deref p).id = 0xffff <;>
      simp [hp, hv, ht, hne, hc, deref_store]
  · unfold SetEntryValueImpl
    by_cases hc : s.m_server = true ∧ (s.deref p).id = 0xffff <;>
      simp [hp, hv, ht, hne, hc, deref_store]
  · unfold SetEntryValueImpl
    by_cases hc : s.m_server = true ∧ (s.deref p).id = 0xffff <;>
      simp [hp, hv, ht, hne, hc, deref_store]
  · unfold SetEntryValueImpl
    by_cases hc : s.m_server = true ∧ (s.deref p).id = 0xffff <;>
      simp [hp, hv, ht, hne, hc, deref_store]
  · exact SetEntryValueImpl_value s p v true hp
  · unfold SetEntryValueImpl
    by_cases hc : s.m_server = true ∧ (s.deref p).id = 0xffff <;>
      simp [hp, hv, ht, hne, hc, deref_store]
  · intro hc
    unfold SetEntryValueImpl
    simp [hp, hv, ht, hne, hc, deref_store, store_store]
  · unfold SetEntryValueId
    simp [hv, hp, ht]
  · unfold SetEntryTypeValueId
    simp [hp]
  · intro name hn hf
    unfold SetEntryValue SetEntryTypeValue
    rw [isEmpty_eq_false hn, GetOrNew_of_find hf]
    simp [hv, ht]

/-- Witness of C7: the write of an equal value on the server table with
foo = true. -/
theorem C7_equal_value_silent_witness :
    0 < exServerFoo.m_localmap.length ∧ (exServerFoo.deref 0).value = some exTrue ∧
      Value.eq exTrue exTrue2 = true ∧
      (exServerFoo.SetEntryValueImpl 0 (some exTrue2) true).queued = exServerFoo.queued ∧
      ((exServerFoo.SetEntryValueImpl 0 (some exTrue2) true).deref 0).value = some exTrue2 :=
  ⟨by decide, by decide, by decide,
    (C7_equal_value_silent exServerFoo 0 exTrue exTrue2 (by decide) (by decide)
      (by decide)).2.1,
    (C7_equal_value_silent exServerFoo 0 exTrue exTrue2 (by decide) (by decide)
      (by decide)).2.2.2.2.2.1⟩

/-- Counterexample to C7 as stated: on a client the entry "foo" got its
value true from the server (local_write is false); the local write of an
equal value is silent but sets local_write, so more than the stored value
object has changed. -/
theorem C7_counterexample :
    exClient.ProcessIncoming (Message.EntryAssign exFoo 0 1 (some exTrue) 0) exConn
        (some exConn) = some exRemoteFoo ∧
      exRemoteFoo.find exFoo = some 0 ∧
      (exRemoteFoo.deref 0).value = some exTrue ∧ Value.eq exTrue exTrue2 = true ∧
      (exRemoteFoo.deref 0).local_write = false ∧
      ((exRemoteFoo.SetEntryValue exFoo (some exTrue2)).1.deref 0).local_write = true ∧
      (exRemoteFoo.SetEntryValue exFoo (some exTrue2)).1 ≠
        exRemoteFoo.store 0 { exRemoteFoo.deref 0 with value := some exTrue2 } := by
  decide

/-- C8 (SetDefaultEntryValue), by a non-empty name or by local id. If the
entry already has a value `o`, the call returns true exactly when the type
of `o` is the type of `v`, and the state is unchanged (nothing stored,
nothing emitted). If the entry has no value (or, by name, does not exist
yet), the call returns true and the state is the one that the local write
SetEntryTypeValue, or SetEntryValue, produces. With an empty name or a null
value it returns false and the state is unchanged, so no entry is created. -/
theorem C8_SetDefaultEntryValue (s : Storage) (name : Bytes) (local_id : Nat) (o v : Value) :
    -- the entry already has a value
    (name ≠ [] → s.GetEntryValue name = some o →
      s.SetDefaultEntryValue name (some v) = (s, decide (o.type = v.type))) ∧
    (s.GetEntryValueId local_id = some o →
      s.SetDefaultEntryValueId local_id (some v) = (s, decide (o.type = v.type))) ∧
    -- the entry has no value
    (name ≠ [] → s.GetEntryValue name = none →
      s.SetDefaultEntryValue name (some v) = (s.SetEntryTypeValue name (some v), true) ∧
      s.SetDefaultEntryValue name (some v) = s.SetEntryValue name (some v)) ∧
    (local_id < s.m_localmap.length → (s.deref local_id).value = none →
      s.SetDefaultEntryValueId local_id (some v) =
        (s.SetEntryTypeValueId local_id (some v), true) ∧
      s.SetDefaultEntryValueId local_id (some v) = s.SetEntryValueId local_id (some v)) ∧
    -- empty name, null value
    s.SetDefaultEntryValue [] (some v) = (s, false) ∧
    s.SetDefaultEntryValue name none = (s, false) ∧
    s.SetDefaultEntryValueId local_id none = (s, false) := by
  refine ⟨?_, ?_, ?_, ?_, ?_, ?_, ?_⟩
  · intro hn h
    obtain ⟨p, hf, hv⟩ := GetEntryValue_eq_some h
    unfold SetDefaultEntryValue
    rw [isEmpty_eq_false hn, GetOrNew_of_find hf]
    simp [hv]
  · intro h
    obtain ⟨hlt, hv⟩ := GetEntryValueId_eq_some h
    unfold SetDefaultEntryValueId
    simp [hv, hlt]
  · intro hn h
    have hv := GetOrNew_value_none s name h
    unfold SetDefaultEntryValue SetEntryTypeValue SetEntryValue
    rw [isEmpty_eq_false hn]
    simp [hv]
  · intro hlt hv
    have hle : ¬ s.m_localmap.length ≤ local_id := by omega
    unfold SetDefaultEntryValueId SetEntryTypeValueId SetEntryValueId
    simp [hv, hle]
  · rfl
  · unfold SetDefaultEntryValue
    split <;> rfl
  · rfl

/-- Witness of C8: on the table with foo = true the default true returns
true and the default 0.0 returns false, both without a change. -/
theorem C8_SetDefaultEntryValue_witness :
    exFoo ≠ [] ∧ exServerFoo.GetEntryValue exFoo = some exTrue ∧
      exServerFoo.SetDefaultEntryValue exFoo (some exTrue2) = (exServerFoo, true) ∧
      exServerFoo.SetDefaultEntryValue exFoo (some exDouble) = (exServerFoo, false) :=
  ⟨by decide, by decide,
    (C8_SetDefaultEntryValue exServerFoo exFoo 0 exTrue exTrue2).1 (by decide) (by decide),
    (C8_SetDefaultEntryValue exServerFoo exFoo 0 exTrue exDouble).1 (by decide) (by decide)⟩

/-- C9 (SetEntryFlags), by local id or by a non-empty name. When the entry
has no value or its flags already equal the argument, the state is
unchanged (nothing notified, nothing queued). Otherwise the entry's flags
become the argument, one FLAGS|LOCAL notification is sent and, with a
dispatcher attached, FlagsUpdate(id, flags) is queued if and only if the
entry's id is assigned; without a dispatcher nothing is queued. -/
theorem C9_SetEntryFlags (s : Storage) (p : Nat) (flags : Nat) :
    -- no value, or flags unchanged: nothing happens
    ((s.deref p).value = none ∨ (s.deref p).flags = flags →
      s.SetEntryFlagsImpl p flags true = s) ∧
    -- otherwise
    (∀ o : Value, p < s.m_localmap.length → (s.deref p).value = some o →
      (s.deref p).flags ≠ flags →
      ((s.SetEntryFlagsImpl p flags true).deref p).flags = flags ∧
      (s.SetEntryFlagsImpl p flags true).notified = s.notified ++
        [⟨(s.deref p).local_id, (s.deref p).name, some o,
          NT_NOTIFY_FLAGS ||| NT_NOTIFY_LOCAL⟩] ∧
      (s.m_dispatcher = true → (s.deref p).id ≠ 0xffff →
        (s.SetEntryFlagsImpl p flags true).queued = s.queued ++
          [⟨Message.FlagsUpdate (s.deref p).id flags, none, none⟩]) ∧
      (s.m_dispatcher = true → (s.deref p).id = 0xffff →
        (s.SetEntryFlagsImpl p flags true).queued = s.queued) ∧
      (s.m_dispatcher = false →
        (s.SetEntryFlagsImpl p flags true).queued = s.queued)) ∧
    -- the calls by local id and by name
    (p < s.m_localmap.length →
      s.SetEntryFlagsId p flags = s.SetEntryFlagsImpl p flags true) ∧
    (∀ name : Bytes, name ≠ [] → s.find name = some p →
      s.SetEntryFlags name flags = s.SetEntryFlagsImpl p flags true) := by
  refine ⟨?_, ?_, ?_, ?_⟩
  · intro h
    unfold SetEntryFlagsImpl
    rcases h with h | h <;> simp [h]
  · intro o hp hv hf
    refine ⟨?_, ?_, ?_, ?_, ?_⟩
    · unfold SetEntryFlagsImpl
      simp [hp, hv, hf, deref_store, apply_ite Entry.flags]
    · unfold SetEntryFlagsImpl
      simp [hp, hv, hf, deref_store]
    · intro hd hid
      unfold SetEntryFlagsImpl
      simp [hp, hv, hf, hd, hid, deref_store]
    · intro hd hid
      unfold SetEntryFlagsImpl
      simp [hp, hv, hf, hd, hid, deref_store]
    · intro hd
      unfold SetEntryFlagsImpl
      simp [hp, hv, hf, hd, deref_store]
  · intro hp
    unfold SetEntryFlagsId
    simp [hp]
  · intro name hn hf
    unfold SetEntryFlags
    rw [isEmpty_eq_false hn, hf]
    simp

/-- Witness of C9: SetEntryFlags("foo", 1) on the table with foo = true
queues FlagsUpdate(0, 1) on the server and nothing on the client. -/
theorem C9_SetEntryFlags_witness :
    (0 < exServerFoo.m_localmap.length ∧ (exServerFoo.deref 0).value = some exTrue ∧
      (exServerFoo.deref 0).flags ≠ 1 ∧ exServerFoo.m_dispatcher = true ∧
      (exServerFoo.deref 0).id ≠ 0xffff ∧
      (exServerFoo.SetEntryFlagsImpl 0 1 true).queued = exServerFoo.queued ++
        [⟨Message.FlagsUpdate 0 1, none, none⟩]) ∧
    (0 < exClientFoo.m_localmap.length ∧ (exClientFoo.deref 0).value = some exTrue ∧
      (exClientFoo.deref 0).flags ≠ 1 ∧ exClientFoo.m_dispatcher = true ∧
      (exClientFoo.deref 0).id = 0xffff ∧
      (exClientFoo.SetEntryFlagsImpl 0 1 true).queued = exClientFoo.queued) :=
  ⟨⟨by decide, by decide, by decide, by decide, by decide,
      ((C9_SetEntryFlags exServerFoo 0 1).2.1 exTrue (by decide) (by decide)
        (by decide)).2.2.1 (by decide) (by decide)⟩,
    ⟨by decide, by decide, by decide, by decide, by decide,
      ((C9_SetEntryFlags exClientFoo 0 1).2.1 exTrue (by decide) (by decide)
        (by decide)).2.2.2.1 (by decide) (by decide)⟩⟩

/-- C10 (DeleteEntry), by local id or by name, on an entry `p` of the table.
After the call the entry is still in the name map under its name, with the
same local_id, and has value = none, id = 0xFFFF, flags = 0 and
local_write = false; the id_map slot of its former id is empty. So
GetEntryFlags on it returns 0 and a later SetEntryFlags on it, by name or
by handle, changes nothing. -/
theorem C10_DeleteEntry (s : Storage) (p : Nat) (hp : p < s.m_localmap.length) :
    -- the state of the entry after DeleteEntryImpl
    (∀ name : Bytes, s.find name = some p → (s.DeleteEntryImpl p true).find name = some p) ∧
    ((s.DeleteEntryImpl p true).deref p).local_id = (s.deref p).local_id ∧
    ((s.DeleteEntryImpl p true).deref p).name = (s.deref p).name ∧
    ((s.DeleteEntryImpl p true).deref p).value = none ∧
    ((s.DeleteEntryImpl p true).deref p).id = 0xffff ∧
    ((s.DeleteEntryImpl p true).deref p).flags = 0 ∧
    ((s.DeleteEntryImpl p true).deref p).local_write = false ∧
    (s.DeleteEntryImpl p true).idEntry (s.deref p).id = none ∧
    -- flags of the deleted entry
    (s.DeleteEntryImpl p true).GetEntryFlagsId p = 0 ∧
    (∀ name : Bytes, s.find name = some p →
      (s.DeleteEntryImpl p true).GetEntryFlags name = 0) ∧
    (∀ flags : Nat,
      (s.DeleteEntryImpl p true).SetEntryFlagsId p flags = s.DeleteEntryImpl p true) ∧
    (∀ (name : Bytes) (flags : Nat), s.find name = some p →
      (s.DeleteEntryImpl p true).SetEntryFlags name flags = s.DeleteEntryImpl p true) ∧
    -- the calls by local id and by name
    s.DeleteEntryId p = s.DeleteEntryImpl p true ∧
    (∀ name : Bytes, s.find name = some p → s.DeleteEntry name = s.DeleteEntryImpl p true) := by
  have he := DeleteEntryImpl_entry s p true hp
  have hl := DeleteEntryImpl_length s p true
  refine ⟨?_, ?_, ?_, ?_, ?_, ?_, ?_, ?_, ?_, ?_, ?_, ?_, ?_, ?_⟩
  · intro name hf
    rw [DeleteEntryImpl_find, hf]
  · rw [he]
  · rw [he]
  · rw [he]
  · rw [he]
  · rw [he]
  · rw [he]
  · exact DeleteEntryImpl_idEntry s p true
  · unfold GetEntryFlagsId
    rw [hl, he]
    simp [hp]
  · intro name hf
    unfold GetEntryFlags
    rw [DeleteEntryImpl_find, hf]
    simp only
    rw [he]
  · intro flags
    have hv : ((s.DeleteEntryImpl p true).deref p).value = none := by rw [he]
    unfold SetEntryFlagsId SetEntryFlagsImpl
    simp [hv]
  · intro name flags hf
    have hv : ((s.DeleteEntryImpl p true).deref p).value = none := by rw [he]
    unfold SetEntryFlags SetEntryFlagsImpl
    rw [DeleteEntryImpl_find, hf]
    simp [hv]
  · unfold DeleteEntryId
    simp [hp]
  · intro name hf
    unfold DeleteEntry
    rw [hf]

/-- Witness of C10: DeleteEntry("foo") on the server table with
foo = true. -/
theorem C10_DeleteEntry_witness :
    0 < exServerFoo.m_localmap.length ∧ exServerFoo.find exFoo = some 0 ∧
      (exServerFoo.DeleteEntry exFoo).find exFoo = some 0 ∧
      ((exServerFoo.DeleteEntry exFoo).deref 0).value = none ∧
      (exServerFoo.DeleteEntry exFoo).m_idmap = [none] :=
  ⟨by decide, by decide,
    ((C10_DeleteEntry exServerFoo 0 (by decide)).2.2.2.2.2.2.2.2.2.2.2.2.2 exFoo
        (by decide)) ▸
      (C10_DeleteEntry exServerFoo 0 (by decide)).1 exFoo (by decide),
    ((C10_DeleteEntry exServerFoo 0 (by decide)).2.2.2.2.2.2.2.2.2.2.2.2.2 exFoo
        (by decide)) ▸
      (C10_DeleteEntry exServerFoo 0 (by decide)).2.2.2.1,
    by decide⟩

/-- C11 (state after a bulk deletion), evaluated on the code. On the server
table with foo = true and flags 2 (the table of the test DeletedEntryFlags
before its DeleteEntry), DeleteEntry leaves the entry with no value and
flags 0, whereas DeleteAllEntries and an incoming ClearEntries leave it with
no value, id 0xFFFF, local_write false and flags still 2; the selective
delete of ApplyInitialAssignments removes the value of a PERSISTENT entry
that came from the server and leaves its flags at PERSISTENT. The loop of
DeleteAllEntriesImpl does not reset the flags. -/
theorem C11_delete_all_keeps_flags :
    -- the entry foo = true with flags 2
    (exFlagged.deref 0).value = some exTrue ∧ (exFlagged.deref 0).flags = 2 ∧
    -- DeleteEntry resets the flags
    ((exFlagged.DeleteEntry exFoo).deref 0).value = none ∧
    ((exFlagged.DeleteEntry exFoo).deref 0).flags = 0 ∧
    -- DeleteAllEntries removes the value and keeps the flags
    (exFlagged.DeleteAllEntries.deref 0).value = none ∧
    (exFlagged.DeleteAllEntries.deref 0).id = 0xffff ∧
    (exFlagged.DeleteAllEntries.deref 0).local_write = false ∧
    (exFlagged.DeleteAllEntries.deref 0).flags = 2 ∧
    -- an incoming ClearEntries does the same
    (exFlagged.ProcessIncoming Message.ClearEntries exConn (some exConn)).map
      (fun t => ((t.deref 0).value, (t.deref 0).flags)) = some (none, 2) ∧
    -- the selective delete of ApplyInitialAssignments keeps the flag PERSISTENT
    (exRemotePersistent.deref 0).value = some exTrue ∧
    (exRemotePersistent.ApplyInitialAssignments exConn []).map
      (fun r => ((r.1.deref 0).value, (r.1.deref 0).flags)) = some (none, 1) := by
  refine ⟨?_, ?_, ?_, ?_, ?_, ?_, ?_, ?_, ?_, ?_, ?_⟩ <;> decide

/-- C12 (DeleteAllEntries). Let the entries of the name map be distinct
(spec 3.2, invariant 1; `Tidy.nodup`). When the name map is not empty,
DeleteAllEntries removes the value of every entry of the name map that is
not PERSISTENT, leaves every PERSISTENT entry as it is, sends the
DELETE|LOCAL notifications of the removed values, one for each entry that
had a value and is not PERSISTENT, in the order of the name map, and queues
one ClearEntries to all connections when a dispatcher is attached (nothing
without one), whether or not a value was removed. On an empty name map the
call changes nothing. -/
theorem C12_DeleteAllEntries (s : Storage) (hnd : (s.m_entries.map Prod.snd).Nodup) :
    (s.m_entries ≠ [] →
      -- the value of every entry of the name map without the PERSISTENT flag is removed
      (∀ n p, (n, p) ∈ s.m_entries → (s.deref p).IsPersistent = false →
        (s.DeleteAllEntries.deref p).value = none) ∧
      -- every PERSISTENT entry is left as it is
      (∀ p, (s.deref p).IsPersistent = true → s.DeleteAllEntries.deref p = s.deref p) ∧
      -- one DELETE|LOCAL notification per removed value
      s.DeleteAllEntries.notified = s.notified ++
        ((s.m_entries.map Prod.snd).filter fun p =>
          (s.deref p).value.isSome && !(s.deref p).IsPersistent).map (fun p =>
          ⟨(s.deref p).local_id, (s.deref p).name, (s.deref p).value,
            NT_NOTIFY_DELETE ||| NT_NOTIFY_LOCAL⟩) ∧
      -- one ClearEntries message
      (s.m_dispatcher = true →
        s.DeleteAllEntries.queued = s.queued ++ [⟨Message.ClearEntries, none, none⟩]) ∧
      (s.m_dispatcher = false → s.DeleteAllEntries.queued = s.queued)) ∧
    -- a table without entries
    (s.m_entries = [] → s.DeleteAllEntries = s) := by
  refine ⟨fun hne => ?_, fun he => by simp [DeleteAllEntries, he]⟩
  have hne2 : s.m_entries.isEmpty = false := by
    cases h : s.m_entries with
    | nil => exact absurd h hne
    | cons a as => rfl
  have hfr := DeleteAllEntriesImplF_frame s true (fun e => (!e.IsPersistent, []))
  have hD : s.DeleteAllEntries = if !s.m_dispatcher then s.DeleteAllEntriesImpl true
      else (s.DeleteAllEntriesImpl true).QueueOutgoing Message.ClearEntries none none := by
    unfold DeleteAllEntries
    simp only [hne2, Bool.false_eq_true, if_false]
    unfold DeleteAllEntriesImpl
    rw [hfr.2.2.1]
  have hderef : ∀ q, s.DeleteAllEntries.deref q = (s.DeleteAllEntriesImpl true).deref q := by
    intro q
    rw [hD]
    split <;> rfl
  refine ⟨?_, ?_, ?_, ?_, ?_⟩
  · intro n p hmem hnp
    rw [hderef]
    unfold DeleteAllEntriesImpl
    rw [DeleteAllEntriesImplF_deref]
    have hin : p ∈ s.m_entries.map Prod.snd := List.mem_map.mpr ⟨(n, p), hmem, rfl⟩
    cases hv : (s.deref p).value with
    | none => simp [deletes, hv]
    | some o => simp [deletes, hv, hnp, hin, cleared]
  · intro p hp
    rw [hderef]
    unfold DeleteAllEntriesImpl
    rw [DeleteAllEntriesImplF_deref]
    simp [deletes, hp]
  · have h := (DeleteAllEntriesImplF_out s true (fun e => (!e.IsPersistent, [])) hnd).1
    rw [hD]
    unfold DeleteAllEntriesImpl
    split
    · rw [h]
      simp [deletes]
    · rw [QueueOutgoing_notified, h]
      simp [deletes]
  · intro hd
    rw [hD]
    unfold DeleteAllEntriesImpl
    simp [hd, hfr.1]
  · intro hd
    rw [hD]
    unfold DeleteAllEntriesImpl
    simp [hd, hfr.1]

/-- Witness of C12: the server table with foo = true and the PERSISTENT
bar = 0.0 (the spec scenario "delete-all preserves persistent"). -/
theorem C12_DeleteAllEntries_witness :
    (exTwo.m_entries.map Prod.snd).Nodup ∧ exTwo.m_entries ≠ [] ∧
    (exTwo.DeleteAllEntries.deref 0).value = none ∧
    exTwo.DeleteAllEntries.deref 1 = exTwo.deref 1 ∧
    (exTwo.deref 1).value = some exDouble ∧
    exTwo.DeleteAllEntries.queued = exTwo.queued ++ [⟨Message.ClearEntries, none, none⟩] :=
  ⟨by decide, by decide,
    ((C12_DeleteAllEntries exTwo (by decide)).1 (by decide)).1 exFoo 0 (by decide) (by decide),
    ((C12_DeleteAllEntries exTwo (by decide)).1 (by decide)).2.1 1 (by decide),
    by decide,
    ((C12_DeleteAllEntries exTwo (by decide)).1 (by decide)).2.2.2.1 (by decide)⟩

/-- C13 (lookups create nothing). For a name that is not in the name map,
GetEntryValue returns none, GetEntryFlags returns 0, and SetEntryFlags and
DeleteEntry return the state they were given, so the name map, the local
map and id_map are the same; the two getters are const methods and yield no
state at all. SetEntryValue and SetEntryTypeValue with an empty name or a
null value return the state they were given too (SetEntryValue also returns
true). -/
theorem C13_lookup_creates_nothing (s : Storage) (name : Bytes) (hf : s.find name = none) :
    s.GetEntryValue name = none ∧ s.GetEntryFlags name = 0 ∧
    (∀ flags, s.SetEntryFlags name flags = s) ∧
    s.DeleteEntry name = s ∧
    (∀ v, s.SetEntryValue [] v = (s, true) ∧ s.SetEntryTypeValue [] v = s) ∧
    (∀ n, s.SetEntryValue n none = (s, true) ∧ s.SetEntryTypeValue n none = s) := by
  refine ⟨?_, ?_, ?_, ?_, ?_, ?_⟩
  · simp [GetEntryValue, hf]
  · simp [GetEntryFlags, hf]
  · intro f
    unfold SetEntryFlags
    split
    · rfl
    · simp [hf]
  · simp [DeleteEntry, hf]
  · intro v
    exact ⟨rfl, rfl⟩
  · intro n
    constructor
    · unfold SetEntryValue
      split <;> rfl
    · unfold SetEntryTypeValue
      split <;> rfl

/-- Witness of C13: the name "foo" on the empty server table. -/
theorem C13_lookup_creates_nothing_witness :
    exServer.find exFoo = none ∧ exServer.GetEntryValue exFoo = none ∧
    exServer.SetEntryFlags exFoo 1 = exServer ∧ exServer.DeleteEntry exFoo = exServer ∧
    exServer.m_entries = [] :=
  ⟨by decide, (C13_lookup_creates_nothing exServer exFoo (by decide)).1,
    (C13_lookup_creates_nothing exServer exFoo (by decide)).2.2.1 1,
    (C13_lookup_creates_nothing exServer exFoo (by decide)).2.2.2.1, by decide⟩

/-- C14 (stale update dropped). Let the id of an incoming EntryUpdate be
the id of the entry `p`. If its seq is not newer, seq <= entry.seq_num in
the wrap-aware order, which includes an equal seq, the call returns the
state it was given: no mutation, no notification, no rebroadcast, in both
roles. Otherwise the entry takes the value and the seq of the message, and
a seq strictly newer than the entry's is such a case. -/
theorem C14_stale_update_dropped (s : Storage) (msg : Message) (conn : INetworkConnection)
    (cw : Option INetworkConnection) (p : Nat)
    (ht : msg.type = .kEntryUpdate) (hid : s.idEntry msg.id = some p) :
    -- not newer (seq <= entry.seq_num): dropped
    (SequenceNumber.le ⟨msg.seq_num_uid⟩ (s.deref p).seq_num = true →
      s.ProcessIncoming msg conn cw = some s) ∧
    -- a tie is such a case
    (msg.seq_num_uid = (s.deref p).seq_num.m_value →
      SequenceNumber.le ⟨msg.seq_num_uid⟩ (s.deref p).seq_num = true) ∧
    -- otherwise the value and seq_num of the message are installed
    (SequenceNumber.le ⟨msg.seq_num_uid⟩ (s.deref p).seq_num = false →
      p < s.m_localmap.length →
      ∃ t, s.ProcessIncoming msg conn cw = some t ∧
        (t.deref p).value = msg.value ∧ (t.deref p).seq_num = ⟨msg.seq_num_uid⟩) ∧
    -- strictly newer is such a case
    (SequenceNumber.lt (s.deref p).seq_num ⟨msg.seq_num_uid⟩ = true →
      SequenceNumber.le ⟨msg.seq_num_uid⟩ (s.deref p).seq_num = false) := by
  refine ⟨?_, ?_, ?_, ?_⟩
  · intro hle
    simp [ProcessIncoming, ht, ProcessIncomingEntryUpdate, hid, hle]
  · intro he
    simp [SequenceNumber.le, he]
  · intro hle hp
    refine ⟨s.ProcessIncomingEntryUpdate msg conn, by simp [ProcessIncoming, ht], ?_, ?_⟩
    · simp [ProcessIncomingEntryUpdate, hid, hle, deref_store, hp]
    · simp [ProcessIncomingEntryUpdate, hid, hle, deref_store, hp]
  · exact SequenceNumber.not_le_of_lt

/-- Witness of C14: the spec scenario, EntryUpdate(id 0, seq 1, false) on
the server table with foo = true at seq 1. -/
theorem C14_stale_update_dropped_witness :
    exServerFoo.idEntry 0 = some 0 ∧ (exServerFoo.deref 0).seq_num = ⟨1⟩ ∧
    exServerFoo.ProcessIncoming (Message.EntryUpdate 0 1 (some exFalse)) exConn
      (some exConn) = some exServerFoo :=
  ⟨by decide, by decide,
    (C14_stale_update_dropped exServerFoo (Message.EntryUpdate 0 1 (some exFalse)) exConn
      (some exConn) 0 rfl (by decide)).1 (by decide)⟩

/-- Counterexample to C15: on the server table with foo = true at seq 1 and
id 0, the incoming EntryAssign("foo", 0, 1, false, 0), whose seq equals the
entry's, is applied: the value becomes false, a notification is sent and a
message is queued (the test StoragePopulateOneTest.ProcessIncomingEntryAssign
expects this). -/
theorem C15_counterexample :
    exServerFoo.idEntry 0 = some 0 ∧ (exServerFoo.deref 0).id = 0 ∧
    (exServerFoo.deref 0).seq_num.value = 1 ∧ (exServerFoo.deref 0).value = some exTrue ∧
    ∃ t, exServerFoo.ProcessIncoming (Message.EntryAssign exFoo 0 1 (some exFalse) 0) exConn
        (some exConn) = some t ∧
      (t.deref 0).value = some exFalse ∧
      t.notified ≠ exServerFoo.notified ∧ t.queued ≠ exServerFoo.queued := by
  refine ⟨by decide, by decide, by decide, by decide, _, rfl, ?_, ?_, ?_⟩ <;> decide

/-- C15 as amended (only an older assignment is dropped). Let the id of an
incoming EntryAssign be the assigned id of the entry `p`. If the seq of the
message is strictly older than the entry's seq_num in the wrap-aware order,
the call returns the state it was given. A seq equal to the entry's is not
strictly older, and every message that is not strictly older and carries
the entry's name is applied: the entry takes the value and seq of the
message (and its flags from a 3.0 connection), one UPDATE notification is
sent, and a server with a dispatcher queues the assignment to all
connections but the sender, while a client queues nothing. -/
theorem C15_older_assign_dropped (s : Storage) (msg : Message) (conn : INetworkConnection)
    (cw : Option INetworkConnection) (p : Nat)
    (ht : msg.type = .kEntryAssign) (hne : msg.id ≠ 0xffff)
    (hid : s.idEntry msg.id = some p) :
    (SequenceNumber.lt ⟨msg.seq_num_uid⟩ (s.deref p).seq_num = true →
      s.ProcessIncoming msg conn cw = some s) ∧
    (msg.seq_num_uid = (s.deref p).seq_num.m_value →
      SequenceNumber.lt ⟨msg.seq_num_uid⟩ (s.deref p).seq_num = false) ∧
    (∀ o v, SequenceNumber.lt ⟨msg.seq_num_uid⟩ (s.deref p).seq_num = false →
      p < s.m_localmap.length → msg.str = (s.deref p).name →
      (s.deref p).value = some o → msg.value = some v →
      ∃ t, s.ProcessIncoming msg conn cw = some t ∧
        (t.deref p).value = some v ∧ (t.deref p).seq_num = ⟨msg.seq_num_uid⟩ ∧
        (t.deref p).flags = (if conn.proto_rev ≥ 0x0300 then msg.flags else (s.deref p).flags) ∧
        t.notified = s.notified ++ [⟨(s.deref p).local_id, (s.deref p).name, some v,
          if conn.proto_rev ≥ 0x0300 ∧ (s.deref p).flags ≠ msg.flags then
            NT_NOTIFY_UPDATE ||| NT_NOTIFY_FLAGS else NT_NOTIFY_UPDATE⟩] ∧
        (s.m_server = true → s.m_dispatcher = true →
          t.queued = s.queued ++ [⟨Message.EntryAssign (s.deref p).name msg.id msg.seq_num_uid
            (some v) (t.deref p).flags, none, some conn⟩]) ∧
        (s.m_server = false → t.queued = s.queued)) := by
  have hlen : ¬ msg.id ≥ s.m_idmap.length := by
    intro h
    unfold idEntry at hid
    rw [List.getElem?_eq_none h] at hid
    cases hid
  have hpi : s.ProcessIncoming msg conn cw = s.EntryAssignCommon msg conn p false := by
    unfold ProcessIncoming
    simp only [ht]
    unfold ProcessIncomingEntryAssign
    simp only [hne, if_false, hlen, hid]
    split <;> rfl
  refine ⟨?_, ?_, ?_⟩
  · intro hlt
    rw [hpi]
    unfold EntryAssignCommon
    simp [hlt]
  · intro he
    rw [he]
    exact SequenceNumber.lt_self _
  · intro o v hlt hp hname ho hv
    rw [hpi]
    unfold EntryAssignCommon
    by_cases hpr : conn.proto_rev ≥ 0x0300 <;> cases hsrv : s.m_server <;>
      cases hd : s.m_dispatcher <;>
      simp [hlt, hname, ho, hv, hp, hpr, hsrv, hd, deref_store, Message.EntryAssign]

/-- Witness of C15: EntryAssign("foo", 0, 0, false, 0) is older than seq 1
and is dropped. -/
theorem C15_older_assign_dropped_witness :
    exServerFoo.idEntry 0 = some 0 ∧
    SequenceNumber.lt ⟨0⟩ (exServerFoo.deref 0).seq_num = true ∧
    exServerFoo.ProcessIncoming (Message.EntryAssign exFoo 0 0 (some exFalse) 0) exConn
      (some exConn) = some exServerFoo :=
  ⟨by decide, by decide,
    (C15_older_assign_dropped exServerFoo (Message.EntryAssign exFoo 0 0 (some exFalse) 0)
      exConn (some exConn) 0 rfl (by decide) (by decide)).1 (by decide)⟩

/-- C16 (unknown id dropped). An incoming EntryUpdate, FlagsUpdate,
EntryDelete, ExecuteRpc or RpcResponse whose id is at least the length of
id_map, or whose slot of id_map is empty, returns the state it was given, in
both roles: nothing is changed, notified, queued or handed to the RPC
server, and the call is defined (id_map is read inside its bounds only). -/
theorem C16_unknown_id_dropped (s : Storage) (msg : Message) (conn : INetworkConnection)
    (cw : Option INetworkConnection)
    (ht : msg.type = .kEntryUpdate ∨ msg.type = .kFlagsUpdate ∨ msg.type = .kEntryDelete ∨
      msg.type = .kExecuteRpc ∨ msg.type = .kRpcResponse)
    (hid : s.m_idmap.length ≤ msg.id ∨ s.m_idmap[msg.id]? = some none) :
    s.ProcessIncoming msg conn cw = some s := by
  have h := idEntry_eq_none s msg.id hid
  rcases ht with ht | ht | ht | ht | ht
  · simp [ProcessIncoming, ht, ProcessIncomingEntryUpdate, h]
  · simp [ProcessIncoming, ht, ProcessIncomingFlagsUpdate, h]
  · simp [ProcessIncoming, ht, ProcessIncomingEntryDelete, h]
  · simp [ProcessIncoming, ht, ProcessIncomingExecuteRpc, h]
  · simp [ProcessIncoming, ht, ProcessIncomingRpcResponse, h]

/-- Witness of C16: an EntryUpdate for id 5 on the server table with
foo = true, whose id_map has length 1. -/
theorem C16_unknown_id_dropped_witness :
    exServerFoo.m_idmap.length ≤ 5 ∧
    exServerFoo.ProcessIncoming (Message.EntryUpdate 5 9 (some exFalse)) exConn
      (some exConn) = some exServerFoo :=
  ⟨by decide,
    C16_unknown_id_dropped exServerFoo (Message.EntryUpdate 5 9 (some exFalse)) exConn
      (some exConn) (Or.inl rfl) (Or.inl (by decide))⟩

/-- C17 (forwards exclude the sender). On a server with a dispatcher, an
accepted EntryUpdate, a FlagsUpdate or EntryDelete of a known id, and a
ClearEntries received from the connection `conn` are queued once, unchanged,
with `only` = nil and `except` = `conn`; an EntryAssign with an assigned
id queues nothing or one EntryAssign with the id, seq and value of the
message and the same addressing; and whatever any of these five messages
queues is addressed that way. On a client an EntryUpdate, FlagsUpdate,
EntryDelete or ClearEntries queues nothing, and an EntryAssign queues no
EntryAssign: what it queues are the client's own FlagsUpdate and EntryUpdate
replies, addressed to all connections. -/
theorem C17_forward_excludes_sender (s : Storage) (msg : Message) (conn : INetworkConnection)
    (cw : Option INetworkConnection) :
    -- on a server with a dispatcher
    (s.m_server = true → s.m_dispatcher = true →
      -- an accepted EntryUpdate is forwarded to all but the sender
      (∀ p, msg.type = .kEntryUpdate → s.idEntry msg.id = some p →
        SequenceNumber.le ⟨msg.seq_num_uid⟩ (s.deref p).seq_num = false →
        ∃ t, s.ProcessIncoming msg conn cw = some t ∧
          t.queued = s.queued ++ [⟨msg, none, some conn⟩]) ∧
      -- a FlagsUpdate, EntryDelete of a known id, and a ClearEntries likewise
      (∀ p, msg.type = .kFlagsUpdate ∨ msg.type = .kEntryDelete →
        s.idEntry msg.id = some p →
        ∃ t, s.ProcessIncoming msg conn cw = some t ∧
          t.queued = s.queued ++ [⟨msg, none, some conn⟩]) ∧
      (msg.type = .kClearEntries →
        ∃ t, s.ProcessIncoming msg conn cw = some t ∧
          t.queued = s.queued ++ [⟨msg, none, some conn⟩]) ∧
      -- an EntryAssign with an assigned id queues nothing or its forward
      (msg.type = .kEntryAssign → msg.id ≠ 0xffff →
        OptAll (fun t => t.queued = s.queued ∨
          ∃ name flags, t.queued = s.queued ++
            [⟨Message.EntryAssign name msg.id msg.seq_num_uid msg.value flags, none,
              some conn⟩])
          (s.ProcessIncoming msg conn cw)) ∧
      -- whatever such a message queues goes to all connections but the sender
      (msg.type = .kEntryUpdate ∨ msg.type = .kFlagsUpdate ∨ msg.type = .kEntryDelete ∨
          msg.type = .kClearEntries ∨ (msg.type = .kEntryAssign ∧ msg.id ≠ 0xffff) →
        OptAll (fun t => ∃ new, t.queued = s.queued ++ new ∧
          ∀ o ∈ new, o.only = none ∧ o.except = some conn)
          (s.ProcessIncoming msg conn cw))) ∧
    -- on a client
    (s.m_server = false →
      (msg.type = .kEntryUpdate ∨ msg.type = .kFlagsUpdate ∨ msg.type = .kEntryDelete ∨
          msg.type = .kClearEntries →
        ∃ t, s.ProcessIncoming msg conn cw = some t ∧ t.queued = s.queued) ∧
      (msg.type = .kEntryAssign →
        OptAll (fun t => ∃ new, t.queued = s.queued ++ new ∧
          ∀ o ∈ new, o.only = none ∧ o.except = none ∧
            (o.msg.type = .kFlagsUpdate ∨ o.msg.type = .kEntryUpdate))
          (s.ProcessIncoming msg conn cw))) := by
  have hclear : (s.DeleteAllEntriesImpl false).queued = s.queued ∧
      (s.DeleteAllEntriesImpl false).m_server = s.m_server ∧
      (s.DeleteAllEntriesImpl false).m_dispatcher = s.m_dispatcher :=
    ⟨(DeleteAllEntriesImplF_frame s false _).1, (DeleteAllEntriesImplF_frame s false _).2.1,
      (DeleteAllEntriesImplF_frame s false _).2.2.1⟩
  constructor
  · intro hsrv hd
    have hU : ∀ p, msg.type = .kEntryUpdate → s.idEntry msg.id = some p →
        SequenceNumber.le ⟨msg.seq_num_uid⟩ (s.deref p).seq_num = false →
        ∃ t, s.ProcessIncoming msg conn cw = some t ∧
          t.queued = s.queued ++ [⟨msg, none, some conn⟩] := by
      intro p ht hid hle
      exact ⟨_, ProcessIncoming_EntryUpdate s msg conn cw ht,
        by simp [ProcessIncomingEntryUpdate, hid, hle, hsrv, hd]⟩
    have hF : ∀ p, msg.type = .kFlagsUpdate ∨ msg.type = .kEntryDelete →
        s.idEntry msg.id = some p →
        ∃ t, s.ProcessIncoming msg conn cw = some t ∧
          t.queued = s.queued ++ [⟨msg, none, some conn⟩] := by
      intro p ht hid
      rcases ht with ht | ht
      · exact ⟨_, ProcessIncoming_FlagsUpdate s msg conn cw ht,
          by simp [ProcessIncomingFlagsUpdate, hid, hsrv, hd]⟩
      · exact ⟨_, ProcessIncoming_EntryDelete s msg conn cw ht,
          by simp [ProcessIncomingEntryDelete, hid, hsrv, hd]⟩
    have hC : msg.type = .kClearEntries →
        ∃ t, s.ProcessIncoming msg conn cw = some t ∧
          t.queued = s.queued ++ [⟨msg, none, some conn⟩] := by
      intro ht
      exact ⟨_, ProcessIncoming_ClearEntries s msg conn cw ht,
        by simp [ProcessIncomingClearEntries, hclear, hsrv, hd]⟩
    have hA : msg.type = .kEntryAssign → msg.id ≠ 0xffff →
        OptAll (fun t => t.queued = s.queued ∨
          ∃ name flags, t.queued = s.queued ++
            [⟨Message.EntryAssign name msg.id msg.seq_num_uid msg.value flags, none,
              some conn⟩])
          (s.ProcessIncoming msg conn cw) := by
      intro ht hne
      rw [ProcessIncoming_EntryAssign s msg conn cw ht]
      exact ProcessIncomingEntryAssign_server_queued s msg conn hsrv hne
    refine ⟨hU, hF, hC, hA, ?_⟩
    have one : ∀ (t : Storage) (m : Message), t.queued = s.queued ++ [⟨m, none, some conn⟩] →
        ∃ new, t.queued = s.queued ++ new ∧
          ∀ o ∈ new, o.only = none ∧ o.except = some conn := by
      intro t m h
      refine ⟨_, h, ?_⟩
      intro o ho
      simp only [List.mem_singleton] at ho
      subst ho
      exact ⟨rfl, rfl⟩
    have zero : ∀ (t : Storage), t.queued = s.queued →
        ∃ new, t.queued = s.queued ++ new ∧
          ∀ o ∈ new, o.only = none ∧ o.except = some conn :=
      fun t h => ⟨[], by simpa using h, by simp⟩
    intro ht t hres
    rcases ht with ht | ht | ht | ht | ⟨ht, hne⟩
    · cases hid : s.idEntry msg.id with
      | none =>
        rw [ProcessIncoming_EntryUpdate s msg conn cw ht] at hres
        cases hres
        exact zero _ (by simp [ProcessIncomingEntryUpdate, hid])
      | some p =>
        cases hle : SequenceNumber.le ⟨msg.seq_num_uid⟩ (s.deref p).seq_num with
        | true =>
          rw [ProcessIncoming_EntryUpdate s msg conn cw ht] at hres
          cases hres
          exact zero _ (by simp [ProcessIncomingEntryUpdate, hid, hle])
        | false =>
          obtain ⟨u, hu, hq⟩ := hU p ht hid hle
          rw [hu] at hres
          cases hres
          exact one _ _ hq
    · cases hid : s.idEntry msg.id with
      | none =>
        rw [ProcessIncoming_FlagsUpdate s msg conn cw ht] at hres
        cases hres
        exact zero _ (by simp [ProcessIncomingFlagsUpdate, hid])
      | some p =>
        obtain ⟨u, hu, hq⟩ := hF p (Or.inl ht) hid
        rw [hu] at hres
        cases hres
        exact one _ _ hq
    · cases hid : s.idEntry msg.id with
      | none =>
        rw [ProcessIncoming_EntryDelete s msg conn cw ht] at hres
        cases hres
        exact zero _ (by simp [ProcessIncomingEntryDelete, hid])
      | some p =>
        obtain ⟨u, hu, hq⟩ := hF p (Or.inr ht) hid
        rw [hu] at hres
        cases hres
        exact one _ _ hq
    · obtain ⟨u, hu, hq⟩ := hC ht
      rw [hu] at hres
      cases hres
      exact one _ _ hq
    · rcases hA ht hne t hres with h | ⟨n, f, h⟩
      · exact zero _ h
      · exact one _ _ h
  · intro hsrv
    constructor
    · intro ht
      rcases ht with ht | ht | ht | ht
      · refine ⟨_, ProcessIncoming_EntryUpdate s msg conn cw ht, ?_⟩
        unfold ProcessIncomingEntryUpdate
        split
        · rfl
        · simp only
          split
          · rfl
          · simp [hsrv]
      · refine ⟨_, ProcessIncoming_FlagsUpdate s msg conn cw ht, ?_⟩
        unfold ProcessIncomingFlagsUpdate
        split
        · rfl
        · simp [hsrv]
      · refine ⟨_, ProcessIncoming_EntryDelete s msg conn cw ht, ?_⟩
        unfold ProcessIncomingEntryDelete
        split
        · rfl
        · simp [hsrv]
      · exact ⟨_, ProcessIncoming_ClearEntries s msg conn cw ht,
          by simp [ProcessIncomingClearEntries, hclear, hsrv]⟩
    · intro ht
      rw [ProcessIncoming_EntryAssign s msg conn cw ht]
      exact ProcessIncomingEntryAssign_client_queued s msg conn hsrv

/-- Witness of C17: the server table with foo = true at seq 1 forwards
EntryUpdate(0, 2, false) to all connections but the sender. -/
theorem C17_forward_excludes_sender_witness :
    exServerFoo.m_server = true ∧ exServerFoo.m_dispatcher = true ∧
    exServerFoo.idEntry 0 = some 0 ∧
    ∃ t, exServerFoo.ProcessIncoming (Message.EntryUpdate 0 2 (some exFalse)) exConn
        (some exConn) = some t ∧
      t.queued = exServerFoo.queued ++
        [⟨Message.EntryUpdate 0 2 (some exFalse), none, some exConn⟩] :=
  ⟨by decide, by decide, by decide,
    ((C17_forward_excludes_sender exServerFoo (Message.EntryUpdate 0 2 (some exFalse)) exConn
      (some exConn)).1 (by decide) (by decide)).1 0 rfl (by decide) (by decide)⟩

/-- Counterexample to C18: a client writes foo = true, which gets no id, and
becomes a server. The request EntryAssign("foo", 0xFFFF, 5, false, 0) names
an entry without an assigned id, but the entry has a value: the shared write
path sends an UPDATE notification, not NEW, and queues
EntryUpdate(0, 5, false), not an EntryAssign. -/
theorem C18_counterexample :
    ({} : Storage).run exTurnOps = some exTurned ∧
    exTurned.m_server = true ∧ exTurned.m_dispatcher = true ∧
    exTurned.find exFoo = some 0 ∧
    (exTurned.deref 0).id = 0xffff ∧ (exTurned.deref 0).value = some exTrue ∧
    exTurned.ProcessIncoming (Message.EntryAssign exFoo 0xffff 5 (some exFalse) 0) exConn
      (some exConn) = some exTurnedAsked ∧
    exTurnedAsked.notified = exTurned.notified ++ [⟨0, exFoo, some exFalse, NT_NOTIFY_UPDATE⟩] ∧
    NT_NOTIFY_UPDATE ≠ NT_NOTIFY_NEW ∧
    exTurnedAsked.queued = exTurned.queued ++
      [⟨Message.EntryUpdate 0 5 (some exFalse), none, none⟩] := by
  refine ⟨?_, ?_, ?_, ?_, ?_, ?_, ?_, ?_, ?_, ?_⟩ <;> decide

/-- C18 as amended (assignment request). An incoming EntryAssign with id
0xFFFF is ignored by a client, and by a server when the entry of its name has
an assigned id: the call returns the state it was given. Otherwise a server
with a well-formed name map, whose entry `r.2` of the name (looked up or
created by GetOrNew) has no assigned id and no value, installs the message:
the entry gets the flags, seq and value of the message and the id "length of
id_map before the call", the entry is appended to id_map, one NEW
notification without the LOCAL bit is sent, and with a dispatcher
EntryAssign(name, new id, msg seq, value, msg flags) is queued with
`only` = nil and `except` = nil (nothing is queued without a dispatcher). -/
theorem C18_assignment_request (s : Storage) (msg : Message) (conn : INetworkConnection)
    (cw : Option INetworkConnection) (ht : msg.type = .kEntryAssign)
    (hid : msg.id = 0xffff) :
    -- a client ignores the request
    (s.m_server = false → s.ProcessIncoming msg conn cw = some s) ∧
    -- a server ignores it when the entry of the name has an assigned id
    (s.m_server = true → ∀ p, s.find msg.str = some p → (s.deref p).id ≠ 0xffff →
      s.ProcessIncoming msg conn cw = some s) ∧
    -- a server installs it otherwise
    (s.m_server = true → WF s → ∀ (r : Storage × Nat) (v : Value),
      s.GetOrNew msg.str = r → (r.1.deref r.2).id = 0xffff →
      (r.1.deref r.2).value = none →
      msg.value = some v →
      ∃ t, s.ProcessIncoming msg conn cw = some t ∧
        (t.deref r.2).name = msg.str ∧
        (t.deref r.2).value = some v ∧
        (t.deref r.2).flags = msg.flags ∧
        (t.deref r.2).seq_num = ⟨msg.seq_num_uid⟩ ∧
        (t.deref r.2).id = s.m_idmap.length ∧
        t.m_idmap = s.m_idmap ++ [some r.2] ∧
        t.notified = s.notified ++ [⟨r.2, msg.str, some v, NT_NOTIFY_NEW⟩] ∧
        (s.m_dispatcher = true → t.queued = s.queued ++
          [⟨Message.EntryAssign msg.str s.m_idmap.length msg.seq_num_uid (some v) msg.flags,
            none, none⟩]) ∧
        (s.m_dispatcher = false → t.queued = s.queued)) := by
  rw [ProcessIncoming_EntryAssign s msg conn cw ht]
  refine ⟨?_, ?_, ?_⟩
  · intro hsrv
    simp [ProcessIncomingEntryAssign, hsrv, hid]
  · intro hsrv p hf hne
    simp [ProcessIncomingEntryAssign, hsrv, hid, GetOrNew_of_find hf, hne]
  · intro hsrv hwf r v hr hnoid hval hv
    have hfind : r.1.find msg.str = some r.2 := hr ▸ GetOrNew_find s msg.str
    have hwf1 : WF r.1 := hr ▸ (GetOrNew_good s msg.str).2 hwf
    have hp := hwf1.lt hfind
    have hname := hwf1.name hfind
    have hlid := hwf1.local_id hfind
    have hsrv1 : r.1.m_server = true := by rw [← hr]; simpa using hsrv
    have hmap : r.1.m_idmap = s.m_idmap := by rw [← hr]; simp
    have hq : r.1.queued = s.queued := by rw [← hr]; simp
    have hn : r.1.notified = s.notified := by rw [← hr]; simp
    have hdd : r.1.m_dispatcher = s.m_dispatcher := by rw [← hr]; simp
    unfold ProcessIncomingEntryAssign
    simp only [hsrv, if_true, hid, hr, hnoid, ne_eq, not_true_eq_false, if_false, hv]
    refine ⟨_, rfl, ?_⟩
    unfold SetEntryValueImpl
    cases hd : s.m_dispatcher <;>
      simp [deref_store, hp, hval, hnoid, hsrv1, hmap, hq, hn, hdd, hd, hname, hlid,
        Message.EntryAssign, NT_NOTIFY_NEW, SequenceNumber.value]

/-- Witness of C18 as amended: the test
StorageEmptyTest.ProcessIncomingEntryAssign on a server,
EntryAssign("foo", 0xFFFF, 0, 0.0, 0) on the empty table. The same request
on the server table `exServerGone`, whose entry foo was deleted and has no
id and no value while id_map has one empty slot, gives the entry the id 1.
The server `exServerFoo`, whose entry foo has the id 0, and the client
`exClientFoo` ignore the request. -/
theorem C18_assignment_request_witness :
    exServer.m_server = true ∧ exServer.m_dispatcher = true ∧
    (∃ t, exServer.ProcessIncoming (Message.EntryAssign exFoo 0xffff 0 (some exDouble) 0) exConn
        (some exConn) = some t ∧
      (t.deref 0).value = some exDouble ∧ (t.deref 0).id = 0 ∧
      t.notified = [⟨0, exFoo, some exDouble, NT_NOTIFY_NEW⟩] ∧
      t.queued = [⟨Message.EntryAssign exFoo 0 0 (some exDouble) 0, none, none⟩]) ∧
    exServerGone.m_server = true ∧ exServerGone.find exFoo = some 0 ∧
    (exServerGone.deref 0).id = 0xffff ∧ (exServerGone.deref 0).value = none ∧
    exServerGone.m_idmap = [none] ∧
    (∃ t, exServerGone.ProcessIncoming (Message.EntryAssign exFoo 0xffff 7 (some exDouble) 2)
        exConn (some exConn) = some t ∧
      (t.deref 0).value = some exDouble ∧ (t.deref 0).flags = 2 ∧
      (t.deref 0).seq_num = ⟨7⟩ ∧ (t.deref 0).id = 1 ∧ t.m_idmap = [none, some 0] ∧
      t.notified = exServerGone.notified ++ [⟨0, exFoo, some exDouble, NT_NOTIFY_NEW⟩] ∧
      t.queued = exServerGone.queued ++
        [⟨Message.EntryAssign exFoo 1 7 (some exDouble) 2, none, none⟩]) ∧
    (exServerFoo.deref 0).id = 0 ∧
    exServerFoo.ProcessIncoming (Message.EntryAssign exFoo 0xffff 7 (some exDouble) 2) exConn
      (some exConn) = some exServerFoo ∧
    exClientFoo.ProcessIncoming (Message.EntryAssign exFoo 0xffff 7 (some exDouble) 2) exConn
      (some exConn) = some exClientFoo :=
  ⟨by decide, by decide,
    match (C18_assignment_request exServer (Message.EntryAssign exFoo 0xffff 0 (some exDouble) 0)
      exConn (some exConn) rfl rfl).2.2 (by decide) WF_init
      (exServer.GetOrNew exFoo) exDouble rfl (by decide) (by decide) rfl with
    | ⟨t, h, _, hv, _, _, hid, _, hn, hq, _⟩ => ⟨t, h, hv, hid, hn, hq (by decide)⟩,
    by decide, by decide, by decide, by decide, by decide,
    match (C18_assignment_request exServerGone
      (Message.EntryAssign exFoo 0xffff 7 (some exDouble) 2) exConn (some exConn) rfl rfl).2.2
      (by decide) (Tidy.wf ⟨by decide, by decide, by decide⟩)
      (exServerGone.GetOrNew exFoo) exDouble rfl (by decide) (by decide) rfl with
    | ⟨t, h, _, hv, hf, hs, hid, hm, hn, hq, _⟩ =>
      ⟨t, h, hv, hf, hs, hid.trans (by decide), hm.trans (by decide), hn, hq (by decide)⟩,
    by decide,
    (C18_assignment_request exServerFoo (Message.EntryAssign exFoo 0xffff 7 (some exDouble) 2)
      exConn (some exConn) rfl rfl).2.1 (by decide) 0 (by decide) (by decide),
    (C18_assignment_request exClientFoo (Message.EntryAssign exFoo 0xffff 7 (some exDouble) 2)
      exConn (some exConn) rfl rfl).1 (by decide)⟩

/-- C19 (entries the server does not assign). On a server
ApplyInitialAssignments returns the state it was given and no message. It
returns whenever a dispatcher is attached. On a client whose three views of
the entries agree (spec 3.2, invariant 1), whenever the call returns the
table `t` and `out_msgs` = `out`: for every entry `p` that has a value `v`
and whose name is not the name of an incoming EntryAssign with an id other
than 0xFFFF, if local_write is true the entry keeps `v` and
EntryAssign(name, 0xFFFF, seq_num, v, flags) occurs exactly once in `out`,
and if local_write is false the entry has no value afterwards; and when the
incoming messages carry their values, the entry named by an incoming
EntryAssign with an id other than 0xFFFF has a value afterwards. -/
theorem C19_unassigned_entries (s : Storage) (conn : INetworkConnection)
    (msgs : List Message) :
    -- on a server nothing changes
    (s.m_server = true → s.ApplyInitialAssignments conn msgs = some (s, [])) ∧
    -- the call returns when a dispatcher is attached
    (s.m_dispatcher = true → ∃ r, s.ApplyInitialAssignments conn msgs = some r) ∧
    -- on a client
    (s.m_server = false → Tidy s → ∀ t out,
      s.ApplyInitialAssignments conn msgs = some (t, out) →
      -- an entry with a value that no assignment names
      (∀ p v, p < s.m_localmap.length → (s.deref p).value = some v →
        (∀ m ∈ msgs, m.assigns → m.str ≠ (s.deref p).name) →
        ((s.deref p).local_write = true →
          (t.deref p).value = some v ∧
          out.count (Message.EntryAssign (s.deref p).name 0xffff (s.deref p).seq_num.value
            (some v) (s.deref p).flags) = 1) ∧
        ((s.deref p).local_write = false → (t.deref p).value = none)) ∧
      -- an entry that an assignment names keeps a value
      ((∀ m ∈ msgs, m.carriesValue) → ∀ m ∈ msgs, m.assigns →
        ∃ p, t.find m.str = some p ∧ (t.deref p).value.isSome = true)) := by
  refine ⟨fun hs => by simp [ApplyInitialAssignments, hs],
    ApplyInitialAssignments_returns s conn msgs, ?_⟩
  intro hs hT t out hres
  obtain ⟨hout, hderef, hent, _, _⟩ := ApplyInitialAssignments_result s conn msgs hs t out hres
  have hTa : Tidy (s.applied conn msgs).1 := (applied_grows s conn msgs).tidy hT
  have hlen : s.m_localmap.length ≤ (s.applied conn msgs).1.m_localmap.length :=
    (applied_grows s conn msgs).toGood.1.length
  have hnd := hTa.nodup
  have hO := (DeleteAllEntriesImplF_out (s.applied conn msgs).1 false unassignedShouldDelete
    hnd).2
  constructor
  · intro p v hp hv hL
    have he := applied_deref_uncovered s conn msgs hT p hp hL
    have hin : p ∈ (s.applied conn msgs).1.m_entries.map Prod.snd :=
      hTa.mem_pointers.mpr (Nat.lt_of_lt_of_le hp hlen)
    constructor
    · intro hw
      constructor
      · rw [hderef]
        unfold reconciled
        rw [DeleteAllEntriesImplF_deref, he]
        simp [deletes, unassignedShouldDelete, hw, hv]
      · rw [hout]
        unfold reconciled
        rw [hO]
        refine count_flatMap_one _ hnd _ _ p hin ?_ ?_
        · rw [he]
          simp [unassignedShouldDelete, hw, hv]
        · intro q hq hqp hm
          have hqlt := hTa.mem_pointers.mp hq
          have hname : ((s.applied conn msgs).1.deref q).name = (s.deref p).name := by
            split at hm
            · unfold unassignedShouldDelete at hm
              split at hm
              · cases hm
              · split at hm
                · simp only [List.mem_singleton] at hm
                  exact (congrArg Message.str hm).symm
                · cases hm
            · cases hm
          have h1 := hTa.find_name hqlt
          have h2 := hTa.find_name (Nat.lt_of_lt_of_le hp hlen)
          rw [hname] at h1
          rw [he] at h2
          simp only at h2
          rw [h1] at h2
          exact hqp (Option.some.inj h2)
    · intro hw
      rw [hderef]
      unfold reconciled
      rw [DeleteAllEntriesImplF_deref, he]
      simp [deletes, unassignedShouldDelete, hw, hv, hin, cleared]
  · intro hcv m hm ha
    obtain ⟨p, hf, hid, hval⟩ := assign_fold_covers conn msgs hcv m hm ha (s.clearIds, [])
      ((clearIds_sameTable s).good.2 hT.wf)
    refine ⟨p, ?_, ?_⟩
    · unfold Storage.find
      rw [hent, (reconciled_sameTable s conn msgs).1]
      exact hf
    · rw [hderef]
      unfold reconciled
      rw [DeleteAllEntriesImplF_deref]
      have hnot : deletes unassignedShouldDelete ((s.applied conn msgs).1.deref p) = false := by
        unfold applied
        simp [deletes, unassignedShouldDelete, hid]
      rw [hnot]
      simpa [applied] using hval

/-- Witness of C19: the client with the locally written foo = true and
bar = 0.0 applies the assignments of a server that knows bar only; foo
keeps its value and is advertised once with EntryAssign("foo", 0xFFFF, 1,
true, 0). -/
theorem C19_unassigned_entries_witness :
    exReconnect.m_server = false ∧ Tidy exReconnect ∧
    exReconnect.ApplyInitialAssignments exConn exAssignBar = some exReconciledBar ∧
    (exReconnect.deref 0).value = some exTrue ∧ (exReconnect.deref 0).local_write = true ∧
    (exReconciledBar.1.deref 0).value = some exTrue ∧
    exReconciledBar.2.count (Message.EntryAssign exFoo 0xffff 1 (some exTrue) 0) = 1 :=
  ⟨by decide, ⟨by decide, by decide, by decide⟩, by decide, by decide, by decide,
    ((((C19_unassigned_entries exReconnect exConn exAssignBar).2.2 (by decide)
      ⟨by decide, by decide, by decide⟩ exReconciledBar.1 exReconciledBar.2 (by decide)).1
      0 exTrue (by decide) (by decide) (by decide)).1 (by decide)).1,
    ((((C19_unassigned_entries exReconnect exConn exAssignBar).2.2 (by decide)
      ⟨by decide, by decide, by decide⟩ exReconciledBar.1 exReconciledBar.2 (by decide)).1
      0 exTrue (by decide) (by decide) (by decide)).1 (by decide)).2⟩

/-- Counterexample to C20: the client holds the locally written foo = true
without the PERSISTENT flag, and ApplyInitialAssignments applies
EntryAssign("foo", 0, 5, false, 0) and then EntryAssign("foo", 1, 7, false,
0). For the first message the claim gives the entry the id 0 and the seq_num
6; the second turn of the loop overwrites both, and the entry ends with the
id 1 and the seq_num 8. -/
theorem C20_counterexample :
    exReconnect.m_server = false ∧ exReconnect.find exFoo = some 0 ∧
    (exReconnect.deref 0).value = some exTrue ∧ (exReconnect.deref 0).local_write = true ∧
    (exReconnect.deref 0).IsPersistent = false ∧
    exReconnect.ApplyInitialAssignments exConn exAssignTwice = some exReconciledTwice ∧
    (exReconciledTwice.1.deref 0).value = some exTrue ∧
    (exReconciledTwice.1.deref 0).id = 1 ∧
    (exReconciledTwice.1.deref 0).seq_num = ⟨8⟩ ∧
    SequenceNumber.inc ⟨5⟩ = ⟨6⟩ := by
  refine ⟨?_, ?_, ?_, ?_, ?_, ?_, ?_, ?_, ?_, ?_⟩ <;> decide

/-- C20 as amended (entries the server assigns). On a client whose three
views of the entries agree, let `m` be an incoming EntryAssign(name, id, seq,
v, f) with an id other than 0xFFFF that names the entry `p`, which has the
value `o`, and let no other assignment of the call carry this name or this
id. Whenever ApplyInitialAssignments returns the table `t`: the id of the
entry is the id of the server and id_map[id] refers to the entry; if the
entry was locally written and is not PERSISTENT it keeps `o`, its seq_num is
the incremented seq of the message (strictly newer than seq for a 16-bit
seq) and EntryUpdate(id, seq + 1, o) is queued to all connections once, no
other queued message carrying this id; otherwise the entry has the value `v`
and seq_num = seq, and no message with this id is queued. -/
theorem C20_assigned_entries (s : Storage) (conn : INetworkConnection)
    (pre post : List Message) (m : Message) (p : Nat) (o : Value)
    (hs : s.m_server = false) (hT : Tidy s) (ha : m.assigns)
    (hf : s.find m.str = some p) (ho : (s.deref p).value = some o)
    (huniq : ∀ x ∈ pre ++ post, x.assigns → x.str ≠ m.str ∧ x.id ≠ m.id)
    (t : Storage) (out : List Message)
    (hres : s.ApplyInitialAssignments conn (pre ++ m :: post) = some (t, out)) :
    -- the entry gets the id of the server and id_map refers to it
    (t.deref p).id = m.id ∧ t.idEntry m.id = some p ∧
    -- locally written and not PERSISTENT: the value is kept and sent back
    ((s.deref p).local_write = true → (s.deref p).IsPersistent = false →
      (t.deref p).value = some o ∧
      (t.deref p).seq_num = SequenceNumber.inc ⟨m.seq_num_uid⟩ ∧
      (m.seq_num_uid < 65536 →
        SequenceNumber.lt ⟨m.seq_num_uid⟩ (t.deref p).seq_num = true) ∧
      ∃ a b, t.queued = s.queued ++ (a ++
          ⟨Message.EntryUpdate m.id (SequenceNumber.inc ⟨m.seq_num_uid⟩).value (some o),
            none, none⟩ :: b) ∧
        ∀ x ∈ a ++ b, x.msg.id ≠ m.id) ∧
    -- otherwise the value of the server is taken
    (¬((s.deref p).local_write = true ∧ (s.deref p).IsPersistent = false) →
      (t.deref p).value = m.value ∧ (t.deref p).seq_num = ⟨m.seq_num_uid⟩ ∧
      ∀ x ∈ t.queued, x ∈ s.queued ∨ x.msg.id ≠ m.id) := by
  obtain ⟨_, hderef, _, hmap, hq⟩ :=
    ApplyInitialAssignments_result s conn _ hs t out hres
  have hp : p < s.m_localmap.length := hT.wf.lt hf
  have hname : (s.deref p).name = m.str := hT.wf.name hf
  -- the three parts of the loop
  have hst := clearIds_sameTable s
  have hwf0 : WF s.clearIds := hst.good.2 hT.wf
  have hf0 : s.clearIds.find m.str = some p := by
    unfold Storage.find
    rw [hst.1]
    exact hf
  have hpre : ∀ x ∈ pre, x.assigns → x.str ≠ m.str :=
    fun x hx hxa => (huniq x (List.mem_append_left _ hx) hxa).1
  have hpost : ∀ x ∈ post, x.assigns → x.str ≠ m.str :=
    fun x hx hxa => (huniq x (List.mem_append_right _ hx) hxa).1
  have hg1 := foldl_good _ (ApplyAssignStep_good conn) pre (s.clearIds, [])
  have hwf1 := hg1.2 hwf0
  have hf1 := hg1.1.lookup hf0
  have he1 := assign_fold_untouched conn pre m.str p hpre (s.clearIds, []) hwf0 hf0
  rw [clearIds_deref, if_pos (hT.mem_pointers.mpr hp)] at he1
  generalize hacc1 : pre.foldl (ApplyAssignStep conn) (s.clearIds, []) = acc1
    at hg1 hwf1 hf1 he1
  have hgn : acc1.1.GetOrNew m.str = (acc1.1, p) := GetOrNew_of_find hf1
  have hp1 : p < acc1.1.m_localmap.length := hwf1.lt hf1
  have h2 := ApplyAssignStep_deref_self conn acc1 m ha (by rw [hgn]; exact hp1)
  have h2i := (ApplyAssignStep_idEntry conn acc1 m ha).1
  rw [hgn] at h2 h2i
  simp only at h2 h2i
  rw [he1] at h2
  have hg2 := ApplyAssignStep_good conn acc1 m
  have hwf2 := hg2.2 hwf1
  have hf2 := hg2.1.lookup hf1
  generalize hacc2 : ApplyAssignStep conn acc1 m = acc2 at h2 h2i hg2 hwf2 hf2
  have he3 := assign_fold_untouched conn post m.str p hpost acc2 hwf2 hf2
  have hi3 := assign_fold_idEntry conn post m.id
    (fun x hx hxa => (huniq x (List.mem_append_right _ hx) hxa).2) acc2
  have happ : s.applied conn (pre ++ m :: post) = post.foldl (ApplyAssignStep conn) acc2 := by
    unfold applied
    rw [List.foldl_append, List.foldl_cons, hacc1, hacc2]
  -- the entry after the loop
  have hE : (s.applied conn (pre ++ m :: post)).1.deref p =
      assigned conn m { s.deref p with id := 0xffff } := by
    rw [happ, he3, h2.1]
  have hI : (s.applied conn (pre ++ m :: post)).1.idEntry m.id = some p := by
    rw [happ, hi3, h2i]
  have hid : (assigned conn m { s.deref p with id := 0xffff }).id = m.id := by
    unfold assigned
    simp only [ho]
    split <;> rfl
  -- the selective delete leaves it alone
  have hR : (s.reconciled conn (pre ++ m :: post)).1.deref p =
      assigned conn m { s.deref p with id := 0xffff } := by
    unfold reconciled
    rw [DeleteAllEntriesImplF_deref, hE]
    have : deletes unassignedShouldDelete (assigned conn m { s.deref p with id := 0xffff }) =
        false := by
      simp [deletes, unassignedShouldDelete, hid, ha.2]
    simp [this]
  have hRI : (s.reconciled conn (pre ++ m :: post)).1.idEntry m.id = some p := by
    unfold reconciled
    rw [DeleteAllEntriesImplF_idEntry _ _ _ unassignedShouldDelete_id _ ha.2, hI]
  -- the update messages
  obtain ⟨n1, hn1, hn1id⟩ := assign_fold_msgs conn pre (s.clearIds, []) hwf0
  obtain ⟨n3, hn3, hn3id⟩ := assign_fold_msgs conn post acc2 hwf2
  rw [hacc1] at hn1
  have hU : (s.applied conn (pre ++ m :: post)).2 =
      n1 ++ (pushedBack m { s.deref p with id := 0xffff } ++ n3) := by
    rw [happ, hn3, h2.2, hn1]
    simp
  have hn1ne : ∀ u ∈ n1, u.id ≠ m.id := by
    intro u hu
    obtain ⟨_, x, hx, hxa, hxid⟩ := hn1id u hu
    rw [hxid]
    exact (huniq x (List.mem_append_left _ hx) hxa).2
  have hn3ne : ∀ u ∈ n3, u.id ≠ m.id := by
    intro u hu
    obtain ⟨_, x, hx, hxa, hxid⟩ := hn3id u hu
    rw [hxid]
    exact (huniq x (List.mem_append_right _ hx) hxa).2
  have hidm : t.idEntry m.id = some p := by
    unfold idEntry at hRI ⊢
    rw [hmap]
    exact hRI
  rw [hU] at hq
  refine ⟨by rw [hderef, hR, hid], hidm, ?_, ?_⟩
  · intro hw hP
    obtain ⟨hA, hB⟩ := assigned_kept conn m { s.deref p with id := 0xffff } o ho hw hP
    rw [hderef, hR, hA]
    refine ⟨ho, rfl, fun h => SequenceNumber.lt_inc _ h, ?_⟩
    refine ⟨n1.map (fun u => ⟨u, none, none⟩), n3.map (fun u => ⟨u, none, none⟩), ?_, ?_⟩
    · rw [hq, hB]
      simp
    · intro x hx
      rcases List.mem_append.mp hx with hx | hx
      · obtain ⟨u, hu, rfl⟩ := List.mem_map.mp hx
        exact hn1ne u hu
      · obtain ⟨u, hu, rfl⟩ := List.mem_map.mp hx
        exact hn3ne u hu
  · intro hnot
    obtain ⟨hA1, hA2, hB⟩ := assigned_taken conn m { s.deref p with id := 0xffff } o ho hnot
    rw [hderef, hR]
    refine ⟨hA1, hA2, ?_⟩
    intro x hx
    rw [hq, hB] at hx
    rcases List.mem_append.mp hx with hx | hx
    · exact Or.inl hx
    · right
      obtain ⟨u, hu, rfl⟩ := List.mem_map.mp hx
      rcases List.mem_append.mp hu with hu | hu
      · exact hn1ne u hu
      · exact hn3ne u (by simpa using hu)

/-- Witness of C20 as amended: the client with the locally written
foo = true at seq 1 and the locally written PERSISTENT bar = 0.0 receives
EntryAssign("bar", 1, 3, false, PERSISTENT), EntryAssign("foo", 0, 5, false,
0) and EntryAssign("baz", 2, 0, true, 0). It keeps foo = true at seq 6 under
the id 0, and it takes bar = false at seq 3 under the id 1. -/
theorem C20_assigned_entries_witness :
    exReconnect.m_server = false ∧ Tidy exReconnect ∧
    exReconnect.find exFoo = some 0 ∧ (exReconnect.deref 0).value = some exTrue ∧
    exReconnect.find exBar = some 1 ∧ (exReconnect.deref 1).value = some exDouble ∧
    exReconnect.ApplyInitialAssignments exConn exAssignThree = some exReconciledThree ∧
    (exReconciledThree.1.deref 0).id = 0 ∧ exReconciledThree.1.idEntry 0 = some 0 ∧
    (exReconciledThree.1.deref 0).value = some exTrue ∧
    (exReconciledThree.1.deref 0).seq_num = ⟨6⟩ ∧
    (exReconciledThree.1.deref 1).id = 1 ∧ exReconciledThree.1.idEntry 1 = some 1 ∧
    (exReconciledThree.1.deref 1).value = some exFalse ∧
    (exReconciledThree.1.deref 1).seq_num = ⟨3⟩ := by
  have hfoo := C20_assigned_entries exReconnect exConn
    [Message.EntryAssign exBar 1 3 (some exFalse) NT_PERSISTENT]
    [Message.EntryAssign exBaz 2 0 (some exTrue) 0]
    (Message.EntryAssign exFoo 0 5 (some exFalse) 0) 0 exTrue (by decide)
    ⟨by decide, by decide, by decide⟩ (by decide) (by decide) (by decide)
    (by decide) exReconciledThree.1 exReconciledThree.2 (by decide)
  have hbar := C20_assigned_entries exReconnect exConn []
    [Message.EntryAssign exFoo 0 5 (some exFalse) 0,
      Message.EntryAssign exBaz 2 0 (some exTrue) 0]
    (Message.EntryAssign exBar 1 3 (some exFalse) NT_PERSISTENT) 1 exDouble (by decide)
    ⟨by decide, by decide, by decide⟩ (by decide) (by decide) (by decide)
    (by decide) exReconciledThree.1 exReconciledThree.2 (by decide)
  have hkept := hfoo.2.2.1 (by decide) (by decide)
  have htaken := hbar.2.2.2 (by decide)
  exact ⟨by decide, ⟨by decide, by decide, by decide⟩, by decide, by decide, by decide,
    by decide, by decide, hfoo.1, hfoo.2.1, hkept.1, hkept.2.1.trans (by decide),
    hbar.1, hbar.2.1, htaken.1, htaken.2.1⟩

open SavePersistentImpl

/-- C21 (save: header, then the persistent entries by name). Let the names
of the name map be distinct (it is a map; spec 3.2, invariant 1,
`Tidy.names`). The stream form
SavePersistent(os, periodic = false) appends to the stream the header line
"[NetworkTables Storage 3.0]\n" and then, for a list `entries` of names
and values, what WriteEntry writes for each of them in order. The list
holds exactly the entries of the table that have a value and the PERSISTENT
flag, and its names are strictly ascending in the byte-wise lexicographic
order. The order of the name map does not matter: a table with the same
entries in another order is saved as the same text. When no entry has a
value and the PERSISTENT flag, the text is the header line alone. -/
theorem C21_save_sorted_by_name (s : Storage) (c : Encoders) (os : Bytes)
    (hnd : (s.m_entries.map Prod.fst).Nodup) :
    (∃ entries : List (Bytes × Value),
      (s.SavePersistent c os false).2
        = os ++ cstr "[NetworkTables Storage 3.0]\n"
          ++ entries.flatMap (fun i => WriteEntry c [] i.1 i.2) ∧
      (∀ n v, (n, v) ∈ entries ↔
        ∃ p, (n, p) ∈ s.m_entries ∧ (s.deref p).value = some v ∧
          (s.deref p).IsPersistent = true) ∧
      entries.Pairwise (fun a b => bytesLt a.1 b.1 = true)) ∧
    (∀ t : Storage, t.m_entries.Perm s.m_entries → (∀ p, t.deref p = s.deref p) →
      (t.SavePersistent c os false).2 = (s.SavePersistent c os false).2) ∧
    ((∀ n p, (n, p) ∈ s.m_entries →
        (s.deref p).value = none ∨ (s.deref p).IsPersistent = false) →
      (s.SavePersistent c os false).2 = os ++ cstr "[NetworkTables Storage 3.0]\n") := by
  have hs := SavePersistent_text s c os false (Or.inl rfl)
  refine ⟨⟨sortByName (persistentEntries s), ?_, fun n v => ?_, ?_⟩, fun t hp hd => ?_,
    fun h => ?_⟩
  · rw [hs, List.append_assoc]
  · rw [(sortByName_perm _).mem_iff]
    exact mem_persistentEntries s n v
  · exact sortByName_sorted _ (persistentEntries_nodup s hnd)
  · rw [hs, SavePersistent_text t c os false (Or.inl rfl)]
    have hpe := persistentEntries_perm s t hp hd
    have hndt : ((persistentEntries t).map Prod.fst).Nodup :=
      (hpe.map Prod.fst).nodup_iff.mpr (persistentEntries_nodup s hnd)
    rw [sortByName_unique _ _ hpe hndt]
  · have he : persistentEntries s = [] := by
      rw [List.eq_nil_iff_forall_not_mem]
      rintro ⟨n, v⟩ hm
      obtain ⟨p, hp, hv, hf⟩ := (mem_persistentEntries s n v).mp hm
      rcases h n p hp with h1 | h1
      · rw [h1] at hv
        cases hv
      · rw [h1] at hf
        cases hf
    rw [hs, he]
    simp [sortByName]

/-- Witness of C21: the server table with the PERSISTENT entries foo = true
and bar = 0.0, created in this order, is saved with bar before foo. -/
theorem C21_save_sorted_by_name_witness :
    (exBothPersistent.m_entries.map Prod.fst).Nodup ∧
    exBothPersistent.m_entries = [(exFoo, 0), (exBar, 1)] ∧
    (exBothPersistent.SavePersistent exEncoders [] false).2
      = cstr "[NetworkTables Storage 3.0]\ndouble \"bar\"=0\nboolean \"foo\"=true\n" ∧
    ∃ entries : List (Bytes × Value),
      (exBothPersistent.SavePersistent exEncoders [] false).2
        = [] ++ cstr "[NetworkTables Storage 3.0]\n"
          ++ entries.flatMap (fun i => WriteEntry exEncoders [] i.1 i.2) ∧
      entries.Pairwise (fun a b => bytesLt a.1 b.1 = true) := by
  obtain ⟨entries, h1, -, h3⟩ :=
    (C21_save_sorted_by_name exBothPersistent exEncoders [] (by decide)).1
  exact ⟨by decide, by decide, by decide, entries, h1, h3⟩

/-- Counterexample to C22: the server table whose only entry "foo" holds an
RPC definition and has the PERSISTENT flag. One entry has a value and the
PERSISTENT flag, but the saved text is the header line alone: one line, not
two. -/
theorem C22_counterexample :
    exRpcPersistent.m_entries.countP
      (fun i => (exRpcPersistent.deref i.2).value.isSome &&
        (exRpcPersistent.deref i.2).IsPersistent) = 1 ∧
    (exRpcPersistent.deref 0).value = some (Value.MakeRpc [1] 0) ∧
    (exRpcPersistent.SavePersistent exEncoders [] false).2
      = cstr "[NetworkTables Storage 3.0]\n" ∧
    ((exRpcPersistent.SavePersistent exEncoders [] false).2).count 10 = 1 := by
  refine ⟨?_, ?_, ?_, ?_⟩ <;> decide

/-- C22 as amended (one line per persistent entry that is no RPC
definition). Let the two library encoders write no line break. The text
that SavePersistent(os, periodic = false) writes to an empty stream
consists of 1 + k lines, each ended by a line break: it holds exactly
1 + k line breaks and ends with one, where k is the number of entries that
have a value other than an RPC definition and the PERSISTENT flag. An entry
with an RPC definition gets no line. -/
theorem C22_line_count (s : Storage) (c : Encoders) (hc : c.oneLine) :
    ((s.SavePersistent c [] false).2).count 10
      = 1 + s.m_entries.countP (fun i =>
          (s.deref i.2).value.any (fun v => !v.IsRpc) && (s.deref i.2).IsPersistent) ∧
    ((s.SavePersistent c [] false).2).getLast? = some 10 ∧
    (∀ name v, v.IsRpc = true → WriteEntry c [] name v = []) := by
  have hs := SavePersistent_text s c [] false (Or.inl rfl)
  have hh : cstr "[NetworkTables Storage 3.0]\n"
      = cstr "[NetworkTables Storage 3.0]" ++ [10] := by decide
  refine ⟨?_, ?_, fun name v hv => WriteEntry_rpc c name v hv⟩
  · rw [hs, List.nil_append, List.count_append]
    have h1 : (cstr "[NetworkTables Storage 3.0]\n").count 10 = 1 := by decide
    rw [h1, count_flatMap_lines _ (fun i => !i.2.IsRpc) _ (fun a _ => by
      rw [WriteEntry_count c hc]
      cases h : a.2.IsRpc <;> simp [h]), (sortByName_perm _).countP_eq,
      persistentEntries_written]
  · rw [hs, List.nil_append]
    rcases flatMap_last (fun i : Bytes × Value => WriteEntry c [] i.1 i.2)
      (sortByName (persistentEntries s)) (fun a _ => WriteEntry_last c hc a.1 a.2) with h | h
    · rw [h, List.append_nil, hh, List.getLast?_concat]
    · rw [List.getLast?_append, h]
      rfl

/-- Witness of C22 as amended: the table with the PERSISTENT entries
foo = true and bar = 0.0 is saved as three lines. -/
theorem C22_line_count_witness :
    exEncoders.oneLine ∧
    exBothPersistent.m_entries.countP (fun i =>
      (exBothPersistent.deref i.2).value.any (fun v => !v.IsRpc) &&
        (exBothPersistent.deref i.2).IsPersistent) = 2 ∧
    ((exBothPersistent.SavePersistent exEncoders [] false).2).count 10 = 1 + 2 ∧
    ((exBothPersistent.SavePersistent exEncoders [] false).2).getLast? = some 10 :=
  ⟨⟨fun _ => (by decide : (10 : Nat) ∉ [48]), fun _ => List.not_mem_nil 10⟩, by decide,
    (C22_line_count exBothPersistent exEncoders
      ⟨fun _ => (by decide : (10 : Nat) ∉ [48]), fun _ => List.not_mem_nil 10⟩).1,
    (C22_line_count exBothPersistent exEncoders
      ⟨fun _ => (by decide : (10 : Nat) ∉ [48]), fun _ => List.not_mem_nil 10⟩).2.1⟩

/-- C23 (string escaping). For a string `str` of bytes (numbers below 256),
WriteString appends to the stream a double quote, the escape of each byte
of `str` in order, and a double quote. The escape `escapeByte` is the one
the spec words: the two characters `\\`, `\t`, `\n`, `\"` for backslash,
tab, newline and double quote, the byte itself for every other printable
byte (0x20 to 0x7e) except '=', and `\x` followed by exactly two uppercase
hexadecimal digits for every remaining byte; '=' becomes `\x3D` and the
byte 0 becomes `\x00`. -/
theorem C23_WriteString_escapes (os str : Bytes) (hb : ∀ b ∈ str, b < 256) :
    WriteString os str = os ++ [34] ++ str.flatMap escapeByte ++ [34] ∧
    (∀ b, b < 256 → b ≠ 92 → b ≠ 9 → b ≠ 10 → b ≠ 34 →
      ((0x20 ≤ b ∧ b ≤ 0x7e ∧ b ≠ 61) → escapeByte b = [b]) ∧
      (¬ (0x20 ≤ b ∧ b ≤ 0x7e ∧ b ≠ 61) →
        escapeByte b = [92, 120, upperHex (b / 16), upperHex (b % 16)] ∧
        upperHex (b / 16) ∈ cstr "0123456789ABCDEF" ∧
        upperHex (b % 16) ∈ cstr "0123456789ABCDEF")) ∧
    escapeByte 92 = cstr "\\\\" ∧ escapeByte 9 = cstr "\\t" ∧
    escapeByte 10 = cstr "\\n" ∧ escapeByte 34 = cstr "\\\"" ∧
    escapeByte 61 = cstr "\\x3D" ∧ escapeByte 0 = cstr "\\x00" := by
  refine ⟨?_, fun b hlt h1 h2 h3 h4 => ⟨fun h5 => ?_, fun h5 => ⟨?_, ?_, ?_⟩⟩,
    by decide, by decide, by decide, by decide, by decide, by decide⟩
  · rw [WriteString_eq]
    have : str.flatMap (WriteChar []) = str.flatMap escapeByte := by
      induction str with
      | nil => rfl
      | cons c str ih =>
        rw [List.flatMap_cons, List.flatMap_cons,
          ih (fun b hm => hb b (List.mem_cons_of_mem _ hm)),
          WriteChar_escape c (hb c (List.mem_cons_self _ _))]
    rw [this]
    simp only [List.append_assoc]
  · unfold escapeByte
    rw [if_neg h1, if_neg h2, if_neg h3, if_neg h4, if_pos h5]
  · unfold escapeByte
    rw [if_neg h1, if_neg h2, if_neg h3, if_neg h4, if_neg h5]
    rfl
  · have : b / 16 < 16 := by omega
    generalize b / 16 = n at this
    interval_cases n <;> decide
  · have : b % 16 < 16 := by omega
    generalize b % 16 = n at this
    interval_cases n <;> decide

/-- Witness of C23: the name of the test SavePersistent with the bytes 0, 3,
5 and newline, and the name "=". -/
theorem C23_WriteString_escapes_witness :
    (∀ b ∈ [0, 3, 5, 10], b < 256) ∧
    WriteString [] [0, 3, 5, 10] = cstr "\"\\x00\\x03\\x05\\n\"" ∧
    WriteString [] [61] = cstr "\"\\x3D\"" :=
  ⟨by decide, (C23_WriteString_escapes [] [0, 3, 5, 10] (by decide)).1,
    (C23_WriteString_escapes [] [61] (by decide)).1⟩

/-- C24 (periodic save of a clean table). With persistent_dirty = false a
periodic save collects nothing: the stream form leaves the stream and the
state as they are, and the file form writes no file, returns no error and
leaves the state as it is. Every other save (not periodic, or
persistent_dirty = true) collects the sorted persistent entries and clears
persistent_dirty in the same step, so the flag is false in the state in
which the text is written; the stream form ends in that state, and the file
form sets the flag again only when it is periodic and returns an error. -/
theorem C24_periodic_save (s : Storage) (c : Encoders) (os : Bytes) (fs : FileAnswers)
    (periodic : Bool) :
    (s.m_persistent_dirty = false →
      s.SavePersistent c os true = (s, os) ∧
      s.SavePersistentFile c fs true = (s, none, none)) ∧
    ((periodic = false ∨ s.m_persistent_dirty = true) →
      ∃ entries, s.GetPersistentEntries periodic
          = (s.set_persistent_dirty false, some entries) ∧
        (s.set_persistent_dirty false).m_persistent_dirty = false ∧
        s.SavePersistent c os periodic
          = (s.set_persistent_dirty false,
              Save c os (entries.map fun i => (i.1, some i.2))) ∧
        (s.SavePersistentFile c fs periodic).2.1
          = (if fs.open_failed then none
              else some (Save c [] (entries.map fun i => (i.1, some i.2)))) ∧
        (s.SavePersistentFile c fs periodic).1
          = (if (s.SavePersistentFile c fs periodic).2.2.isSome && periodic
              then s.set_persistent_dirty true else s.set_persistent_dirty false)) := by
  refine ⟨fun h => ?_, fun h => ?_⟩
  · unfold SavePersistent SavePersistentFile
    rw [GetPersistentEntries_skips s h]
    exact ⟨rfl, rfl⟩
  · refine ⟨_, GetPersistentEntries_collects s periodic h, rfl, ?_, ?_, ?_⟩
    · unfold SavePersistent
      rw [GetPersistentEntries_collects s periodic h]
    · unfold SavePersistentFile
      rw [GetPersistentEntries_collects s periodic h]
    · unfold SavePersistentFile
      rw [GetPersistentEntries_collects s periodic h]
      rfl

/-- Witness of C24: the clean table `exServer` and the table `exTwo`, which is
dirty after its writes. -/
theorem C24_periodic_save_witness :
    exServer.m_persistent_dirty = false ∧
    exServer.SavePersistent exEncoders [] true = (exServer, []) ∧
    exServer.SavePersistentFile exEncoders ⟨false, false, false⟩ true
      = (exServer, none, none) ∧
    exTwo.m_persistent_dirty = true ∧
    ∃ entries, exTwo.GetPersistentEntries true
        = (exTwo.set_persistent_dirty false, some entries) ∧
      (exTwo.set_persistent_dirty false).m_persistent_dirty = false := by
  obtain ⟨entries, h1, h2, -⟩ :=
    (C24_periodic_save exTwo exEncoders [] ⟨false, false, false⟩ true).2
      (Or.inr (by decide))
  exact ⟨by decide,
    ((C24_periodic_save exServer exEncoders [] ⟨false, false, false⟩ true).1 (by decide)).1,
    ((C24_periodic_save exServer exEncoders [] ⟨false, false, false⟩ true).1 (by decide)).2,
    by decide, entries, h1, h2⟩

/-- C25 (wrap-aware successor). Every sequence number `a` in [0, 65535] is
strictly older than its successor `(a + 1) mod 65536` in the wrap-aware
order, and the successor, which is what the increment of a sequence number
yields, is again in [0, 65535]. -/
theorem C25_successor_is_newer (a : SequenceNumber) (ha : a.m_value ≤ 65535) :
    SequenceNumber.lt a ⟨(a.m_value + 1) % 65536⟩ = true ∧
    a.inc = ⟨(a.m_value + 1) % 65536⟩ ∧ a.inc.m_value ≤ 65535 := by
  refine ⟨?_, rfl, ?_⟩
  · have h := SequenceNumber.lt_inc a (by omega)
    simpa [SequenceNumber.inc] using h
  · simp only [SequenceNumber.inc]
    omega

/-- Witness of C25: the largest sequence number, whose successor wraps to 0. -/
theorem C25_successor_is_newer_witness :
    (65535 : Nat) ≤ 65535 ∧ SequenceNumber.lt ⟨65535⟩ ⟨0⟩ = true :=
  ⟨by decide, (C25_successor_is_newer ⟨65535⟩ (by decide)).1⟩

/-- Counterexample to C26: for a = 0 the number (a + 32767) mod 65536 is
32767, and 32767 is not older than 0 in the wrap-aware order (neither
32767 < 0 nor 32767 - 0 > 32768); it is 0 that is older than 32767. -/
theorem C26_counterexample :
    (0 + 32767) % 65536 = 32767 ∧ SequenceNumber.lt ⟨32767⟩ ⟨0⟩ = false ∧
    SequenceNumber.lt ⟨0⟩ ⟨32767⟩ = true := by
  refine ⟨?_, ?_, ?_⟩ <;> decide

/-- C26 as amended (half range, the other way round). For every sequence
number `a` in [0, 65535], `a` is strictly older than (a + 32767) mod 65536
in the wrap-aware order, and (a + 32767) mod 65536 is not older than `a`. -/
theorem C26_half_range (a : SequenceNumber) (ha : a.m_value ≤ 65535) :
    SequenceNumber.lt a ⟨(a.m_value + 32767) % 65536⟩ = true ∧
    SequenceNumber.lt ⟨(a.m_value + 32767) % 65536⟩ a = false := by
  unfold SequenceNumber.lt
  by_cases h : a.m_value < 32769
  · have e : (a.m_value + 32767) % 65536 = a.m_value + 32767 := by omega
    simp only [e]
    constructor
    · simp
    · simp
  · have e : (a.m_value + 32767) % 65536 = a.m_value - 32769 := by omega
    simp only [e]
    constructor
    · simp
      omega
    · simp
      omega

/-- Witness of C26 as amended: the sequence number 40000, for which the sum
wraps around to 7231. -/
theorem C26_half_range_witness :
    (40000 : Nat) ≤ 65535 ∧ SequenceNumber.lt ⟨40000⟩ ⟨7231⟩ = true ∧
    SequenceNumber.lt ⟨7231⟩ ⟨40000⟩ = false :=
  ⟨by decide, C26_half_range ⟨40000⟩ (by decide)⟩

/-- C27 (handle packing round trip). For inst in [0, 15], index in
[0, 0xFFFFF] and a 7-bit type tag t, the handle Handle(inst, index, t) is
the word (t << 24) | (inst << 20) | index, which is below 2^31 and so
non-negative as an int; GetType, GetInst and GetIndex return t, inst and
index; GetTypedIndex(t') and GetTypedInst(t') return index and inst when
t' = t and -1 otherwise. A negative inst or index yields the handle 0. -/
theorem C27_handle_round_trip (inst index : Int) (t : Nat) :
    (0 ≤ inst → inst ≤ 15 → 0 ≤ index → index ≤ 0xFFFFF → t < 128 →
      (Handle.make inst index t).m_handle
        = (t <<< 24) ||| (inst.toNat <<< 20) ||| index.toNat ∧
      (Handle.make inst index t).m_handle < 2 ^ 31 ∧
      (Handle.make inst index t).GetType = t ∧
      (Handle.make inst index t).GetInst = inst ∧
      (Handle.make inst index t).GetIndex = index ∧
      (∀ t2, (Handle.make inst index t).GetTypedIndex t2 = if t2 = t then index else -1) ∧
      (∀ t2, (Handle.make inst index t).GetTypedInst t2 = if t2 = t then inst else -1)) ∧
    (inst < 0 ∨ index < 0 → Handle.make inst index t = ⟨0⟩) := by
  refine ⟨fun h0 h1 h2 h3 ht => ?_, fun h => by simp [Handle.make, h]⟩
  obtain ⟨i, rfl⟩ := Int.eq_ofNat_of_zero_le h0
  obtain ⟨x, rfl⟩ := Int.eq_ofNat_of_zero_le h2
  have hi : i < 16 := by omega
  have hx : x < 1048576 := by omega
  have hm : (Handle.make i x t).m_handle = t * 16777216 + i * 1048576 + x := by
    have hn : ¬ ((i : Int) < 0 ∨ (x : Int) < 0) := by omega
    simp only [Handle.make, if_neg hn, Int.toNat_ofNat, (lowBits _).1, (lowBits _).2.1,
      (lowBits _).2.2, Nat.mod_eq_of_lt ht, Nat.mod_eq_of_lt hi, Nat.mod_eq_of_lt hx]
    exact Handle.packed t i x hi hx
  have hT : (Handle.make i x t).GetType = t := by
    simp only [Handle.GetType, hm, (lowBits _).1, Nat.shiftRight_eq_div_pow]
    omega
  have hI : (Handle.make i x t).GetInst = (i : Int) := by
    simp only [Handle.GetInst, hm, (lowBits _).2.1, Nat.shiftRight_eq_div_pow]
    congr 1
    omega
  have hX : (Handle.make i x t).GetIndex = (x : Int) := by
    simp only [Handle.GetIndex, hm, (lowBits _).2.2]
    congr 1
    omega
  refine ⟨?_, ?_, hT, hI, hX, fun t2 => ?_, fun t2 => ?_⟩
  · rw [hm, Int.toNat_ofNat, Int.toNat_ofNat, Handle.packed t i x hi hx]
  · rw [hm]
    omega
  · simp only [Handle.GetTypedIndex, Handle.IsType, hT, hX, decide_eq_true_eq]
  · simp only [Handle.GetTypedInst, Handle.IsType, hT, hI, decide_eq_true_eq]

/-- Witness of C27: the handle of instance 3, index 5 and type tag 18,
which is 0x12300005, and the handle 0 of a negative index. -/
theorem C27_handle_round_trip_witness :
    (Handle.make 3 5 18).m_handle = 0x12300005 ∧
    (Handle.make 3 5 18).GetType = 18 ∧ (Handle.make 3 5 18).GetInst = 3 ∧
    (Handle.make 3 5 18).GetIndex = 5 ∧ (Handle.make 3 5 18).GetTypedIndex 19 = -1 ∧
    Handle.make 3 (-1) 18 = ⟨0⟩ :=
  ⟨((C27_handle_round_trip 3 5 18).1 (by decide) (by decide) (by decide) (by decide)
      (by decide)).1,
    ((C27_handle_round_trip 3 5 18).1 (by decide) (by decide) (by decide) (by decide)
      (by decide)).2.2.1,
    ((C27_handle_round_trip 3 5 18).1 (by decide) (by decide) (by decide) (by decide)
      (by decide)).2.2.2.1,
    ((C27_handle_round_trip 3 5 18).1 (by decide) (by decide) (by decide) (by decide)
      (by decide)).2.2.2.2.1,
    ((C27_handle_round_trip 3 5 18).1 (by decide) (by decide) (by decide) (by decide)
      (by decide)).2.2.2.2.2.1 19,
    (C27_handle_round_trip 3 (-1) 18).2 (by decide)⟩

/-- C28 (CallRpc). The call returns 0 and the state it was given when
local_id is out of range, when the entry has no value, and when its value
is not an RPC definition. For an entry with an RPC definition whose
rpc_call_uid is a 16-bit number, on a server or on a client with a
dispatcher, the call returns (rpc_call_uid + 1) mod 65536, a number in
[0, 0xFFFF], stores it as the entry's rpc_call_uid and changes no other
field of any entry; on a client it queues ExecuteRpc(entry id, call_uid,
params) to all connections, and on a server it queues nothing and hands the
call to the RPC server. -/
theorem C28_CallRpc (s : Storage) (local_id : Nat) (params : Bytes) :
    ((local_id ≥ s.m_localmap.length ∨ (s.deref local_id).value = none ∨
        (∃ v, (s.deref local_id).value = some v ∧ v.IsRpc = false)) →
      s.CallRpc local_id params = some (s, 0)) ∧
    (∀ v, local_id < s.m_localmap.length → (s.deref local_id).value = some v →
      v.IsRpc = true → (s.deref local_id).rpc_call_uid ≤ 0xffff →
      (s.m_server = false → s.m_dispatcher = true) →
      ((s.deref local_id).rpc_call_uid + 1) % 65536 ≤ 0xffff ∧
      ∃ t, s.CallRpc local_id params
          = some (t, ((s.deref local_id).rpc_call_uid + 1) % 65536) ∧
        t.deref local_id = { s.deref local_id with
          rpc_call_uid := ((s.deref local_id).rpc_call_uid + 1) % 65536 } ∧
        (∀ q, q ≠ local_id → t.deref q = s.deref q) ∧
        (s.m_server = false → t.queued = s.queued ++
          [⟨Message.ExecuteRpc (s.deref local_id).id
            (((s.deref local_id).rpc_call_uid + 1) % 65536) params, none, none⟩]) ∧
        (s.m_server = true → t.queued = s.queued ∧
          t.rpc_calls = s.rpc_calls ++
            [.ProcessRpc local_id (((s.deref local_id).rpc_call_uid + 1) % 65536)
              (s.deref local_id).name params none (s.deref local_id).rpc_uid])) := by
  refine ⟨fun h => ?_, fun v hp hv hr hu hd => ⟨by omega, ?_⟩⟩
  · unfold CallRpc
    rcases h with h | h | ⟨v, hv, hr⟩
    · rw [if_pos h]
    · by_cases hp : local_id ≥ s.m_localmap.length
      · rw [if_pos hp]
      · simp [hp, h]
    · by_cases hp : local_id ≥ s.m_localmap.length
      · rw [if_pos hp]
      · simp [hp, hv, hr]
  · rw [CallRpc_valid s local_id params v hp hv hr hu]
    by_cases hs : s.m_server = true
    · rw [if_pos hs]
      refine ⟨_, rfl, ?_, fun q hq => ?_, fun h => ?_, fun _ => ⟨?_, ?_⟩⟩
      · simp only [rpcCall_deref, QueueOutgoing_deref, deref_store_self _ _ _ hp]
      · simp [deref_store, hq]
      · rw [hs] at h
        cases h
      · simp
      · simp
    · have hs2 : s.m_server = false := by simpa using hs
      have hd2 : s.m_dispatcher = true := hd hs2
      rw [if_neg hs]
      simp only [hd2, Bool.not_true, Bool.false_eq_true, if_false]
      refine ⟨_, rfl, ?_, fun q hq => ?_, fun _ => ?_, fun h => ?_⟩
      · simp only [rpcCall_deref, QueueOutgoing_deref, deref_store_self _ _ _ hp]
      · simp [deref_store, hq]
      · simp
      · exact absurd h hs

/-- Witness of C28: a client whose entry "foo" holds an RPC definition under
the id 0; the first call returns the call uid 1 and queues ExecuteRpc(0, 1,
params). -/
theorem C28_CallRpc_witness :
    (exClientRpc.deref 0).value = some (Value.MakeRpc [1] 0) ∧
    (exClientRpc.deref 0).rpc_call_uid = 0 ∧ exClientRpc.m_server = false ∧
    ∃ t, exClientRpc.CallRpc 0 [7] = some (t, 1) ∧
      (t.deref 0).rpc_call_uid = 1 ∧
      t.queued = [⟨Message.ExecuteRpc 0 1 [7], none, none⟩] := by
  obtain ⟨t, h1, h2, -, h4, -⟩ := ((C28_CallRpc exClientRpc 0 [7]).2 (Value.MakeRpc [1] 0)
    (by decide) (by decide) (by decide) (by decide) (by decide)).2
  exact ⟨by decide, by decide, by decide, t, h1, by rw [h2]; rfl, h4 (by decide)⟩

/-- C29 (GetRpcResult without waiting). With timeout zero the call always
returns. If the pair (local_id, call_uid) is already in the in-flight set
it returns false and changes neither the state nor the output arguments.
Otherwise it returns true exactly when the pending-results map holds a
result for the pair; that result is then handed to the caller, and without
one the caller's `result` is left as it was and the map is not changed.
In both of these cases the pair is afterwards in neither the in-flight set
(which is as before the call) nor the pending-results map, the results of
the other pairs are kept, and timed_out is false. -/
theorem C29_GetRpcResult_no_wait (s : Storage) (local_id call_uid : Nat) (result : Bytes)
    (timed_out : Bool) :
    ((local_id, call_uid) ∈ s.m_rpc_blocking_calls →
      s.GetRpcResult local_id call_uid result 0 timed_out
        = some (s, ⟨false, result, timed_out⟩)) ∧
    ((local_id, call_uid) ∉ s.m_rpc_blocking_calls →
      ∃ t r, s.GetRpcResult local_id call_uid result 0 timed_out = some (t, r) ∧
        (r.ret = true ↔ (s.m_rpc_results.lookup (local_id, call_uid)).isSome = true) ∧
        (∀ x, s.m_rpc_results.lookup (local_id, call_uid) = some x → r.result = x) ∧
        (s.m_rpc_results.lookup (local_id, call_uid) = none →
          r.result = result ∧ t.m_rpc_results = s.m_rpc_results) ∧
        (local_id, call_uid) ∉ t.m_rpc_blocking_calls ∧
        t.m_rpc_blocking_calls = s.m_rpc_blocking_calls ∧
        t.m_rpc_results.lookup (local_id, call_uid) = none ∧
        (∀ k, k ≠ (local_id, call_uid) →
          t.m_rpc_results.lookup k = s.m_rpc_results.lookup k) ∧
        t.m_localmap = s.m_localmap ∧
        r.timed_out = false) := by
  refine ⟨fun h => ?_, fun h => ?_⟩
  · unfold GetRpcResult
    simp [h]
  · unfold GetRpcResult
    simp only [if_neg h, set_rpc_blocking_calls_m_rpc_results,
      set_rpc_blocking_calls_m_rpc_blocking_calls, true_or, if_true,
      erase_inserted _ _ h]
    cases hl : s.m_rpc_results.lookup (local_id, call_uid) with
    | none =>
      refine ⟨_, _, rfl, ?_, ?_, ?_, ?_, rfl, ?_, ?_, rfl, rfl⟩
      · simp
      · intro x hx
        cases hx
      · intro _
        exact ⟨rfl, rfl⟩
      · exact h
      · exact hl
      · intro k _
        rfl
    | some x =>
      refine ⟨_, _, rfl, ?_, ?_, ?_, ?_, rfl, ?_, ?_, rfl, rfl⟩
      · simp
      · intro y hy
        cases hy
        rfl
      · intro hn
        cases hn
      · exact h
      · exact lookup_erased _ _
      · intro k hk
        exact lookup_kept _ _ hk _

/-- Witness of C29: a waiting call for the pair (0, 1) makes a second call
return false at once; without a waiting call the stored result [9] is
handed out and erased. -/
theorem C29_GetRpcResult_no_wait_witness :
    (0, 1) ∈ exRpcWaiting.m_rpc_blocking_calls ∧
    exRpcWaiting.GetRpcResult 0 1 [] 0 true = some (exRpcWaiting, ⟨false, [], true⟩) ∧
    (0, 1) ∉ exRpcAnswered.m_rpc_blocking_calls ∧
    exRpcAnswered.m_rpc_results.lookup (0, 1) = some [9] ∧
    ∃ t r, exRpcAnswered.GetRpcResult 0 1 [] 0 true = some (t, r) ∧
      r.ret = true ∧ r.result = [9] ∧ r.timed_out = false ∧
      t.m_rpc_results.lookup (0, 1) = none ∧ (0, 1) ∉ t.m_rpc_blocking_calls := by
  obtain ⟨t, r, h1, h2, h3, -, h5, -, h7, -, -, h10⟩ :=
    (C29_GetRpcResult_no_wait exRpcAnswered 0 1 [] true).2 (by decide)
  exact ⟨by decide, (C29_GetRpcResult_no_wait exRpcWaiting 0 1 [] true).1 (by decide),
    by decide, by decide, t, r, h1, h2.mpr (by decide), h3 [9] (by decide), h10, h7, h5⟩

/-- Counterexample to C30: the client table with a dispatcher whose entry
"foo" (local id 0) has no value and no id. CreateRpc(0, def, 5) stores the
RPC definition and the rpc_uid 5, and although the role is client it gives
the entry the network id 0, puts it into id_map, and queues
EntryAssign("foo", 0, 1, def, 0) with that id: the id does not stay 0xFFFF
and id_map does not stay unchanged. SetEntryValue, which tests the role,
leaves the id of the same entry at 0xFFFF and id_map empty on the client. -/
theorem C30_counterexample :
    exClientNew.m_server = false ∧ exClientNew.m_dispatcher = true ∧
    (exClientNew.deref 0).value = none ∧ (exClientNew.deref 0).id = 0xffff ∧
    exClientNew.m_idmap = [] ∧
    ((exClientNew.CreateRpc 0 [1] 5 0).deref 0).value = some (Value.MakeRpc [1] 0) ∧
    ((exClientNew.CreateRpc 0 [1] 5 0).deref 0).rpc_uid = 5 ∧
    ((exClientNew.CreateRpc 0 [1] 5 0).deref 0).id = 0 ∧
    (exClientNew.CreateRpc 0 [1] 5 0).m_idmap = [some 0] ∧
    (exClientNew.CreateRpc 0 [1] 5 0).queued
      = [⟨Message.EntryAssign exFoo 0 1 (some (Value.MakeRpc [1] 0)) 0, none, none⟩] ∧
    ((exClientNew.SetEntryValueId 0 (some exTrue)).1.deref 0).id = 0xffff ∧
    (exClientNew.SetEntryValueId 0 (some exTrue)).1.m_idmap = [] := by
  refine ⟨?_, ?_, ?_, ?_, ?_, ?_, ?_, ?_, ?_, ?_, ?_, ?_⟩ <;> decide

/-- C30 as amended (CreateRpc). CreateRpc(local_id, def, rpc_uid) on a valid
local_id stores the RPC-typed value made from def and the rpc_uid. When the
previous value equals the new definition, nothing is queued, and id_map, the
id and the seq_num of the entry stay as they were. When the entry had no
value or its previous value differs from the new definition: an entry
without an id gets the id that is the length of id_map and is appended to
id_map, in either role, and an entry with an id keeps it with id_map
unchanged; with a dispatcher attached the seq_num is incremented by one and
one message is queued to all connections with the entry's id and the new
seq_num, an EntryAssign when there was no previous value or the previous
value had another type and an EntryUpdate otherwise; without a dispatcher
nothing is queued and the seq_num stays. -/
theorem C30_CreateRpc (s : Storage) (p : Nat) (d : Bytes) (rpc_uid time : Nat)
    (hp : p < s.m_localmap.length) :
    -- the RPC definition and the rpc_uid are stored
    ((s.CreateRpc p d rpc_uid time).deref p).value = some (Value.MakeRpc d time) ∧
    ((s.CreateRpc p d rpc_uid time).deref p).rpc_uid = rpc_uid ∧
    -- the previous value equals the new definition: nothing else happens
    (∀ o, (s.deref p).value = some o → Value.eq o (Value.MakeRpc d time) = true →
      (s.CreateRpc p d rpc_uid time).queued = s.queued ∧
      (s.CreateRpc p d rpc_uid time).m_idmap = s.m_idmap ∧
      ((s.CreateRpc p d rpc_uid time).deref p).id = (s.deref p).id ∧
      ((s.CreateRpc p d rpc_uid time).deref p).seq_num = (s.deref p).seq_num) ∧
    -- no previous value, or another one
    ((∀ o, (s.deref p).value = some o → Value.eq o (Value.MakeRpc d time) = false) →
      -- an entry without an id gets one, in either role
      ((s.deref p).id = 0xffff →
        ((s.CreateRpc p d rpc_uid time).deref p).id = s.m_idmap.length ∧
        (s.CreateRpc p d rpc_uid time).m_idmap = s.m_idmap ++ [some p]) ∧
      ((s.deref p).id ≠ 0xffff →
        ((s.CreateRpc p d rpc_uid time).deref p).id = (s.deref p).id ∧
        (s.CreateRpc p d rpc_uid time).m_idmap = s.m_idmap) ∧
      -- with a dispatcher the change is sent with the incremented seq_num
      (s.m_dispatcher = true →
        ((s.CreateRpc p d rpc_uid time).deref p).seq_num = (s.deref p).seq_num.inc ∧
        (s.CreateRpc p d rpc_uid time).queued = s.queued ++
          [⟨if (s.deref p).value.all (fun o => decide (o.type ≠ .NT_RPC)) then
              Message.EntryAssign (s.deref p).name ((s.CreateRpc p d rpc_uid time).deref p).id
                (s.deref p).seq_num.inc.value (some (Value.MakeRpc d time)) (s.deref p).flags
            else
              Message.EntryUpdate ((s.CreateRpc p d rpc_uid time).deref p).id
                (s.deref p).seq_num.inc.value (some (Value.MakeRpc d time)), none, none⟩]) ∧
      (s.m_dispatcher = false →
        ((s.CreateRpc p d rpc_uid time).deref p).seq_num = (s.deref p).seq_num ∧
        (s.CreateRpc p d rpc_uid time).queued = s.queued)) := by
  have hge : ¬ p ≥ s.m_localmap.length := by omega
  have hty : (Value.MakeRpc d time).type = .NT_RPC := rfl
  refine ⟨?_, ?_, ?_, ?_⟩
  · unfold CreateRpc
    cases hold : (s.deref p).value <;>
      simp [hge, hp, hold, deref_store, apply_ite Entry.value]
  · unfold CreateRpc
    cases hold : (s.deref p).value <;>
      simp [hge, hp, hold, deref_store, apply_ite Entry.rpc_uid]
  · intro o ho he
    unfold CreateRpc
    simp [hge, hp, ho, he, deref_store]
  · intro hne
    have hsame : (match (s.deref p).value with
        | none => false
        | some o => Value.eq o (Value.MakeRpc d time)) = false := by
      cases hold : (s.deref p).value with
      | none => rfl
      | some o => exact hne o hold
    refine ⟨fun hi => ?_, fun hi => ?_, fun hd => ?_, fun hd => ?_⟩
    · unfold CreateRpc
      cases hold : (s.deref p).value with
      | none => cases hdd : s.m_dispatcher <;> simp [hge, hp, hold, hi, hdd, deref_store]
      | some o =>
        have := hne o hold
        cases hdd : s.m_dispatcher <;> by_cases hr : o.type = .NT_RPC <;>
          simp [hge, hp, hold, hi, hdd, this, hty, hr, deref_store]
    · unfold CreateRpc
      cases hold : (s.deref p).value with
      | none => cases hdd : s.m_dispatcher <;> simp [hge, hp, hold, hi, hdd, deref_store]
      | some o =>
        have := hne o hold
        cases hdd : s.m_dispatcher <;> by_cases hr : o.type = .NT_RPC <;>
          simp [hge, hp, hold, hi, hdd, this, hty, hr, deref_store]
    · unfold CreateRpc
      cases hold : (s.deref p).value with
      | none =>
        by_cases hi : (s.deref p).id = 0xffff <;>
          simp [hge, hp, hold, hi, hd, deref_store]
      | some o =>
        have := hne o hold
        by_cases hi : (s.deref p).id = 0xffff <;> by_cases hr : o.type = .NT_RPC <;>
          simp [hge, hp, hold, hi, hd, this, hty, hr, deref_store]
    · unfold CreateRpc
      cases hold : (s.deref p).value with
      | none =>
        by_cases hi : (s.deref p).id = 0xffff <;>
          simp [hge, hp, hold, hi, hd, deref_store]
      | some o =>
        have := hne o hold
        by_cases hi : (s.deref p).id = 0xffff <;>
          simp [hge, hp, hold, hi, hd, this, deref_store]

/-- Witness of C30 as amended. On the client `exClientNew`, whose entry foo
has no value and no id, CreateRpc(0, [1], 5) stores the definition and the
rpc_uid, gives the entry the id 0, appends it to id_map, and queues
EntryAssign("foo", 0, 1, def, 0). On `exClientRpc`, whose entry holds the
definition [1] under the id 0, CreateRpc(0, [2], 6) keeps the id and queues
EntryUpdate(0, 1, def), and CreateRpc(0, [1], 5) with the same definition
queues nothing. -/
theorem C30_CreateRpc_witness :
    exClientNew.m_server = false ∧ exClientNew.m_dispatcher = true ∧
    (exClientNew.deref 0).value = none ∧ (exClientNew.deref 0).id = 0xffff ∧
    ((exClientNew.CreateRpc 0 [1] 5 0).deref 0).value = some (Value.MakeRpc [1] 0) ∧
    ((exClientNew.CreateRpc 0 [1] 5 0).deref 0).rpc_uid = 5 ∧
    ((exClientNew.CreateRpc 0 [1] 5 0).deref 0).id = 0 ∧
    (exClientNew.CreateRpc 0 [1] 5 0).m_idmap = [some 0] ∧
    ((exClientNew.CreateRpc 0 [1] 5 0).deref 0).seq_num = ⟨1⟩ ∧
    (exClientNew.CreateRpc 0 [1] 5 0).queued
      = [⟨Message.EntryAssign exFoo 0 1 (some (Value.MakeRpc [1] 0)) 0, none, none⟩] ∧
    (exClientRpc.deref 0).value = some (Value.MakeRpc [1] 0) ∧ (exClientRpc.deref 0).id = 0 ∧
    ((exClientRpc.CreateRpc 0 [2] 6 0).deref 0).id = 0 ∧
    (exClientRpc.CreateRpc 0 [2] 6 0).m_idmap = [some 0] ∧
    (exClientRpc.CreateRpc 0 [2] 6 0).queued
      = [⟨Message.EntryUpdate 0 1 (some (Value.MakeRpc [2] 0)), none, none⟩] ∧
    (exClientRpc.CreateRpc 0 [1] 5 0).queued = [] ∧
    ((exClientRpc.CreateRpc 0 [1] 5 0).deref 0).rpc_uid = 5 := by
  obtain ⟨a1, a2, -, a4⟩ := C30_CreateRpc exClientNew 0 [1] 5 0 (by decide)
  obtain ⟨b1, -, b3, -⟩ := a4 (fun o ho => by
    have h0 : (exClientNew.deref 0).value = none := by decide
    rw [h0] at ho
    cases ho)
  obtain ⟨-, -, -, c4⟩ := C30_CreateRpc exClientRpc 0 [2] 6 0 (by decide)
  obtain ⟨-, d2, d3, -⟩ := c4 (fun o ho => by
    have h0 : (exClientRpc.deref 0).value = some (Value.MakeRpc [1] 0) := by decide
    rw [h0] at ho
    cases ho
    decide)
  obtain ⟨-, e2, e3, -⟩ := C30_CreateRpc exClientRpc 0 [1] 5 0 (by decide)
  exact ⟨by decide, by decide, by decide, by decide, a1, a2,
    (b1 (by decide)).1.trans (by decide), (b1 (by decide)).2.trans (by decide),
    (b3 (by decide)).1.trans (by decide), (b3 (by decide)).2.trans (by decide),
    by decide, by decide, (d2 (by decide)).1.trans (by decide),
    (d2 (by decide)).2.trans (by decide), (d3 (by decide)).2.trans (by decide),
    (e3 (Value.MakeRpc [1] 0) (by decide) (by decide)).1.trans (by decide), e2⟩

/-- C31 (the name map and the local map agree, and entries are never
removed). In every state `s` reached from the empty table by calls of the
user API, incoming messages, initial assignments and saves, in either role:
every pair (n, p) of the name map is the entry that the map finds for n,
the entry sits in the local map at index p, has the name n and the local
id p; the local ids of the name map are 0, 1, ..., one for each slot of the
local map, and no name occurs twice. Every further call that returns keeps
the pairs of the name map and the slots of the local map, with their names
and local ids, and only appends new ones. -/
theorem C31_views_agree (ops : List Op) (s : Storage)
    (h : ({} : Storage).run ops = some s) :
    (∀ n p, (n, p) ∈ s.m_entries →
      s.find n = some p ∧ p < s.m_localmap.length ∧
      (s.deref p).name = n ∧ (s.deref p).local_id = p) ∧
    s.m_entries.map Prod.snd = List.range s.m_localmap.length ∧
    s.m_entries.length = s.m_localmap.length ∧
    (s.m_entries.map Prod.fst).Nodup ∧
    (∀ op t, s.step op = some t →
      (∃ es, t.m_entries = s.m_entries ++ es) ∧
      s.m_localmap.length ≤ t.m_localmap.length ∧
      ∀ p, p < s.m_localmap.length →
        (t.deref p).name = (s.deref p).name ∧
        (t.deref p).local_id = (s.deref p).local_id) := by
  have hT : Tidy s := Tidy_of_run ops s h
  have hlen : s.m_entries.length = s.m_localmap.length := by
    have := congrArg List.length hT.pointers
    simpa using this
  refine ⟨fun n p hm => ?_, hT.pointers, hlen, hT.names, fun op t hst => ?_⟩
  · have hf : s.find n = some p := lookup_of_mem_nodup hT.names hm
    exact ⟨hf, hT.wf.lt hf, hT.wf.name hf, hT.wf.local_id hf⟩
  · have hE : Ext s t := (step_grows s t op hst).toGood.1
    refine ⟨hE.1, hE.length, fun p hp => ?_⟩
    have hk := keys_getElem (hE.getKey (hT.keyAt hp))
    have h1 : (t.deref p).name = (s.deref p).name := congrArg Prod.fst hk.2
    have h2 : (t.deref p).local_id = p := congrArg Prod.snd hk.2
    have h3 : (s.deref p).local_id = p := hT.wf.local_id (hT.find_name hp)
    exact ⟨h1, h2.trans h3.symm⟩

/-- Witness of C31: the table after a short session of a server with the
entries foo and bar; deleting bar afterwards keeps both entries. -/
theorem C31_views_agree_witness :
    ({} : Storage).run exSession = some exSessionEnd ∧
    exSessionEnd.m_entries = [(exFoo, 0), (exBar, 1)] ∧
    exSessionEnd.m_localmap.length = 2 ∧
    (exSessionEnd.deref 1).name = exBar ∧ (exSessionEnd.deref 1).local_id = 1 ∧
    ∃ es, (exSessionEnd.DeleteEntry exBar).m_entries = exSessionEnd.m_entries ++ es :=
  ⟨by decide, by decide, by decide,
    ((C31_views_agree exSession exSessionEnd (by decide)).1 exBar 1 (by decide)).2.2.1,
    ((C31_views_agree exSession exSessionEnd (by decide)).1 exBar 1 (by decide)).2.2.2,
    ((C31_views_agree exSession exSessionEnd (by decide)).2.2.2.2 (.DeleteEntry exBar)
      (exSessionEnd.DeleteEntry exBar) rfl).1⟩


/-- Counterexample to C32: a client receives EntryAssign("foo", id 0) and
then EntryAssign("foo", id 1). The second message gives the entry of foo the
id 1 and enters it in the slot 1, and the slot 0 still refers to it: a
non-empty slot refers to an entry whose id is not the number of the slot. -/
theorem C32_counterexample :
    ({} : Storage).run exReuse = some exReused ∧ exReused.m_server = false ∧
    exReused.m_idmap = [some 0, some 0] ∧
    exReused.idEntry 0 = some 0 ∧ (exReused.deref 0).id = 1 := by
  refine ⟨?_, ?_, ?_, ?_, ?_⟩ <;> decide

/-- C32 as amended (the id map and the ids agree under fair calls). Let a
table start empty and reach the state `t` by a run of calls, in either role
and with changes of the role, that is fair: the id map never has more than
0xFFFF slots, the ids of the incoming messages are 16-bit numbers, no
EntryAssign on a client whose id is not in the id map names an entry that
has an id (a name is not given a second id; an id may be used again), and
the EntryAssigns of one ApplyInitialAssignments call on a client have
pairwise different names and pairwise different ids. Then every non-empty
slot id_map[i] refers to an entry of the table whose id equals i, and every
entry whose id is not 0xFFFF satisfies id_map[id] = that entry. -/
theorem C32_id_map_agrees (ops : List Op) (t : Storage)
    (h : ({} : Storage).run ops = some t) (hf : fairRun {} ops) :
    (∀ i p, t.idEntry i = some p → (t.deref p).id = i ∧ p < t.m_localmap.length) ∧
    (∀ p, (t.deref p).id ≠ 0xffff → t.idEntry (t.deref p).id = some p) := by
  have hl := run_linked ops {} t Tidy_init Linked_init hf h
  refine ⟨fun i p hs => ⟨hl.1 i p hs, ?_⟩, hl.2.1⟩
  by_contra hp
  have h1 : (t.deref p).id ≠ 0xffff := hl.slot_id hs
  rw [deref_of_ge t p (Nat.le_of_not_lt hp)] at h1
  exact h1 rfl

/-- Witness of C32 as amended: a client receives EntryAssign("foo", id 0)
and EntryAssign("bar", id 1); the slots 0 and 1 refer to the entries of foo
and bar, which have the ids 0 and 1. -/
theorem C32_id_map_agrees_witness :
    ({} : Storage).run exAssignTwo = some exAssignedTwo ∧ fairRun {} exAssignTwo ∧
    exAssignedTwo.m_idmap = [some 0, some 1] ∧
    (exAssignedTwo.deref 1).id = 1 ∧ 1 < exAssignedTwo.m_localmap.length ∧
    exAssignedTwo.idEntry (exAssignedTwo.deref 0).id = some 0 :=
  ⟨by decide, by decide, by decide,
    ((C32_id_map_agrees exAssignTwo exAssignedTwo (by decide) (by decide)).1 1 1
      (by decide)).1,
    ((C32_id_map_agrees exAssignTwo exAssignedTwo (by decide) (by decide)).1 1 1
      (by decide)).2,
    (C32_id_map_agrees exAssignTwo exAssignedTwo (by decide) (by decide)).2 0 (by decide)⟩


/-- Counterexample to C33: a server, starting from the empty table, writes
and deletes foo 0xFFFF times and then writes foo = true once more. Each
write gives foo the length of the id map as its id, so the last write gives
it the id 0xFFFF: the entry has a value and the id 0xFFFF. -/
theorem C33_counterexample :
    (∀ op ∈ exExhaust, op.serves) ∧
    ∃ t, ({} : Storage).run exExhaust = some t ∧ t.m_server = true ∧
      (t.deref 0).value = some exTrue ∧ (t.deref 0).id = 0xffff := by
  constructor
  · intro op h
    unfold exExhaust at h
    rcases List.mem_append.mp h with h | h
    · exact exCycles_serves _ op h
    · rw [List.mem_singleton] at h
      rw [h]
      exact trivial
  · have h1 : ({} : Storage).run (exCycles 1) = some exCycled := by decide
    obtain ⟨u, hu, hus, huT, huf, hui, hul⟩ := cycles_foo 0xfffe exCycled (by decide)
      ⟨by decide, by decide, by decide⟩ (by decide) (by decide)
    have hlen : u.m_idmap.length = 0xffff := by
      rw [hul]
      have : exCycled.m_idmap.length = 1 := by decide
      rw [this]
    obtain ⟨t, ht, hts, -, -, htv, hti, -⟩ := write_foo u hus huT huf hui
    refine ⟨t, ?_, hts, htv, hti.trans hlen⟩
    have e : exCycles 0xffff = exCycles 1 ++ exCycles 0xfffe := exCycles_succ 0xfffe
    unfold exExhaust
    rw [e, run_append, run_append, h1, Option.some_bind, hu, Option.some_bind]
    show (u.step (Op.SetEntryTypeValue exFoo (some exTrue))).bind (fun t => t.run []) = some t
    rw [ht]
    rfl

/-- C33 as amended (a server assigns an id to every value, while ids
last). Let a table start empty and stay a server, let the calls `ops` (user
operations, incoming messages, and the rest) all return, and let the id map
hold at most 0xFFFF slots afterwards, that is, let at most 0xFFFF ids have
been assigned. Then the table is a server, and every entry that has a value
has an id other than 0xFFFF, under which the id map refers to it. -/
theorem C33_server_values_assigned (ops : List Op) (t : Storage)
    (hops : ∀ op ∈ ops, op.serves) (h : ({} : Storage).run ops = some t)
    (hb : t.m_idmap.length ≤ 0xffff) :
    t.m_server = true ∧
    ∀ p, (t.deref p).value.isSome = true →
      (t.deref p).id ≠ 0xffff ∧ t.idEntry (t.deref p).id = some p := by
  obtain ⟨hl, ha⟩ := run_assigned ops hops {} t Tidy_init rfl Linked_init Assigned_init h hb
  refine ⟨(run_server ops hops {} t Tidy_init rfl h).1, fun p hp => ?_⟩
  have h1 : (t.deref p).id ≠ 0xffff := ha p hp
  exact ⟨h1, hl.2.1 p h1⟩

/-- Witness of C33 as amended: a server writes foo = true and bar = 0.0,
and deletes foo; bar has a value and the id 1. -/
theorem C33_server_values_assigned_witness :
    (∀ op ∈ exSession, op.serves) ∧ ({} : Storage).run exSession = some exSessionEnd ∧
    exSessionEnd.m_idmap.length ≤ 0xffff ∧
    (exSessionEnd.deref 1).value = some exDouble ∧
    (exSessionEnd.deref 1).id ≠ 0xffff ∧ exSessionEnd.idEntry 1 = some 1 :=
  ⟨by decide, by decide, by decide, by decide,
    ((C33_server_values_assigned exSession exSessionEnd (by decide) (by decide)
      (by decide)).2 1 (by decide)).1,
    ((C33_server_values_assigned exSession exSessionEnd (by decide) (by decide)
      (by decide)).2 1 (by decide)).2⟩


/-- Counterexample to C34: foo = true is PERSISTENT and the table has just
been saved, so persistent_dirty is false. An incoming EntryUpdate with a
newer sequence number and the value that foo has sets persistent_dirty,
although no value, no flags and no existence of an entry have changed. And
SetEntryFlags("foo", 3) changes the flags of the PERSISTENT entry foo and
leaves persistent_dirty false. -/
theorem C34_counterexample :
    ({} : Storage).run exKept = some exKeptEnd ∧
    exKeptEnd.m_persistent_dirty = false ∧
    (exKeptEnd.deref 0).IsPersistent = true ∧
    exKeptEnd.step exEcho = some exEchoed ∧
    exEchoed.m_persistent_dirty = true ∧
    exEchoed.m_localmap.map (fun e => (e.value, e.flags))
      = exKeptEnd.m_localmap.map (fun e => (e.value, e.flags)) ∧
    exKeptEnd.step (.SetEntryFlags exFoo 3) = some exReflagged ∧
    (exReflagged.deref 0).flags ≠ (exKeptEnd.deref 0).flags ∧
    exReflagged.m_persistent_dirty = false := by
  refine ⟨?_, ?_, ?_, ?_, ?_, ?_, ?_, ?_, ?_⟩ <;> decide

/-- C34 as amended (persistent_dirty and the changes since the last save).
Let the state `t` be reached from the empty table by calls that return
(user operations, incoming messages, initial assignments, CreateRpc, CallRpc
and saves, to a stream or to a file whose system calls may fail). A save
collects the persistent entries when it is not periodic or the table is
dirty, except that a periodic save to a file which ends in an error sets
persistent_dirty again and counts as no save. If persistent_dirty is true in `t`, then some call of the run,
after which no save collected the persistent entries, changed the value
(or the existence), the flags or the sequence number of an entry that is
PERSISTENT before or after the change. And persistent_dirty is true in `t`
whenever some call of the run, after which no save collected the persistent
entries, changed what a save writes (an entry with a value and the
PERSISTENT flag appeared, disappeared or got other contents), the call being
none of CreateRpc, initial assignments on a client, an EntryAssign that gives
a client a new entry, and an EntryAssign that asks a server for an id for an
entry that has a value and no id. -/
theorem C34_persistent_dirty (ops : List Op) (t : Storage)
    (h : ({} : Storage).run ops = some t) :
    (t.m_persistent_dirty = true →
      ∃ pre op post u v, ops = pre ++ op :: post ∧ ({} : Storage).run pre = some u ∧
        u.step op = some v ∧ v.run post = some t ∧ touches u v ∧ uncollected v post) ∧
    (∀ pre op post u v, ops = pre ++ op :: post → ({} : Storage).run pre = some u →
      u.step op = some v → v.run post = some t → marking u op → resaves u v →
      uncollected v post → t.m_persistent_dirty = true) := by
  refine ⟨fun hd => ?_, fun pre op post u v _ hu hs hr hm hres hun => ?_⟩
  · rcases run_raised ops {} t Tidy_init Bounded_init h hd with ⟨h1, -⟩ | h1
    · cases h1
    · exact h1
  · have hTu : Tidy u := Tidy_of_run pre u hu
    have hbu : Bounded u := run_bounded pre {} u Tidy_init Bounded_init hu
    have hv : v.m_persistent_dirty = true :=
      dirty_of_tracked (step_tracked u v op hTu hbu hm hs) hres
    exact run_kept post v t (step_tidy u v op hTu hs) (step_bounded u v op hTu hbu hs) hun hr hv

/-- Witness of C34 as amended: in the session `exSession` the call
SetEntryFlags("bar", PERSISTENT) changes what a save writes and no save
follows, and persistent_dirty is true at the end. It is still true when a
periodic save to a file that cannot be opened follows (`exFailedSave`), and
it is false after a periodic save to a file that succeeds (`exFileSave`). -/
theorem C34_persistent_dirty_witness :
    ({} : Storage).run exSession = some exSessionEnd ∧
    exSession = exSession.take 3 ++ Op.SetEntryFlags exBar NT_PERSISTENT :: [.DeleteEntry exFoo] ∧
    ({} : Storage).run (exSession.take 3) = some exBeforeFlag ∧
    exBeforeFlag.step (.SetEntryFlags exBar NT_PERSISTENT) = some exAfterFlag ∧
    exAfterFlag.run [.DeleteEntry exFoo] = some exSessionEnd ∧
    marking exBeforeFlag (.SetEntryFlags exBar NT_PERSISTENT) ∧
    (exAfterFlag.deref 1).saved ≠ (exBeforeFlag.deref 1).saved ∧
    uncollected exAfterFlag [.DeleteEntry exFoo] ∧
    exSessionEnd.m_persistent_dirty = true ∧
    (∃ pre op post u v, exSession = pre ++ op :: post ∧ ({} : Storage).run pre = some u ∧
      u.step op = some v ∧ v.run post = some exSessionEnd ∧ touches u v ∧
      uncollected v post) ∧
    ({} : Storage).run exFailedSave = some exFailedSaveEnd ∧
    uncollected exAfterFlag
      [.DeleteEntry exFoo, .SavePersistentFile ⟨true, false, false⟩ true] ∧
    exFailedSaveEnd.m_persistent_dirty = true ∧
    ({} : Storage).run exFileSave = some exFileSaveEnd ∧
    ¬ uncollected exAfterFlag
      [.DeleteEntry exFoo, .SavePersistentFile ⟨false, false, false⟩ true] ∧
    exFileSaveEnd.m_persistent_dirty = false :=
  ⟨by decide, by decide, by decide, by decide, by decide, by decide, by decide, by decide,
    (C34_persistent_dirty exSession exSessionEnd (by decide)).2 (exSession.take 3)
      (.SetEntryFlags exBar NT_PERSISTENT) [.DeleteEntry exFoo] exBeforeFlag exAfterFlag
      (by decide) (by decide) (by decide) (by decide) (by decide) ⟨1, by decide⟩ (by decide),
    (C34_persistent_dirty exSession exSessionEnd (by decide)).1 (by decide),
    by decide, by decide,
    (C34_persistent_dirty exFailedSave exFailedSaveEnd (by decide)).2 (exSession.take 3)
      (.SetEntryFlags exBar NT_PERSISTENT)
      [.DeleteEntry exFoo, .SavePersistentFile ⟨true, false, false⟩ true] exBeforeFlag
      exAfterFlag (by decide) (by decide) (by decide) (by decide) (by decide) ⟨1, by decide⟩
      (by decide),
    by decide, by decide, by decide⟩

/-- Counterexample to C35: the client holds foo = true at sequence number 1,
assigned by the server, and ApplyInitialAssignments applies
EntryAssign("foo", id 0, seq 0, true). The received number 0 is older than
1, yet the entry ends at sequence number 0: its seq_num has become older.
The same happens to the entry foo that a server has deleted at the sequence
number 1 when the request EntryAssign("foo", 0xFFFF, seq 0, true) comes in,
and to the entry foo that a client has deleted at the sequence number 1 on
the server's word when EntryAssign("foo", id 0, seq 0, true) comes in. -/
theorem C35_counterexample :
    exRemoteFoo.m_server = false ∧
    (exRemoteFoo.deref 0).value = some exTrue ∧ (exRemoteFoo.deref 0).seq_num = ⟨1⟩ ∧
    SequenceNumber.lt ⟨0⟩ ⟨1⟩ = true ∧
    exRemoteFoo.ApplyInitialAssignments exConn
      [Message.EntryAssign exFoo 0 0 (some exTrue) 0] = some exResynced ∧
    (exResynced.1.deref 0).seq_num = ⟨0⟩ ∧
    SequenceNumber.lt (exResynced.1.deref 0).seq_num (exRemoteFoo.deref 0).seq_num = true ∧
    exServerGone.m_server = true ∧ exServerGone.find exFoo = some 0 ∧
    (exServerGone.deref 0).seq_num = ⟨1⟩ ∧
    exServerGone.ProcessIncoming (Message.EntryAssign exFoo 0xffff 0 (some exTrue) 0) exConn
      none = some exServerGoneAsked ∧
    (exServerGoneAsked.deref 0).seq_num = ⟨0⟩ ∧
    SequenceNumber.lt (exServerGoneAsked.deref 0).seq_num (exServerGone.deref 0).seq_num
      = true ∧
    exClientGone.m_server = false ∧ exClientGone.find exFoo = some 0 ∧
    (exClientGone.deref 0).seq_num = ⟨1⟩ ∧
    exClientGone.ProcessIncoming (Message.EntryAssign exFoo 0 0 (some exTrue) 0) exConn
      none = some exClientGoneAssigned ∧
    (exClientGoneAssigned.deref 0).seq_num = ⟨0⟩ ∧
    SequenceNumber.lt (exClientGoneAssigned.deref 0).seq_num (exClientGone.deref 0).seq_num
      = true := by
  refine ⟨?_, ?_, ?_, ?_, ?_, ?_, ?_, ?_, ?_, ?_, ?_, ?_, ?_, ?_, ?_, ?_, ?_, ?_, ?_⟩ <;>
    decide

/-- C35 as amended (sequence numbers of remote changes), in six parts; the
received number is the sequence number of the message, and older is meant
wrap-aware.
(1) An incoming EntryUpdate is processed. For the entry of the table that
id_map assigns to its id, the seq_num after processing is the received
number unless the received number is older than or equal to the seq_num
before, and is otherwise unchanged; it is not older than before. The seq_num
of every other entry is unchanged.
(2) For an incoming EntryAssign with an id other than 0xFFFF that id_map
assigns to an entry of the table, the processing returns when the entry and
the message have values, and whenever it returns the seq_num of the entry is
the received number unless the received number is older than the seq_num
before or the name of the message is not the name of the entry, and is
otherwise unchanged; it is not older than before.
(3) An incoming EntryAssign with the id 0xFFFF on a server with a
well-formed name map is processed; the seq_num of the entry of its name is
unchanged when that entry has an id, and is otherwise the received number,
whatever it was before.
(4) For an incoming EntryAssign on a client with a well-formed name map,
with an id other than 0xFFFF that id_map assigns to no entry, the processing
returns when the entry of its name has no value, or a dispatcher is attached
and the message has a value; whenever it returns, the seq_num of the entry
of its name is the received number, whatever it was before, when the entry
had no value, and when it had a value it is the received number unless the
received number is older than the seq_num before, and is otherwise
unchanged.
(5) An incoming EntryAssign with an id other than 0xFFFF that id_map assigns
to no entry on a server, or with the id 0xFFFF on a client, leaves the state
unchanged.
(6) For an EntryAssign with an id other than 0xFFFF applied by
ApplyInitialAssignments on a client whose three views agree, no later
assignment of the call having its name, the call returns when a dispatcher
is attached, and whenever it returns the name map finds the entry of the
name and its seq_num is the received number, whatever it was before, or the
successor of the received number when the entry has, at the time the
assignment is applied, a locally written value without the PERSISTENT flag
(this value is kept). -/
theorem C35_remote_seq (s : Storage) (msg : Message) (conn : INetworkConnection)
    (cw : Option INetworkConnection) :
    (msg.type = .kEntryUpdate →
      ∃ t, s.ProcessIncoming msg conn cw = some t ∧
        (∀ p, s.idEntry msg.id = some p → p < s.m_localmap.length →
          (t.deref p).seq_num =
            (if SequenceNumber.le ⟨msg.seq_num_uid⟩ (s.deref p).seq_num = true
              then (s.deref p).seq_num else ⟨msg.seq_num_uid⟩) ∧
          SequenceNumber.lt (t.deref p).seq_num (s.deref p).seq_num = false) ∧
        (∀ q, s.idEntry msg.id ≠ some q → (t.deref q).seq_num = (s.deref q).seq_num)) ∧
    (msg.type = .kEntryAssign → msg.id ≠ 0xffff →
      ∀ p, s.idEntry msg.id = some p → p < s.m_localmap.length →
        ((s.deref p).value.isSome = true → msg.value.isSome = true →
          ∃ t, s.ProcessIncoming msg conn cw = some t) ∧
        (∀ t, s.ProcessIncoming msg conn cw = some t →
          (t.deref p).seq_num =
            (if SequenceNumber.lt ⟨msg.seq_num_uid⟩ (s.deref p).seq_num = true ∨
                msg.str ≠ (s.deref p).name
              then (s.deref p).seq_num else ⟨msg.seq_num_uid⟩) ∧
          SequenceNumber.lt (t.deref p).seq_num (s.deref p).seq_num = false)) ∧
    (msg.type = .kEntryAssign → msg.id = 0xffff → s.m_server = true → WF s →
      ∀ r, r = s.GetOrNew msg.str →
      ∃ t, s.ProcessIncoming msg conn cw = some t ∧
        (t.deref r.2).seq_num =
          if (r.1.deref r.2).id ≠ 0xffff then (r.1.deref r.2).seq_num
          else ⟨msg.seq_num_uid⟩) ∧
    (msg.type = .kEntryAssign → msg.id ≠ 0xffff → s.m_server = false →
      s.idEntry msg.id = none → WF s →
      ∀ r, r = s.GetOrNew msg.str →
        (((r.1.deref r.2).value = none ∨ (s.m_dispatcher = true ∧ msg.value.isSome = true)) →
          ∃ t, s.ProcessIncoming msg conn cw = some t) ∧
        (∀ t, s.ProcessIncoming msg conn cw = some t →
          (t.deref r.2).seq_num =
            if (r.1.deref r.2).value.isSome = true ∧
                SequenceNumber.lt ⟨msg.seq_num_uid⟩ (r.1.deref r.2).seq_num = true
              then (r.1.deref r.2).seq_num else ⟨msg.seq_num_uid⟩)) ∧
    (msg.type = .kEntryAssign →
      (s.m_server = true ∧ msg.id ≠ 0xffff ∧ s.idEntry msg.id = none) ∨
        (s.m_server = false ∧ msg.id = 0xffff) →
      s.ProcessIncoming msg conn cw = some s) ∧
    (msg.type = .kEntryAssign → msg.id ≠ 0xffff → s.m_server = false → Tidy s →
      ∀ (pre post : List Message) (r : Storage × Nat),
        (∀ x ∈ post, x.assigns → x.str ≠ msg.str) →
        r = (s.applied conn pre).1.GetOrNew msg.str →
        (s.m_dispatcher = true →
          ∃ res, s.ApplyInitialAssignments conn (pre ++ msg :: post) = some res) ∧
        (∀ t out, s.ApplyInitialAssignments conn (pre ++ msg :: post) = some (t, out) →
          t.find msg.str = some r.2 ∧
          (t.deref r.2).seq_num =
            if ((r.1.deref r.2).value.isSome && (r.1.deref r.2).local_write &&
                !(r.1.deref r.2).IsPersistent) = true
              then SequenceNumber.inc ⟨msg.seq_num_uid⟩ else ⟨msg.seq_num_uid⟩)) := by
  refine ⟨fun ht => ?_, fun ht hid p hslot hp => ?_, fun ht hid hs hwf r hr => ?_,
    fun ht hid hs hslot hwf r hr => ?_, fun ht hc => ?_,
    fun ht hid hs hT pre post r hpost hr => ?_⟩
  · refine ⟨_, ProcessIncoming_EntryUpdate s msg conn cw ht, fun p hslot hp =>
      ⟨ProcessIncomingEntryUpdate_seq s msg conn p hslot hp, ?_⟩, fun q hq => by
        rw [ProcessIncomingEntryUpdate_others s msg conn q hq]⟩
    rw [ProcessIncomingEntryUpdate_seq s msg conn p hslot hp]
    split
    · exact SequenceNumber.lt_self _
    · rename_i h
      exact SequenceNumber.not_lt_of_not_le h
  · have hlt := lt_of_idEntry hslot
    have hE : s.ProcessIncoming msg conn cw = s.EntryAssignCommon msg conn p false := by
      rw [ProcessIncoming_EntryAssign _ _ _ _ ht]
      unfold ProcessIncomingEntryAssign
      cases hsrv : s.m_server
      · simp only [Bool.false_eq_true, if_false, hid, ge_iff_le, Nat.not_le.mpr hlt, hslot]
      · simp only [if_true, hid, if_false, hslot]
    rw [hE]
    refine ⟨fun hval hv => EntryAssignCommon_returns s msg conn p false hp hval hv
      (fun h => by cases h), fun t h => ?_⟩
    have h2 := EntryAssignCommon_seqs s msg conn p false hp t h
    refine ⟨h2, ?_⟩
    rw [h2]
    split
    · exact SequenceNumber.lt_self _
    · rename_i h
      simpa using fun hh => h (Or.inl hh)
  · subst hr
    rw [ProcessIncoming_EntryAssign _ _ _ _ ht]
    unfold ProcessIncomingEntryAssign
    simp only [hs, if_true, hid]
    have hp := GetOrNew_ptr_lt s hwf msg.str
    by_cases hi : ((s.GetOrNew msg.str).1.deref (s.GetOrNew msg.str).2).id ≠ 0xffff
    · rw [if_pos hi, if_pos hi]
      exact ⟨_, rfl, rfl⟩
    · rw [if_neg hi, if_neg hi]
      refine ⟨_, rfl, ?_⟩
      rw [SetEntryValueImpl_remote_seq, deref_store_self _ _ _ hp]
  · subst hr
    rw [ProcessIncoming_EntryAssign _ _ _ _ ht]
    exact ProcessIncomingEntryAssign_client_seq s msg conn hid hs hslot hwf
  · rw [ProcessIncoming_EntryAssign _ _ _ _ ht]
    unfold ProcessIncomingEntryAssign
    rcases hc with ⟨h1, h2, h3⟩ | ⟨h1, h2⟩
    · simp only [h1, if_true, h2, if_false, h3]
    · simp only [h1, Bool.false_eq_true, if_false, h2, if_true]
  · subst hr
    refine ⟨fun hd => ApplyInitialAssignments_returns s conn _ hd, fun t out hres => ?_⟩
    refine ⟨ApplyInitialAssignments_last_find s conn pre post msg hs ⟨ht, hid⟩ t out hres, ?_⟩
    rw [ApplyInitialAssignments_last_seq s conn pre post msg hs hT ⟨ht, hid⟩ hpost t out hres,
      assigned_seq]

/-- Witness of C35 as amended. The client `exRemoteFoo` holds foo = true at
sequence number 1 under the id 0: EntryUpdate(0, 5, false) and
EntryAssign("foo", 0, 5, false) set the seq_num to 5 and EntryUpdate(0, 1,
false) leaves it at 1. The request EntryAssign("foo", 0xFFFF, 0, true) sets
the seq_num of the deleted server entry from 1 to 0, and
EntryAssign("foo", 0, 0, true) does so for the deleted client entry. The
client `exClientFoo` with the locally written foo = true at 1 and no id
takes the number 5 of EntryAssign("foo", 0, 5, false) and ignores
EntryAssign("foo", 0xFFFF, 5, false). Of the initial assignments for bar,
foo and baz the one for foo (seq 5) leaves the locally written foo at 6, and
of the two initial assignments for foo the second (seq 7) leaves it at 8. -/
theorem C35_remote_seq_witness :
    exRemoteFoo.idEntry 0 = some 0 ∧ (exRemoteFoo.deref 0).seq_num = ⟨1⟩ ∧
    (∃ t, exRemoteFoo.ProcessIncoming (Message.EntryUpdate 0 5 (some exFalse)) exConn none
        = some t ∧ (t.deref 0).seq_num = ⟨5⟩) ∧
    (∃ t, exRemoteFoo.ProcessIncoming (Message.EntryUpdate 0 1 (some exFalse)) exConn none
        = some t ∧ (t.deref 0).seq_num = ⟨1⟩) ∧
    (∃ t, exRemoteFoo.ProcessIncoming (Message.EntryAssign exFoo 0 5 (some exFalse) 0) exConn
        none = some t ∧ (t.deref 0).seq_num = ⟨5⟩) ∧
    (exServerGone.deref 0).seq_num = ⟨1⟩ ∧
    (∃ t, exServerGone.ProcessIncoming (Message.EntryAssign exFoo 0xffff 0 (some exTrue) 0)
        exConn none = some t ∧ (t.deref 0).seq_num = ⟨0⟩) ∧
    (exClientGone.deref 0).seq_num = ⟨1⟩ ∧
    (∃ t, exClientGone.ProcessIncoming (Message.EntryAssign exFoo 0 0 (some exTrue) 0) exConn
        none = some t ∧ (t.deref 0).seq_num = ⟨0⟩) ∧
    (exClientFoo.deref 0).seq_num = ⟨1⟩ ∧
    (∃ t, exClientFoo.ProcessIncoming (Message.EntryAssign exFoo 0 5 (some exFalse) 0) exConn
        none = some t ∧ (t.deref 0).seq_num = ⟨5⟩) ∧
    exClientFoo.ProcessIncoming (Message.EntryAssign exFoo 0xffff 5 (some exFalse) 0) exConn
      none = some exClientFoo ∧
    exReconnect.ApplyInitialAssignments exConn exAssignThree = some exReconciledThree ∧
    (exReconciledThree.1.find exFoo = some 0 ∧ (exReconciledThree.1.deref 0).seq_num = ⟨6⟩) ∧
    exReconnect.ApplyInitialAssignments exConn exAssignTwice = some exReconciledTwice ∧
    (exReconciledTwice.1.find exFoo = some 0 ∧ (exReconciledTwice.1.deref 0).seq_num = ⟨8⟩) := by
  obtain ⟨t1, a1, a2, -⟩ := (C35_remote_seq exRemoteFoo (Message.EntryUpdate 0 5 (some exFalse))
    exConn none).1 rfl
  obtain ⟨t2, b1, b2, -⟩ := (C35_remote_seq exRemoteFoo (Message.EntryUpdate 0 1 (some exFalse))
    exConn none).1 rfl
  have c := (C35_remote_seq exRemoteFoo (Message.EntryAssign exFoo 0 5 (some exFalse) 0) exConn
    none).2.1 rfl (by decide) 0 (by decide) (by decide)
  obtain ⟨t3, c1⟩ := c.1 (by decide) (by decide)
  obtain ⟨t4, d1, d2⟩ := (C35_remote_seq exServerGone
    (Message.EntryAssign exFoo 0xffff 0 (some exTrue) 0) exConn none).2.2.1 rfl rfl (by decide)
    (Tidy.wf ⟨by decide, by decide, by decide⟩) (exServerGone.GetOrNew exFoo) rfl
  have e := (C35_remote_seq exClientGone (Message.EntryAssign exFoo 0 0 (some exTrue) 0) exConn
    none).2.2.2.1 rfl (by decide) (by decide) (by decide)
    (Tidy.wf ⟨by decide, by decide, by decide⟩) (exClientGone.GetOrNew exFoo) rfl
  obtain ⟨t5, e1⟩ := e.1 (Or.inl (by decide))
  have f := (C35_remote_seq exClientFoo (Message.EntryAssign exFoo 0 5 (some exFalse) 0) exConn
    none).2.2.2.1 rfl (by decide) (by decide) (by decide)
    (Tidy.wf ⟨by decide, by decide, by decide⟩) (exClientFoo.GetOrNew exFoo) rfl
  obtain ⟨t6, f1⟩ := f.1 (Or.inr ⟨by decide, by decide⟩)
  have g := (C35_remote_seq exClientFoo (Message.EntryAssign exFoo 0xffff 5 (some exFalse) 0)
    exConn none).2.2.2.2.1 rfl (Or.inr ⟨by decide, by decide⟩)
  have h := ((C35_remote_seq exReconnect (Message.EntryAssign exFoo 0 5 (some exFalse) 0) exConn
    none).2.2.2.2.2 rfl (by decide) (by decide) ⟨by decide, by decide, by decide⟩
    [Message.EntryAssign exBar 1 3 (some exFalse) NT_PERSISTENT]
    [Message.EntryAssign exBaz 2 0 (some exTrue) 0] _ (by decide) rfl).2
    exReconciledThree.1 exReconciledThree.2 (by decide)
  have k := ((C35_remote_seq exReconnect (Message.EntryAssign exFoo 1 7 (some exFalse) 0) exConn
    none).2.2.2.2.2 rfl (by decide) (by decide) ⟨by decide, by decide, by decide⟩
    [Message.EntryAssign exFoo 0 5 (some exFalse) 0] [] _ (by decide) rfl).2
    exReconciledTwice.1 exReconciledTwice.2 (by decide)
  exact ⟨by decide, by decide, ⟨t1, a1, (a2 0 (by decide) (by decide)).1.trans (by decide)⟩,
    ⟨t2, b1, (b2 0 (by decide) (by decide)).1.trans (by decide)⟩,
    ⟨t3, c1, (c.2 t3 c1).1.trans (by decide)⟩, by decide, ⟨t4, d1, d2.trans (by decide)⟩,
    by decide, ⟨t5, e1, (e.2 t5 e1).trans (by decide)⟩, by decide,
    ⟨t6, f1, (f.2 t6 f1).trans (by decide)⟩, g, by decide, ⟨h.1, h.2.trans (by decide)⟩,
    by decide, ⟨k.1, k.2.trans (by decide)⟩⟩


/-- C36 (the client insists on its flags). Let the table be a client with a
dispatcher, and let an incoming EntryAssign with a value and an id other
than 0xFFFF, whose id_map slot is empty, name an entry that already holds a
value. The message is processed, the entry is given the id and entered in
the slot, and the messages queued are those of `insisted`: first
FlagsUpdate(id, entry.flags) with the flags the entry had, if the flags of
the message differ from them, and then EntryUpdate(id, entry.seq_num,
entry.value) if the sequence number of the message is older than that of the
entry. In every case the flags of the entry stay as they were, and in the
older case the value and the sequence number of the entry are kept. -/
theorem C36_client_insists_on_flags (s : Storage) (msg : Message) (conn : INetworkConnection)
    (cw : Option INetworkConnection) (p : Nat) (o : Value)
    (hs : s.m_server = false) (hd : s.m_dispatcher = true)
    (ht : msg.type = .kEntryAssign) (hid : msg.id ≠ 0xffff)
    (hslot : s.idEntry msg.id = none)
    (hf : s.find msg.str = some p)
    (ho : (s.deref p).value = some o)
    (hv : msg.value.isSome = true) :
    ∃ t, s.ProcessIncoming msg conn cw = some t ∧
      (t.deref p).id = msg.id ∧ t.idEntry msg.id = some p ∧
      (t.deref p).flags = (s.deref p).flags ∧
      t.queued = s.queued ++ insisted s msg p ∧
      (SequenceNumber.lt ⟨msg.seq_num_uid⟩ (s.deref p).seq_num = true →
        (t.deref p).value = some o ∧ (t.deref p).seq_num = (s.deref p).seq_num) := by
  have hp : p < s.m_localmap.length := lt_of_value_isSome (by rw [ho]; rfl)
  rw [ProcessIncoming_EntryAssign _ _ _ _ ht]
  unfold ProcessIncomingEntryAssign
  simp only [hs, Bool.false_eq_true, if_false, hid]
  have h1 : (if msg.id ≥ s.m_idmap.length then s.growIdmap (msg.id + 1) else s).idEntry msg.id
      = none := (idEntry_grow s msg.id).trans hslot
  have h2 : ∀ q, (if msg.id ≥ s.m_idmap.length then s.growIdmap (msg.id + 1) else s).deref q
      = s.deref q := by
    intro q
    split <;> simp
  have h3 : (if msg.id ≥ s.m_idmap.length then s.growIdmap (msg.id + 1) else s).find msg.str
      = some p := by
    split <;> simpa using hf
  have h4 : (if msg.id ≥ s.m_idmap.length then s.growIdmap (msg.id + 1) else s).queued
      = s.queued := by
    split <;> simp
  have h5 : (if msg.id ≥ s.m_idmap.length then s.growIdmap (msg.id + 1) else s).m_dispatcher
      = true := by
    split <;> simpa using hd
  have h6 : (if msg.id ≥ s.m_idmap.length then s.growIdmap (msg.id + 1) else s).m_server
      = false := by
    split <;> simpa using hs
  have h7 : (if msg.id ≥ s.m_idmap.length then s.growIdmap (msg.id + 1) else s).m_localmap
      = s.m_localmap := by
    split <;> simp
  have h8 : msg.id < (if msg.id ≥ s.m_idmap.length then s.growIdmap (msg.id + 1)
      else s).m_idmap.length := by
    split
    · simp
      omega
    · omega
  generalize (if msg.id ≥ s.m_idmap.length then s.growIdmap (msg.id + 1) else s) = s1
    at h1 h2 h3 h4 h5 h6 h7 h8
  have hp1 : p < s1.m_localmap.length := by rw [h7]; exact hp
  rw [h1]
  simp only [GetOrNew_of_find h3]
  simp only [set_idmap_deref, deref_store_self _ _ _ hp1, h2, ho, store_m_idmap,
    set_idmap_m_dispatcher, store_m_dispatcher, h5, Bool.not_true, Bool.false_eq_true, if_false]
  have hA : ∀ u : Storage, u.m_server = false → u.m_dispatcher = true →
      u.m_localmap.length = s.m_localmap.length →
      u.m_idmap = s1.m_idmap.set msg.id (some p) →
      u.deref p = { s.deref p with id := msg.id } →
      ∃ t, u.EntryAssignCommon msg conn p true = some t ∧
        (t.deref p).id = msg.id ∧ t.idEntry msg.id = some p ∧
        (t.deref p).flags = (s.deref p).flags ∧
        t.queued = u.queued ++
          (if SequenceNumber.lt ⟨msg.seq_num_uid⟩ (s.deref p).seq_num then
            [⟨Message.EntryUpdate msg.id (s.deref p).seq_num.value (s.deref p).value,
              none, none⟩]
          else []) ∧
        (SequenceNumber.lt ⟨msg.seq_num_uid⟩ (s.deref p).seq_num = true →
          (t.deref p).value = some o ∧ (t.deref p).seq_num = (s.deref p).seq_num) := by
    intro u hu1 hu2 hu3 hu4 hu5
    obtain ⟨t, e1, e2, e3, e4, e5, e6⟩ := EntryAssignCommon_pending u msg conn p hu1 hu2
      (by rw [hu3]; exact hp) hv (by rw [hu5]; simp [ho])
    rw [hu5] at e3 e4 e5 e6
    refine ⟨t, e1, e3, ?_, e4, e5, fun hl => ?_⟩
    · unfold idEntry
      rw [e2, hu4, List.getElem?_set_self h8]
      rfl
    · rw [e6 hl]
      exact ⟨ho, rfl⟩
  have hE : ({ s.deref p with id := msg.id } : Entry)
      = { s.deref p with value := some o, id := msg.id } := by
    rw [← ho]
  by_cases hfl : msg.flags ≠ (s.deref p).flags
  · rw [if_pos hfl]
    obtain ⟨t, e1, e2, e3, e4, e5, e6⟩ := hA
      (((s1.store p { s.deref p with value := some o, id := msg.id }).set_idmap
        (s1.m_idmap.set msg.id (some p))).QueueOutgoing
        (Message.FlagsUpdate msg.id (s.deref p).flags) none none)
      (by simpa using h6) (by simpa using h5)
      (by simp [h7]) (by simp) (by
        rw [QueueOutgoing_deref, set_idmap_deref, deref_store_self _ _ _ hp1, hE])
    refine ⟨t, e1, e2, e3, e4, ?_, e6⟩
    rw [e5]
    simp [insisted, hfl, h4]
  · rw [if_neg hfl]
    obtain ⟨t, e1, e2, e3, e4, e5, e6⟩ := hA
      ((s1.store p { s.deref p with value := some o, id := msg.id }).set_idmap
        (s1.m_idmap.set msg.id (some p)))
      (by simpa using h6) (by simpa using h5)
      (by simp [h7]) (by simp) (by
        rw [set_idmap_deref, deref_store_self _ _ _ hp1, hE])
    refine ⟨t, e1, e2, e3, e4, ?_, e6⟩
    rw [e5]
    simp [insisted, hfl, h4]

/-- Witness of C36: the client wrote foo = true (flags 0, sequence number
1) and receives EntryAssign("foo", id 0, seq 0, false, flags 2): it queues
FlagsUpdate(0, 0) and EntryUpdate(0, 1, true), and keeps flags and value. -/
theorem C36_client_insists_on_flags_witness :
    exClientFoo.m_server = false ∧ exClientFoo.idEntry 0 = none ∧
    (exClientFoo.deref 0).value = some exTrue ∧
    ∃ t, exClientFoo.ProcessIncoming (Message.EntryAssign exFoo 0 0 (some exFalse) 2)
        exConn none = some t ∧
      (t.deref 0).id = 0 ∧ (t.deref 0).flags = 0 ∧ (t.deref 0).value = some exTrue ∧
      t.queued = exClientFoo.queued ++
        [⟨Message.FlagsUpdate 0 0, none, none⟩,
         ⟨Message.EntryUpdate 0 1 (some exTrue), none, none⟩] := by
  obtain ⟨t, h1, h2, -, h4, h5, h6⟩ := C36_client_insists_on_flags exClientFoo
    (Message.EntryAssign exFoo 0 0 (some exFalse) 2) exConn none 0 exTrue
    (by decide) (by decide) rfl (by decide) (by decide) (by decide) (by decide) rfl
  exact ⟨by decide, by decide, by decide, t, h1, h2, h4, (h6 (by decide)).1, h5⟩


/-- C37 (a server hands out ids in order and never twice). Let a table start
empty and stay a server, reach the state `s` by the calls `pre` and from
there the state `t` by the calls `ops`. The table is a server in both
states and the id map of `t` is at least as long as that of `s`. In `s`
every assigned id is below the length of the id map and no two entries have
the same assigned id. In `t` every entry has the id it had in `s`, or no
id, or an id that is at least the length of the id map of `s`; so an id
that an entry has in `s` is the id of no other entry in `t`, and an id that
is new in `t` is greater than every id assigned in `s`. One more call gives
an entry a new id only when the entry had none, the new id is the length of
the id map before the call, and the entry is appended to the id map. -/
theorem C37_server_ids (pre ops : List Op) (s t : Storage)
    (hpre : ∀ op ∈ pre, op.serves) (hops : ∀ op ∈ ops, op.serves)
    (h0 : ({} : Storage).run pre = some s) (h : s.run ops = some t) :
    s.m_server = true ∧ t.m_server = true ∧
    s.m_idmap.length ≤ t.m_idmap.length ∧
    (∀ p, (s.deref p).id ≠ 0xffff → (s.deref p).id < s.m_idmap.length) ∧
    (∀ p q, (s.deref p).id ≠ 0xffff → (s.deref p).id = (s.deref q).id → p = q) ∧
    (∀ q, (t.deref q).id = (s.deref q).id ∨ (t.deref q).id = 0xffff ∨
      s.m_idmap.length ≤ (t.deref q).id) ∧
    (∀ p q, (s.deref p).id ≠ 0xffff → q ≠ p → (t.deref q).id ≠ (s.deref p).id) ∧
    (∀ p q, (t.deref q).id ≠ (s.deref q).id → (t.deref q).id ≠ 0xffff →
      (s.deref p).id ≠ 0xffff → (s.deref p).id < (t.deref q).id) ∧
    (∀ op u, op.serves → t.step op = some u →
      t.m_idmap.length ≤ u.m_idmap.length ∧
      ∀ q, (u.deref q).id = (t.deref q).id ∨ (u.deref q).id = 0xffff ∨
        ((t.deref q).id = 0xffff ∧ (u.deref q).id = t.m_idmap.length ∧
          u.m_idmap = t.m_idmap ++ [some q])) := by
  obtain ⟨hs, hsT, -, hsF, -⟩ := run_server pre hpre {} s Tidy_init rfl h0
  obtain ⟨ht, htT, hle, -, hids⟩ := run_server ops hops s t hsT hs h
  have hF : (view s).Fresh := hsF Fresh_init
  have hF1 : ∀ p, (s.deref p).id ≠ 0xffff → (s.deref p).id < s.m_idmap.length := hF.1
  have hF2 : ∀ p q, (s.deref p).id ≠ 0xffff → (s.deref p).id = (s.deref q).id → p = q := hF.2
  refine ⟨hs, ht, hle, hF1, hF2, hids, fun p q hp hqp he => ?_, fun p q h1 h2 hp => ?_,
    fun op u hop hu => ?_⟩
  · rcases hids q with h1 | h1 | h1
    · exact hqp (hF2 p q hp (he.symm.trans h1)).symm
    · exact hp (he.symm.trans h1)
    · have := hF1 p hp
      omega
  · rcases hids q with h3 | h3 | h3
    · exact absurd h3 h1
    · exact absurd h3 h2
    · have := hF1 p hp
      omega
  · obtain ⟨-, he⟩ := step_server t u op htT.wf ht hop hu
    exact ⟨he.length_le, he.ids⟩

/-- Witness of C37: a server writes foo and the PERSISTENT bar and deletes
foo; one more write of foo gives foo the id 2, the length of the id map,
while bar keeps the id 1. -/
theorem C37_server_ids_witness :
    ({} : Storage).run [] = some {} ∧ ({} : Storage).run exSession = some exSessionEnd ∧
    exSessionEnd.m_idmap = [none, some 1] ∧ (exSessionEnd.deref 0).id = 0xffff ∧
    (exSessionEnd.deref 1).id = 1 ∧
    ((exSessionEnd.SetEntryTypeValue exFoo (some exTrue)).deref 0).id = 2 ∧
    (exSessionEnd.SetEntryTypeValue exFoo (some exTrue)).m_idmap = [none, some 1, some 0] ∧
    ({} : Storage).m_idmap.length ≤ exSessionEnd.m_idmap.length ∧
    ∀ q, ((exSessionEnd.SetEntryTypeValue exFoo (some exTrue)).deref q).id
          = (exSessionEnd.deref q).id ∨
        ((exSessionEnd.SetEntryTypeValue exFoo (some exTrue)).deref q).id = 0xffff ∨
        ((exSessionEnd.deref q).id = 0xffff ∧
          ((exSessionEnd.SetEntryTypeValue exFoo (some exTrue)).deref q).id
            = exSessionEnd.m_idmap.length ∧
          (exSessionEnd.SetEntryTypeValue exFoo (some exTrue)).m_idmap
            = exSessionEnd.m_idmap ++ [some q]) :=
  ⟨rfl, by decide, by decide, by decide, by decide, by decide, by decide,
    (C37_server_ids [] exSession {} exSessionEnd (by decide) (by decide) rfl (by decide)).2.2.1,
    ((C37_server_ids [] exSession {} exSessionEnd (by decide) (by decide) rfl
      (by decide)).2.2.2.2.2.2.2.2 (.SetEntryTypeValue exFoo (some exTrue))
      (exSessionEnd.SetEntryTypeValue exFoo (some exTrue)) trivial rfl).2⟩


/-- C38 (the text of WriteString stays on its line). For every list `s` of
numbers, bytes or not, WriteString appends to the stream a double quote, a
body and a double quote, where the body is the concatenation of what the
loop body writes for each element of `s`. Every character written is
printable ASCII (0x20 to 0x7e), the body holds no newline and no '=', and
each piece of the body has one of the forms of `escapeForm`: one character
that is neither a double quote nor a backslash, or an escape that begins with
a backslash; a piece that holds a double quote is the escape `\"`. -/
theorem C38_WriteString_printable (os s : Bytes) :
    ∃ body, WriteString os s = os ++ [34] ++ body ++ [34] ∧
      body = (s.map (WriteChar [])).flatten ∧
      (∀ c ∈ WriteString [] s, 0x20 ≤ c ∧ c ≤ 0x7e) ∧
      10 ∉ body ∧ 61 ∉ body ∧
      ∀ tok ∈ s.map (WriteChar []), escapeForm tok ∧ (34 ∈ tok → tok = [92, 34]) := by
  have hall : ∀ tok ∈ s.map (WriteChar []), escapeForm tok := by
    intro tok hm
    obtain ⟨c, -, rfl⟩ := List.mem_map.mp hm
    exact WriteChar_form c
  have hbody : ∀ c ∈ (s.map (WriteChar [])).flatten, 0x20 ≤ c ∧ c ≤ 0x7e ∧ c ≠ 10 ∧ c ≠ 61 := by
    intro c hc
    obtain ⟨tok, ht, hct⟩ := List.mem_flatten.mp hc
    exact (escapeForm_bytes tok (hall tok ht)).1 c hct
  refine ⟨(s.map (WriteChar [])).flatten, ?_, rfl, fun c hc => ?_, fun h => ?_, fun h => ?_,
    fun tok hm => ⟨hall tok hm, (escapeForm_bytes tok (hall tok hm)).2⟩⟩
  · rw [WriteString_eq, List.flatMap_def]
    simp only [List.append_assoc]
  · rw [WriteString_eq, List.flatMap_def] at hc
    simp only [List.nil_append, List.mem_append, List.mem_singleton] at hc
    rcases hc with (rfl | hc) | rfl
    · omega
    · have := hbody c hc
      omega
    · omega
  · exact (hbody 10 h).2.2.1 rfl
  · exact (hbody 61 h).2.2.2 rfl

/-- C39 (the escaping of WriteString can be undone). For strings of bytes
(numbers below 256) the decoder `unescape` reads the text that WriteString
writes for `s` back as `s`, so two strings with the same text are equal,
whatever the stream held before. -/
theorem C39_WriteString_injective (os s t : Bytes) (hs : ∀ b ∈ s, b < 256)
    (ht : ∀ b ∈ t, b < 256) :
    unescape (WriteString [] s) = s ∧
    (WriteString os s = WriteString os t → s = t) := by
  refine ⟨unescape_WriteString s hs, fun h => ?_⟩
  rw [WriteString_append os s, WriteString_append os t] at h
  have h2 := List.append_cancel_left h
  rw [← unescape_WriteString s hs, ← unescape_WriteString t ht, h2]

/-- Witness of C39: the string of the bytes 0, '=', '"', 'x' and 0xff is
written as `"\x00\x3D\"x\xFF"` and read back. -/
theorem C39_WriteString_injective_witness :
    (∀ b ∈ [0, 61, 34, 120, 255], b < 256) ∧
    WriteString [] [0, 61, 34, 120, 255] = cstr "\"\\x00\\x3D\\\"x\\xFF\"" ∧
    unescape (WriteString [] [0, 61, 34, 120, 255]) = [0, 61, 34, 120, 255] :=
  ⟨by decide, by decide,
    (C39_WriteString_injective [] [0, 61, 34, 120, 255] [] (by decide) (by decide)).1⟩


/-- Counterexample to C40: a client receives EntryAssign("foo", id 0) and
EntryAssign("foo", id 1), both with a value, and deletes foo. The deletion
empties the slot 1, the slot of the entry's id, so the slot 0 is not empty
and refers to an entry without a value. For the EntryAssign("foo", id 0)
with the PERSISTENT flag that follows, the comparison of the common path
reads the absent value: the call has no result. -/
theorem C40_counterexample :
    ({} : Storage).run exReuseDelete = some exReusedDeleted ∧
    (∀ op ∈ exReuseDelete, op.carriesValues) ∧
    exReusedDeleted.m_idmap = [some 0, none] ∧
    exReusedDeleted.idEntry 0 = some 0 ∧ (exReusedDeleted.deref 0).value = none ∧
    exReusedDeleted.ProcessIncoming
      (Message.EntryAssign exFoo 0 2 (some exTrue) NT_PERSISTENT) exConn none = none := by
  refine ⟨?_, ?_, ?_, ?_, ?_, ?_⟩ <;> decide

/-- C40 as amended (the slots of the id map refer to entries with values,
under fair calls). Let a table start empty and reach the state `t` by a run
of calls, in either role, that is fair (as in C32: at most 0xFFFF slots,
16-bit message ids, no second id for a name on a client, and pairwise
different names and ids in one ApplyInitialAssignments call), and let every
incoming EntryAssign and EntryUpdate carry a value. Then every non-empty
slot of the id map refers to an entry that has a value, and the common path
of ProcessIncomingEntryAssign for an entry found in the id map and a
message with a value returns: the comparison of the two values reads no
absent value. -/
theorem C40_slots_have_values (ops : List Op) (t : Storage)
    (h : ({} : Storage).run ops = some t) (hf : fairRun {} ops)
    (hcv : ∀ op ∈ ops, op.carriesValues) :
    (∀ i p, t.idEntry i = some p → (t.deref p).value.isSome = true) ∧
    (∀ i p msg conn, t.idEntry i = some p → msg.value.isSome = true →
      ∃ u, t.EntryAssignCommon msg conn p false = some u) := by
  have hl := run_linked ops {} t Tidy_init Linked_init hf h
  have hv := run_vacant ops {} t Vacant_init hcv h
  have hval : ∀ i p, t.idEntry i = some p → (t.deref p).value.isSome = true := by
    intro i p hs
    have h1 : (t.deref p).id ≠ 0xffff := hl.slot_id hs
    cases hx : (t.deref p).value with
    | none => exact absurd (hv p hx) h1
    | some o => rfl
  refine ⟨hval, fun i p msg conn hs hm => ?_⟩
  have hp := hval i p hs
  obtain ⟨u, hu, -⟩ := EntryAssignCommon_seq t msg conn p (lt_of_value_isSome hp) hm hp
  exact ⟨u, hu⟩

/-- Witness of C40 as amended: the client that was assigned foo under the id
0 and bar under the id 1. The slot 1 refers to the entry of bar, which has
a value, and an EntryAssign for the id 1 with the PERSISTENT flag is
handled by the common path. -/
theorem C40_slots_have_values_witness :
    ({} : Storage).run exAssignTwo = some exAssignedTwo ∧ fairRun {} exAssignTwo ∧
    (∀ op ∈ exAssignTwo, op.carriesValues) ∧ exAssignedTwo.idEntry 1 = some 1 ∧
    (exAssignedTwo.deref 1).value.isSome = true ∧
    ∃ u, exAssignedTwo.EntryAssignCommon
      (Message.EntryAssign exBar 1 2 (some exDouble) NT_PERSISTENT) exConn 1 false = some u :=
  ⟨by decide, by decide, by decide, by decide,
    (C40_slots_have_values exAssignTwo exAssignedTwo (by decide) (by decide) (by decide)).1 1 1
      (by decide),
    (C40_slots_have_values exAssignTwo exAssignedTwo (by decide) (by decide) (by decide)).2 1 1
      (Message.EntryAssign exBar 1 2 (some exDouble) NT_PERSISTENT) exConn (by decide)
      (by decide)⟩

end Storage

end nt
